import Mathlib

/-!
# Netrix DPI-bypass engine: fragment builder and checksum codec

A shallow embedding of `app/src/main/cpp/dpi_bypass.c`.

Memory is a `List Nat` of bytes (every element below 256 in a well-formed
buffer).  The host is little-endian (Android ARM / x86), so a `uint16_t` load
at byte offset `o` is `mem[o] + 256 * mem[o+1]`, and `htons`/`ntohs` swap the
two bytes.  Unsigned C arithmetic is written with an explicit `% 2^w`.

Loops are written by structural recursion on the quantity the loop condition
bounds (the remaining length, the remaining iterations), so that the
successor case of the recursion *is* the loop condition; the carry-folding
loop of the checksums is a well-founded recursion on the sum.

What the environment decides (whether `malloc` returns a buffer, what `sendto`
returns) is an explicit argument, and the calls of `dpi_send_raw_packet` are
returned as a trace.
-/

namespace Netrix

/-! ## Bytes, words and byte order -/

/-- Read of one byte (`*(uint8_t*)p`). -/
def load8 (mem : List Nat) (off : Nat) : Nat := mem.getD off 0

/-- Read of a `uint16_t` at byte offset `off` on the little-endian host. -/
def load16 (mem : List Nat) (off : Nat) : Nat :=
  mem.getD off 0 + 256 * mem.getD (off + 1) 0

/-- Read of a `uint32_t` at byte offset `off` on the little-endian host. -/
def load32 (mem : List Nat) (off : Nat) : Nat :=
  mem.getD off 0 + 256 * mem.getD (off + 1) 0 + 65536 * mem.getD (off + 2) 0
    + 16777216 * mem.getD (off + 3) 0

/-- Write of a `uint16_t` at byte offset `off` on the little-endian host. -/
def store16 (mem : List Nat) (off v : Nat) : List Nat :=
  (mem.set off (v % 256)).set (off + 1) (v / 256 % 256)

/-- Write of a `uint32_t` at byte offset `off` on the little-endian host. -/
def store32 (mem : List Nat) (off v : Nat) : List Nat :=
  (((mem.set off (v % 256)).set (off + 1) (v / 256 % 256)).set (off + 2)
    (v / 65536 % 256)).set (off + 3) (v / 16777216 % 256)

/-- The `htons` of a little-endian host: swap the two bytes of a `uint16_t`. -/
def htons (x : Nat) : Nat := (x % 256) * 256 + x / 256 % 256

/-- The `ntohs` of a little-endian host. -/
def ntohs (x : Nat) : Nat := htons x

/-- The `htonl` of a little-endian host: reverse the four bytes of a `uint32_t`. -/
def htonl (x : Nat) : Nat :=
  (x % 256) * 16777216 + (x / 256 % 256) * 65536 + (x / 65536 % 256) * 256
    + x / 16777216 % 256

/-- The `ntohl` of a little-endian host. -/
def ntohl (x : Nat) : Nat := htonl x

/-! ## Header fields (`struct iphdr`, `struct tcphdr`) -/

/-- Field `ip->ihl`: the low nibble of byte 0. -/
def ip_ihl (pkt : List Nat) : Nat := load8 pkt 0 % 16

/-- Field `ip->version`: the high nibble of byte 0. -/
def ip_version (pkt : List Nat) : Nat := load8 pkt 0 / 16 % 16

/-- Field `ip->protocol`: byte 9. -/
def ip_protocol (pkt : List Nat) : Nat := load8 pkt 9

/-- Field `tcp->doff` of the TCP header at offset `tcp`: high nibble of byte 12. -/
def tcp_doff (pkt : List Nat) (tcp : Nat) : Nat := load8 pkt (tcp + 12) / 16 % 16

/-- The value `ip->ihl * 4`. -/
def ip_hdr_len (pkt : List Nat) : Nat := ip_ihl pkt * 4

/-- The value `tcp->doff * 4` for the TCP header that follows the IP header. -/
def tcp_hdr_len (pkt : List Nat) : Nat := tcp_doff pkt (ip_hdr_len pkt) * 4

/-! ## Checksums (`calculate_ip_checksum`, `calculate_tcp_checksum`) -/

/-- The loop `while (len > 1) { sum += *ptr++; len -= 2; }` over `uint16_t`
words starting at byte offset `off`; returns the sum, the final offset and the
final `len`. -/
def sum_words (mem : List Nat) : Nat → Nat → Nat → Nat × Nat × Nat
  | len + 2, off, sum => sum_words mem len (off + 2) ((sum + load16 mem off) % 2 ^ 32)
  | len, off, sum => (sum, off, len)

/-- The loop `while (sum >> 16) sum = (sum & 0xFFFF) + (sum >> 16);`. -/
def fold_carry (sum : Nat) : Nat :=
  if h : sum / 65536 ≠ 0 then fold_carry ((sum % 65536 + sum / 65536) % 2 ^ 32) else sum
termination_by sum
decreasing_by exact lt_of_le_of_lt (Nat.mod_le _ _) (by omega)

/-- Function `calculate_ip_checksum(ip)` where `ip` is the start of `mem`. -/
def calculate_ip_checksum (mem : List Nat) : Nat :=
  let r := sum_words mem (ip_ihl mem * 4) 0 0
  let sum := if r.2.2 = 1 then (r.1 + load8 mem r.2.1) % 2 ^ 32 else r.1
  let sum := fold_carry sum
  (2 ^ 32 - 1 - sum) % 65536

/-- Function `calculate_tcp_checksum(ip, tcp, payload, payload_len)`: `ip` is
the start of `mem`, `tcp` and `payload` are byte offsets into `mem`;
`IPPROTO_TCP` is 6. -/
def calculate_tcp_checksum (mem : List Nat) (tcp payload payload_len : Nat) : Nat :=
  let tcp_len := (tcp_doff mem tcp * 4 + payload_len) % 2 ^ 32
  let saddr := load32 mem 12
  let daddr := load32 mem 16
  let sum := (0 + saddr / 65536 % 65536) % 2 ^ 32
  let sum := (sum + saddr % 65536) % 2 ^ 32
  let sum := (sum + daddr / 65536 % 65536) % 2 ^ 32
  let sum := (sum + daddr % 65536) % 2 ^ 32
  let sum := (sum + htons 6) % 2 ^ 32
  let sum := (sum + htons (tcp_len % 65536)) % 2 ^ 32
  let r := sum_words mem (tcp_doff mem tcp * 4) tcp sum
  -- `int len = payload_len;` is negative, and the loop is skipped, from 2^31 on
  let r := sum_words mem (if payload_len < 2 ^ 31 then payload_len else 0) payload r.1
  let sum := if r.2.2 = 1 then (r.1 + load8 mem r.2.1) % 2 ^ 32 else r.1
  let sum := fold_carry sum
  (2 ^ 32 - 1 - sum) % 65536

/-! ## Fragment construction (`create_tcp_fragment`) -/

/-- Function `create_tcp_fragment(orig_packet, orig_len, tcp_data, tcp_data_len,
seq_offset, &out_len)`.  `malloc_ok` says whether the one `malloc` of the call
succeeds.  The result is the new buffer together with `*out_len`; `none` is
the `NULL` return. -/
def create_tcp_fragment (malloc_ok : Bool) (orig_packet : List Nat) (orig_len : Nat)
    (tcp_data : List Nat) (tcp_data_len seq_offset : Nat) : Option (List Nat × Nat) :=
  if orig_len < 40 then none
  else
    let ip_hdr_len := ip_ihl orig_packet * 4
    let tcp_hdr_len := tcp_doff orig_packet ip_hdr_len * 4
    let orig_seq := ntohl (load32 orig_packet (ip_hdr_len + 4))
    let new_len := (ip_hdr_len + tcp_hdr_len + tcp_data_len) % 2 ^ 32
    if malloc_ok = false then none
    else
      -- the three memcpy calls
      let p := orig_packet.take ip_hdr_len
        ++ (orig_packet.drop ip_hdr_len).take tcp_hdr_len
        ++ tcp_data.take tcp_data_len
      -- new_ip->tot_len, new_ip->id, new_ip->check
      let p := store16 p 2 (htons (new_len % 65536))
      let p := store16 p 4
        (htons ((ntohs (load16 orig_packet 4) + (if seq_offset > 0 then 1 else 0)) % 65536))
      let p := store16 p 10 0
      let ip_checksum := calculate_ip_checksum p
      let p := store16 p 10 ip_checksum
      -- new_tcp->seq, new_tcp->check
      let p := store32 p (ip_hdr_len + 4) (htonl ((orig_seq + seq_offset) % 2 ^ 32))
      let p := store16 p (ip_hdr_len + 16) 0
      let tcp_checksum :=
        calculate_tcp_checksum p ip_hdr_len (ip_hdr_len + tcp_hdr_len) tcp_data_len
      let p := store16 p (ip_hdr_len + 16) tcp_checksum
      some (p, new_len)

/-! ## Host-case mixing (`mix_hostname_case`) -/

/-- The libc `memmem(hay, |hay|, needle, |needle|)`: offset of the first
occurrence of `needle` in `hay`, `none` for `NULL`. -/
def memmem : List Nat → List Nat → Option Nat
  | [], needle => if needle.isEmpty then some 0 else none
  | h :: t, needle =>
    if needle.isPrefixOf (h :: t) then some 0 else (memmem t needle).map (· + 1)

/-- The loop `while (*host == ' ' && (host - data) < len) host++;`, with
`rem = len - host`; returns the final `host`.  (At `host - data = len` the C
condition is false whatever `*host` is, so that read is left out.) -/
def skip_spaces (data : List Nat) : Nat → Nat → Nat
  | 0, host => host
  | rem + 1, host => if load8 data host = 32 then skip_spaces data rem (host + 1) else host

/-- The loop `while ((host - data + i) < len && host[i] != '\r' && host[i] != '\n')`
of `mix_hostname_case`, with `rem = len - (host + i)`. -/
def mix_loop (host : Nat) : Nat → Nat → List Nat → List Nat
  | 0, _, data => data
  | rem + 1, i, data =>
    let c := load8 data (host + i)
    if c ≠ 13 ∧ c ≠ 10 then
      let data :=
        if i % 2 = 0 ∧ 97 ≤ c ∧ c ≤ 122 then data.set (host + i) (c - 32)
        else if i % 2 = 1 ∧ 65 ≤ c ∧ c ≤ 90 then data.set (host + i) (c + 32)
        else data
      mix_loop host rem (i + 1) data
    else data

/-- The bytes of the literal `Host:` given to `memmem`. -/
def host_upper : List Nat := [72, 111, 115, 116, 58]

/-- The bytes of the literal `host:` given to `memmem`. -/
def host_lower : List Nat := [104, 111, 115, 116, 58]

/-- Function `mix_hostname_case(data, len)`; `data` is the buffer from the
pointer on, the result is the buffer after the in-place rewrite. -/
def mix_hostname_case (data : List Nat) (len : Nat) : List Nat :=
  let host :=
    match memmem (data.take len) host_upper with
    | some h => some h
    | none => memmem (data.take len) host_lower
  match host with
  | none => data
  | some h =>
    let host := skip_spaces data (len - (h + 5)) (h + 5)
    mix_loop host (len - host) 0 data

/-! ## Global state and the outside world -/

/-- The C struct `DpiBypassSettings`; `method` is the `BypassMethod` enum value. -/
structure DpiBypassSettings where
  method : Nat
  first_packet_size : Nat
  split_delay_ms : Nat
  split_count : Nat
  desync_https : Bool
  desync_http : Bool
  mix_host_case : Bool
  block_quic : Bool

/-- The C struct `DpiBypassStats`. -/
structure DpiBypassStats where
  packets_total : Nat
  packets_bypassed : Nat
  packets_dropped : Nat
  bytes_total : Nat

/-- The global `g_bypass` (without its mutex). -/
structure GBypass where
  settings : DpiBypassSettings
  stats : DpiBypassStats
  whitelist : List (List Nat)
  whitelist_count : Nat
  raw_socket : Int
  packet_mark : Nat
  raw_socket_initialized : Bool

/-- What the environment answers during one call: whether the `k`-th `malloc`
returns a buffer, and the return value of the `k`-th `sendto`. -/
structure World where
  malloc_ok : Nat → Bool
  sendto_ret : Nat → Int

/-- One call of `dpi_send_raw_packet(packet, len, dst_ip)`. -/
structure SendCall where
  packet : List Nat
  len : Nat
  dst_ip : Nat
deriving DecidableEq

/-- Function `dpi_send_raw_packet(packet, len, dst_ip)` for a non-`NULL`
`packet`; `sendto_ret` is what `sendto` returns if it is called. -/
def dpi_send_raw_packet (g : GBypass) (sendto_ret : Int) (len : Nat) : Int :=
  if g.raw_socket_initialized = false ∨ g.raw_socket < 0 then -1
  else if len < 20 then -1
  else if sendto_ret < 0 then -1
  else 0

/-- Unsigned 32-bit subtraction `a - b`. -/
def sub32 (a b : Nat) : Nat := (a % 2 ^ 32 + 2 ^ 32 - b % 2 ^ 32) % 2 ^ 32

/-- The block `if (g_bypass.settings.mix_host_case) { ... }` that both injection
functions apply to one fragment `frag` of length `frag_len`: mix the host case
in the TCP payload, then zero and recompute the TCP checksum. -/
def mix_fragment (frag : List Nat) (frag_len : Nat) : List Nat :=
  let f_ip_len := ip_ihl frag * 4
  let f_tcp_len := tcp_doff frag f_ip_len * 4
  let n := sub32 (sub32 frag_len f_ip_len) f_tcp_len
  let frag := frag.take (f_ip_len + f_tcp_len)
    ++ mix_hostname_case (frag.drop (f_ip_len + f_tcp_len)) n
  let frag := store16 frag (f_ip_len + 16) 0
  store16 frag (f_ip_len + 16)
    (calculate_tcp_checksum frag f_ip_len (f_ip_len + f_tcp_len) n)

/-! ## SPLIT (`apply_split_with_injection`) -/

/-- The split position computed by `apply_split_with_injection`
(`uint16_t split_pos`). -/
def split_pos (s : DpiBypassSettings) (tcp_data_len : Nat) : Nat :=
  let split_pos := s.first_packet_size % 65536
  let split_pos :=
    if split_pos ≥ tcp_data_len then (if tcp_data_len > 1 then tcp_data_len / 2 else 1) % 65536
    else split_pos
  if split_pos < 1 then 1 else split_pos

/-- First part of `apply_split_with_injection`: the guards and the two
`create_tcp_fragment` calls.  `none` is the `return -1`. -/
def split_create (g : GBypass) (w : World) (payload : List Nat) (len : Nat) :
    Option ((List Nat × Nat) × (List Nat × Nat)) :=
  if len < 40 then none
  else
    let ip_hdr_len := ip_ihl payload * 4
    let tcp_hdr_len := tcp_doff payload ip_hdr_len * 4
    let tcp_data := payload.drop (ip_hdr_len + tcp_hdr_len)
    let tcp_data_len := sub32 (sub32 len ip_hdr_len) tcp_hdr_len
    if tcp_data_len < 2 then none
    else
      let split_pos := split_pos g.settings tcp_data_len
      match create_tcp_fragment (w.malloc_ok 0) payload len tcp_data split_pos 0 with
      | none => none
      | some frag1 =>
        match create_tcp_fragment (w.malloc_ok 1) payload len (tcp_data.drop split_pos)
            (sub32 tcp_data_len split_pos) split_pos with
        | none => none
        | some frag2 => some (frag1, frag2)

/-- The fragments of `apply_split_with_injection` as they stand when the sends
begin: `split_create`, then the host-case block on the second fragment. -/
def split_build (g : GBypass) (w : World) (payload : List Nat) (len : Nat) :
    Option ((List Nat × Nat) × (List Nat × Nat)) :=
  match split_create g w payload len with
  | none => none
  | some (frag1, frag2) =>
    if g.settings.mix_host_case then some (frag1, (mix_fragment frag2.1 frag2.2, frag2.2))
    else some (frag1, frag2)

/-- Function `apply_split_with_injection(payload, len, dst_ip, reverse)`: the
return value and the calls of `dpi_send_raw_packet` in the order made. -/
def apply_split_with_injection (g : GBypass) (w : World) (payload : List Nat) (len dst_ip : Nat)
    (reverse : Bool) : Int × List SendCall :=
  match split_build g w payload len with
  | none => (-1, [])
  | some (frag1, frag2) =>
    if reverse then
      let send2_result := dpi_send_raw_packet g (w.sendto_ret 0) frag2.2
      if send2_result < 0 then (-1, [⟨frag2.1, frag2.2, dst_ip⟩])
      else
        let send1_result := dpi_send_raw_packet g (w.sendto_ret 1) frag1.2
        if send1_result < 0 then (-1, [⟨frag2.1, frag2.2, dst_ip⟩, ⟨frag1.1, frag1.2, dst_ip⟩])
        else (0, [⟨frag2.1, frag2.2, dst_ip⟩, ⟨frag1.1, frag1.2, dst_ip⟩])
    else
      let send1_result := dpi_send_raw_packet g (w.sendto_ret 0) frag1.2
      if send1_result < 0 then (-1, [⟨frag1.1, frag1.2, dst_ip⟩])
      else
        let send2_result := dpi_send_raw_packet g (w.sendto_ret 1) frag2.2
        if send2_result < 0 then (-1, [⟨frag1.1, frag1.2, dst_ip⟩, ⟨frag2.1, frag2.2, dst_ip⟩])
        else (0, [⟨frag1.1, frag1.2, dst_ip⟩, ⟨frag2.1, frag2.2, dst_ip⟩])

/-! ## DISORDER (`apply_disorder_with_injection`) -/

/-- The fragment count of `apply_disorder_with_injection` (`uint8_t count`). -/
def disorder_count (s : DpiBypassSettings) : Nat :=
  let count := s.split_count % 256
  let count := if count < 2 then 2 else count
  if count > 10 then 10 else count

/-- The chunk size of `apply_disorder_with_injection`. -/
def disorder_chunk_size (tcp_data_len count : Nat) : Nat :=
  let chunk_size := tcp_data_len / count
  if chunk_size < 1 then 1 else chunk_size

/-- How the first part of `apply_disorder_with_injection` can stop early:
`failed` is its `return -1` (a guard, or a `create_tcp_fragment` that returned
`NULL`), `out_of_bounds` a store outside `fragments[10]`. -/
inductive CreateError where
  | failed
  | out_of_bounds
deriving DecidableEq

/-- The arrays `fragments[10]` and `frag_lens[10]`, one slot per index; `none`
is the initial `NULL` / 0. -/
abbrev FragArray := List (Option (List Nat × Nat))

/-- The loop `for (int i = 0; i < count && offset < tcp_data_len; i++)` that
fills `fragments[i]`, with `rem = count - i`; returns the arrays and
`actual_count`. -/
def disorder_create_loop (w : World) (payload : List Nat) (len : Nat) (tcp_data : List Nat)
    (tcp_data_len count chunk_size : Nat) :
    Nat → Nat → Nat → FragArray → Nat → Except CreateError (FragArray × Nat)
  | 0, _, _, fragments, actual_count => .ok (fragments, actual_count)
  | rem + 1, i, offset, fragments, actual_count =>
    if offset < tcp_data_len then
      let this_chunk :=
        if i = count - 1 ∨ (offset + chunk_size) % 2 ^ 32 ≥ tcp_data_len then
          sub32 tcp_data_len offset
        else chunk_size
      match create_tcp_fragment (w.malloc_ok i) payload len (tcp_data.drop offset)
          this_chunk offset with
      | none => .error .failed
      | some frag =>
        if i < fragments.length then
          disorder_create_loop w payload len tcp_data tcp_data_len count chunk_size rem (i + 1)
            ((offset + this_chunk) % 2 ^ 32) (fragments.set i (some frag)) (actual_count + 1)
        else .error .out_of_bounds
    else .ok (fragments, actual_count)

/-- First part of `apply_disorder_with_injection`: the guards and the loop that
creates the fragments. -/
def disorder_create (g : GBypass) (w : World) (payload : List Nat) (len : Nat) :
    Except CreateError (FragArray × Nat) :=
  if len < 40 then .error .failed
  else
    let ip_hdr_len := ip_ihl payload * 4
    let tcp_hdr_len := tcp_doff payload ip_hdr_len * 4
    let tcp_data := payload.drop (ip_hdr_len + tcp_hdr_len)
    let tcp_data_len := sub32 (sub32 len ip_hdr_len) tcp_hdr_len
    if tcp_data_len < 2 then .error .failed
    else
      let count := disorder_count g.settings
      let chunk_size := disorder_chunk_size tcp_data_len count
      disorder_create_loop w payload len tcp_data tcp_data_len count chunk_size count 0 0
        (List.replicate 10 none) 0

/-- The arrays of `apply_disorder_with_injection` as they stand when the sends
begin: `disorder_create`, then the host-case block on `fragments[0]`. -/
def disorder_build (g : GBypass) (w : World) (payload : List Nat) (len : Nat) :
    Except CreateError (FragArray × Nat) :=
  match disorder_create g w payload len with
  | .error e => .error e
  | .ok (fragments, actual_count) =>
    if g.settings.mix_host_case = true ∧ actual_count > 0 then
      match fragments.getD 0 none with
      | some frag => .ok (fragments.set 0 (some (mix_fragment frag.1 frag.2, frag.2)), actual_count)
      | none => .ok (fragments, actual_count)
    else .ok (fragments, actual_count)

/-- The loop `for (int i = actual_count - 1; i >= 0 && result == 0; i--)`; the
recursion argument is `i + 1`, and `k` counts the sends made so far. -/
def disorder_send_reverse (g : GBypass) (w : World) (fragments : FragArray) (dst_ip : Nat) :
    Nat → Nat → List SendCall → Int × List SendCall
  | 0, _, trace => (0, trace)
  | i + 1, k, trace =>
    match fragments.getD i none with
    | none => (-1, trace ++ [⟨[], 0, dst_ip⟩])
    | some frag =>
      if dpi_send_raw_packet g (w.sendto_ret k) frag.2 < 0 then
        (-1, trace ++ [⟨frag.1, frag.2, dst_ip⟩])
      else disorder_send_reverse g w fragments dst_ip i (k + 1) (trace ++ [⟨frag.1, frag.2, dst_ip⟩])

/-- The loop `for (int i = 0; i < actual_count && result == 0; i++)`, with
`rem = actual_count - i`; `k` counts the sends made so far. -/
def disorder_send_forward (g : GBypass) (w : World) (fragments : FragArray) (dst_ip : Nat) :
    Nat → Nat → Nat → List SendCall → Int × List SendCall
  | 0, _, _, trace => (0, trace)
  | rem + 1, i, k, trace =>
    match fragments.getD i none with
    | none => (-1, trace ++ [⟨[], 0, dst_ip⟩])
    | some frag =>
      if dpi_send_raw_packet g (w.sendto_ret k) frag.2 < 0 then
        (-1, trace ++ [⟨frag.1, frag.2, dst_ip⟩])
      else
        disorder_send_forward g w fragments dst_ip rem (i + 1) (k + 1)
          (trace ++ [⟨frag.1, frag.2, dst_ip⟩])

/-- Function `apply_disorder_with_injection(payload, len, dst_ip, reverse)`: the
return value and the calls of `dpi_send_raw_packet` in the order made. -/
def apply_disorder_with_injection (g : GBypass) (w : World) (payload : List Nat)
    (len dst_ip : Nat) (reverse : Bool) : Int × List SendCall :=
  match disorder_build g w payload len with
  | .error _ => (-1, [])
  | .ok (fragments, actual_count) =>
    if reverse then disorder_send_reverse g w fragments dst_ip actual_count 0 []
    else disorder_send_forward g w fragments dst_ip actual_count 0 0 []

/-- The slots of an array prefix as a list, when none of them is `NULL`. -/
def slots_to_list : FragArray → Option (List (List Nat × Nat))
  | [] => some []
  | none :: _ => none
  | some f :: t => (slots_to_list t).map (f :: ·)

/-- The fragments `fragments[0 .. actual_count)` that a build left in the arrays. -/
def built_fragments (r : Except CreateError (FragArray × Nat)) : Option (List (List Nat × Nat)) :=
  match r with
  | .error _ => none
  | .ok (fragments, actual_count) => slots_to_list (fragments.take actual_count)

/-! ## Well-formed input -/

/-- Every element of the buffer is a byte. -/
def bytes_ok (mem : List Nat) : Prop := ∀ b ∈ mem, b < 256

instance (mem : List Nat) : Decidable (bytes_ok mem) := by
  unfold bytes_ok; infer_instance

/-- A frame whose two headers `create_tcp_fragment` can copy: at least 40
bytes (and a `uint32_t` length), both header lengths at least 20 and inside
the frame. -/
def headers_ok (pkt : List Nat) : Prop :=
  bytes_ok pkt ∧ 40 ≤ pkt.length ∧ pkt.length < 2 ^ 32 ∧ 20 ≤ ip_hdr_len pkt
    ∧ 20 ≤ tcp_hdr_len pkt ∧ ip_hdr_len pkt + tcp_hdr_len pkt ≤ pkt.length

instance (pkt : List Nat) : Decidable (headers_ok pkt) := by
  unfold headers_ok; infer_instance

/-- The frames that `dpi_bypass_process_packet` lets through to the
fragmenting step: `headers_ok`, IPv4 and TCP. -/
def valid_packet (pkt : List Nat) : Prop :=
  headers_ok pkt ∧ ip_version pkt = 4 ∧ ip_protocol pkt = 6

instance (pkt : List Nat) : Decidable (valid_packet pkt) := by
  unfold valid_packet; infer_instance

/-- The TCP payload of a packet: what follows the two headers. -/
def tcp_payload (pkt : List Nat) : List Nat := pkt.drop (ip_hdr_len pkt + tcp_hdr_len pkt)

/-! ## What a receiver checks -/

/-- The 16-bit words of a byte string in network byte order, an odd final
byte padded with a zero byte. -/
def words_be : List Nat → List Nat
  | a :: b :: t => (256 * a + b) :: words_be t
  | [a] => [256 * a]
  | [] => []

/-- One's-complement addition of two 16-bit words (end-around carry). -/
def oc_add (a b : Nat) : Nat := if a + b ≥ 65536 then a + b - 65535 else a + b

/-- The 16-bit one's-complement sum of a list of words. -/
def oc_sum (ws : List Nat) : Nat := ws.foldl oc_add 0

/-- The receiver's IPv4 header check: the one's-complement sum of the header
words, stored checksum included. -/
def ip_verify (pkt : List Nat) : Nat := oc_sum (words_be (pkt.take (ip_hdr_len pkt)))

/-- The TCP pseudo-header of a packet: source, destination, zero, protocol 6,
TCP length. -/
def tcp_pseudo (pkt : List Nat) : List Nat :=
  let tcp_len := pkt.length - ip_hdr_len pkt
  [load8 pkt 12, load8 pkt 13, load8 pkt 14, load8 pkt 15,
   load8 pkt 16, load8 pkt 17, load8 pkt 18, load8 pkt 19,
   0, 6, tcp_len / 256, tcp_len % 256]

/-- The receiver's TCP check: the one's-complement sum over pseudo-header, TCP
header (stored checksum included) and payload. -/
def tcp_verify (pkt : List Nat) : Nat :=
  oc_sum (words_be (tcp_pseudo pkt ++ pkt.drop (ip_hdr_len pkt)))

/-- Field `IP.total_length` in host order. -/
def ip_tot_len (pkt : List Nat) : Nat := ntohs (load16 pkt 2)

/-- Field `IP.id` in host order. -/
def ip_id (pkt : List Nat) : Nat := ntohs (load16 pkt 4)

/-- Field `TCP.seq` in host order. -/
def tcp_seq (pkt : List Nat) : Nat := ntohl (load32 pkt (ip_hdr_len pkt + 4))

/-- ASCII lower-casing of one byte. -/
def ascii_lower (b : Nat) : Nat := if 65 ≤ b ∧ b ≤ 90 then b + 32 else b

/-- What `create_tcp_fragment` is shown to deliver: the buffer `p` built for
the packet `pkt`, the payload `data[0 .. dl)` and the sequence offset `off`. -/
structure is_fragment_of (pkt data : List Nat) (dl off : Nat) (p : List Nat) : Prop where
  length_eq : p.length = ip_hdr_len pkt + tcp_hdr_len pkt + dl
  bytes : bytes_ok p
  payload_eq : tcp_payload p = data.take dl
  ip_len : ip_hdr_len p = ip_hdr_len pkt
  tcp_len : tcp_hdr_len p = tcp_hdr_len pkt
  frame : ∀ i, i < ip_hdr_len pkt + tcp_hdr_len pkt → i ≠ 2 → i ≠ 3 → i ≠ 4 → i ≠ 5 →
    i ≠ 10 → i ≠ 11 → (i < ip_hdr_len pkt + 4 ∨ ip_hdr_len pkt + 8 ≤ i) →
    i ≠ ip_hdr_len pkt + 16 → i ≠ ip_hdr_len pkt + 17 → load8 p i = load8 pkt i
  tot_len : ip_tot_len p = (ip_hdr_len pkt + tcp_hdr_len pkt + dl) % 2 ^ 32 % 65536
  id : ip_id p = (ip_id pkt + (if off > 0 then 1 else 0)) % 65536
  seq : tcp_seq p = (tcp_seq pkt + off) % 2 ^ 32
  ip_ck : ip_verify p = 65535
  tcp_ck : p.length ≤ 65535 → tcp_verify p = 65535

/-- The buffer and length that `create_tcp_fragment` returns, `malloc`
succeeding, for the chunk `c = (offset, size)` of the TCP payload of `pkt`. -/
def frag_at (pkt : List Nat) (c : Nat × Nat) : List Nat × Nat :=
  (create_tcp_fragment true pkt pkt.length ((tcp_payload pkt).drop c.1) c.2 c.1).getD ([], 0)

/-- The chunks `(offset, this_chunk)` that the loop of
`apply_disorder_with_injection` passes to `create_tcp_fragment`: the loop with
the fragment array left out. -/
def disorder_chunks (tcp_data_len count chunk_size : Nat) : Nat → Nat → Nat → List (Nat × Nat)
  | 0, _, _ => []
  | rem + 1, i, offset =>
    if offset < tcp_data_len then
      let this_chunk :=
        if i = count - 1 ∨ (offset + chunk_size) % 2 ^ 32 ≥ tcp_data_len then
          sub32 tcp_data_len offset
        else chunk_size
      (offset, this_chunk)
        :: disorder_chunks tcp_data_len count chunk_size rem (i + 1)
            ((offset + this_chunk) % 2 ^ 32)
    else []

/-- A cut of the bytes `[o, n)` into `k` chunks: `k - 1` chunks of `cs` bytes
and a last chunk with what is left. -/
def even_cut (n cs : Nat) : Nat → Nat → List (Nat × Nat)
  | 0, _ => []
  | 1, o => [(o, n - o)]
  | k + 2, o => (o, cs) :: even_cut n cs (k + 1) (o + cs)

/-- Successive stores `fragments[i] = f`, `fragments[i+1] = ...` of a list of
fragments. -/
def write_slots : FragArray → Nat → List (List Nat × Nat) → FragArray
  | arr, _, [] => arr
  | arr, i, f :: fs => write_slots (arr.set i (some f)) (i + 1) fs

/-- The host-case block applied to a fragment when `mix_host_case` is set. -/
def mix_if (mix : Bool) (f : List Nat × Nat) : List Nat × Nat :=
  if mix then (mix_fragment f.1 f.2, f.2) else f

/-- The fragments of the SPLIT path when the sends begin, in build order. -/
def split_fragments (g : GBypass) (w : World) (pkt : List Nat) : Option (List (List Nat × Nat)) :=
  (split_build g w pkt pkt.length).map (fun fs => [fs.1, fs.2])

/-- The fragments of the DISORDER path when the sends begin, in build order. -/
def disorder_fragments (g : GBypass) (w : World) (pkt : List Nat) :
    Option (List (List Nat × Nat)) :=
  built_fragments (disorder_build g w pkt pkt.length)

/-- The payload bytes before fragment `i` of a list of fragments. -/
def offset_of (frags : List (List Nat × Nat)) (i : Nat) : Nat :=
  ((frags.take i).map (fun f => (tcp_payload f.1).length)).sum

/-- The host-case block applied to the first fragment of a list. -/
def mix_head (mix : Bool) : List (List Nat × Nat) → List (List Nat × Nat)
  | [] => []
  | f :: t => mix_if mix f :: t

/-- The cut that DISORDER makes of a payload of `n` bytes. -/
def disorder_cut (s : DpiBypassSettings) (n : Nat) : List (Nat × Nat) :=
  even_cut n (disorder_chunk_size n (disorder_count s)) (min (disorder_count s) n) 0

/-- The bytes `[c.1, c.1 + c.2)` of the TCP payload of `pkt`. -/
def payload_slice (pkt : List Nat) (c : Nat × Nat) : List Nat :=
  ((tcp_payload pkt).drop c.1).take c.2

/-- What is shown of the fragment `f` that is sent for the chunk `c` of the
packet `pkt`; `mixed` says whether the host-case block ran on it. -/
structure is_final_fragment (pkt : List Nat) (c : Nat × Nat) (mixed : Bool)
    (f : List Nat × Nat) : Prop where
  len_eq : f.2 = f.1.length
  length_eq : f.1.length = ip_hdr_len pkt + tcp_hdr_len pkt + c.2
  bytes : bytes_ok f.1
  ip_len : ip_hdr_len f.1 = ip_hdr_len pkt
  tcp_len : tcp_hdr_len f.1 = tcp_hdr_len pkt
  payload_eq : tcp_payload f.1
    = if mixed then mix_hostname_case (payload_slice pkt c) c.2 else payload_slice pkt c
  tot_len : ip_tot_len f.1 = (ip_hdr_len pkt + tcp_hdr_len pkt + c.2) % 65536
  id : ip_id f.1 = (ip_id pkt + (if c.1 > 0 then 1 else 0)) % 65536
  seq : tcp_seq f.1 = (tcp_seq pkt + c.1) % 2 ^ 32
  ip_ck : ip_verify f.1 = 65535
  tcp_ck : f.1.length ≤ 65535 → tcp_verify f.1 = 65535

/-- The cut that SPLIT makes of a payload of `n` bytes. -/
def split_cut (s : DpiBypassSettings) (n : Nat) : List (Nat × Nat) :=
  [(0, split_pos s n), (split_pos s n, n - split_pos s n)]

/-- Fragment by fragment, `frags` are the fragments sent for the chunks `cut`. -/
def fragments_of (pkt : List Nat) (cut : List (Nat × Nat)) (frags : List (List Nat × Nat)) :
    Prop :=
  List.Forall₂ (fun c f => ∃ mixed, is_final_fragment pkt c mixed f) cut frags

/-- A cut of `n` bytes is in order: every chunk is non-empty and inside the
payload, and starts where the chunks before it end. -/
def cut_ok (n : Nat) (cut : List (Nat × Nat)) : Prop :=
  (∀ c ∈ cut, c.1 + c.2 ≤ n ∧ 1 ≤ c.2)
    ∧ ∀ (j : Nat) (c : Nat × Nat), cut[j]? = some c →
        c.1 = ((cut.take j).map (fun c => c.2)).sum

/-- The call `dpi_send_raw_packet(frag, frag_len, dst_ip)` made for a fragment. -/
def to_call (dst_ip : Nat) (f : List Nat × Nat) : SendCall := ⟨f.1, f.2, dst_ip⟩

/-! ## TLS ClientHello (`dpi_is_tls_client_hello`, `dpi_extract_sni`) -/

/-- Function `dpi_is_tls_client_hello(data, len)` for a non-`NULL` `data`. -/
def dpi_is_tls_client_hello (data : List Nat) (len : Nat) : Bool :=
  if len < 6 then false else decide (load8 data 0 = 22 ∧ load8 data 5 = 1)

/-- A read `data[i]` of a buffer of `len` bytes, checked: `none` when the index
is not below `len`. -/
def read8 (data : List Nat) (len i : Nat) : Option Nat := if i < len then data[i]? else none

/-- The read `(data[o] << 8) | data[o + 1]` into a `uint16_t`, both bytes
checked. -/
def read16 (data : List Nat) (len o : Nat) : Option Nat :=
  match read8 data len o, read8 data len ((o + 1) % 2 ^ 32) with
  | some a, some b => some ((a * 256 + b) % 65536)
  | _, _ => none

/-- How a run of `dpi_extract_sni` ends: `fault` is a read at an index that is
not below `len`, `no_fuel` a loop that is cut off, `done ret sni_buf` the
return value `ret` with the bytes written to `sni_buf` (none when nothing is
written). -/
inductive SniResult where
  | fault
  | no_fuel
  | done (ret : Nat) (sni_buf : List Nat)
deriving DecidableEq

/-- The block `if (ext_type == 0x0000 && ext_data_len > 5) { ... }` of the loop
of `dpi_extract_sni` for the extension at `offset`: `some r` leaves the
function with `r` (the `break` is followed by `return 0`), `none` falls through
to `offset += 4 + ext_data_len`. -/
def sni_entry (data : List Nat) (len sni_buf_len offset : Nat) : Option SniResult :=
  let sni_start := (offset + 4) % 2 ^ 32
  if (sni_start + 5) % 2 ^ 32 ≥ len then some (.done 0 [])
  else
    match read8 data len ((sni_start + 2) % 2 ^ 32),
        read16 data len ((sni_start + 3) % 2 ^ 32) with
    | some name_type, some name_len =>
      if name_type = 0 ∧ name_len > 0 then
        let hostname_offset := (sni_start + 5) % 2 ^ 32
        if (hostname_offset + name_len) % 2 ^ 32 ≤ len ∧ name_len < sni_buf_len then
          some (.done name_len ((data.drop hostname_offset).take name_len ++ [0]))
        else none
      else none
    | _, _ => some .fault

/-- The loop `while (offset + 4 < ext_end && offset + 4 < len)` of
`dpi_extract_sni`, cut off after `fuel` tests of its condition. -/
def sni_loop (data : List Nat) (len ext_end sni_buf_len : Nat) : Nat → Nat → SniResult
  | 0, _ => .no_fuel
  | fuel + 1, offset =>
    if (offset + 4) % 2 ^ 32 < ext_end ∧ (offset + 4) % 2 ^ 32 < len then
      match read16 data len offset, read16 data len ((offset + 2) % 2 ^ 32) with
      | some ext_type, some ext_data_len =>
        match (if ext_type = 0 ∧ ext_data_len > 5 then sni_entry data len sni_buf_len offset
            else none) with
        | some r => r
        | none =>
          sni_loop data len ext_end sni_buf_len fuel ((offset + 4 + ext_data_len) % 2 ^ 32)
      | _, _ => .fault
    else .done 0 []

/-- Where the first part of `dpi_extract_sni` ends: a read out of bounds, a
`return 0`, or the offset behind the extensions length field together with
that field. -/
inductive SniHeader where
  | fault
  | reject
  | extensions (offset ext_len : Nat)
deriving DecidableEq

/-- First part of `dpi_extract_sni`: the walk over session id, cipher suites
and compression methods up to the extensions length. -/
def sni_header (data : List Nat) (len : Nat) : SniHeader :=
  if len < 43 then .reject
  else
    let offset := 43
    if offset ≥ len then .reject
    else
      match read8 data len offset with
      | none => .fault
      | some session_id_len =>
        let offset := (offset + 1 + session_id_len) % 2 ^ 32
        if (offset + 2) % 2 ^ 32 > len then .reject
        else
          match read16 data len offset with
          | none => .fault
          | some cipher_len =>
            let offset := (offset + 2 + cipher_len) % 2 ^ 32
            if offset ≥ len then .reject
            else
              match read8 data len offset with
              | none => .fault
              | some comp_len =>
                let offset := (offset + 1 + comp_len) % 2 ^ 32
                if (offset + 2) % 2 ^ 32 > len then .reject
                else
                  match read16 data len offset with
                  | none => .fault
                  | some ext_len => .extensions ((offset + 2) % 2 ^ 32) ext_len

/-- Function `dpi_extract_sni(data, len, sni_buf, sni_buf_len)` for non-`NULL`
pointers.  The loop gets `len + 1` tests of its condition. -/
def dpi_extract_sni (data : List Nat) (len sni_buf_len : Nat) : SniResult :=
  match sni_header data len with
  | .fault => .fault
  | .reject => .done 0 []
  | .extensions offset ext_len =>
    sni_loop data len ((offset + ext_len) % 2 ^ 32) sni_buf_len (len + 1) offset

/-! ## Hostnames and the whitelist (`should_bypass`, `dpi_is_whitelisted`) -/

/-- The C string that a buffer holds: its bytes up to the first NUL. -/
def cstr (buf : List Nat) : List Nat := buf.takeWhile (fun b => b ≠ 0)

/-- The libc `strchr(s, c)` for `c ≠ 0`, on the bytes `s` that memory holds
from the pointer on (a NUL follows where the list ends): offset of the first
`c` before any NUL. -/
def strchr : List Nat → Nat → Option Nat
  | [], _ => none
  | b :: t, c => if b = c then some 0 else if b = 0 then none else (strchr t c).map (· + 1)

/-- The loop `while (*host_start == ' ') host_start++;` of `should_bypass`:
the number of steps it makes over the bytes from `host_start` on. -/
def count_spaces : List Nat → Nat
  | [] => 0
  | b :: t => if b = 32 then count_spaces t + 1 else 0

/-- The HTTP branch of `should_bypass`: the bytes that end up in `hostname`
before its terminator (none when `hostname` is left empty).  `mem` is memory
from `tcp_data` on: the TCP payload and what follows the frame. -/
def http_host (mem : List Nat) (tcp_data_len hostname_len : Nat) : List Nat :=
  let host_start :=
    match memmem (mem.take tcp_data_len) host_upper with
    | some h => some h
    | none => memmem (mem.take tcp_data_len) host_lower
  match host_start with
  | none => []
  | some h =>
    let host_start := h + 5 + count_spaces (mem.drop (h + 5))
    let host_end :=
      match strchr (mem.drop host_start) 13 with
      | some e => some e
      | none => strchr (mem.drop host_start) 10
    match host_end with
    | none => []
    | some len => if len > 0 ∧ len < hostname_len then (mem.drop host_start).take len else []

/-- The libc `strcasestr(hay, needle)` on C strings given without their
terminators: offset of the first occurrence of `needle` in `hay`, ASCII letter
case ignored. -/
def strcasestr : List Nat → List Nat → Option Nat
  | [], needle => if needle.isEmpty then some 0 else none
  | h :: t, needle =>
    if (needle.map ascii_lower).isPrefixOf ((h :: t).map ascii_lower) then some 0
    else (strcasestr t needle).map (· + 1)

/-- Function `dpi_is_whitelisted(hostname)` for a non-`NULL` `hostname`
buffer; the rows `whitelist[0 .. whitelist_count)` are searched in order. -/
def dpi_is_whitelisted (g : GBypass) (hostname : List Nat) : Bool :=
  if load8 hostname 0 = 0 then false
  else (g.whitelist.take g.whitelist_count).any
    (fun e => (strcasestr (cstr hostname) (cstr e)).isSome)

/-- The C enum `NfqueueVerdict`. -/
inductive NfqueueVerdict where
  | NFQUEUE_DROP
  | NFQUEUE_ACCEPT
  | NFQUEUE_REPEAT
  | NFQUEUE_STOLEN
deriving DecidableEq

/-- The C struct `NfqueuePacket`.  `payload` is the frame, so that
`payload_len` is `payload.length`; `after` is what memory holds behind the
frame (the rest of the receive buffer). -/
structure NfqueuePacket where
  packet_id : Nat
  mark : Nat
  payload : List Nat
  after : List Nat
  protocol : Nat
  src_ip : Nat
  dst_ip : Nat
  src_port : Nat
  dst_port : Nat

/-- What `should_bypass` leaves in `hostname`: `none` when it returns before
the whitelist check (port 443 without a ClientHello). -/
def extract_hostname (packet : NfqueuePacket) : Option (List Nat) :=
  let mem := packet.payload ++ packet.after
  let ip_hdr_len := ip_ihl packet.payload * 4
  let tcp_hdr_len := tcp_doff mem ip_hdr_len * 4
  let tcp_data := mem.drop (ip_hdr_len + tcp_hdr_len)
  let tcp_data_len := sub32 (sub32 packet.payload.length ip_hdr_len) tcp_hdr_len
  if packet.dst_port = 443 then
    if dpi_is_tls_client_hello tcp_data tcp_data_len = false then none
    else
      match dpi_extract_sni tcp_data tcp_data_len 256 with
      | .done _ sni_buf => some sni_buf
      | _ => some []
  else some (http_host tcp_data tcp_data_len 256)

/-- Function `should_bypass(packet, hostname, hostname_len)`. -/
def should_bypass (g : GBypass) (packet : NfqueuePacket) : Bool :=
  if packet.dst_port = 443 ∧ g.settings.desync_https = false then false
  else if packet.dst_port = 80 ∧ g.settings.desync_http = false then false
  else if ¬ packet.dst_port = 443 ∧ ¬ packet.dst_port = 80 then false
  else
    match extract_hostname packet with
    | none => false
    | some hostname =>
      if load8 hostname 0 ≠ 0 ∧ dpi_is_whitelisted g hostname = true then false else true

/-! ## The packet callback (`dpi_bypass_process_packet`) -/

/-- What the kernel answers to `dpi_raw_socket_init`: the return values of
`socket` and of the two `setsockopt` calls (`IP_HDRINCL`, `SO_MARK`). -/
structure SocketEnv where
  socket_ret : Int
  hdrincl_ret : Int
  so_mark_ret : Int

/-- Function `dpi_raw_socket_init()`: return value and new global state (a
failing `SO_MARK` is only logged). -/
def dpi_raw_socket_init (g : GBypass) (env : SocketEnv) : Int × GBypass :=
  if g.raw_socket_initialized = true then (0, g)
  else if env.socket_ret < 0 then (-1, { g with raw_socket := env.socket_ret })
  else if env.hdrincl_ret < 0 then (-1, { g with raw_socket := -1 })
  else (0, { g with raw_socket := env.socket_ret, raw_socket_initialized := true })

/-- What one call of `dpi_bypass_process_packet` does: the verdict, the global
state afterwards and the calls of `dpi_send_raw_packet` in the order made. -/
structure Outcome where
  verdict : NfqueueVerdict
  g : GBypass
  sends : List SendCall

/-- The statement `g_bypass.stats.packets_bypassed++`. -/
def count_bypassed (g : GBypass) : GBypass :=
  { g with stats := { g.stats with packets_bypassed := (g.stats.packets_bypassed + 1) % 2 ^ 64 } }

/-- The statement `g_bypass.stats.packets_dropped++`. -/
def count_dropped (g : GBypass) : GBypass :=
  { g with stats := { g.stats with packets_dropped := (g.stats.packets_dropped + 1) % 2 ^ 64 } }

/-- The statements `packets_total++; bytes_total += packet->payload_len`. -/
def count_seen (g : GBypass) (payload_len : Nat) : GBypass :=
  { g with stats := { g.stats with packets_total := (g.stats.packets_total + 1) % 2 ^ 64,
                                   bytes_total := (g.stats.bytes_total + payload_len) % 2 ^ 64 } }

/-- The `switch (g_bypass.settings.method)` of `dpi_bypass_process_packet` and
the verdict that follows it. -/
def apply_method (g : GBypass) (w : World) (packet : NfqueuePacket) : Outcome :=
  let result : Option (Int × List SendCall) :=
    if g.settings.method = 1 then
      some (apply_split_with_injection g w packet.payload packet.payload.length
        packet.dst_ip false)
    else if g.settings.method = 2 then
      some (apply_split_with_injection g w packet.payload packet.payload.length
        packet.dst_ip true)
    else if g.settings.method = 3 then
      some (apply_disorder_with_injection g w packet.payload packet.payload.length
        packet.dst_ip false)
    else if g.settings.method = 4 then
      some (apply_disorder_with_injection g w packet.payload packet.payload.length
        packet.dst_ip true)
    else none
  match result with
  | none => ⟨.NFQUEUE_ACCEPT, g, []⟩
  | some r =>
    if r.1 = 0 then ⟨.NFQUEUE_DROP, count_bypassed g, r.2⟩
    else ⟨.NFQUEUE_ACCEPT, g, r.2⟩

/-- Last part of `dpi_bypass_process_packet`, from `Initialize raw socket if
needed` on: the lazy socket initialisation, then the `switch` over the method
and the verdict. -/
def inject_fragments (g : GBypass) (env : SocketEnv) (w : World) (packet : NfqueuePacket) :
    Outcome :=
  if g.raw_socket_initialized = false then
    let r := dpi_raw_socket_init g env
    if r.1 < 0 then ⟨.NFQUEUE_ACCEPT, r.2, []⟩
    else apply_method r.2 w packet
  else apply_method g w packet

/-- Function `dpi_bypass_process_packet(packet, user_data)` for a non-`NULL`
packet with a non-`NULL` payload. -/
def dpi_bypass_process_packet (g : GBypass) (env : SocketEnv) (w : World)
    (packet : NfqueuePacket) : Outcome :=
  if packet.payload.length < 40 then ⟨.NFQUEUE_ACCEPT, g, []⟩
  else
    let g := count_seen g packet.payload.length
    if ip_version packet.payload ≠ 4 then ⟨.NFQUEUE_ACCEPT, g, []⟩
    else
      let ip_hdr_len := ip_ihl packet.payload * 4
      if ip_hdr_len < 20 ∨ packet.payload.length < ip_hdr_len then ⟨.NFQUEUE_ACCEPT, g, []⟩
      else if g.settings.block_quic = true ∧ ip_protocol packet.payload = 17
          ∧ (packet.dst_port = 443 ∨ packet.dst_port = 80) then
        ⟨.NFQUEUE_DROP, count_dropped g, []⟩
      else if ip_protocol packet.payload ≠ 6 then ⟨.NFQUEUE_ACCEPT, g, []⟩
      else
        let tcp_hdr_len := tcp_doff (packet.payload ++ packet.after) ip_hdr_len * 4
        if tcp_hdr_len < 20 ∨ packet.payload.length < ip_hdr_len + tcp_hdr_len then
          ⟨.NFQUEUE_ACCEPT, g, []⟩
        else if sub32 (sub32 packet.payload.length ip_hdr_len) tcp_hdr_len = 0 then
          ⟨.NFQUEUE_ACCEPT, g, []⟩
        else if should_bypass g packet = false then ⟨.NFQUEUE_ACCEPT, g, []⟩
        else inject_fragments g env w packet

/-- The guards of `dpi_bypass_process_packet` before the fragmenting step all
let the packet pass. -/
def reaches_fragmenting (g : GBypass) (packet : NfqueuePacket) : Prop :=
  40 ≤ packet.payload.length ∧ ip_version packet.payload = 4
    ∧ 20 ≤ ip_hdr_len packet.payload ∧ ip_hdr_len packet.payload ≤ packet.payload.length
    ∧ ¬ (g.settings.block_quic = true ∧ ip_protocol packet.payload = 17
          ∧ (packet.dst_port = 443 ∨ packet.dst_port = 80))
    ∧ ip_protocol packet.payload = 6
    ∧ 20 ≤ tcp_doff (packet.payload ++ packet.after) (ip_hdr_len packet.payload) * 4
    ∧ ip_hdr_len packet.payload
        + tcp_doff (packet.payload ++ packet.after) (ip_hdr_len packet.payload) * 4
        ≤ packet.payload.length
    ∧ sub32 (sub32 packet.payload.length (ip_hdr_len packet.payload))
        (tcp_doff (packet.payload ++ packet.after) (ip_hdr_len packet.payload) * 4) ≠ 0
    ∧ should_bypass g packet = true

instance (g : GBypass) (packet : NfqueuePacket) : Decidable (reaches_fragmenting g packet) := by
  unfold reaches_fragmenting; infer_instance

/-- What a run of `dpi_extract_sni` must be to be in order: it returns, and
either 0 with nothing written, or a length `ret` with `1 ≤ ret < sni_buf_len`
and `ret` consecutive bytes from below `len` written, a NUL behind them. -/
def sni_safe (data : List Nat) (len sni_buf_len : Nat) : SniResult → Prop
  | .done ret sni_buf =>
    (ret = 0 ∧ sni_buf = [])
      ∨ (1 ≤ ret ∧ ret < sni_buf_len
          ∧ ∃ o, o + ret ≤ len ∧ sni_buf = (data.drop o).take ret ++ [0])
  | _ => False

/-- The two bytes of a 16-bit length or type on the wire, high byte first. -/
def be16 (v : Nat) : List Nat := [v / 256 % 256, v % 256]

/-- A TLS extension on the wire: type, length of the body, body. -/
def encode_ext (e : Nat × List Nat) : List Nat := be16 e.1 ++ (be16 e.2.length ++ e.2)

/-- A list of TLS extensions on the wire. -/
def encode_exts : List (Nat × List Nat) → List Nat
  | [] => []
  | e :: t => encode_ext e ++ encode_exts t

/-- The server_name extension (type 0) for one name of type 0 (host_name):
list length, name type, name length, name. -/
def sni_extension (name : List Nat) : List Nat :=
  encode_ext (0, be16 (name.length + 3) ++ (0 :: (be16 name.length ++ name)))

/-- A ClientHello record up to and with its extensions length field: 43 fixed
bytes (record header, handshake header, version, random), the session id, the
cipher suites and the compression methods, each behind its length, then the
length `ext_len` that is declared for the extensions. -/
def client_hello_head (fixed sid cs comp : List Nat) (ext_len : Nat) : List Nat :=
  fixed ++ (sid.length :: (sid ++ (be16 cs.length ++ (cs ++ (comp.length :: (comp
    ++ be16 ext_len))))))

/-- A ClientHello record whose extensions length field holds the length of
its extensions `exts`. -/
def client_hello (fixed sid cs comp exts : List Nat) : List Nat :=
  client_hello_head fixed sid cs comp exts.length ++ exts

/-- The packet is of a kind that is to be fragmented: to port 443 with
`desync_https` set and a ClientHello as TCP payload, or to port 80 with
`desync_http` set. -/
def port_eligible (g : GBypass) (packet : NfqueuePacket) : Prop :=
  (packet.dst_port = 443 ∧ g.settings.desync_https = true
      ∧ dpi_is_tls_client_hello (tcp_payload packet.payload)
          (tcp_payload packet.payload).length = true)
    ∨ (packet.dst_port = 80 ∧ g.settings.desync_http = true)

instance (g : GBypass) (packet : NfqueuePacket) : Decidable (port_eligible g packet) := by
  unfold port_eligible; infer_instance

/-- The string `hay` contains the string `needle` as a contiguous substring
when ASCII letter case is ignored. -/
def contains_nocase (hay needle : List Nat) : Prop :=
  ∃ pre post, hay.map ascii_lower = pre ++ (needle.map ascii_lower ++ post)

/-- The `case NFQA_PAYLOAD` block of `parse_packet` (nfqueue_handler.c) for an
attribute body `data` of at least 0 bytes; `after` is what memory holds behind
the body. -/
def parse_payload (pkt : NfqueuePacket) (data after : List Nat) : NfqueuePacket :=
  let pkt := { pkt with payload := data, after := after }
  if data.length ≥ 20 then
    let ihl := (load8 data 0 % 16 * 4) % 256
    let pkt := { pkt with protocol := load8 data 9, src_ip := load32 data 12,
                          dst_ip := load32 data 16 }
    if data.length ≥ ihl + 4 then
      { pkt with src_port := ntohs (load16 data ihl), dst_port := ntohs (load16 data (ihl + 2)) }
    else pkt
  else pkt

/-- Whether the hostname that `should_bypass` extracts is on the whitelist
(`false` when `should_bypass` returns before the whitelist check). -/
def hostname_whitelisted (g : GBypass) (packet : NfqueuePacket) : Bool :=
  match extract_hostname packet with
  | some hostname => dpi_is_whitelisted g hostname
  | none => false

/-- The packet is eligible: of a kind that is to be fragmented, and its
hostname is not on the whitelist. -/
def eligible (g : GBypass) (packet : NfqueuePacket) : Prop :=
  port_eligible g packet ∧ hostname_whitelisted g packet = false

instance (g : GBypass) (packet : NfqueuePacket) : Decidable (eligible g packet) := by
  unfold eligible; infer_instance

/-- The raw injector is initialised, or can be initialised when the first
eligible packet arrives. -/
def injector_ready (g : GBypass) (env : SocketEnv) : Prop :=
  (g.raw_socket_initialized = true ∧ 0 ≤ g.raw_socket)
    ∨ (g.raw_socket_initialized = false ∧ 0 ≤ env.socket_ret ∧ 0 ≤ env.hdrincl_ret)

instance (g : GBypass) (env : SocketEnv) : Decidable (injector_ready g env) := by
  unfold injector_ready; infer_instance

/-- The method is one of SPLIT, SPLIT_REVERSE, DISORDER, DISORDER_REVERSE. -/
def fragmenting_method (g : GBypass) : Prop :=
  g.settings.method = 1 ∨ g.settings.method = 2 ∨ g.settings.method = 3 ∨ g.settings.method = 4

instance (g : GBypass) : Decidable (fragmenting_method g) := by
  unfold fragmenting_method; infer_instance

/-- The fragments that the selected method builds of the frame `pkt`, in build
order, as they stand when the sends begin. -/
def method_fragments (g : GBypass) (pkt : List Nat) : List (List Nat × Nat) :=
  if g.settings.method = 1 ∨ g.settings.method = 2 then
    [frag_at pkt (0, split_pos g.settings (tcp_payload pkt).length),
      mix_if g.settings.mix_host_case
        (frag_at pkt (split_pos g.settings (tcp_payload pkt).length,
          (tcp_payload pkt).length - split_pos g.settings (tcp_payload pkt).length))]
  else
    mix_head g.settings.mix_host_case
      ((disorder_cut g.settings (tcp_payload pkt).length).map (frag_at pkt))

/-- The order in which the selected method sends: build order, reversed for
SPLIT_REVERSE and DISORDER_REVERSE. -/
def method_order (g : GBypass) (calls : List SendCall) : List SendCall :=
  if g.settings.method = 2 ∨ g.settings.method = 4 then calls.reverse else calls

/-- The packet whose frame has the two bytes of the IP total length field
overwritten by the `uint16_t` `v`. -/
def set_tot_len (packet : NfqueuePacket) (v : Nat) : NfqueuePacket :=
  { packet with payload := store16 packet.payload 2 v }

/-- Function `dpi_is_tls_client_hello(data, len)` with the pointer `data`
given as an option: `none` is `NULL`. -/
def is_tls_client_hello_ptr (data : Option (List Nat)) (len : Nat) : Bool :=
  match data with
  | none => false
  | some d => dpi_is_tls_client_hello d len

/-- Function `dpi_whitelist_clear()`. -/
def dpi_whitelist_clear (g : GBypass) : GBypass := { g with whitelist_count := 0 }

/-- The literal `needle` stands in `d` at position `i`. -/
def occurs_at (d needle : List Nat) (i : Nat) : Prop := (d.drop i).take needle.length = needle

instance (d needle : List Nat) (i : Nat) : Decidable (occurs_at d needle i) := by
  unfold occurs_at; infer_instance

/-- Position `h` is the first at which the literal `needle` stands in `d`. -/
def first_at (d needle : List Nat) (h : Nat) : Prop :=
  occurs_at d needle h ∧ ∀ j, j < h → ¬ occurs_at d needle j

instance (d needle : List Nat) (h : Nat) : Decidable (first_at d needle h) := by
  unfold first_at; infer_instance

/-- The header name that anchors the rewrite: `h` is the position of the first
`Host:` in `d`, or, when `d` holds no `Host:`, of the first `host:`. -/
def host_anchor (d : List Nat) (h : Nat) : Prop :=
  first_at d host_upper h
    ∨ ((∀ j, j < d.length → ¬ occurs_at d host_upper j) ∧ first_at d host_lower h)

instance (d : List Nat) (h : Nat) : Decidable (host_anchor d h) := by
  unfold host_anchor; infer_instance

/-- The byte `c` at index `k` of a header value in alternating case: a small
letter at an even index becomes a capital, a capital at an odd index a small
letter. -/
def alt_case (k c : Nat) : Nat :=
  if k % 2 = 0 ∧ 97 ≤ c ∧ c ≤ 122 then c - 32
  else if k % 2 = 1 ∧ 65 ≤ c ∧ c ≤ 90 then c + 32
  else c

/-! ## Netlink messages (`nfqueue_handler.c`) -/

/-- The `NLMSG_ERROR` of linux/netlink.h. -/
def NLMSG_ERROR : Nat := 2

/-- The `NFNL_SUBSYS_QUEUE` of linux/netfilter/nfnetlink.h. -/
def NFNL_SUBSYS_QUEUE : Nat := 3

/-- The `NFQNL_MSG_PACKET` of linux/netfilter/nfnetlink_queue.h. -/
def NFQNL_MSG_PACKET : Nat := 0

/-- The `NFQA_PACKET_HDR` of linux/netfilter/nfnetlink_queue.h. -/
def NFQA_PACKET_HDR : Nat := 1

/-- The `NFQA_MARK` of linux/netfilter/nfnetlink_queue.h. -/
def NFQA_MARK : Nat := 3

/-- The `NFQA_PAYLOAD` of linux/netfilter/nfnetlink_queue.h. -/
def NFQA_PAYLOAD : Nat := 10

/-- The `NLA_TYPE_MASK` of linux/netlink.h: `~(NLA_F_NESTED | NLA_F_NET_BYTEORDER)`
on the 16 bits of `nla_type`, so that `t & NLA_TYPE_MASK` is `t % 16384`. -/
def NLA_TYPE_MASK : Nat := 16383

/-- The macro `NFA_ALIGN_SIZE(len)`: `(len + 3) & ~3`. -/
def NFA_ALIGN_SIZE (len : Nat) : Nat := (len + 3) / 4 * 4

/-- The `NLMSG_ALIGN(len)` of linux/netlink.h: `(len + 3) & ~3`. -/
def NLMSG_ALIGN (len : Nat) : Nat := (len + 3) / 4 * 4

/-- A 32-bit pattern read as an `int`. -/
def to_int32 (v : Nat) : Int :=
  if v % 4294967296 < 2147483648 then ((v % 4294967296 : Nat) : Int)
  else ((v % 4294967296 : Nat) : Int) - 4294967296

/-- A read of the byte at offset `i` of a message, checked against `limit`
(`nlmsg_len`): `error i` is a read at an offset that is not below `limit`. -/
def nl_read8 (msg : List Nat) (limit i : Nat) : Except Nat Nat :=
  if i < limit then
    match msg[i]? with
    | some b => .ok b
    | none => .error i
  else .error i

/-- A checked read of a `uint16_t` in host order at offset `i`. -/
def nl_read16 (msg : List Nat) (limit i : Nat) : Except Nat Nat :=
  match nl_read8 msg limit i with
  | .error o => .error o
  | .ok a =>
    match nl_read8 msg limit (i + 1) with
    | .error o => .error o
    | .ok b => .ok (a + 256 * b)

/-- A checked read of a `uint32_t` in host order at offset `i`. -/
def nl_read32 (msg : List Nat) (limit i : Nat) : Except Nat Nat :=
  match nl_read16 msg limit i with
  | .error o => .error o
  | .ok a =>
    match nl_read16 msg limit (i + 2) with
    | .error o => .error o
    | .ok b => .ok (a + 65536 * b)

/-- The fields of the C struct `NfqueuePacket` as `parse_packet` fills them;
the pointer `payload` is an offset into the message, `none` for `NULL`. -/
structure PacketView where
  packet_id : Nat
  mark : Nat
  payload : Option Nat
  payload_len : Nat
  protocol : Nat
  src_ip : Nat
  dst_ip : Nat
  src_port : Nat
  dst_port : Nat
deriving DecidableEq

/-- The packet after `memset(&pkt, 0, sizeof(pkt))`. -/
def zero_packet : PacketView := ⟨0, 0, none, 0, 0, 0, 0, 0, 0⟩

/-- How a run of `parse_packet` ends: `fault off` is a read at the offset
`off` that is not below `nlmsg_len`, `no_fuel` a loop that is cut off, `done`
the return value and the packet as filled. -/
inductive ParseResult where
  | fault (off : Nat)
  | no_fuel
  | done (ret : Int) (pkt : PacketView)
deriving DecidableEq

/-- The `case NFQA_PAYLOAD` of `parse_packet` with checked reads: `data` is
the offset of the attribute body, `len` is `nla_len - 4`. -/
def parse_payload_attr (msg : List Nat) (limit data len : Nat) (pkt : PacketView) :
    Except Nat PacketView :=
  let pkt := { pkt with payload := some data, payload_len := len }
  if len ≥ 20 then
    match nl_read8 msg limit data with
    | .error o => .error o
    | .ok b0 =>
      let ihl := (b0 % 16 * 4) % 256
      match nl_read8 msg limit (data + 9) with
      | .error o => .error o
      | .ok protocol =>
        match nl_read32 msg limit (data + 12) with
        | .error o => .error o
        | .ok src_ip =>
          match nl_read32 msg limit (data + 16) with
          | .error o => .error o
          | .ok dst_ip =>
            let pkt := { pkt with protocol := protocol, src_ip := src_ip, dst_ip := dst_ip }
            if len ≥ ihl + 4 then
              match nl_read16 msg limit (data + ihl) with
              | .error o => .error o
              | .ok src_port =>
                match nl_read16 msg limit (data + ihl + 2) with
                | .error o => .error o
                | .ok dst_port =>
                  .ok { pkt with src_port := ntohs src_port, dst_port := ntohs dst_port }
            else .ok pkt
  else .ok pkt

/-- The body of the loop of `parse_packet` up to the end of the `switch`, for
the attribute at offset `attr` whose `nla_len` has been read. -/
def parse_attr (msg : List Nat) (limit attr nla_len : Nat) (pkt : PacketView) :
    Except Nat PacketView :=
  match nl_read16 msg limit (attr + 2) with
  | .error o => .error o
  | .ok nla_type =>
    let type := nla_type % (NLA_TYPE_MASK + 1)
    let len := nla_len - 4
    let data := attr + 4
    if type = NFQA_PACKET_HDR then
      match nl_read32 msg limit data with
      | .error o => .error o
      | .ok packet_id => .ok { pkt with packet_id := ntohl packet_id }
    else if type = NFQA_MARK then
      match nl_read32 msg limit data with
      | .error o => .error o
      | .ok mark => .ok { pkt with mark := ntohl mark }
    else if type = NFQA_PAYLOAD then parse_payload_attr msg limit data len pkt
    else .ok pkt

/-- The return value of `parse_packet`: `(pkt->packet_id != 0) ? 0 : -1`. -/
def parse_ret (pkt : PacketView) : Int := if pkt.packet_id ≠ 0 then 0 else -1

/-- The loop `while (attr_len > 0 && attr->nla_len >= sizeof(*attr))` of
`parse_packet` and the `return` behind it, cut off after `fuel` tests of the
condition; `attr` is the offset of the attribute in the message. -/
def parse_loop (msg : List Nat) (limit : Nat) : Nat → Nat → Int → PacketView → ParseResult
  | 0, _, _, _ => .no_fuel
  | fuel + 1, attr, attr_len, pkt =>
    if attr_len > 0 then
      match nl_read16 msg limit attr with
      | .error o => .fault o
      | .ok nla_len =>
        if nla_len ≥ 4 then
          match parse_attr msg limit attr nla_len pkt with
          | .error o => .fault o
          | .ok pkt =>
            parse_loop msg limit fuel (attr + NFA_ALIGN_SIZE nla_len)
              (attr_len - NFA_ALIGN_SIZE nla_len) pkt
        else .done (parse_ret pkt) pkt
    else .done (parse_ret pkt) pkt

/-- Function `parse_packet(nlh, pkt)`; `msg` is memory from `nlh` on, every
read behind the header is checked against `nlh->nlmsg_len`.  The attributes
begin behind `NLMSG_HDRLEN` (16) and the aligned `struct nfgenmsg` (4); the
loop gets `nlmsg_len + 1` tests of its condition. -/
def parse_packet (msg : List Nat) (pkt : PacketView) : ParseResult :=
  let nlmsg_len := load32 msg 0
  parse_loop msg nlmsg_len (nlmsg_len + 1) 20 (to_int32 (nlmsg_len + 4294967296 - 16 - 4)) pkt

/-- What the dispatch loop of `nfqueue_start` does with one message: `fault`
and `no_fuel` as for `parse_packet`; `done` with the packet handed to the
callback (`none` when the callback is not called) and the calls
`send_verdict(packet_id, verdict, NULL, 0)` in the order made. -/
inductive DispatchResult where
  | fault (off : Nat)
  | no_fuel
  | done (callback_arg : Option PacketView) (verdicts : List (Nat × NfqueueVerdict))
deriving DecidableEq

/-- The body of the loop `while (NLMSG_OK(nlh, len))` of `nfqueue_start` for
the message at `nlh`, up to `NLMSG_NEXT`; `callback` is `g_nfq.callback`,
`none` for `NULL`. -/
def dispatch_message (callback : Option (PacketView → NfqueueVerdict)) (msg : List Nat) :
    DispatchResult :=
  let nlmsg_type := load16 msg 4
  if nlmsg_type = NLMSG_ERROR then .done none []
  else if nlmsg_type % 256 = NFNL_SUBSYS_QUEUE then
    match parse_packet msg zero_packet with
    | .fault o => .fault o
    | .no_fuel => .no_fuel
    | .done ret pkt =>
      if ret = 0 then
        match callback with
        | none => .done none [(pkt.packet_id, .NFQUEUE_ACCEPT)]
        | some cb =>
          if cb pkt ≠ .NFQUEUE_STOLEN then .done (some pkt) [(pkt.packet_id, cb pkt)]
          else .done (some pkt) []
      else .done none []
  else .done none []

/-- The loop `while (NLMSG_OK(nlh, len))` of `nfqueue_start` over a received
buffer: what is done with each message, in order.  `buf` is memory from `nlh`
on and `len` what is left of the `recvfrom` result; a loop that is cut off
ends with `no_fuel`. -/
def dispatch_loop (callback : Option (PacketView → NfqueueVerdict)) :
    Nat → List Nat → Int → List DispatchResult
  | 0, _, _ => [.no_fuel]
  | fuel + 1, buf, len =>
    if len ≥ 16 ∧ load32 buf 0 ≥ 16 ∧ ((load32 buf 0 : Nat) : Int) ≤ len then
      dispatch_message callback buf
        :: dispatch_loop callback fuel (buf.drop (NLMSG_ALIGN (load32 buf 0)))
            (len - NLMSG_ALIGN (load32 buf 0))
    else []

/-- A `uint16_t` in memory on the little-endian host. -/
def le16 (v : Nat) : List Nat := [v % 256, v / 256 % 256]

/-- A `uint32_t` in memory on the little-endian host. -/
def le32 (v : Nat) : List Nat := [v % 256, v / 256 % 256, v / 65536 % 256, v / 16777216 % 256]

/-- A 32-bit value in network byte order. -/
def be32 (v : Nat) : List Nat := [v / 16777216 % 256, v / 65536 % 256, v / 256 % 256, v % 256]

/-- A netlink attribute: its type, its body, and the bytes that stand between
the body and the next multiple of 4. -/
structure NlAttr where
  nla_type : Nat
  body : List Nat
  pad : List Nat

/-- An attribute in memory: `nla_len` (header and body), `nla_type`, the body
and the padding. -/
def encode_nla (a : NlAttr) : List Nat :=
  le16 (4 + a.body.length) ++ (le16 a.nla_type ++ (a.body ++ a.pad))

/-- A stream of attributes in memory. -/
def encode_nlas : List NlAttr → List Nat
  | [] => []
  | a :: t => encode_nla a ++ encode_nlas t

/-- An attribute is well-formed: its type and its length are 16-bit values, the
padding reaches the next multiple of 4, and the body of a PACKET_HDR or MARK
attribute holds the 32-bit value that is read from it. -/
def wf_nla (a : NlAttr) : Prop :=
  a.nla_type < 65536 ∧ 4 + a.body.length ≤ 65535
    ∧ 4 + a.body.length + a.pad.length = NFA_ALIGN_SIZE (4 + a.body.length)
    ∧ ((a.nla_type % 16384 = 1 ∨ a.nla_type % 16384 = 3) → 4 ≤ a.body.length)

instance (a : NlAttr) : Decidable (wf_nla a) := by
  unfold wf_nla; infer_instance

/-- The attributes that stand from offset `attr` on fit a message of `limit`
bytes: every body ends at or before `limit`, and `limit` is not behind the
padding of the last attribute. -/
def nlas_fit (limit : Nat) : Nat → List NlAttr → Prop
  | attr, [] => limit ≤ attr
  | attr, a :: t =>
    attr + 4 + a.body.length ≤ limit ∧ nlas_fit limit (attr + (encode_nla a).length) t

instance (limit attr : Nat) (attrs : List NlAttr) : Decidable (nlas_fit limit attr attrs) := by
  induction attrs generalizing attr with
  | nil => unfold nlas_fit; infer_instance
  | cons a t ih => unfold nlas_fit; exact instDecidableAnd

/-- What a PAYLOAD attribute with body `body` at offset `data` does to the
packet. -/
def apply_payload (data : Nat) (body : List Nat) (pkt : PacketView) : PacketView :=
  let pkt := { pkt with payload := some data, payload_len := body.length }
  if body.length ≥ 20 then
    let ihl := (load8 body 0 % 16 * 4) % 256
    let pkt := { pkt with protocol := load8 body 9, src_ip := load32 body 12,
                          dst_ip := load32 body 16 }
    if body.length ≥ ihl + 4 then
      { pkt with src_port := ntohs (load16 body ihl),
                 dst_port := ntohs (load16 body (ihl + 2)) }
    else pkt
  else pkt

/-- What one well-formed attribute at offset `attr` does to the packet. -/
def apply_nla (attr : Nat) (a : NlAttr) (pkt : PacketView) : PacketView :=
  if a.nla_type % 16384 = 1 then { pkt with packet_id := ntohl (load32 a.body 0) }
  else if a.nla_type % 16384 = 3 then { pkt with mark := ntohl (load32 a.body 0) }
  else if a.nla_type % 16384 = 10 then apply_payload (attr + 4) a.body pkt
  else pkt

/-- What a stream of well-formed attributes from offset `attr` on does to the
packet. -/
def apply_nlas : Nat → List NlAttr → PacketView → PacketView
  | _, [], pkt => pkt
  | attr, a :: t, pkt => apply_nlas (attr + (encode_nla a).length) t (apply_nla attr a pkt)

/-- A netfilter netlink message in memory: `nlmsg_len`, `nlmsg_type`, the rest
of `struct nlmsghdr` (flags, sequence number, port id: 10 bytes), `struct
nfgenmsg` (4 bytes) and the attributes. -/
def nl_message (nlmsg_len nlmsg_type : Nat) (hdr_rest nfg : List Nat) (attrs : List NlAttr) :
    List Nat :=
  le32 nlmsg_len ++ (le16 nlmsg_type ++ (hdr_rest ++ (nfg ++ encode_nlas attrs)))

/-! ## The raw send (`dpi_send_raw_packet`) with its `sendto` call -/

/-- One call `sendto(g_bypass.raw_socket, packet, len, 0, &dst_addr,
sizeof(dst_addr))`; `s_addr` is `dst_addr.sin_addr.s_addr`. -/
structure SendtoCall where
  fd : Int
  buf : List Nat
  len : Nat
  s_addr : Nat
deriving DecidableEq

/-- Function `dpi_send_raw_packet(packet, len, dst_ip)` with its pointer
argument (`none` for `NULL`): the return value and the calls of `sendto` made.
`sendto_ret` is what `sendto` returns if it is called; a return value that is
not negative and differs from `len` is only logged. -/
def dpi_send_raw_packet_calls (g : GBypass) (sendto_ret : Int) (packet : Option (List Nat))
    (len dst_ip : Nat) : Int × List SendtoCall :=
  if g.raw_socket_initialized = false ∨ g.raw_socket < 0 then (-1, [])
  else
    match packet with
    | none => (-1, [])
    | some p =>
      if len < 20 then (-1, [])
      else if sendto_ret < 0 then (-1, [⟨g.raw_socket, p, len, dst_ip⟩])
      else (0, [⟨g.raw_socket, p, len, dst_ip⟩])

/-! ## Header reads of the packet callback -/

/-- How the parse of the IPv4 and TCP headers in `dpi_bypass_process_packet`
ends when every read of the frame is checked against `payload_len`: `fault
off` is a read at the offset `off` that is not below `payload_len`, `verdict`
a return before `should_bypass` is called, `tcp` the two header lengths with
which `should_bypass` is called. -/
inductive HeaderResult where
  | fault (off : Nat)
  | verdict (v : NfqueueVerdict)
  | tcp (ip_hdr_len tcp_hdr_len : Nat)
deriving DecidableEq

/-- The reads that follow the read of `ip->protocol` for a TCP packet:
`tcp->doff`, and for a header that passes the length test the fields that are
logged (`tcp->syn` and the other flags in byte 13, `tcp->seq`, `tcp->ack_seq`). -/
def parse_tcp_header (mem : List Nat) (n ip_hdr_len : Nat) : HeaderResult :=
  match nl_read8 mem n (ip_hdr_len + 12) with
  | .error o => .fault o
  | .ok b =>
    let tcp_hdr_len := b / 16 % 16 * 4
    if tcp_hdr_len < 20 ∨ n < ip_hdr_len + tcp_hdr_len then .verdict .NFQUEUE_ACCEPT
    else
      match nl_read8 mem n (ip_hdr_len + 13) with
      | .error o => .fault o
      | .ok _ =>
        match nl_read32 mem n (ip_hdr_len + 4) with
        | .error o => .fault o
        | .ok _ =>
          match nl_read32 mem n (ip_hdr_len + 8) with
          | .error o => .fault o
          | .ok _ =>
            if sub32 (sub32 n ip_hdr_len) tcp_hdr_len = 0 then .verdict .NFQUEUE_ACCEPT
            else .tcp ip_hdr_len tcp_hdr_len

/-- The part of `dpi_bypass_process_packet` from its start to the call of
`should_bypass`, with every read of the frame checked against `payload_len`:
`ip->version` and `ip->ihl` (byte 0), the fields that are logged (`ip->saddr`,
`ip->daddr`, `ip->protocol`), then the QUIC test and the TCP header. -/
def parse_headers (g : GBypass) (packet : NfqueuePacket) : HeaderResult :=
  let mem := packet.payload ++ packet.after
  let n := packet.payload.length
  if n < 40 then .verdict .NFQUEUE_ACCEPT
  else
    match nl_read8 mem n 0 with
    | .error o => .fault o
    | .ok b0 =>
      if b0 / 16 % 16 ≠ 4 then .verdict .NFQUEUE_ACCEPT
      else
        let ip_hdr_len := b0 % 16 * 4
        if ip_hdr_len < 20 ∨ n < ip_hdr_len then .verdict .NFQUEUE_ACCEPT
        else
          match nl_read32 mem n 12 with
          | .error o => .fault o
          | .ok _ =>
            match nl_read32 mem n 16 with
            | .error o => .fault o
            | .ok _ =>
              match nl_read8 mem n 9 with
              | .error o => .fault o
              | .ok protocol =>
                if g.settings.block_quic = true ∧ protocol = 17
                    ∧ (packet.dst_port = 443 ∨ packet.dst_port = 80) then
                  .verdict .NFQUEUE_DROP
                else if protocol ≠ 6 then .verdict .NFQUEUE_ACCEPT
                else parse_tcp_header mem n ip_hdr_len

/-- The header reads of `should_bypass` (`ip->ihl`, `tcp->doff`), checked
against `payload_len`: the two header lengths. -/
def should_bypass_headers (packet : NfqueuePacket) : Except Nat (Nat × Nat) :=
  let mem := packet.payload ++ packet.after
  let n := packet.payload.length
  match nl_read8 mem n 0 with
  | .error o => .error o
  | .ok b0 =>
    match nl_read8 mem n (b0 % 16 * 4 + 12) with
    | .error o => .error o
    | .ok b => .ok (b0 % 16 * 4, b / 16 % 16 * 4)

/-! ## Verdict messages (`send_verdict`) -/

/-- The values of the C enum `NfqueueVerdict` (`nfqueue_handler.h`). -/
def verdict_code : NfqueueVerdict → Nat
  | .NFQUEUE_DROP => 0
  | .NFQUEUE_ACCEPT => 1
  | .NFQUEUE_REPEAT => 4
  | .NFQUEUE_STOLEN => 3

/-- The `NFQNL_MSG_VERDICT` of linux/netfilter/nfnetlink_queue.h. -/
def NFQNL_MSG_VERDICT : Nat := 1

/-- The `NFQA_VERDICT_HDR` of linux/netfilter/nfnetlink_queue.h. -/
def NFQA_VERDICT_HDR : Nat := 2

/-- The `NLM_F_REQUEST` of linux/netlink.h. -/
def NLM_F_REQUEST : Nat := 1

/-- The macro `SEND_BUFFER_SIZE`. -/
def SEND_BUFFER_SIZE : Nat := 4096

/-- The fields of the global `g_nfq` that `send_verdict` uses. -/
structure GNfq where
  nl_socket : Int
  queue_num : Nat
  send_buffer : List Nat

/-- What one call of `send_verdict` does: the return value, `g_nfq.send_buffer`
afterwards, and the buffers handed to `sendto` (their first `msg_len` bytes). -/
structure VerdictSend where
  ret : Int
  send_buffer : List Nat
  sent : List (List Nat)

/-- The libc `memset(buf, c, n)` for `n` up to the size of the buffer. -/
def memset (buf : List Nat) (c n : Nat) : List Nat := List.replicate n c ++ buf.drop n

/-- The libc `memcpy(dst + off, src, n)`. -/
def memcpy (dst : List Nat) (off : Nat) (src : List Nat) (n : Nat) : List Nat :=
  dst.take off ++ (src.take n ++ dst.drop (off + n))

/-- The computation of `msg_len` in `send_verdict`, a `size_t` of 64 bits; the
sizes of `struct nlmsghdr`, `struct nfgenmsg`, `struct nlattr` and `struct
nfqnl_msg_verdict_hdr` are 16, 4, 4 and 8. -/
def verdict_msg_len (payload : Option (List Nat)) (payload_len : Nat) : Nat :=
  let msg_len := (NLMSG_ALIGN 16 + NLMSG_ALIGN 4 + NFA_ALIGN_SIZE (4 + 8)) % 2 ^ 64
  match payload with
  | some _ =>
    if payload_len > 0 then (msg_len + NFA_ALIGN_SIZE (4 + payload_len)) % 2 ^ 64 else msg_len
  | none => msg_len

/-- The stores of `send_verdict` into the zeroed buffer up to the verdict
attribute: `struct nlmsghdr` at 0, `struct nfgenmsg` at `NLMSG_DATA(nlh)`, the
attribute header behind the aligned `struct nfgenmsg`, and `struct
nfqnl_msg_verdict_hdr` behind it. -/
def verdict_headers (buf : List Nat) (msg_len pid queue_num packet_id verdict : Nat) :
    List Nat :=
  -- struct nlmsghdr
  let buf := store32 buf 0 msg_len
  let buf := store16 buf 4 (NFNL_SUBSYS_QUEUE <<< 8 ||| NFQNL_MSG_VERDICT)
  let buf := store16 buf 6 NLM_F_REQUEST
  let buf := store32 buf 8 0
  let buf := store32 buf 12 pid
  -- struct nfgenmsg: nfgen_family = AF_UNSPEC, version = NFNETLINK_V0, res_id
  let nfg := 16
  let buf := buf.set nfg 0
  let buf := buf.set (nfg + 1) 0
  let buf := store16 buf (nfg + 2) (htons queue_num)
  -- the verdict attribute
  let attr := nfg + NLMSG_ALIGN 4
  let buf := store16 buf attr (4 + 8)
  let buf := store16 buf (attr + 2) NFQA_VERDICT_HDR
  let buf := store32 buf (attr + 4) (htonl verdict)
  store32 buf (attr + 8) (htonl packet_id)

/-- The block `if (payload && payload_len > 0) { ... }` of `send_verdict` that
writes the payload attribute behind the verdict attribute at offset `attr`. -/
def verdict_payload (buf : List Nat) (attr : Nat) (payload : List Nat) (payload_len : Nat) :
    List Nat :=
  let attr := attr + NFA_ALIGN_SIZE (load16 buf attr)
  let buf := store16 buf attr (4 + payload_len)
  let buf := store16 buf (attr + 2) NFQA_PAYLOAD
  memcpy buf (attr + 4) payload payload_len

/-- Function `send_verdict(packet_id, verdict, payload, payload_len)`; `payload`
is `none` for `NULL`, `pid` is what `getpid()` returns and `sendto_ret` what
`sendto` returns. -/
def send_verdict (g : GNfq) (pid : Nat) (sendto_ret : Int) (packet_id verdict : Nat)
    (payload : Option (List Nat)) (payload_len : Nat) : VerdictSend :=
  let msg_len := verdict_msg_len payload payload_len
  if msg_len > SEND_BUFFER_SIZE then ⟨-1, g.send_buffer, []⟩
  else
    let buf := memset g.send_buffer 0 msg_len
    let buf := verdict_headers buf msg_len pid g.queue_num packet_id verdict
    let buf :=
      match payload with
      | some p => if payload_len > 0 then verdict_payload buf (16 + NLMSG_ALIGN 4) p payload_len
                  else buf
      | none => buf
    if sendto_ret < 0 then ⟨-1, buf, [buf.take msg_len]⟩
    else ⟨0, buf, [buf.take msg_len]⟩

/-! ## The control plane of the daemon (`nfqueue_daemon.c`) -/

/-- The rules of the OUTPUT chain that the daemon adds and deletes: the ACCEPT
rule for packets with the mark 0x10DEAD, and the NFQUEUE rules for the TCP
ports 443 and 80 (queue 0), with and without `--queue-bypass`. -/
inductive Rule where
  | mark_accept
  | nfqueue_443_bypass
  | nfqueue_80_bypass
  | nfqueue_443
  | nfqueue_80
deriving DecidableEq

/-- The calls that the control plane makes: `system("which iptables ...")`,
`system("iptables -I OUTPUT ...")`, `system("iptables -A OUTPUT ...")`,
`system("iptables -D OUTPUT ...")`, `system("iptables -L OUTPUT ...")`, and
the calls into the queue worker and the thread library. -/
inductive DaemonOp where
  | which_iptables
  | iptables_insert (r : Rule)
  | iptables_append (r : Rule)
  | iptables_delete (r : Rule)
  | iptables_list
  | nfqueue_init
  | nfqueue_stop
  | nfqueue_cleanup
  | pthread_create
  | pthread_join
deriving DecidableEq

/-- What the host answers: the value that `system` returns for a command when
`k` calls have been made before it, and the return values of `nfqueue_init`
and `pthread_create`. -/
structure DaemonEnv where
  system_ret : Nat → DaemonOp → Int
  nfqueue_init_ret : Int
  pthread_create_ret : Int

/-- The state of the control plane: the flag `nfqueue_active`, the rules of the
daemon that stand in the OUTPUT chain, and the calls made so far. -/
structure Daemon where
  nfqueue_active : Nat
  rules : List Rule
  ops : List DaemonOp
deriving DecidableEq

/-- One call of `system`.  The host is taken to add a rule exactly when
`iptables -I` or `iptables -A` returns 0, and `iptables -D` to delete one
instance of the rule if there is one. -/
def system (env : DaemonEnv) (cmd : DaemonOp) (d : Daemon) : Int × Daemon :=
  let ret := env.system_ret d.ops.length cmd
  let rules :=
    match cmd with
    | .iptables_insert r => if ret = 0 then r :: d.rules else d.rules
    | .iptables_append r => if ret = 0 then d.rules ++ [r] else d.rules
    | .iptables_delete r => d.rules.erase r
    | _ => d.rules
  (ret, { d with rules := rules, ops := d.ops ++ [cmd] })

/-- A call from the control plane into the queue worker or the thread library. -/
def call (op : DaemonOp) (d : Daemon) : Daemon := { d with ops := d.ops ++ [op] }

/-- One pass of the loop of `clear_iptables`. -/
def clear_round (env : DaemonEnv) (d : Daemon) : Daemon :=
  let d := (system env (.iptables_delete .mark_accept) d).2
  let d := (system env (.iptables_delete .nfqueue_443) d).2
  let d := (system env (.iptables_delete .nfqueue_443_bypass) d).2
  let d := (system env (.iptables_delete .nfqueue_80) d).2
  (system env (.iptables_delete .nfqueue_80_bypass) d).2

/-- Function `clear_iptables()`: the loop runs 5 times. -/
def clear_iptables (env : DaemonEnv) (d : Daemon) : Int × Daemon :=
  (0, clear_round env (clear_round env (clear_round env (clear_round env (clear_round env d)))))

/-- Function `setup_iptables()`. -/
def setup_iptables (env : DaemonEnv) (d : Daemon) : Int × Daemon :=
  let d := (clear_iptables env d).2
  let check := system env .which_iptables d
  if check.1 ≠ 0 then (-1, check.2)
  else
    -- ret0 is only logged
    let r0 := system env (.iptables_insert .mark_accept) check.2
    let r1 := system env (.iptables_append .nfqueue_443_bypass) r0.2
    let r2 := system env (.iptables_append .nfqueue_80_bypass) r1.2
    if r1.1 ≠ 0 ∨ r2.1 ≠ 0 then
      let r1 := system env (.iptables_append .nfqueue_443) r2.2
      let r2 := system env (.iptables_append .nfqueue_80) r1.2
      if r1.1 ≠ 0 ∨ r2.1 ≠ 0 then (-1, r2.2)
      else (0, (system env .iptables_list r2.2).2)
    else (0, (system env .iptables_list r2.2).2)

/-- The commands of the control plane that change its state: a request whose
text holds the key `cmd` with the value `start`, and one that holds it with
the value `stop` and not with `start`. -/
inductive Command where
  | start
  | stop
deriving DecidableEq

/-- The responses to these commands: `status` is `ok` in `already_running`,
`running_true`, `not_running`, `running_false`, and `error` in
`iptables_failed`, `init_failed` (with the text of `nfqueue_get_error()`) and
`thread_failed`. -/
inductive Response where
  | already_running
  | iptables_failed
  | init_failed
  | thread_failed
  | running_true
  | not_running
  | running_false
deriving DecidableEq

/-- The `status` field of a response is `ok`. -/
def status_ok : Response → Bool
  | .already_running => true
  | .running_true => true
  | .not_running => true
  | .running_false => true
  | _ => false

/-- What handling one command gives: the return value, the response and the
state afterwards. -/
structure Handled where
  ret : Int
  response : Response
  state : Daemon
deriving DecidableEq

/-- The branch of `parse_and_execute_command` for the start command. -/
def start_command (env : DaemonEnv) (d : Daemon) : Handled :=
  if d.nfqueue_active ≠ 0 then ⟨0, .already_running, d⟩
  else
    let s := setup_iptables env d
    if s.1 < 0 then ⟨-1, .iptables_failed, s.2⟩
    else
      let d := call .nfqueue_init s.2
      if env.nfqueue_init_ret < 0 then ⟨-1, .init_failed, (clear_iptables env d).2⟩
      else
        let d := { d with nfqueue_active := 1 }
        let d := call .pthread_create d
        if env.pthread_create_ret ≠ 0 then
          let d := call .nfqueue_cleanup d
          let d := (clear_iptables env d).2
          ⟨-1, .thread_failed, { d with nfqueue_active := 0 }⟩
        else ⟨0, .running_true, d⟩

/-- The branch of `parse_and_execute_command` for the stop command. -/
def stop_command (env : DaemonEnv) (d : Daemon) : Handled :=
  if d.nfqueue_active = 0 then ⟨0, .not_running, d⟩
  else
    let d := call .nfqueue_stop d
    let d := call .pthread_join d
    let d := call .nfqueue_cleanup d
    let d := (clear_iptables env d).2
    ⟨0, .running_false, { d with nfqueue_active := 0 }⟩

/-- Function `parse_and_execute_command(cmd, response, resp_size)` on the
start and stop commands. -/
def parse_and_execute_command (env : DaemonEnv) (cmd : Command) (d : Daemon) : Handled :=
  match cmd with
  | .start => start_command env d
  | .stop => stop_command env d

/-- The 25 calls of `clear_iptables`. -/
def clear_ops : List DaemonOp :=
  (List.replicate 5 [DaemonOp.iptables_delete .mark_accept, .iptables_delete .nfqueue_443,
    .iptables_delete .nfqueue_443_bypass, .iptables_delete .nfqueue_80,
    .iptables_delete .nfqueue_80_bypass]).flatten

/-! ## Sample inputs -/

/-- A 49-byte frame: IPv4 header without options (id 0x1234, TCP), TCP header
without options (to port 80, seq 100), payload `xxHost:a` and a line feed. -/
def sample_http : List Nat :=
  [69, 0, 0, 49, 18, 52, 64, 0, 64, 6, 0, 0, 192, 168, 1, 2, 93, 184, 216, 34,
   192, 0, 0, 80, 0, 0, 0, 100, 0, 0, 0, 1, 80, 24, 255, 255, 0, 0, 0, 0,
   120, 120, 72, 111, 115, 116, 58, 97, 10]

/-- A 43-byte frame with the same headers and the 3-byte payload `1 2 3`. -/
def sample_short : List Nat :=
  [69, 0, 0, 43, 18, 52, 64, 0, 64, 6, 0, 0, 192, 168, 1, 2, 93, 184, 216, 34,
   192, 0, 0, 80, 0, 0, 0, 100, 0, 0, 0, 1, 80, 24, 255, 255, 0, 0, 0, 0,
   1, 2, 3]

/-- The global state with an open raw socket, the given method,
`first_packet_size`, `split_count` and `mix_host_case`, and the defaults of
`g_bypass` elsewhere. -/
def sample_g (method first_packet_size split_count : Nat) (mix : Bool) : GBypass :=
  { settings := { method := method, first_packet_size := first_packet_size,
                  split_delay_ms := 50, split_count := split_count, desync_https := true,
                  desync_http := true, mix_host_case := mix, block_quic := true },
    stats := { packets_total := 0, packets_bypassed := 0, packets_dropped := 0,
               bytes_total := 0 },
    whitelist := [], whitelist_count := 0, raw_socket := 3, packet_mark := 0x10DEAD,
    raw_socket_initialized := true }

/-- A world in which every `malloc` and every `sendto` succeeds. -/
def sample_world : World := { malloc_ok := fun _ => true, sendto_ret := fun _ => 0 }

/-- The 43 fixed bytes of a ClientHello: record header (handshake, TLS 1.0,
length 76), handshake header (ClientHello, length 72), version 3.3 and a
random of zeros. -/
def sample_fixed : List Nat := [22, 3, 1, 0, 76, 1, 0, 0, 72, 3, 3] ++ List.replicate 32 0

/-- The name `api.github.com`. -/
def sample_name : List Nat := [97, 112, 105, 46, 103, 105, 116, 104, 117, 98, 46, 99, 111, 109]

/-- A ClientHello of 81 bytes: empty session id, one cipher suite, one
compression method, a supported_groups extension and the server_name extension
for `api.github.com`; `ext_len` is what its extensions length field holds
(29 is the length of the two extensions). -/
def sample_client_hello (ext_len : Nat) : List Nat :=
  client_hello_head sample_fixed [] [19, 1] [0] ext_len
    ++ (encode_exts [(10, [0, 29])] ++ (sni_extension sample_name ++ []))

/-- A frame with an IPv4 header of 20 bytes that holds `tot_len` as total
length and `protocol` as protocol, then 20 bytes that are a TCP header to port
`dst_port` (sequence number 100, data offset 5), then `payload`. -/
def sample_frame (tot_len protocol dst_port : Nat) (payload : List Nat) : List Nat :=
  [69, 0] ++ be16 tot_len ++ [18, 52, 64, 0, 64, protocol, 0, 0, 192, 168, 1, 2,
    93, 184, 216, 34, 192, 0] ++ be16 dst_port
    ++ [0, 0, 0, 100, 0, 0, 0, 1, 80, 24, 255, 255, 0, 0, 0, 0] ++ payload

/-- A packet as `parse_packet` fills it for the frame `frame` (packet id 1, no
mark), nothing behind the frame. -/
def sample_packet (frame : List Nat) : NfqueuePacket :=
  parse_payload ⟨1, 0, [], [], 0, 0, 0, 0, 0⟩ frame []

/-- A ClientHello stub of 32 bytes: record header, handshake header, version
and zeros. -/
def sample_hello_stub : List Nat := [22, 3, 1, 0, 27, 1, 0, 0, 23, 3, 3] ++ List.replicate 21 0

/-- A UDP datagram of 28 bytes to port 443: IPv4 header, UDP header, no data. -/
def sample_udp_short : List Nat :=
  [69, 0, 0, 28, 18, 52, 64, 0, 64, 17, 0, 0, 192, 168, 1, 2, 93, 184, 216, 34,
   192, 0, 1, 187, 0, 8, 0, 0]

/-- The kernel answers of a device on which a raw socket can be opened. -/
def sample_env : SocketEnv := { socket_ret := 3, hdrincl_ret := 0, so_mark_ret := 0 }

/-- The whitelist row `github.com` with its terminator. -/
def sample_entry : List Nat := [103, 105, 116, 104, 117, 98, 46, 99, 111, 109, 0]

/-- The sample state with the one whitelist row `github.com`. -/
def sample_g_whitelist : GBypass :=
  { sample_g 1 2 4 false with whitelist := [sample_entry], whitelist_count := 1 }

/-- A world in which every `malloc` succeeds and the second `sendto` fails. -/
def sample_world_fail : World :=
  { malloc_ok := fun _ => true, sendto_ret := fun k => if k = 1 then -1 else 0 }

/-- A ClientHello of 58 bytes without a server_name extension, whose
extensions length field holds 65535. -/
def sample_hello_no_sni : List Nat :=
  client_hello_head sample_fixed [] [19, 1] [0] 65535 ++ encode_exts [(10, [0, 29])]

/-- The request `GET /index.html HTTP/1.1`, `Host: example.com` and an empty
line, each line ended by CR LF: 47 bytes. -/
def sample_request : List Nat :=
  [71, 69, 84, 32, 47, 105, 110, 100, 101, 120, 46, 104, 116, 109, 108, 32, 72, 84, 84, 80, 47,
   49, 46, 49, 13, 10, 72, 111, 115, 116, 58, 32, 101, 120, 97, 109, 112, 108, 101, 46, 99, 111,
   109, 13, 10, 13, 10]

/-- An IPv4 header of 20 bytes (TCP, 192.168.1.2 to 93.184.216.34) and the
two ports 49152 and 443 behind it. -/
def sample_ip24 : List Nat :=
  [69, 0, 0, 24, 18, 52, 64, 0, 64, 6, 0, 0, 192, 168, 1, 2, 93, 184, 216, 34, 192, 0, 1, 187]

/-- The attributes of a packet message in the order of the kernel: PACKET_HDR
(packet id, hw_protocol 0x0800, hook 3), MARK, PAYLOAD. -/
def sample_nl_attrs (id mark : Nat) : List NlAttr :=
  [⟨1, be32 id ++ [8, 0, 3], [0]⟩, ⟨3, be32 mark, []⟩, ⟨10, sample_ip24, []⟩]

/-- A netlink message of 68 bytes with these attributes. -/
def sample_nl_message (nlmsg_type id mark : Nat) : List Nat :=
  nl_message 68 nlmsg_type [0, 0, 0, 0, 0, 0, 0, 0, 0, 0] [2, 0, 0, 0] (sample_nl_attrs id mark)

/-- The packet that the attributes of `sample_nl_message` describe. -/
def sample_nl_view (id mark : Nat) : PacketView :=
  ⟨id, mark, some 44, 24, 6, load32 sample_ip24 12, load32 sample_ip24 16, 49152, 443⟩

/-- A message whose `nlmsg_len` is 24 and whose only attribute, a PAYLOAD,
gives its length as 28; 24 bytes of the receive buffer stand behind the
message. -/
def sample_nl_overread : List Nat :=
  le32 24 ++ le16 771 ++ [0, 0, 0, 0, 0, 0, 0, 0, 0, 0] ++ [2, 0, 0, 0]
    ++ le16 28 ++ le16 10 ++ sample_ip24

/-- A message whose `nlmsg_len` is 36: a PACKET_HDR with packet id 7 and a
PAYLOAD header that gives its length as 14, with nothing of the body inside
the message. -/
def sample_nl_outside : List Nat :=
  le32 36 ++ le16 771 ++ [0, 0, 0, 0, 0, 0, 0, 0, 0, 0] ++ [2, 0, 0, 0]
    ++ encode_nla ⟨1, be32 7 ++ [8, 0, 3], [0]⟩ ++ le16 14 ++ le16 10
    ++ [1, 2, 3, 4, 5, 6, 7, 8, 9, 10]

/-- A message whose `nlmsg_len` is 21: one byte behind `struct nfgenmsg`. -/
def sample_nl_odd : List Nat :=
  le32 21 ++ le16 771 ++ [0, 0, 0, 0, 0, 0, 0, 0, 0, 0] ++ [2, 0, 0, 0] ++ [8, 0, 1, 0, 0, 0, 0, 7]

/-- A frame of 40 bytes whose IPv4 header gives its length as 32 bytes (`ihl`
8), protocol TCP. -/
def sample_options_frame : List Nat :=
  [72, 0, 0, 40, 18, 52, 64, 0, 64, 6, 0, 0, 192, 168, 1, 2, 93, 184, 216, 34]
    ++ List.replicate 20 0

/-- A frame of 60 bytes whose IPv4 header fills it (`ihl` 15), protocol TCP. -/
def sample_options_frame60 : List Nat :=
  [79, 0, 0, 60, 18, 52, 64, 0, 64, 6, 0, 0, 192, 168, 1, 2, 93, 184, 216, 34]
    ++ List.replicate 40 0

/-- A host on which every command succeeds, `nfqueue_init` and
`pthread_create` too. -/
def sample_host : DaemonEnv :=
  { system_ret := fun _ _ => 0, nfqueue_init_ret := 0, pthread_create_ret := 0 }

/-- A host that refuses the NFQUEUE rule for port 80, with and without
`--queue-bypass`, and accepts every other command. -/
def sample_host_no80 : DaemonEnv :=
  { system_ret := fun _ cmd =>
      if cmd = .iptables_append .nfqueue_80_bypass ∨ cmd = .iptables_append .nfqueue_80 then 256
      else 0,
    nfqueue_init_ret := 0, pthread_create_ret := 0 }

/-- The control plane at the start of the daemon: stopped, none of its rules
in the chain, no call made. -/
def sample_daemon : Daemon := { nfqueue_active := 0, rules := [], ops := [] }

/-- The queue worker state with queue 0 and a send buffer of 4096 bytes that
hold 255. -/
def sample_nfq : GNfq :=
  { nl_socket := 4, queue_num := 0, send_buffer := List.replicate 4096 255 }

/-! ## Arithmetic of the one's-complement sum -/

/-- Sum of the 16-bit words of a byte string read on the little-endian host. -/
def wsum_le : List Nat → Nat
  | a :: b :: t => a + 256 * b + wsum_le t
  | [a] => a
  | [] => 0

/-- Sum of the 16-bit words of a byte string read in network byte order. -/
def wsum_be : List Nat → Nat
  | a :: b :: t => 256 * a + b + wsum_be t
  | [a] => 256 * a
  | [] => 0

theorem fold_carry_spec (s : Nat) (hs : s < 2 ^ 32) :
    fold_carry s < 65536 ∧ fold_carry s % 65535 = s % 65535 ∧ (fold_carry s = 0 ↔ s = 0) := by
  induction s using Nat.strong_induction_on with
  | _ s ih =>
    rw [fold_carry]
    split
    · rename_i h
      have he : (s % 65536 + s / 65536) % 2 ^ 32 = s % 65536 + s / 65536 :=
        Nat.mod_eq_of_lt (by omega)
      rw [he]
      obtain ⟨h1, h2, h3⟩ := ih (s % 65536 + s / 65536) (by omega) (by omega)
      refine ⟨h1, ?_, ?_⟩
      · rw [h2]; omega
      · rw [h3]; omega
    · rename_i h
      simp only [ne_eq, Decidable.not_not] at h
      refine ⟨by omega, rfl, Iff.rfl⟩

theorem wsum_be_mod (l : List Nat) : wsum_be l % 65535 = (256 * wsum_le l) % 65535 := by
  induction l using wsum_le.induct with
  | case1 a b t ih => simp only [wsum_be, wsum_le]; omega
  | case2 a => simp only [wsum_be, wsum_le]
  | case3 => simp [wsum_be, wsum_le]

theorem wsum_le_append (a b : List Nat) (h : a.length % 2 = 0) :
    wsum_le (a ++ b) = wsum_le a + wsum_le b := by
  induction a using wsum_le.induct with
  | case1 x y t ih =>
    simp only [List.length_cons] at h
    rw [List.cons_append, List.cons_append, wsum_le, wsum_le, ih (by omega)]; omega
  | case2 x => simp at h
  | case3 => simp [wsum_le]

theorem wsum_be_zero_iff (l : List Nat) : wsum_be l = 0 ↔ ∀ b ∈ l, b = 0 := by
  induction l using wsum_le.induct with
  | case1 x y t ih =>
    simp only [wsum_be, List.mem_cons, forall_eq_or_imp]
    rw [← ih]; omega
  | case2 x => simp [wsum_be]
  | case3 => simp [wsum_be]

theorem wsum_le_bound (l : List Nat) (h : bytes_ok l) : wsum_le l ≤ 65535 * ((l.length + 1) / 2) := by
  induction l using wsum_le.induct with
  | case1 x y t ih =>
    have hx : x < 256 := h x (by simp)
    have hy : y < 256 := h y (by simp)
    have := ih (fun b hb => h b (by simp [hb]))
    simp only [wsum_le, List.length_cons]
    omega
  | case2 x => have hx : x < 256 := h x (by simp); simp [wsum_le]; omega
  | case3 => simp [wsum_le]

theorem words_be_sum (l : List Nat) : (words_be l).sum = wsum_be l := by
  induction l using wsum_le.induct with
  | case1 x y t ih => simp [words_be, wsum_be, ih]
  | case2 x => simp [words_be, wsum_be]
  | case3 => simp [words_be, wsum_be]

theorem words_be_le (l : List Nat) (h : bytes_ok l) : ∀ w ∈ words_be l, w ≤ 65535 := by
  induction l using wsum_le.induct with
  | case1 x y t ih =>
    have hx : x < 256 := h x (by simp)
    have hy : y < 256 := h y (by simp)
    have := ih (fun b hb => h b (by simp [hb]))
    intro w hw
    simp only [words_be, List.mem_cons] at hw
    rcases hw with rfl | hw
    · omega
    · exact this w hw
  | case2 x =>
    have hx : x < 256 := h x (by simp)
    intro w hw
    simp only [words_be, List.mem_singleton] at hw
    omega
  | case3 => simp [words_be]

theorem oc_foldl_spec (ws : List Nat) (hw : ∀ w ∈ ws, w ≤ 65535) (a : Nat) (ha : a ≤ 65535) :
    ws.foldl oc_add a ≤ 65535 ∧ (ws.foldl oc_add a) % 65535 = (a + ws.sum) % 65535
      ∧ (ws.foldl oc_add a = 0 ↔ a + ws.sum = 0) := by
  induction ws generalizing a with
  | nil => simp [ha]
  | cons w t ih =>
    have hw0 : w ≤ 65535 := hw w (by simp)
    have hb : oc_add a w ≤ 65535 := by unfold oc_add; split <;> omega
    obtain ⟨h1, h2, h3⟩ := ih (fun x hx => hw x (by simp [hx])) (oc_add a w) hb
    simp only [List.foldl_cons, List.sum_cons]
    refine ⟨h1, ?_, ?_⟩
    · rw [h2]; unfold oc_add; split <;> omega
    · rw [h3]; unfold oc_add; split <;> omega

/-- A byte string whose little-endian word sum is a non-zero multiple of
65535 passes the receiver's check in network byte order. -/
theorem oc_sum_words_be (l : List Nat) (h : bytes_ok l) (hmod : wsum_le l % 65535 = 0)
    (hpos : ∃ b ∈ l, b ≠ 0) : oc_sum (words_be l) = 65535 := by
  obtain ⟨h1, h2, h3⟩ := oc_foldl_spec (words_be l) (words_be_le l h) 0 (by norm_num)
  simp only [Nat.zero_add, words_be_sum] at h2 h3
  have hbe : wsum_be l % 65535 = 0 := by rw [wsum_be_mod]; omega
  have hne : wsum_be l ≠ 0 := by
    rw [Ne, wsum_be_zero_iff]; push_neg; exact hpos
  unfold oc_sum
  have : List.foldl oc_add 0 (words_be l) ≠ 0 := fun hz => hne (h3.mp hz)
  omega

/-! ## The summing loops -/

theorem load8_eq (mem : List Nat) (off : Nat) (h : off < mem.length) : load8 mem off = mem[off] := by
  unfold load8; exact List.getD_eq_getElem mem 0 h

theorem drop_two (mem : List Nat) (off : Nat) (h : off + 2 ≤ mem.length) :
    mem.drop off = load8 mem off :: load8 mem (off + 1) :: mem.drop (off + 2) := by
  rw [List.drop_eq_getElem_cons (by omega : off < mem.length),
    List.drop_eq_getElem_cons (by omega : off + 1 < mem.length),
    load8_eq mem off (by omega), load8_eq mem (off + 1) (by omega)]

theorem sum_words_eq (mem : List Nat) (len off sum : Nat) (h : off + len ≤ mem.length)
    (hs : sum < 2 ^ 32) :
    sum_words mem len off sum
      = ((sum + wsum_le ((mem.drop off).take (len - len % 2))) % 2 ^ 32,
          off + (len - len % 2), len % 2) := by
  induction len using Nat.strong_induction_on generalizing off sum with
  | _ len ih =>
    match len with
    | 0 => simp [sum_words, wsum_le]; omega
    | 1 => simp [sum_words, wsum_le]; omega
    | n + 2 =>
      rw [sum_words, ih n (by omega) (off + 2) _ (by omega) (Nat.mod_lt _ (by norm_num))]
      have e1 : n + 2 - (n + 2) % 2 = (n - n % 2) + 2 := by omega
      rw [e1, drop_two mem off (by omega), List.take_succ_cons, List.take_succ_cons, wsum_le]
      unfold load16 load8
      refine Prod.ext ?_ (Prod.ext ?_ ?_)
      · simp only; omega
      · simp only; omega
      · simp only; omega

/-- The two summing steps of the checksum functions over a region of `len`
bytes at `off`: all whole words, then the odd final byte. -/
theorem sum_region_eq (mem : List Nat) (len off sum : Nat) (h : off + len ≤ mem.length)
    (hs : sum < 2 ^ 32) :
    (if (sum_words mem len off sum).2.2 = 1 then
        ((sum_words mem len off sum).1 + load8 mem (sum_words mem len off sum).2.1) % 2 ^ 32
      else (sum_words mem len off sum).1)
      = (sum + wsum_le ((mem.drop off).take len)) % 2 ^ 32 := by
  rw [sum_words_eq mem len off sum h hs]
  simp only
  rcases Nat.mod_two_eq_zero_or_one len with h0 | h1
  · simp [h0]
  · have hl : len = (len - len % 2) + 1 := by omega
    have hsplit : (mem.drop off).take len
        = (mem.drop off).take (len - len % 2) ++ [load8 mem (off + (len - len % 2))] := by
      conv_lhs => rw [hl]
      rw [List.take_succ, List.getElem?_drop,
        List.getElem?_eq_getElem (by omega : off + (len - len % 2) < mem.length)]
      simp [load8_eq mem _ (by omega : off + (len - len % 2) < mem.length)]
    rw [hsplit, wsum_le_append _ _ (by simp [List.length_take, List.length_drop]; omega)]
    simp only [h1, if_true, wsum_le]
    omega

/-! ## What the checksum functions return -/

theorem load8_lt (mem : List Nat) (hb : bytes_ok mem) (i : Nat) : load8 mem i < 256 := by
  unfold load8
  by_cases h : i < mem.length
  · rw [List.getD_eq_getElem mem 0 h]; exact hb _ (List.getElem_mem h)
  · rw [List.getD_eq_default mem 0 (by omega)]; norm_num

theorem bytes_ok_take (mem : List Nat) (hb : bytes_ok mem) (n : Nat) : bytes_ok (mem.take n) :=
  fun b h => hb b (List.mem_of_mem_take h)

theorem bytes_ok_drop (mem : List Nat) (hb : bytes_ok mem) (n : Nat) : bytes_ok (mem.drop n) :=
  fun b h => hb b (List.mem_of_mem_drop h)

theorem bytes_ok_append (a b : List Nat) (ha : bytes_ok a) (hb : bytes_ok b) : bytes_ok (a ++ b) := by
  intro x hx
  rcases List.mem_append.mp hx with h | h
  · exact ha x h
  · exact hb x h

theorem bytes_ok_set (mem : List Nat) (hb : bytes_ok mem) (i v : Nat) (hv : v < 256) :
    bytes_ok (mem.set i v) := by
  intro x hx
  rcases List.mem_or_eq_of_mem_set hx with h | h
  · exact hb x h
  · omega

theorem bytes_ok_store16 (mem : List Nat) (hb : bytes_ok mem) (off v : Nat) :
    bytes_ok (store16 mem off v) := by
  unfold store16
  exact bytes_ok_set _ (bytes_ok_set _ hb _ _ (Nat.mod_lt _ (by norm_num))) _ _
    (Nat.mod_lt _ (by norm_num))

theorem bytes_ok_store32 (mem : List Nat) (hb : bytes_ok mem) (off v : Nat) :
    bytes_ok (store32 mem off v) := by
  unfold store32
  exact bytes_ok_set _ (bytes_ok_set _ (bytes_ok_set _ (bytes_ok_set _ hb _ _
    (Nat.mod_lt _ (by norm_num))) _ _ (Nat.mod_lt _ (by norm_num))) _ _
    (Nat.mod_lt _ (by norm_num))) _ _ (Nat.mod_lt _ (by norm_num))

theorem calculate_ip_checksum_eq (mem : List Nat) (hb : bytes_ok mem)
    (hl : ip_hdr_len mem ≤ mem.length) :
    calculate_ip_checksum mem = 65535 - fold_carry (wsum_le (mem.take (ip_hdr_len mem))) := by
  unfold calculate_ip_checksum
  have hr := sum_region_eq mem (ip_ihl mem * 4) 0 0 (by unfold ip_hdr_len at hl; omega) (by norm_num)
  simp only at hr ⊢
  rw [hr]
  have hih : ip_ihl mem < 16 := Nat.mod_lt _ (by norm_num)
  have hbd := wsum_le_bound (mem.take (ip_hdr_len mem)) (bytes_ok_take mem hb _)
  have hlen : (mem.take (ip_hdr_len mem)).length ≤ 60 := by
    rw [List.length_take]; unfold ip_hdr_len; omega
  have hw : wsum_le (mem.take (ip_hdr_len mem)) < 2 ^ 32 := by
    have : ((mem.take (ip_hdr_len mem)).length + 1) / 2 ≤ 30 := by omega
    calc wsum_le (mem.take (ip_hdr_len mem)) ≤ 65535 * (((mem.take (ip_hdr_len mem)).length + 1) / 2) := hbd
      _ ≤ 65535 * 30 := Nat.mul_le_mul_left _ this
      _ < 2 ^ 32 := by norm_num
  simp only [List.drop_zero, Nat.zero_add]
  change (2 ^ 32 - 1 - fold_carry (wsum_le (mem.take (ip_hdr_len mem)) % 2 ^ 32)) % 65536 = _
  rw [Nat.mod_eq_of_lt hw]
  have := (fold_carry_spec _ hw).1
  omega

theorem load32_hi (mem : List Nat) (hb : bytes_ok mem) (o : Nat) :
    load32 mem o / 65536 % 65536 = load8 mem (o + 2) + 256 * load8 mem (o + 3) := by
  have h0 := load8_lt mem hb o
  have h1 := load8_lt mem hb (o + 1)
  have h2 := load8_lt mem hb (o + 2)
  have h3 := load8_lt mem hb (o + 3)
  unfold load32; unfold load8 at *; omega

theorem load32_lo (mem : List Nat) (hb : bytes_ok mem) (o : Nat) :
    load32 mem o % 65536 = load8 mem o + 256 * load8 mem (o + 1) := by
  have h0 := load8_lt mem hb o
  have h1 := load8_lt mem hb (o + 1)
  unfold load32; unfold load8 at *; omega

theorem htons_lt (x : Nat) (h : x < 65536) : htons x = x % 256 * 256 + x / 256 := by
  unfold htons; omega

theorem wsum_le_tcp_pseudo (mem : List Nat) :
    wsum_le (tcp_pseudo mem)
      = (load8 mem 12 + 256 * load8 mem 13) + (load8 mem 14 + 256 * load8 mem 15)
        + (load8 mem 16 + 256 * load8 mem 17) + (load8 mem 18 + 256 * load8 mem 19)
        + 256 * 6
        + ((mem.length - ip_hdr_len mem) / 256 + 256 * ((mem.length - ip_hdr_len mem) % 256)) := by
  simp only [tcp_pseudo, wsum_le]; omega

theorem pseudo_sum_eq (mem : List Nat) (hb : bytes_ok mem) (tl : Nat)
    (htl : tl = mem.length - ip_hdr_len mem) (hsz : tl ≤ 65535) :
    (((((((0 + load32 mem 12 / 65536 % 65536) % 2 ^ 32 + load32 mem 12 % 65536) % 2 ^ 32
      + load32 mem 16 / 65536 % 65536) % 2 ^ 32 + load32 mem 16 % 65536) % 2 ^ 32
      + htons 6) % 2 ^ 32 + htons (tl % 2 ^ 32 % 65536)) % 2 ^ 32)
      = wsum_le (tcp_pseudo mem) := by
  have h12 := load8_lt mem hb 12
  have h13 := load8_lt mem hb 13
  have h14 := load8_lt mem hb 14
  have h15 := load8_lt mem hb 15
  have h16 := load8_lt mem hb 16
  have h17 := load8_lt mem hb 17
  have h18 := load8_lt mem hb 18
  have h19 := load8_lt mem hb 19
  have hF : htons (tl % 2 ^ 32 % 65536) = tl / 256 + 256 * (tl % 256) := by
    unfold htons; omega
  rw [wsum_le_tcp_pseudo, ← htl, load32_hi mem hb 12, load32_lo mem hb 12, load32_hi mem hb 16,
    load32_lo mem hb 16, htons_lt 6 (by norm_num), hF]
  simp only [Nat.reduceAdd]
  have hFb : tl / 256 + 256 * (tl % 256) ≤ 65535 := by omega
  generalize tl / 256 + 256 * (tl % 256) = F at *
  clear hF
  omega

theorem calculate_tcp_checksum_eq (mem : List Nat) (hb : bytes_ok mem) (n : Nat)
    (hlen : ip_hdr_len mem + tcp_doff mem (ip_hdr_len mem) * 4 + n = mem.length)
    (hsz : mem.length ≤ 65535) :
    calculate_tcp_checksum mem (ip_hdr_len mem)
        (ip_hdr_len mem + tcp_doff mem (ip_hdr_len mem) * 4) n
      = 65535 - fold_carry (wsum_le (tcp_pseudo mem ++ mem.drop (ip_hdr_len mem))) := by
  have h12 := load8_lt mem hb 12
  have h13 := load8_lt mem hb 13
  have h14 := load8_lt mem hb 14
  have h15 := load8_lt mem hb 15
  have h16 := load8_lt mem hb 16
  have h17 := load8_lt mem hb 17
  have h18 := load8_lt mem hb 18
  have h19 := load8_lt mem hb 19
  set h1 := ip_hdr_len mem with hh1
  set h2 := tcp_doff mem h1 * 4 with hh2
  have hdo : tcp_doff mem h1 < 16 := Nat.mod_lt _ (by norm_num)
  -- the three regions
  have hsplit : mem.drop h1 = (mem.drop h1).take h2 ++ (mem.drop (h1 + h2)).take n := by
    have e : (mem.drop (h1 + h2)).take n = (mem.drop h1).drop h2 := by
      rw [List.drop_drop, List.take_of_length_le (by rw [List.length_drop]; omega)]
    rw [e, List.take_append_drop]
  have hhdr_len : ((mem.drop h1).take h2).length = h2 := by
    rw [List.length_take, List.length_drop]; omega
  have hw : wsum_le (tcp_pseudo mem ++ mem.drop h1)
      = wsum_le (tcp_pseudo mem) + wsum_le ((mem.drop h1).take h2)
        + wsum_le ((mem.drop (h1 + h2)).take n) := by
    rw [wsum_le_append _ _ (by simp [tcp_pseudo])]
    conv_lhs => rw [hsplit]
    rw [wsum_le_append _ _ (by rw [hhdr_len]; omega)]
    omega
  have hbh := wsum_le_bound ((mem.drop h1).take h2) (bytes_ok_take _ (bytes_ok_drop mem hb _) _)
  have hbp := wsum_le_bound ((mem.drop (h1 + h2)).take n)
    (bytes_ok_take _ (bytes_ok_drop mem hb _) _)
  have hpl : ((mem.drop (h1 + h2)).take n).length = n := by
    rw [List.length_take, List.length_drop]; omega
  rw [hhdr_len] at hbh
  rw [hpl] at hbp
  have hbh2 : wsum_le ((mem.drop h1).take h2) ≤ 65535 * 30 :=
    le_trans hbh (Nat.mul_le_mul_left _ (by omega))
  have hbp2 : wsum_le ((mem.drop (h1 + h2)).take n) ≤ 65535 * 32768 :=
    le_trans hbp (Nat.mul_le_mul_left _ (by omega))
  have hps := wsum_le_tcp_pseudo mem
  rw [← hh1] at hps
  have hn31 : n < 2 ^ 31 := by omega
  unfold calculate_tcp_checksum
  simp only [if_pos hn31]
  have hw1 := sum_words_eq mem h2 h1
  have he2 : h2 - h2 % 2 = h2 := by omega
  simp only [he2] at hw1
  -- the pseudo-header sum
  set s0 := (((((((0 + load32 mem 12 / 65536 % 65536) % 2 ^ 32 + load32 mem 12 % 65536) % 2 ^ 32
      + load32 mem 16 / 65536 % 65536) % 2 ^ 32 + load32 mem 16 % 65536) % 2 ^ 32
      + htons 6) % 2 ^ 32 + htons ((h2 + n) % 2 ^ 32 % 65536)) % 2 ^ 32) with hs0
  have hs0v : s0 = wsum_le (tcp_pseudo mem) :=
    pseudo_sum_eq mem hb (h2 + n) (by omega) (by omega)
  have hs0lt : s0 < 2 ^ 32 := Nat.mod_lt _ (by norm_num)
  rw [hw1 s0 (by omega) hs0lt]
  simp only
  have hreg := sum_region_eq mem n (h1 + h2) ((s0 + wsum_le ((mem.drop h1).take h2)) % 2 ^ 32)
    (by omega) (Nat.mod_lt _ (by norm_num))
  simp only at hreg
  rw [hreg, hw, ← hs0v]
  have htot : s0 + wsum_le ((mem.drop h1).take h2) + wsum_le ((mem.drop (h1 + h2)).take n)
      < 2 ^ 32 := by
    rw [hs0v, hps]; omega
  have hm1 : (s0 + wsum_le ((mem.drop h1).take h2)) % 2 ^ 32
      = s0 + wsum_le ((mem.drop h1).take h2) := Nat.mod_eq_of_lt (by omega)
  rw [hm1, Nat.mod_eq_of_lt htot]
  have := (fold_carry_spec _ htot).1
  omega

/-! ## Stores -/

theorem length_store16 (m : List Nat) (o v : Nat) : (store16 m o v).length = m.length := by
  simp [store16]

theorem length_store32 (m : List Nat) (o v : Nat) : (store32 m o v).length = m.length := by
  simp [store32]

theorem load8_set_ne (m : List Nat) (o v i : Nat) (h : o ≠ i) :
    load8 (m.set o v) i = load8 m i := by
  unfold load8
  rw [List.getD_eq_getElem?_getD, List.getD_eq_getElem?_getD, List.getElem?_set_ne h]

theorem load8_store16_ne (m : List Nat) (o v i : Nat) (h1 : i ≠ o) (h2 : i ≠ o + 1) :
    load8 (store16 m o v) i = load8 m i := by
  unfold store16
  rw [load8_set_ne _ _ _ _ (by omega), load8_set_ne _ _ _ _ (by omega)]

theorem load8_store32_ne (m : List Nat) (o v i : Nat) (h : i < o ∨ o + 4 ≤ i) :
    load8 (store32 m o v) i = load8 m i := by
  unfold store32
  rw [load8_set_ne _ _ _ _ (by omega), load8_set_ne _ _ _ _ (by omega),
    load8_set_ne _ _ _ _ (by omega), load8_set_ne _ _ _ _ (by omega)]

theorem load8_set_eq (m : List Nat) (o v : Nat) (h : o < m.length) : load8 (m.set o v) o = v := by
  unfold load8
  rw [List.getD_eq_getElem?_getD, List.getElem?_set, if_pos rfl, if_pos h]; rfl

theorem store16_take (m : List Nat) (o v n : Nat) :
    (store16 m o v).take n = store16 (m.take n) o v := by
  unfold store16; rw [List.set_take, List.set_take]

theorem take_set_le (m : List Nat) (o v n : Nat) (h : n ≤ o) :
    (m.set o v).take n = m.take n := by
  rw [List.set_take, List.set_eq_of_length_le]
  rw [List.length_take]; omega

theorem take_set_le' {α : Type} (m : List α) (o : Nat) (v : α) :
    (m.set o v).take o = m.take o := by
  rw [List.set_take, List.set_eq_of_length_le]
  rw [List.length_take]; omega

theorem store16_take_le (m : List Nat) (o v n : Nat) (h : n ≤ o) :
    (store16 m o v).take n = m.take n := by
  unfold store16
  rw [take_set_le _ _ _ _ (by omega), take_set_le _ _ _ _ (by omega)]

theorem store32_take_le (m : List Nat) (o v n : Nat) (h : n ≤ o) :
    (store32 m o v).take n = m.take n := by
  unfold store32
  rw [take_set_le _ _ _ _ (by omega), take_set_le _ _ _ _ (by omega),
    take_set_le _ _ _ _ (by omega), take_set_le _ _ _ _ (by omega)]

theorem store16_drop_ge (m : List Nat) (o v n : Nat) (h : o + 2 ≤ n) :
    (store16 m o v).drop n = m.drop n := by
  unfold store16
  rw [List.drop_set_of_lt _ _ (by omega), List.drop_set_of_lt _ _ (by omega)]

theorem store32_drop_ge (m : List Nat) (o v n : Nat) (h : o + 4 ≤ n) :
    (store32 m o v).drop n = m.drop n := by
  unfold store32
  rw [List.drop_set_of_lt _ _ (by omega), List.drop_set_of_lt _ _ (by omega),
    List.drop_set_of_lt _ _ (by omega), List.drop_set_of_lt _ _ (by omega)]

theorem store16_drop_le (m : List Nat) (o v n : Nat) (h : n ≤ o) :
    (store16 m o v).drop n = store16 (m.drop n) (o - n) v := by
  unfold store16
  rw [List.drop_set, if_neg (by omega), List.drop_set, if_neg (by omega)]
  have : o + 1 - n = o - n + 1 := by omega
  rw [this]

theorem store16_eq (m : List Nat) (o v : Nat) (h : o + 2 ≤ m.length) :
    store16 m o v = m.take o ++ (v % 256) :: (v / 256 % 256) :: m.drop (o + 2) := by
  induction o generalizing m with
  | zero =>
    match m, h with
    | a :: b :: t, _ => simp [store16]
  | succ k ih =>
    match m, h with
    | a :: t, h =>
      have := ih t (by simpa using h)
      simp only [store16] at this ⊢
      simp [this]

theorem wsum_le_store16 (m : List Nat) (o v : Nat) (h : o + 2 ≤ m.length) (he : o % 2 = 0)
    (hv : v < 65536) : wsum_le (store16 m o v) + load16 m o = wsum_le m + v := by
  have hm : m = m.take o ++ load8 m o :: load8 m (o + 1) :: m.drop (o + 2) := by
    conv_lhs => rw [← List.take_append_drop o m, drop_two m o h]
  have hlen : (m.take o).length % 2 = 0 := by rw [List.length_take]; omega
  rw [store16_eq m o v h, wsum_le_append _ _ hlen]
  conv_rhs => rw [hm, wsum_le_append _ _ hlen]
  simp only [wsum_le, load16, load8]
  omega

theorem load16_store16 (m : List Nat) (o v : Nat) (h : o + 2 ≤ m.length) :
    load16 (store16 m o v) o = v % 65536 := by
  have h0 : load8 (store16 m o v) o = v % 256 := by
    unfold store16
    rw [load8_set_ne _ _ _ _ (by omega), load8_set_eq _ _ _ (by omega)]
  have h1 : load8 (store16 m o v) (o + 1) = v / 256 % 256 := by
    unfold store16
    rw [load8_set_eq _ _ _ (by simp; omega)]
  unfold load8 at h0 h1
  unfold load16
  rw [h0, h1]; omega

theorem ip_hdr_len_congr (q r : List Nat) (h : load8 r 0 = load8 q 0) :
    ip_hdr_len r = ip_hdr_len q := by
  unfold ip_hdr_len ip_ihl; rw [h]

theorem load8_take (m : List Nat) (n i : Nat) (h : i < n) : load8 (m.take n) i = load8 m i := by
  unfold load8
  rw [List.getD_eq_getElem?_getD, List.getD_eq_getElem?_getD, List.getElem?_take, if_pos h]

/-! ## A recomputed checksum verifies -/

theorem ip_hdr_len_store16 (q : List Nat) (o v : Nat) (h : 1 ≤ o) :
    ip_hdr_len (store16 q o v) = ip_hdr_len q :=
  ip_hdr_len_congr _ _ (load8_store16_ne q o v 0 (by omega) (by omega))

theorem ip_verify_congr (q r : List Nat) (h1 : 1 ≤ ip_hdr_len q)
    (h : r.take (ip_hdr_len q) = q.take (ip_hdr_len q)) : ip_verify r = ip_verify q := by
  have e : ip_hdr_len r = ip_hdr_len q := by
    apply ip_hdr_len_congr
    rw [← load8_take r (ip_hdr_len q) 0 (by omega), h, load8_take q _ 0 (by omega)]
  unfold ip_verify; rw [e, h]

theorem ip_rechecksum (q : List Nat) (hb : bytes_ok q) (h20 : 20 ≤ ip_hdr_len q)
    (hl : ip_hdr_len q ≤ q.length) :
    ip_verify (store16 (store16 q 10 0) 10 (calculate_ip_checksum (store16 q 10 0))) = 65535 := by
  set q0 := store16 q 10 0 with hq0
  have hb0 : bytes_ok q0 := bytes_ok_store16 q hb 10 0
  have hh0 : ip_hdr_len q0 = ip_hdr_len q := ip_hdr_len_store16 q 10 0 (by norm_num)
  have hl0 : q0.length = q.length := length_store16 q 10 0
  have hc := calculate_ip_checksum_eq q0 hb0 (by omega)
  rw [hh0] at hc
  set S := wsum_le (q0.take (ip_hdr_len q)) with hS
  set c := calculate_ip_checksum q0 with hcdef
  have hih : ip_hdr_len q ≤ 60 := by
    unfold ip_hdr_len ip_ihl; have := Nat.mod_lt (load8 q 0) (by norm_num : 16 > 0); omega
  have hSlt : S < 2 ^ 32 := by
    have hbd := wsum_le_bound (q0.take (ip_hdr_len q)) (bytes_ok_take q0 hb0 _)
    have hlen : (q0.take (ip_hdr_len q)).length ≤ 60 := by rw [List.length_take]; omega
    calc S ≤ 65535 * (((q0.take (ip_hdr_len q)).length + 1) / 2) := hbd
      _ ≤ 65535 * 30 := Nat.mul_le_mul_left _ (by omega)
      _ < 2 ^ 32 := by norm_num
  obtain ⟨hf1, hf2, -⟩ := fold_carry_spec S hSlt
  set q1 := store16 q0 10 c with hq1
  have hh1 : ip_hdr_len q1 = ip_hdr_len q := by
    rw [hq1, ip_hdr_len_store16 q0 10 c (by norm_num), hh0]
  have hb1 : bytes_ok q1 := bytes_ok_store16 q0 hb0 10 c
  have htake : q1.take (ip_hdr_len q) = store16 (q0.take (ip_hdr_len q)) 10 c := store16_take _ _ _ _
  have hzero : load16 (q0.take (ip_hdr_len q)) 10 = 0 := by
    rw [hq0, store16_take, load16_store16 _ _ _ (by rw [List.length_take]; omega)]
  have hsum := wsum_le_store16 (q0.take (ip_hdr_len q)) 10 c
    (by rw [List.length_take]; omega) (by norm_num) (by omega)
  rw [hzero, ← htake, ← hS] at hsum
  unfold ip_verify
  rw [hh1]
  apply oc_sum_words_be _ (bytes_ok_take q1 hb1 _)
  · omega
  · have hne : load8 q1 0 ≠ 0 := by
      have e : load8 q1 0 = load8 q 0 := by
        rw [hq1, load8_store16_ne _ _ _ _ (by omega) (by omega), hq0,
          load8_store16_ne _ _ _ _ (by omega) (by omega)]
      rw [e]; unfold ip_hdr_len ip_ihl at h20; omega
    have hlt : 0 < (q1.take (ip_hdr_len q)).length := by
      rw [List.length_take, hq1, length_store16, hl0]; omega
    refine ⟨(q1.take (ip_hdr_len q))[0], List.getElem_mem hlt, ?_⟩
    rw [← load8_eq _ 0 hlt, load8_take _ _ _ (by omega)]
    exact hne

theorem tcp_pseudo_congr (q r : List Nat) (hlen : r.length = q.length)
    (h : r.take 20 = q.take 20) : tcp_pseudo r = tcp_pseudo q := by
  have e : ∀ i, i < 20 → load8 r i = load8 q i := fun i hi => by
    rw [← load8_take r 20 i hi, h, load8_take q 20 i hi]
  have eh : ip_hdr_len r = ip_hdr_len q := ip_hdr_len_congr _ _ (e 0 (by norm_num))
  unfold tcp_pseudo
  rw [hlen, eh, e 12 (by norm_num), e 13 (by norm_num), e 14 (by norm_num), e 15 (by norm_num),
    e 16 (by norm_num), e 17 (by norm_num), e 18 (by norm_num), e 19 (by norm_num)]

theorem bytes_ok_tcp_pseudo (q : List Nat) (hb : bytes_ok q) (hsz : q.length ≤ 65535) :
    bytes_ok (tcp_pseudo q) := by
  intro b hm
  have h := load8_lt q hb
  simp only [tcp_pseudo, List.mem_cons, List.mem_singleton, List.not_mem_nil, or_false] at hm
  rcases hm with rfl | rfl | rfl | rfl | rfl | rfl | rfl | rfl | rfl | rfl | rfl | rfl
  all_goals first | exact h _ | omega

theorem tcp_rechecksum (q : List Nat) (hb : bytes_ok q) (n : Nat) (h20 : 20 ≤ ip_hdr_len q)
    (h20t : 20 ≤ tcp_doff q (ip_hdr_len q) * 4)
    (hlen : ip_hdr_len q + tcp_doff q (ip_hdr_len q) * 4 + n = q.length)
    (hsz : q.length ≤ 65535) :
    tcp_verify (store16 (store16 q (ip_hdr_len q + 16) 0) (ip_hdr_len q + 16)
      (calculate_tcp_checksum (store16 q (ip_hdr_len q + 16) 0) (ip_hdr_len q)
        (ip_hdr_len q + tcp_doff q (ip_hdr_len q) * 4) n)) = 65535 := by
  set h1 := ip_hdr_len q with hh1
  set h2 := tcp_doff q h1 * 4 with hh2
  set q0 := store16 q (h1 + 16) 0 with hq0
  have hb0 : bytes_ok q0 := bytes_ok_store16 q hb _ 0
  have hl0 : q0.length = q.length := length_store16 q _ 0
  have hi0 : ip_hdr_len q0 = h1 := ip_hdr_len_store16 q _ 0 (by omega)
  have hd0 : tcp_doff q0 h1 = tcp_doff q h1 := by
    unfold tcp_doff; rw [hq0, load8_store16_ne _ _ _ _ (by omega) (by omega)]
  have hc := calculate_tcp_checksum_eq q0 hb0 n (by rw [hi0, hd0, hl0]; exact hlen)
    (by rw [hl0]; exact hsz)
  rw [hi0, hd0] at hc
  set T := wsum_le (tcp_pseudo q0 ++ q0.drop h1) with hT
  set c := calculate_tcp_checksum q0 h1 (h1 + h2) n with hcdef
  have hbT : bytes_ok (tcp_pseudo q0 ++ q0.drop h1) :=
    bytes_ok_append _ _ (bytes_ok_tcp_pseudo q0 hb0 (by omega)) (bytes_ok_drop q0 hb0 _)
  have hTlt : T < 2 ^ 32 := by
    have hbd := wsum_le_bound _ hbT
    have hlen' : (tcp_pseudo q0 ++ q0.drop h1).length ≤ 65547 := by
      rw [List.length_append, List.length_drop]; simp [tcp_pseudo]; omega
    calc T ≤ 65535 * (((tcp_pseudo q0 ++ q0.drop h1).length + 1) / 2) := hbd
      _ ≤ 65535 * 32774 := Nat.mul_le_mul_left _ (by omega)
      _ < 2 ^ 32 := by norm_num
  obtain ⟨hf1, hf2, -⟩ := fold_carry_spec T hTlt
  set q1 := store16 q0 (h1 + 16) c with hq1
  have hb1 : bytes_ok q1 := bytes_ok_store16 q0 hb0 _ c
  have hl1 : q1.length = q.length := by rw [hq1, length_store16, hl0]
  have hi1 : ip_hdr_len q1 = h1 := by rw [hq1, ip_hdr_len_store16 q0 _ c (by omega), hi0]
  have hps : tcp_pseudo q1 = tcp_pseudo q0 :=
    tcp_pseudo_congr q0 q1 (by rw [hl1, hl0]) (by rw [hq1, store16_take_le _ _ _ _ (by omega)])
  have hdrop : q1.drop h1 = store16 (q0.drop h1) 16 c := by
    rw [hq1, store16_drop_le _ _ _ _ (by omega)]
    have : h1 + 16 - h1 = 16 := by omega
    rw [this]
  have hzero : load16 (q0.drop h1) 16 = 0 := by
    have e : q0.drop h1 = store16 (q.drop h1) 16 0 := by
      rw [hq0, store16_drop_le _ _ _ _ (by omega)]
      have : h1 + 16 - h1 = 16 := by omega
      rw [this]
    rw [e, load16_store16 _ _ _ (by rw [List.length_drop]; omega)]
  have hsum := wsum_le_store16 (q0.drop h1) 16 c (by rw [List.length_drop]; omega)
    (by norm_num) (by omega)
  rw [hzero, ← hdrop] at hsum
  have hpl : (tcp_pseudo q0).length % 2 = 0 := by simp [tcp_pseudo]
  have hT2 : T = wsum_le (tcp_pseudo q0) + wsum_le (q0.drop h1) := by
    rw [hT, wsum_le_append _ _ hpl]
  unfold tcp_verify
  rw [hi1, hps]
  apply oc_sum_words_be _ (bytes_ok_append _ _ (bytes_ok_tcp_pseudo q0 hb0 (by omega))
    (bytes_ok_drop q1 hb1 _))
  · rw [wsum_le_append _ _ hpl]; omega
  · exact ⟨6, by simp [tcp_pseudo], by norm_num⟩

/-! ## Field reads after stores -/

theorem load16_eq (m : List Nat) (o : Nat) : load16 m o = load8 m o + 256 * load8 m (o + 1) := rfl

theorem load32_eq (m : List Nat) (o : Nat) :
    load32 m o = load8 m o + 256 * load8 m (o + 1) + 65536 * load8 m (o + 2)
      + 16777216 * load8 m (o + 3) := rfl

theorem load32_store32 (m : List Nat) (o v : Nat) (h : o + 4 ≤ m.length) :
    load32 (store32 m o v) o = v % 2 ^ 32 := by
  have h0 : load8 (store32 m o v) o = v % 256 := by
    unfold store32
    rw [load8_set_ne _ _ _ _ (by omega), load8_set_ne _ _ _ _ (by omega),
      load8_set_ne _ _ _ _ (by omega), load8_set_eq _ _ _ (by omega)]
  have h1 : load8 (store32 m o v) (o + 1) = v / 256 % 256 := by
    unfold store32
    rw [load8_set_ne _ _ _ _ (by omega), load8_set_ne _ _ _ _ (by omega),
      load8_set_eq _ _ _ (by simp; omega)]
  have h2 : load8 (store32 m o v) (o + 2) = v / 65536 % 256 := by
    unfold store32
    rw [load8_set_ne _ _ _ _ (by omega), load8_set_eq _ _ _ (by simp; omega)]
  have h3 : load8 (store32 m o v) (o + 3) = v / 16777216 % 256 := by
    unfold store32
    rw [load8_set_eq _ _ _ (by simp; omega)]
  rw [load32_eq, h0, h1, h2, h3]; omega

theorem load16_congr (m r : List Nat) (o : Nat) (h0 : load8 r o = load8 m o)
    (h1 : load8 r (o + 1) = load8 m (o + 1)) : load16 r o = load16 m o := by
  rw [load16_eq, load16_eq, h0, h1]

theorem load32_congr (m r : List Nat) (o : Nat) (h : ∀ i, o ≤ i → i < o + 4 → load8 r i = load8 m i) :
    load32 r o = load32 m o := by
  rw [load32_eq, load32_eq, h o (by omega) (by omega), h (o + 1) (by omega) (by omega),
    h (o + 2) (by omega) (by omega), h (o + 3) (by omega) (by omega)]

theorem htons_bytes (a b : Nat) (ha : a < 256) (hb : b < 256) :
    htons (256 * b + a) = 256 * a + b := by
  unfold htons; omega

theorem ntohs_htons (x : Nat) (h : x < 65536) : ntohs (htons x % 65536) = x := by
  obtain ⟨a, b, ha, hb, rfl⟩ : ∃ a b, a < 256 ∧ b < 256 ∧ x = 256 * b + a :=
    ⟨x % 256, x / 256, by omega, by omega, by omega⟩
  rw [htons_bytes a b ha hb, Nat.mod_eq_of_lt (by omega), ntohs, htons_bytes b a hb ha]

theorem htonl_bytes (a b c d : Nat) (ha : a < 256) (hb : b < 256) (hc : c < 256) (hd : d < 256) :
    htonl (16777216 * d + 65536 * c + 256 * b + a) = 16777216 * a + 65536 * b + 256 * c + d := by
  unfold htonl; omega

theorem ntohl_htonl (x : Nat) (h : x < 2 ^ 32) : ntohl (htonl x % 2 ^ 32) = x := by
  obtain ⟨a, b, c, d, ha, hb, hc, hd, rfl⟩ : ∃ a b c d, a < 256 ∧ b < 256 ∧ c < 256 ∧ d < 256
      ∧ x = 16777216 * d + 65536 * c + 256 * b + a :=
    ⟨x % 256, x / 256 % 256, x / 65536 % 256, x / 16777216, by omega, by omega, by omega,
      by omega, by omega⟩
  rw [htonl_bytes a b c d ha hb hc hd, Nat.mod_eq_of_lt (by omega), ntohl,
    htonl_bytes d c b a hd hc hb ha]

theorem load8_append_left (a b : List Nat) (i : Nat) (h : i < a.length) :
    load8 (a ++ b) i = load8 a i := by
  unfold load8; exact List.getD_append a b 0 i h

/-! ## What `create_tcp_fragment` builds -/

theorem tcp_hdr_len_congr (q r : List Nat) (h0 : load8 r 0 = load8 q 0)
    (h12 : load8 r (ip_hdr_len q + 12) = load8 q (ip_hdr_len q + 12)) :
    tcp_hdr_len r = tcp_hdr_len q := by
  unfold tcp_hdr_len tcp_doff; rw [ip_hdr_len_congr q r h0, h12]

theorem create_tcp_fragment_spec (pkt data : List Nat) (dl off : Nat) (hp : headers_ok pkt)
    (hd : bytes_ok data) (hdl : dl ≤ data.length) :
    ∃ p, create_tcp_fragment true pkt pkt.length data dl off
        = some (p, (ip_hdr_len pkt + tcp_hdr_len pkt + dl) % 2 ^ 32)
      ∧ is_fragment_of pkt data dl off p := by
  obtain ⟨hb, h40, h32, hi20, ht20, hfit⟩ := hp
  unfold create_tcp_fragment
  rw [if_neg (by omega)]
  simp only [Bool.true_eq_false, if_false]
  refine ⟨_, rfl, ?_⟩
  have e1 : ip_ihl pkt * 4 = ip_hdr_len pkt := rfl
  have e2 : tcp_doff pkt (ip_hdr_len pkt) * 4 = tcp_hdr_len pkt := rfl
  simp only [e1, e2]
  set h1 := ip_hdr_len pkt with hh1
  set h2 := tcp_hdr_len pkt with hh2
  set p0 := List.take h1 pkt ++ List.take h2 (List.drop h1 pkt) ++ List.take dl data with hp0
  set a := htons ((h1 + h2 + dl) % 2 ^ 32 % 65536) with ha
  set b := htons ((ntohs (load16 pkt 4) + if off > 0 then 1 else 0) % 65536) with hbdef
  set s := htonl ((ntohl (load32 pkt (h1 + 4)) + off) % 2 ^ 32) with hs
  set p2 := store16 (store16 p0 2 a) 4 b with hp2
  set p4 := store16 (store16 p2 10 0) 10 (calculate_ip_checksum (store16 p2 10 0)) with hp4
  set p5 := store32 p4 (h1 + 4) s with hp5
  set p7 := store16 (store16 p5 (h1 + 16) 0) (h1 + 16)
    (calculate_tcp_checksum (store16 p5 (h1 + 16) 0) h1 (h1 + h2) dl) with hp7
  -- the copied bytes
  have hp0' : p0 = pkt.take (h1 + h2) ++ data.take dl := by rw [hp0, List.take_add]
  have htl : (pkt.take (h1 + h2)).length = h1 + h2 := by rw [List.length_take]; omega
  have hl0 : p0.length = h1 + h2 + dl := by
    rw [hp0', List.length_append, htl, List.length_take]; omega
  have hb0 : bytes_ok p0 := by
    rw [hp0']; exact bytes_ok_append _ _ (bytes_ok_take pkt hb _) (bytes_ok_take data hd _)
  have hc0 : ∀ i, i < h1 + h2 → load8 p0 i = load8 pkt i := fun i hi => by
    rw [hp0', load8_append_left _ _ _ (by omega), load8_take _ _ _ hi]
  have hd0 : p0.drop (h1 + h2) = data.take dl := by rw [hp0']; exact List.drop_left' htl
  -- lengths and bytes
  have hl2 : p2.length = h1 + h2 + dl := by rw [hp2, length_store16, length_store16, hl0]
  have hl4 : p4.length = h1 + h2 + dl := by rw [hp4, length_store16, length_store16, hl2]
  have hl5 : p5.length = h1 + h2 + dl := by rw [hp5, length_store32, hl4]
  have hl7 : p7.length = h1 + h2 + dl := by rw [hp7, length_store16, length_store16, hl5]
  have hb2 : bytes_ok p2 := bytes_ok_store16 _ (bytes_ok_store16 _ hb0 _ _) _ _
  have hb4 : bytes_ok p4 := bytes_ok_store16 _ (bytes_ok_store16 _ hb2 _ _) _ _
  have hb5 : bytes_ok p5 := bytes_ok_store32 _ hb4 _ _
  have hb7 : bytes_ok p7 := bytes_ok_store16 _ (bytes_ok_store16 _ hb5 _ _) _ _
  -- frames of the stores
  have hf2 : ∀ i, i ≠ 2 → i ≠ 3 → i ≠ 4 → i ≠ 5 → load8 p2 i = load8 p0 i :=
    fun i _ _ _ _ => by
      rw [hp2, load8_store16_ne _ _ _ _ (by omega) (by omega),
        load8_store16_ne _ _ _ _ (by omega) (by omega)]
  have hf4 : ∀ i, i ≠ 10 → i ≠ 11 → load8 p4 i = load8 p2 i := fun i _ _ => by
    rw [hp4, load8_store16_ne _ _ _ _ (by omega) (by omega),
      load8_store16_ne _ _ _ _ (by omega) (by omega)]
  have hf5 : ∀ i, (i < h1 + 4 ∨ h1 + 8 ≤ i) → load8 p5 i = load8 p4 i := fun i hi => by
    rw [hp5, load8_store32_ne _ _ _ _ (by omega)]
  have hf7 : ∀ i, i ≠ h1 + 16 → i ≠ h1 + 17 → load8 p7 i = load8 p5 i := fun i _ _ => by
    rw [hp7, load8_store16_ne _ _ _ _ (by omega) (by omega),
      load8_store16_ne _ _ _ _ (by omega) (by omega)]
  have hframe : ∀ i, i < h1 + h2 → i ≠ 2 → i ≠ 3 → i ≠ 4 → i ≠ 5 → i ≠ 10 → i ≠ 11 →
      (i < h1 + 4 ∨ h1 + 8 ≤ i) → i ≠ h1 + 16 → i ≠ h1 + 17 → load8 p7 i = load8 pkt i :=
    fun i hi a2 a3 a4 a5 a10 a11 as a16 a17 => by
      rw [hf7 i a16 a17, hf5 i as, hf4 i a10 a11, hf2 i a2 a3 a4 a5, hc0 i hi]
  -- header lengths
  have hi2 : ip_hdr_len p2 = h1 := ip_hdr_len_congr pkt p2 (by
    rw [hf2 0 (by omega) (by omega) (by omega) (by omega), hc0 0 (by omega)])
  have hi4 : ip_hdr_len p4 = h1 := ip_hdr_len_congr pkt p4 (by
    rw [hf4 0 (by omega) (by omega), hf2 0 (by omega) (by omega) (by omega) (by omega),
      hc0 0 (by omega)])
  have h07 : load8 p7 0 = load8 pkt 0 :=
    hframe 0 (by omega) (by omega) (by omega) (by omega) (by omega) (by omega) (by omega)
      (by omega) (by omega) (by omega)
  have hi7 : ip_hdr_len p7 = h1 := ip_hdr_len_congr pkt p7 h07
  have ht7 : tcp_hdr_len p7 = h2 := tcp_hdr_len_congr pkt p7 h07
    (hframe (h1 + 12) (by omega) (by omega) (by omega) (by omega) (by omega) (by omega)
      (by omega) (by omega) (by omega) (by omega))
  have hi5 : ip_hdr_len p5 = h1 := ip_hdr_len_congr pkt p5 (by
    rw [hf5 0 (by omega), hf4 0 (by omega) (by omega),
      hf2 0 (by omega) (by omega) (by omega) (by omega), hc0 0 (by omega)])
  have ht5 : tcp_doff p5 h1 * 4 = h2 := by
    have : load8 p5 (h1 + 12) = load8 pkt (h1 + 12) := by
      rw [hf5 _ (by omega), hf4 _ (by omega) (by omega),
        hf2 _ (by omega) (by omega) (by omega) (by omega), hc0 _ (by omega)]
    rw [hh2]; unfold tcp_hdr_len tcp_doff; rw [this]
  refine ⟨hl7, hb7, ?_, hi7, ht7, hframe, ?_, ?_, ?_, ?_, ?_⟩
  · -- payload
    unfold tcp_payload
    rw [hi7, ht7, hp7, store16_drop_ge _ _ _ _ (by omega), store16_drop_ge _ _ _ _ (by omega),
      hp5, store32_drop_ge _ _ _ _ (by omega), hp4, store16_drop_ge _ _ _ _ (by omega),
      store16_drop_ge _ _ _ _ (by omega), hp2, store16_drop_ge _ _ _ _ (by omega),
      store16_drop_ge _ _ _ _ (by omega), hd0]
  · -- total length
    have e : load16 p7 2 = a % 65536 := by
      rw [← load16_store16 p0 2 a (by omega)]
      apply load16_congr
      · rw [hf7 _ (by omega) (by omega), hf5 _ (by omega), hf4 _ (by omega) (by omega), hp2,
          load8_store16_ne _ _ _ _ (by omega) (by omega)]
      · rw [hf7 _ (by omega) (by omega), hf5 _ (by omega), hf4 _ (by omega) (by omega), hp2,
          load8_store16_ne _ _ _ _ (by omega) (by omega)]
    unfold ip_tot_len
    rw [e, ha, ntohs_htons _ (Nat.mod_lt _ (by norm_num))]
  · -- identification
    have e : load16 p7 4 = b % 65536 := by
      rw [← load16_store16 (store16 p0 2 a) 4 b (by rw [length_store16]; omega)]
      apply load16_congr
      · rw [hf7 _ (by omega) (by omega), hf5 _ (by omega), hf4 _ (by omega) (by omega)]
      · rw [hf7 _ (by omega) (by omega), hf5 _ (by omega), hf4 _ (by omega) (by omega)]
    unfold ip_id
    rw [e, hbdef, ntohs_htons _ (Nat.mod_lt _ (by norm_num))]
  · -- sequence number
    have e : load32 p7 (h1 + 4) = s % 2 ^ 32 := by
      rw [← load32_store32 p4 (h1 + 4) s (by omega)]
      apply load32_congr
      intro i _ _
      rw [hf7 i (by omega) (by omega)]
    unfold tcp_seq
    rw [hi7, e, hs, ntohl_htonl _ (Nat.mod_lt _ (by norm_num))]
  · -- IP checksum
    have ht : p7.take (ip_hdr_len p4) = p4.take (ip_hdr_len p4) := by
      rw [hi4, hp7, store16_take_le _ _ _ _ (by omega), store16_take_le _ _ _ _ (by omega), hp5,
        store32_take_le _ _ _ _ (by omega)]
    rw [ip_verify_congr p4 p7 (by omega) ht]
    exact ip_rechecksum p2 hb2 (by omega) (by omega)
  · -- TCP checksum
    intro hsz
    have := tcp_rechecksum p5 hb5 dl (by omega) (by rw [hi5, ht5]; omega)
      (by rw [hi5, ht5, hl5]) (by omega)
    rw [hi5, ht5] at this
    exact this

/-! ## Host-case mixing keeps length, bytes and letters -/

theorem ascii_lower_sub (c : Nat) (h1 : 97 ≤ c) (h2 : c ≤ 122) :
    ascii_lower (c - 32) = ascii_lower c := by
  unfold ascii_lower
  rw [if_pos (by omega), if_neg (by omega)]; omega

theorem ascii_lower_add (c : Nat) (h1 : 65 ≤ c) (h2 : c ≤ 90) :
    ascii_lower (c + 32) = ascii_lower c := by
  unfold ascii_lower
  rw [if_neg (by omega), if_pos (by omega)]

theorem map_set_same (f : Nat → Nat) (l : List Nat) (j v : Nat) (h : f v = f (load8 l j)) :
    (l.set j v).map f = l.map f := by
  apply List.ext_getElem?
  intro k
  rw [List.getElem?_map, List.getElem?_map, List.getElem?_set]
  by_cases hjk : j = k
  · subst hjk
    rw [if_pos rfl]
    by_cases hl : j < l.length
    · rw [if_pos hl, List.getElem?_eq_getElem hl]
      rw [load8_eq l j hl] at h
      simp [h]
    · rw [if_neg hl, List.getElem?_eq_none_iff.mpr (by omega)]
  · rw [if_neg hjk]

theorem mix_loop_length (host : Nat) (rem i : Nat) (data : List Nat) :
    (mix_loop host rem i data).length = data.length := by
  induction rem generalizing i data with
  | zero => rfl
  | succ r ih =>
    unfold mix_loop
    simp only
    split
    · rw [ih]; split
      · simp
      · split <;> simp
    · rfl

theorem mix_loop_bytes (host : Nat) (rem i : Nat) (data : List Nat) (hb : bytes_ok data) :
    bytes_ok (mix_loop host rem i data) := by
  induction rem generalizing i data with
  | zero => exact hb
  | succ r ih =>
    unfold mix_loop
    simp only
    have hc := load8_lt data hb (host + i)
    split
    · apply ih; split
      · exact bytes_ok_set _ hb _ _ (by omega)
      · split
        · exact bytes_ok_set _ hb _ _ (by omega)
        · exact hb
    · exact hb

theorem mix_loop_lower (host : Nat) (rem i : Nat) (data : List Nat) :
    (mix_loop host rem i data).map ascii_lower = data.map ascii_lower := by
  induction rem generalizing i data with
  | zero => rfl
  | succ r ih =>
    unfold mix_loop
    simp only
    split
    · rw [ih]; split
      · rename_i h; exact map_set_same _ _ _ _ (ascii_lower_sub _ h.2.1 h.2.2)
      · split
        · rename_i h; exact map_set_same _ _ _ _ (ascii_lower_add _ h.2.1 h.2.2)
        · rfl
    · rfl

theorem mix_hostname_case_length (data : List Nat) (len : Nat) :
    (mix_hostname_case data len).length = data.length := by
  unfold mix_hostname_case
  simp only
  split
  · rfl
  · exact mix_loop_length _ _ _ _

theorem mix_hostname_case_bytes (data : List Nat) (len : Nat) (hb : bytes_ok data) :
    bytes_ok (mix_hostname_case data len) := by
  unfold mix_hostname_case
  simp only
  split
  · exact hb
  · exact mix_loop_bytes _ _ _ _ hb

theorem mix_hostname_case_lower (data : List Nat) (len : Nat) :
    (mix_hostname_case data len).map ascii_lower = data.map ascii_lower := by
  unfold mix_hostname_case
  simp only
  split
  · rfl
  · exact mix_loop_lower _ _ _ _

/-! ## The host-case block on a fragment -/

theorem sub32_eq (a b : Nat) (h : b ≤ a) (ha : a < 2 ^ 32) : sub32 a b = a - b := by
  unfold sub32
  rw [Nat.mod_eq_of_lt ha, Nat.mod_eq_of_lt (by omega : b < 2 ^ 32)]
  omega

theorem load8_of_take_eq (p r : List Nat) (k i : Nat) (h : r.take k = p.take k) (hi : i < k) :
    load8 r i = load8 p i := by
  rw [← load8_take r k i hi, h, load8_take p k i hi]

theorem fields_of_take_eq (p r : List Nat) (h20 : 20 ≤ ip_hdr_len p)
    (h : r.take (ip_hdr_len p + 16) = p.take (ip_hdr_len p + 16)) :
    ip_hdr_len r = ip_hdr_len p ∧ tcp_hdr_len r = tcp_hdr_len p ∧ ip_verify r = ip_verify p
      ∧ ip_id r = ip_id p ∧ tcp_seq r = tcp_seq p ∧ ip_tot_len r = ip_tot_len p := by
  have hl : ∀ i, i < ip_hdr_len p + 16 → load8 r i = load8 p i :=
    fun i hi => load8_of_take_eq p r _ i h hi
  have hi : ip_hdr_len r = ip_hdr_len p := ip_hdr_len_congr p r (hl 0 (by omega))
  refine ⟨hi, tcp_hdr_len_congr p r (hl 0 (by omega)) (hl _ (by omega)), ?_, ?_, ?_, ?_⟩
  · apply ip_verify_congr p r (by omega)
    have := congrArg (List.take (ip_hdr_len p)) h
    rwa [List.take_take, List.take_take,
      Nat.min_eq_left (by omega : ip_hdr_len p ≤ ip_hdr_len p + 16)] at this
  · unfold ip_id; rw [load16_congr p r 4 (hl _ (by omega)) (hl _ (by omega))]
  · unfold tcp_seq
    rw [hi, load32_congr p r _ (fun i _ _ => hl i (by omega))]
  · unfold ip_tot_len; rw [load16_congr p r 2 (hl _ (by omega)) (hl _ (by omega))]

theorem mix_fragment_spec (p : List Nat) (hb : bytes_ok p) (h20 : 20 ≤ ip_hdr_len p)
    (h20t : 20 ≤ tcp_hdr_len p) (hfit : ip_hdr_len p + tcp_hdr_len p ≤ p.length)
    (h32 : p.length < 2 ^ 32) :
    (mix_fragment p p.length).length = p.length ∧ bytes_ok (mix_fragment p p.length)
      ∧ (mix_fragment p p.length).take (ip_hdr_len p + 16) = p.take (ip_hdr_len p + 16)
      ∧ tcp_payload (mix_fragment p p.length)
          = mix_hostname_case (tcp_payload p) (tcp_payload p).length
      ∧ (p.length ≤ 65535 → tcp_verify (mix_fragment p p.length) = 65535) := by
  have e1 : ip_ihl p * 4 = ip_hdr_len p := rfl
  have e2 : tcp_doff p (ip_hdr_len p) * 4 = tcp_hdr_len p := rfl
  unfold mix_fragment
  simp only [e1, e2]
  set h1 := ip_hdr_len p with hh1
  set h2 := tcp_hdr_len p with hh2
  have hn : sub32 (sub32 p.length h1) h2 = p.length - h1 - h2 := by
    rw [sub32_eq _ _ (by omega) h32, sub32_eq _ _ (by omega) (by omega)]
  rw [hn]
  set n := p.length - h1 - h2 with hndef
  set M := mix_hostname_case (p.drop (h1 + h2)) n with hM
  have hMl : M.length = n := by rw [hM, mix_hostname_case_length, List.length_drop]; omega
  have hMb : bytes_ok M := mix_hostname_case_bytes _ _ (bytes_ok_drop p hb _)
  set f1 := p.take (h1 + h2) ++ M with hf1
  have htl : (p.take (h1 + h2)).length = h1 + h2 := by rw [List.length_take]; omega
  have hl1 : f1.length = p.length := by rw [hf1, List.length_append, htl, hMl]; omega
  have hb1 : bytes_ok f1 := bytes_ok_append _ _ (bytes_ok_take p hb _) hMb
  have hc1 : ∀ i, i < h1 + h2 → load8 f1 i = load8 p i := fun i hi => by
    rw [hf1, load8_append_left _ _ _ (by omega), load8_take _ _ _ hi]
  have hi1 : ip_hdr_len f1 = h1 := ip_hdr_len_congr p f1 (hc1 0 (by omega))
  have ht1 : tcp_doff f1 h1 * 4 = h2 := by
    rw [hh2]; unfold tcp_hdr_len tcp_doff; rw [hc1 _ (by omega)]
  set r := store16 (store16 f1 (h1 + 16) 0) (h1 + 16)
    (calculate_tcp_checksum (store16 f1 (h1 + 16) 0) h1 (h1 + h2) n) with hr
  have hlr : r.length = p.length := by rw [hr, length_store16, length_store16, hl1]
  have hbr : bytes_ok r := bytes_ok_store16 _ (bytes_ok_store16 _ hb1 _ _) _ _
  have htake : r.take (h1 + 16) = p.take (h1 + 16) := by
    rw [hr, store16_take_le _ _ _ _ (le_refl _), store16_take_le _ _ _ _ (le_refl _), hf1,
      List.take_append_eq_append_take, htl, List.take_take,
      Nat.min_eq_left (by omega : h1 + 16 ≤ h1 + h2)]
    have : h1 + 16 - (h1 + h2) = 0 := by omega
    rw [this]; simp
  obtain ⟨hir, htr, -⟩ := fields_of_take_eq p r h20 htake
  refine ⟨hlr, hbr, htake, ?_, ?_⟩
  · unfold tcp_payload
    rw [hir, htr, ← hh2, hr, store16_drop_ge _ _ _ _ (by omega), store16_drop_ge _ _ _ _ (by omega),
      hf1, List.drop_left' htl, hM, List.length_drop]
    have : p.length - (ip_hdr_len p + h2) = n := by omega
    rw [this]
  · intro hsz
    have := tcp_rechecksum f1 hb1 n (by omega) (by rw [hi1, ht1]; omega)
      (by rw [hi1, ht1, hl1]; omega) (by omega)
    rw [hi1, ht1] at this
    exact this

/-! ## The SPLIT path -/

theorem frag_at_spec (pkt : List Nat) (c : Nat × Nat) (hp : headers_ok pkt)
    (hc : c.1 + c.2 ≤ (tcp_payload pkt).length) :
    create_tcp_fragment true pkt pkt.length ((tcp_payload pkt).drop c.1) c.2 c.1
        = some (frag_at pkt c)
      ∧ is_fragment_of pkt ((tcp_payload pkt).drop c.1) c.2 c.1 (frag_at pkt c).1
      ∧ (frag_at pkt c).2 = (frag_at pkt c).1.length := by
  have hb : bytes_ok ((tcp_payload pkt).drop c.1) :=
    bytes_ok_drop _ (bytes_ok_drop pkt hp.1 _) _
  obtain ⟨p, h1, h2⟩ := create_tcp_fragment_spec pkt ((tcp_payload pkt).drop c.1) c.2 c.1 hp hb
    (by rw [List.length_drop]; omega)
  have e : frag_at pkt c = (p, (ip_hdr_len pkt + tcp_hdr_len pkt + c.2) % 2 ^ 32) := by
    unfold frag_at; rw [h1]; rfl
  rw [e]
  refine ⟨h1, h2, ?_⟩
  have hl := h2.length_eq
  have hn : (tcp_payload pkt).length = pkt.length - (ip_hdr_len pkt + tcp_hdr_len pkt) := by
    unfold tcp_payload; rw [List.length_drop]
  obtain ⟨-, -, h32, -, -, hfit⟩ := hp
  simp only
  rw [hl, Nat.mod_eq_of_lt (by omega)]

theorem create_some (pkt data : List Nat) (len dl off : Nat) (h : 40 ≤ len) :
    create_tcp_fragment true pkt len data dl off
      = some ((create_tcp_fragment true pkt len data dl off).getD ([], 0)) := by
  unfold create_tcp_fragment
  rw [if_neg (by omega)]
  simp

theorem payload_length (pkt : List Nat) (hp : headers_ok pkt) :
    sub32 (sub32 pkt.length (ip_ihl pkt * 4)) (tcp_doff pkt (ip_ihl pkt * 4) * 4)
      = (tcp_payload pkt).length := by
  obtain ⟨-, -, h32, -, -, hfit⟩ := hp
  have e1 : ip_ihl pkt * 4 = ip_hdr_len pkt := rfl
  have e2 : tcp_doff pkt (ip_hdr_len pkt) * 4 = tcp_hdr_len pkt := rfl
  rw [e1, e2, sub32_eq _ _ (by omega) h32, sub32_eq _ _ (by omega) (by omega)]
  unfold tcp_payload; rw [List.length_drop]; omega

theorem payload_length_lt (pkt : List Nat) (hp : headers_ok pkt) :
    (tcp_payload pkt).length < 2 ^ 32 := by
  obtain ⟨-, -, h32, -, -, hfit⟩ := hp
  unfold tcp_payload; rw [List.length_drop]; omega

theorem split_pos_spec (s : DpiBypassSettings) (n : Nat) (hn : 2 ≤ n) :
    1 ≤ split_pos s n ∧ split_pos s n ≤ n - 1
      ∧ (1 ≤ s.first_packet_size % 65536 → s.first_packet_size % 65536 ≤ n - 1 →
          split_pos s n = s.first_packet_size % 65536)
      ∧ (n ≤ s.first_packet_size % 65536 → split_pos s n = n / 2)
      ∧ (s.first_packet_size % 65536 = 0 → split_pos s n = 1) := by
  unfold split_pos
  simp only
  have hm := Nat.mod_lt s.first_packet_size (by norm_num : 65536 > 0)
  refine ⟨?_, ?_, ?_, ?_, ?_⟩
  · split_ifs <;> omega
  · split_ifs <;> omega
  · intro h1 h2; split_ifs <;> omega
  · intro h1; split_ifs <;> omega
  · intro h1; split_ifs <;> omega

theorem split_create_spec (g : GBypass) (w : World) (pkt : List Nat) (hp : headers_ok pkt)
    (hn : 2 ≤ (tcp_payload pkt).length) (hm0 : w.malloc_ok 0 = true)
    (hm1 : w.malloc_ok 1 = true) :
    split_create g w pkt pkt.length
      = some (frag_at pkt (0, split_pos g.settings (tcp_payload pkt).length),
          frag_at pkt (split_pos g.settings (tcp_payload pkt).length,
            (tcp_payload pkt).length - split_pos g.settings (tcp_payload pkt).length)) := by
  have h40 := hp.2.1
  obtain ⟨hk1, hk2, -⟩ := split_pos_spec g.settings _ hn
  unfold split_create
  rw [if_neg (by omega)]
  simp only
  rw [payload_length pkt hp, if_neg (by omega), hm0, hm1]
  have e1 : ip_ihl pkt * 4 = ip_hdr_len pkt := rfl
  have e2 : tcp_doff pkt (ip_hdr_len pkt) * 4 = tcp_hdr_len pkt := rfl
  have e3 : List.drop (ip_hdr_len pkt + tcp_hdr_len pkt) pkt = tcp_payload pkt := rfl
  simp only [e1, e2, e3]
  set k := split_pos g.settings (tcp_payload pkt).length with hk
  have f1 := (frag_at_spec pkt (0, k) hp (by simp only; omega)).1
  have f2 := (frag_at_spec pkt (k, (tcp_payload pkt).length - k) hp (by simp only; omega)).1
  simp only [List.drop_zero] at f1
  simp only at f2
  rw [f1]
  simp only
  rw [sub32_eq _ _ (by omega) (payload_length_lt pkt hp), f2]

theorem split_build_spec (g : GBypass) (w : World) (pkt : List Nat) (hp : headers_ok pkt)
    (hn : 2 ≤ (tcp_payload pkt).length) (hm0 : w.malloc_ok 0 = true)
    (hm1 : w.malloc_ok 1 = true) :
    split_build g w pkt pkt.length
      = some (frag_at pkt (0, split_pos g.settings (tcp_payload pkt).length),
          mix_if g.settings.mix_host_case
            (frag_at pkt (split_pos g.settings (tcp_payload pkt).length,
              (tcp_payload pkt).length - split_pos g.settings (tcp_payload pkt).length))) := by
  unfold split_build
  rw [split_create_spec g w pkt hp hn hm0 hm1]
  simp only [mix_if]
  split <;> rfl

/-! ## The DISORDER loop -/

theorem disorder_create_loop_spec (w : World) (pkt : List Nat) (n count cs : Nat)
    (h40 : 40 ≤ pkt.length) (hm : ∀ j, w.malloc_ok j = true) :
    ∀ rem i offset (arr : FragArray) k, i + rem ≤ arr.length →
      disorder_create_loop w pkt pkt.length (tcp_payload pkt) n count cs rem i offset arr k
        = .ok (write_slots arr i ((disorder_chunks n count cs rem i offset).map (frag_at pkt)),
            k + (disorder_chunks n count cs rem i offset).length) := by
  intro rem
  induction rem with
  | zero => intro i offset arr k _; simp [disorder_create_loop, disorder_chunks, write_slots]
  | succ r ih =>
    intro i offset arr k hlen
    unfold disorder_create_loop disorder_chunks
    by_cases ho : offset < n
    · simp only [if_pos ho]
      rw [hm i, create_some pkt _ _ _ _ h40]
      simp only
      rw [if_pos (by omega), ih _ _ _ _ (by rw [List.length_set]; omega)]
      simp only [List.map_cons, write_slots, List.length_cons, frag_at]
      congr 2
      omega
    · simp only [if_neg ho, List.map_nil, write_slots, List.length_nil, Nat.add_zero]

theorem write_slots_eq (fs : List (List Nat × Nat)) :
    ∀ (arr : FragArray) (i : Nat), i + fs.length ≤ arr.length →
      write_slots arr i fs = arr.take i ++ fs.map some ++ arr.drop (i + fs.length) := by
  induction fs with
  | nil => intro arr i _; simp [write_slots]
  | cons f t ih =>
    intro arr i h
    simp only [List.length_cons] at h
    unfold write_slots
    rw [ih _ _ (by rw [List.length_set]; omega)]
    have h1 : (arr.set i (some f)).take (i + 1) = arr.take i ++ [some f] := by
      rw [List.take_succ, take_set_le' arr i (some f), List.getElem?_set, if_pos rfl,
        if_pos (by omega)]
      rfl
    have h2 : (arr.set i (some f)).drop (i + 1 + t.length) = arr.drop (i + (t.length + 1)) := by
      rw [List.drop_set_of_lt _ _ (by omega)]
      congr 1; omega
    rw [h1, h2]
    simp [List.length_cons]

theorem slots_to_list_map_some (fs : List (List Nat × Nat)) :
    slots_to_list (fs.map some) = some fs := by
  induction fs with
  | nil => rfl
  | cons f t ih => simp [slots_to_list, ih]

theorem disorder_chunks_eq (n c cs : Nat) (hn32 : n < 2 ^ 32) (hcs : 1 ≤ cs) :
    ∀ d i rem o, i + rem = c → d < rem → o + d * cs < n → o + d * cs + cs < 2 ^ 32 →
      (d + 1 = rem ∨ n ≤ o + d * cs + cs) →
      disorder_chunks n c cs rem i o = even_cut n cs (d + 1) o := by
  intro d
  induction d with
  | zero =>
    intro i rem o hc hd ho hw hlast
    obtain ⟨r, rfl⟩ : ∃ r, rem = r + 1 := ⟨rem - 1, by omega⟩
    simp only [Nat.zero_mul, Nat.add_zero] at ho hw hlast
    unfold disorder_chunks
    rw [if_pos ho]
    have hcond : i = c - 1 ∨ (o + cs) % 2 ^ 32 ≥ n := by
      rcases hlast with h | h
      · left; omega
      · by_cases hi : i = c - 1
        · left; exact hi
        · right
          rw [Nat.mod_eq_of_lt hw]; exact h
    simp only [if_pos hcond]
    rw [sub32_eq _ _ (by omega) hn32]
    have hnext : (o + (n - o)) % 2 ^ 32 = n := by
      rw [Nat.mod_eq_of_lt (by omega)]; omega
    rw [hnext]
    have hnil : disorder_chunks n c cs r (i + 1) n = [] := by
      cases r with
      | zero => rfl
      | succ r' => unfold disorder_chunks; rw [if_neg (by omega)]
    rw [hnil]; rfl
  | succ d ih =>
    intro i rem o hc hd ho hw hlast
    obtain ⟨r, rfl⟩ : ∃ r, rem = r + 1 := ⟨rem - 1, by omega⟩
    rw [Nat.succ_mul] at ho hw hlast
    unfold disorder_chunks
    rw [if_pos (by omega)]
    have hlt : o + cs < 2 ^ 32 := by omega
    have hcond : ¬ (i = c - 1 ∨ (o + cs) % 2 ^ 32 ≥ n) := by
      rw [Nat.mod_eq_of_lt hlt]; omega
    simp only [if_neg hcond]
    rw [Nat.mod_eq_of_lt hlt, ih (i + 1) r (o + cs) (by omega) (by omega) (by omega)
      (by omega) (by omega)]
    rfl

/-! ## The fragments that are sent -/

theorem payload_slice_length (pkt : List Nat) (c : Nat × Nat)
    (hc : c.1 + c.2 ≤ (tcp_payload pkt).length) : (payload_slice pkt c).length = c.2 := by
  unfold payload_slice; rw [List.length_take, List.length_drop]; omega

theorem final_of_frag_at (pkt : List Nat) (c : Nat × Nat) (hp : headers_ok pkt)
    (hc : c.1 + c.2 ≤ (tcp_payload pkt).length) (mixed : Bool) :
    is_final_fragment pkt c mixed (mix_if mixed (frag_at pkt c)) := by
  obtain ⟨-, hf, hlen⟩ := frag_at_spec pkt c hp hc
  have hn : (tcp_payload pkt).length = pkt.length - (ip_hdr_len pkt + tcp_hdr_len pkt) := by
    unfold tcp_payload; rw [List.length_drop]
  obtain ⟨hb, h40, h32, hi20, ht20, hfit⟩ := hp
  have hl := hf.length_eq
  have htot : ip_tot_len (frag_at pkt c).1 = (ip_hdr_len pkt + tcp_hdr_len pkt + c.2) % 65536 := by
    rw [hf.tot_len, Nat.mod_eq_of_lt (by omega : ip_hdr_len pkt + tcp_hdr_len pkt + c.2 < 2 ^ 32)]
  cases mixed with
  | false =>
    simp only [mix_if, Bool.false_eq_true, if_false]
    exact ⟨hlen, hl, hf.bytes, hf.ip_len, hf.tcp_len, hf.payload_eq, htot, hf.id, hf.seq, hf.ip_ck,
      hf.tcp_ck⟩
  | true =>
    simp only [mix_if, if_true]
    rw [hlen]
    obtain ⟨m1, m2, m3, m4, m5⟩ := mix_fragment_spec (frag_at pkt c).1 hf.bytes
      (by rw [hf.ip_len]; exact hi20) (by rw [hf.tcp_len]; exact ht20)
      (by rw [hf.ip_len, hf.tcp_len, hl]; omega) (by rw [hl]; omega)
    obtain ⟨k1, k2, k3, k4, k5, k6⟩ := fields_of_take_eq (frag_at pkt c).1
      (mix_fragment (frag_at pkt c).1 (frag_at pkt c).1.length) (by rw [hf.ip_len]; exact hi20) m3
    refine ⟨m1.symm, by rw [m1, hl], m2, by rw [k1, hf.ip_len], by rw [k2, hf.tcp_len], ?_,
      by rw [k6, htot], by rw [k4, hf.id], by rw [k5, hf.seq], by rw [k3, hf.ip_ck], ?_⟩
    · rw [m4, hf.payload_eq]
      simp only [if_true]
      have : (List.take c.2 (List.drop c.1 (tcp_payload pkt))).length = c.2 :=
        payload_slice_length pkt c hc
      rw [this]; rfl
    · intro hsz; exact m5 (by rw [m1] at hsz; exact hsz)

theorem final_payload_length (pkt : List Nat) (c : Nat × Nat) (mixed : Bool)
    (f : List Nat × Nat) (hc : c.1 + c.2 ≤ (tcp_payload pkt).length)
    (h : is_final_fragment pkt c mixed f) : (tcp_payload f.1).length = c.2 := by
  rw [h.payload_eq]
  split
  · rw [mix_hostname_case_length, payload_slice_length pkt c hc]
  · exact payload_slice_length pkt c hc

theorem final_payload_lower (pkt : List Nat) (c : Nat × Nat) (mixed : Bool)
    (f : List Nat × Nat) (h : is_final_fragment pkt c mixed f) :
    (tcp_payload f.1).map ascii_lower = (payload_slice pkt c).map ascii_lower := by
  rw [h.payload_eq]
  split
  · exact mix_hostname_case_lower _ _
  · rfl

/-! ## The cut that DISORDER makes -/

theorem even_cut_length (n cs : Nat) : ∀ k o, (even_cut n cs k o).length = k := by
  intro k
  induction k with
  | zero => intro o; rfl
  | succ k ih =>
    intro o
    cases k with
    | zero => rfl
    | succ k => simp only [even_cut, List.length_cons, ih]

theorem even_cut_bounds (n cs : Nat) (hcs : 1 ≤ cs) :
    ∀ k o, o + k * cs < n → ∀ c ∈ even_cut n cs (k + 1) o, c.1 + c.2 ≤ n ∧ 1 ≤ c.2 := by
  intro k
  induction k with
  | zero =>
    intro o ho c hc
    simp only [even_cut, List.mem_singleton] at hc
    subst hc; simp only; omega
  | succ k ih =>
    intro o ho c hc
    rw [Nat.succ_mul] at ho
    simp only [even_cut, List.mem_cons] at hc
    rcases hc with rfl | hc
    · simp only; omega
    · exact ih (o + cs) (by omega) c hc

theorem even_cut_sizes (n cs : Nat) :
    ∀ k o, (even_cut n cs (k + 1) o).map (fun c => c.2)
      = List.replicate k cs ++ [n - (o + k * cs)] := by
  intro k
  induction k with
  | zero => intro o; simp [even_cut]
  | succ k ih =>
    intro o
    simp only [even_cut, List.map_cons, ih, List.replicate_succ, List.cons_append]
    rw [Nat.succ_mul]
    congr 3
    omega

theorem even_cut_offsets (n cs : Nat) :
    ∀ k o j c, (even_cut n cs k o)[j]? = some c →
      c.1 = o + (((even_cut n cs k o).take j).map (fun c => c.2)).sum := by
  intro k
  induction k with
  | zero => intro o j c h; simp [even_cut] at h
  | succ k ih =>
    intro o j c h
    cases k with
    | zero =>
      cases j with
      | zero => simp only [even_cut, List.getElem?_cons_zero, Option.some.injEq] at h; subst h; simp
      | succ j => simp [even_cut] at h
    | succ k =>
      cases j with
      | zero => simp only [even_cut, List.getElem?_cons_zero, Option.some.injEq] at h; subst h; simp
      | succ j =>
        simp only [even_cut, List.getElem?_cons_succ] at h
        have := ih (o + cs) j c h
        simp only [even_cut, List.take_succ_cons, List.map_cons, List.sum_cons]
        omega

theorem even_cut_tiling (P : List Nat) (cs : Nat) :
    ∀ k o, o + k * cs < P.length →
      ((even_cut P.length cs (k + 1) o).map (fun c => (P.drop c.1).take c.2)).flatten
        = P.drop o := by
  intro k
  induction k with
  | zero =>
    intro o _
    simp only [even_cut, List.map_cons, List.map_nil, List.flatten_cons, List.flatten_nil,
      List.append_nil]
    rw [List.take_of_length_le (by rw [List.length_drop])]
  | succ k ih =>
    intro o ho
    rw [Nat.succ_mul] at ho
    simp only [even_cut, List.map_cons, List.flatten_cons]
    rw [ih (o + cs) (by omega), ← List.drop_drop, List.take_append_drop]

theorem disorder_count_spec (s : DpiBypassSettings) :
    2 ≤ disorder_count s ∧ disorder_count s ≤ 10
      ∧ (s.split_count % 256 < 2 → disorder_count s = 2)
      ∧ (10 < s.split_count % 256 → disorder_count s = 10)
      ∧ (2 ≤ s.split_count % 256 → s.split_count % 256 ≤ 10 →
          disorder_count s = s.split_count % 256) := by
  unfold disorder_count
  simp only
  refine ⟨?_, ?_, ?_, ?_, ?_⟩
  · split_ifs <;> omega
  · split_ifs <;> omega
  · intro h; split_ifs <;> omega
  · intro h; split_ifs <;> omega
  · intro h1 h2; split_ifs <;> omega

theorem disorder_cut_facts (c n : Nat) (hc : 2 ≤ c) (hn : 2 ≤ n) :
    ∃ d, min c n = d + 1 ∧ 1 ≤ d ∧ 1 ≤ disorder_chunk_size n c
      ∧ d * disorder_chunk_size n c < n ∧ d * disorder_chunk_size n c + disorder_chunk_size n c ≤ n
      ∧ (d + 1 = c ∨ n ≤ d * disorder_chunk_size n c + disorder_chunk_size n c) := by
  by_cases h : c ≤ n
  · have hq : 1 ≤ n / c := (Nat.one_le_div_iff (by omega)).mpr h
    have hcs : disorder_chunk_size n c = n / c := by
      unfold disorder_chunk_size; simp only; rw [if_neg (by omega)]
    have hmul : (c - 1) * (n / c) + n / c ≤ n := by
      have e : (c - 1) * (n / c) + n / c = (c - 1 + 1) * (n / c) := by rw [Nat.succ_mul]
      rw [e, Nat.sub_add_cancel (by omega)]
      exact Nat.mul_div_le n c
    refine ⟨c - 1, by omega, by omega, by omega, ?_, ?_, Or.inl (by omega)⟩
    · rw [hcs]; omega
    · rw [hcs]; exact hmul
  · have hq : n / c = 0 := Nat.div_eq_of_lt (by omega)
    have hcs : disorder_chunk_size n c = 1 := by
      unfold disorder_chunk_size; simp only; rw [if_pos (by omega)]
    refine ⟨n - 1, by omega, by omega, by omega, ?_, ?_, Or.inr ?_⟩
    all_goals rw [hcs]; omega

/-! ## The DISORDER path -/

theorem disorder_cut_length (s : DpiBypassSettings) (n : Nat) :
    (disorder_cut s n).length = min (disorder_count s) n := even_cut_length _ _ _ _

theorem disorder_chunks_cut (s : DpiBypassSettings) (n : Nat) (hn : 2 ≤ n) (hn32 : n < 2 ^ 32) :
    disorder_chunks n (disorder_count s) (disorder_chunk_size n (disorder_count s))
      (disorder_count s) 0 0 = disorder_cut s n := by
  obtain ⟨hc2, hc10, -⟩ := disorder_count_spec s
  obtain ⟨d, hd, hd1, hcs, hlt, hle, hlast⟩ := disorder_cut_facts (disorder_count s) n hc2 hn
  unfold disorder_cut
  rw [hd]
  have hdc : d < disorder_count s := by
    have := Nat.min_le_left (disorder_count s) n; omega
  exact disorder_chunks_eq n _ _ hn32 hcs d 0 _ 0 (by omega) hdc (by omega) (by omega)
    (by omega)

theorem write_slots_replicate (fs : List (List Nat × Nat)) (h : fs.length ≤ 10) :
    write_slots (List.replicate 10 none) 0 fs
      = fs.map some ++ List.replicate (10 - fs.length) none := by
  rw [write_slots_eq fs _ 0 (by simp; omega), List.take_zero, List.nil_append, Nat.zero_add,
    List.drop_replicate]

theorem disorder_create_eq (g : GBypass) (w : World) (pkt : List Nat) (hp : headers_ok pkt)
    (hn : 2 ≤ (tcp_payload pkt).length) (hm : ∀ j, w.malloc_ok j = true) :
    disorder_create g w pkt pkt.length
      = .ok ((((disorder_cut g.settings (tcp_payload pkt).length).map (frag_at pkt)).map some
            ++ List.replicate (10 - (disorder_cut g.settings (tcp_payload pkt).length).length) none),
          (disorder_cut g.settings (tcp_payload pkt).length).length) := by
  have h40 := hp.2.1
  obtain ⟨hc2, hc10, -⟩ := disorder_count_spec g.settings
  unfold disorder_create
  rw [if_neg (by omega)]
  simp only
  rw [payload_length pkt hp, if_neg (by omega)]
  have e1 : ip_ihl pkt * 4 = ip_hdr_len pkt := rfl
  have e2 : tcp_doff pkt (ip_hdr_len pkt) * 4 = tcp_hdr_len pkt := rfl
  have e3 : List.drop (ip_hdr_len pkt + tcp_hdr_len pkt) pkt = tcp_payload pkt := rfl
  simp only [e1, e2, e3]
  rw [disorder_create_loop_spec w pkt _ _ _ h40 hm _ _ _ _ _ (by simp; omega),
    disorder_chunks_cut g.settings _ hn (payload_length_lt pkt hp)]
  have hl : ((disorder_cut g.settings (tcp_payload pkt).length).map (frag_at pkt)).length ≤ 10 := by
    rw [List.length_map, disorder_cut_length]
    have := Nat.min_le_left (disorder_count g.settings) (tcp_payload pkt).length; omega
  rw [write_slots_replicate _ hl]
  simp

theorem built_of_slots (fs : List (List Nat × Nat)) (k : Nat) :
    built_fragments (.ok (fs.map some ++ List.replicate k none, fs.length)) = some fs := by
  unfold built_fragments
  simp only
  rw [List.take_left' (by simp), slots_to_list_map_some]

theorem disorder_cut_cons (s : DpiBypassSettings) (n : Nat) (hn : 2 ≤ n) :
    ∃ c t, disorder_cut s n = c :: t ∧ c.1 = 0 := by
  obtain ⟨hc2, hc10, -⟩ := disorder_count_spec s
  obtain ⟨d, hd, hd1, -⟩ := disorder_cut_facts (disorder_count s) n hc2 hn
  unfold disorder_cut
  rw [hd]
  obtain ⟨d', rfl⟩ : ∃ d', d = d' + 1 := ⟨d - 1, by omega⟩
  exact ⟨_, _, rfl, rfl⟩

theorem disorder_fragments_eq (g : GBypass) (w : World) (pkt : List Nat) (hp : headers_ok pkt)
    (hn : 2 ≤ (tcp_payload pkt).length) (hm : ∀ j, w.malloc_ok j = true) :
    disorder_fragments g w pkt
      = some (mix_head g.settings.mix_host_case
          ((disorder_cut g.settings (tcp_payload pkt).length).map (frag_at pkt))) := by
  unfold disorder_fragments disorder_build
  rw [disorder_create_eq g w pkt hp hn hm]
  obtain ⟨c, t, hct, -⟩ := disorder_cut_cons g.settings _ hn
  rw [hct]
  simp only [List.map_cons, List.length_cons, List.cons_append]
  cases hmix : g.settings.mix_host_case with
  | false =>
    simp only [Bool.false_eq_true, false_and, if_false, mix_head, mix_if]
    have := built_of_slots (frag_at pkt c :: t.map (frag_at pkt)) (10 - (t.length + 1))
    simpa using this
  | true =>
    simp only [true_and, gt_iff_lt, Nat.zero_lt_succ, if_true, List.getD_cons_zero,
      List.set_cons_zero, mix_head, mix_if]
    have := built_of_slots ((mix_fragment (frag_at pkt c).1 (frag_at pkt c).2, (frag_at pkt c).2)
      :: t.map (frag_at pkt)) (10 - (t.length + 1))
    simpa using this

/-! ## Fragments and their chunks -/

theorem forall₂_index {α β : Type} (R : α → β → Prop) (l1 : List α) (l2 : List β)
    (h : List.Forall₂ R l1 l2) :
    ∀ (j : Nat) (f : β), l2[j]? = some f → ∃ c, l1[j]? = some c ∧ R c f := by
  induction h with
  | nil => intro j f hf; simp at hf
  | cons hab _ ih =>
    intro j f hf
    cases j with
    | zero =>
      simp only [List.getElem?_cons_zero, Option.some.injEq] at hf
      subst hf
      exact ⟨_, by simp, hab⟩
    | succ j =>
      simp only [List.getElem?_cons_succ] at hf ⊢
      exact ih j f hf

theorem fragments_of_sizes (pkt : List Nat) (cut : List (Nat × Nat))
    (frags : List (List Nat × Nat)) (h : fragments_of pkt cut frags)
    (hb : ∀ c ∈ cut, c.1 + c.2 ≤ (tcp_payload pkt).length ∧ 1 ≤ c.2) :
    frags.map (fun f => (tcp_payload f.1).length) = cut.map (fun c => c.2) := by
  unfold fragments_of at h
  induction h with
  | nil => rfl
  | cons hab _ ih =>
    obtain ⟨mixed, hf⟩ := hab
    simp only [List.map_cons]
    rw [ih (fun c hc => hb c (List.mem_cons_of_mem _ hc)),
      final_payload_length pkt _ mixed _ (hb _ (List.mem_cons_self _ _)).1 hf]

theorem fragments_of_index (pkt : List Nat) (cut : List (Nat × Nat))
    (frags : List (List Nat × Nat)) (h : fragments_of pkt cut frags)
    (hc : cut_ok (tcp_payload pkt).length cut) (j : Nat) (f : List Nat × Nat)
    (hf : frags[j]? = some f) :
    ∃ c mixed, cut[j]? = some c ∧ c.1 = offset_of frags j
      ∧ c.1 + c.2 ≤ (tcp_payload pkt).length ∧ 1 ≤ c.2 ∧ is_final_fragment pkt c mixed f := by
  obtain ⟨c, hcj, mixed, hfin⟩ := forall₂_index _ _ _ h j f hf
  have hmem : c ∈ cut := List.getElem?_mem hcj
  refine ⟨c, mixed, hcj, ?_, (hc.1 c hmem).1, (hc.1 c hmem).2, hfin⟩
  rw [hc.2 j c hcj, offset_of, List.map_take, List.map_take,
    fragments_of_sizes pkt cut frags h hc.1]

theorem split_cut_ok (s : DpiBypassSettings) (n : Nat) (hn : 2 ≤ n) : cut_ok n (split_cut s n) := by
  obtain ⟨hk1, hk2, -⟩ := split_pos_spec s n hn
  unfold split_cut
  constructor
  · intro c hc
    simp only [List.mem_cons, List.mem_singleton, List.not_mem_nil, or_false] at hc
    rcases hc with rfl | rfl <;> simp only <;> omega
  · intro j c hj
    match j, hj with
    | 0, hj => simp only [List.getElem?_cons_zero, Option.some.injEq] at hj; subst hj; simp
    | 1, hj =>
      simp only [List.getElem?_cons_succ, List.getElem?_cons_zero, Option.some.injEq] at hj
      subst hj; simp
    | j + 2, hj => simp at hj

theorem disorder_cut_ok (s : DpiBypassSettings) (n : Nat) (hn : 2 ≤ n) :
    cut_ok n (disorder_cut s n) := by
  obtain ⟨hc2, hc10, -⟩ := disorder_count_spec s
  obtain ⟨d0, hd, hd1, hcs, hlt, hle, hlast⟩ := disorder_cut_facts (disorder_count s) n hc2 hn
  unfold disorder_cut
  rw [hd]
  constructor
  · exact even_cut_bounds n _ hcs d0 0 (by omega)
  · intro j c hj
    have := even_cut_offsets n _ (d0 + 1) 0 j c hj
    omega

theorem split_fragments_eq (g : GBypass) (w : World) (pkt : List Nat) (hp : headers_ok pkt)
    (hn : 2 ≤ (tcp_payload pkt).length) (hm : ∀ j, w.malloc_ok j = true) :
    split_fragments g w pkt
      = some [frag_at pkt (0, split_pos g.settings (tcp_payload pkt).length),
          mix_if g.settings.mix_host_case
            (frag_at pkt (split_pos g.settings (tcp_payload pkt).length,
              (tcp_payload pkt).length - split_pos g.settings (tcp_payload pkt).length))] := by
  unfold split_fragments
  rw [split_build_spec g w pkt hp hn (hm 0) (hm 1)]
  rfl

theorem split_final (g : GBypass) (pkt : List Nat) (hp : headers_ok pkt)
    (hn : 2 ≤ (tcp_payload pkt).length) :
    fragments_of pkt (split_cut g.settings (tcp_payload pkt).length)
      [frag_at pkt (0, split_pos g.settings (tcp_payload pkt).length),
        mix_if g.settings.mix_host_case
          (frag_at pkt (split_pos g.settings (tcp_payload pkt).length,
            (tcp_payload pkt).length - split_pos g.settings (tcp_payload pkt).length))] := by
  obtain ⟨hk1, hk2, -⟩ := split_pos_spec g.settings _ hn
  unfold fragments_of split_cut
  refine List.Forall₂.cons ⟨false, ?_⟩ (List.Forall₂.cons ⟨g.settings.mix_host_case, ?_⟩
    List.Forall₂.nil)
  · exact final_of_frag_at pkt (0, _) hp (by simp only; omega) false
  · exact final_of_frag_at pkt (_, _) hp (by simp only; omega) _

theorem disorder_final (g : GBypass) (pkt : List Nat) (hp : headers_ok pkt)
    (hn : 2 ≤ (tcp_payload pkt).length) :
    fragments_of pkt (disorder_cut g.settings (tcp_payload pkt).length)
      (mix_head g.settings.mix_host_case
        ((disorder_cut g.settings (tcp_payload pkt).length).map (frag_at pkt))) := by
  have hok := (disorder_cut_ok g.settings _ hn).1
  obtain ⟨c, t, hct, -⟩ := disorder_cut_cons g.settings _ hn
  rw [hct] at hok ⊢
  unfold fragments_of
  simp only [List.map_cons, mix_head]
  refine List.Forall₂.cons ⟨g.settings.mix_host_case, ?_⟩ ?_
  · exact final_of_frag_at pkt c hp (hok c (List.mem_cons_self _ _)).1 _
  · have ht : ∀ x ∈ t, x.1 + x.2 ≤ (tcp_payload pkt).length :=
      fun x hx => (hok x (List.mem_cons_of_mem _ hx)).1
    clear hok hct
    induction t with
    | nil => exact List.Forall₂.nil
    | cons x t ih =>
      simp only [List.map_cons]
      refine List.Forall₂.cons ⟨false, ?_⟩ (ih (fun y hy => ht y (List.mem_cons_of_mem _ hy)))
      exact final_of_frag_at pkt x hp (ht x (List.mem_cons_self _ _)) false

/-! ## Reassembly (claim C1) -/

theorem unmixed_payloads (pkt : List Nat) (hp : headers_ok pkt) (cut : List (Nat × Nat))
    (hb : ∀ c ∈ cut, c.1 + c.2 ≤ (tcp_payload pkt).length) :
    (cut.map (frag_at pkt)).map (fun f => tcp_payload f.1) = cut.map (payload_slice pkt) := by
  rw [List.map_map]
  apply List.map_congr_left
  intro c hc
  have := (final_of_frag_at pkt c hp (hb c hc) false).payload_eq
  simpa [mix_if] using this

theorem fragments_of_lower (pkt : List Nat) (cut : List (Nat × Nat))
    (frags : List (List Nat × Nat)) (h : fragments_of pkt cut frags) :
    ((frags.map (fun f => tcp_payload f.1)).flatten).map ascii_lower
      = ((cut.map (payload_slice pkt)).flatten).map ascii_lower := by
  unfold fragments_of at h
  induction h with
  | nil => rfl
  | cons hab _ ih =>
    obtain ⟨mixed, hf⟩ := hab
    simp only [List.map_cons, List.flatten_cons, List.map_append]
    rw [ih, final_payload_lower pkt _ mixed _ hf]

theorem split_cut_tiling (s : DpiBypassSettings) (pkt : List Nat) :
    ((split_cut s (tcp_payload pkt).length).map (payload_slice pkt)).flatten = tcp_payload pkt := by
  simp only [split_cut, payload_slice, List.map_cons, List.map_nil, List.flatten_cons,
    List.flatten_nil, List.append_nil, List.drop_zero]
  have e : List.take ((tcp_payload pkt).length - split_pos s (tcp_payload pkt).length)
      (List.drop (split_pos s (tcp_payload pkt).length) (tcp_payload pkt))
      = List.drop (split_pos s (tcp_payload pkt).length) (tcp_payload pkt) :=
    List.take_of_length_le (by rw [List.length_drop])
  rw [e, List.take_append_drop]

theorem disorder_cut_tiling (s : DpiBypassSettings) (pkt : List Nat)
    (hn : 2 ≤ (tcp_payload pkt).length) :
    ((disorder_cut s (tcp_payload pkt).length).map (payload_slice pkt)).flatten
      = tcp_payload pkt := by
  obtain ⟨hc2, hc10, -⟩ := disorder_count_spec s
  obtain ⟨d0, hd, hd1, hcs, hlt, hle, hlast⟩ :=
    disorder_cut_facts (disorder_count s) _ hc2 hn
  unfold disorder_cut
  rw [hd]
  have := even_cut_tiling (tcp_payload pkt) (disorder_chunk_size (tcp_payload pkt).length
    (disorder_count s)) d0 0 (by omega)
  simpa [payload_slice] using this

/-- C1, counterexample: SPLIT with `first_packet_size = 2` and `mix_host_case`
set, on a frame whose payload is `xxHost:a` and a line feed, builds fragments
whose payloads concatenate to `xxHost:A` and a line feed, not to the original
payload. -/
theorem C1_counterexample :
    ∃ frags, split_fragments (sample_g 1 2 4 true) sample_world sample_http = some frags
      ∧ (frags.map (fun f => tcp_payload f.1)).flatten ≠ tcp_payload sample_http := by
  have hp : headers_ok sample_http := by decide
  have hn : 2 ≤ (tcp_payload sample_http).length := by decide
  refine ⟨_, split_fragments_eq _ sample_world sample_http hp hn (fun _ => rfl), ?_⟩
  have hk : split_pos (sample_g 1 2 4 true).settings (tcp_payload sample_http).length = 2 := by
    decide
  rw [hk]
  have h1 := (final_of_frag_at sample_http (0, 2) hp (by decide) false).payload_eq
  have h2 := (final_of_frag_at sample_http (2, (tcp_payload sample_http).length - 2) hp
    (by decide) true).payload_eq
  simp only [mix_if, Bool.false_eq_true, if_false] at h1
  simp only [if_true] at h2
  simp only [List.map_cons, List.map_nil, List.flatten_cons, List.flatten_nil, List.append_nil]
  change tcp_payload (frag_at sample_http (0, 2)).1
    ++ tcp_payload (mix_if true (frag_at sample_http (2, (tcp_payload sample_http).length - 2))).1
    ≠ tcp_payload sample_http
  rw [h1, h2]
  decide

/-- C1 (amended): for every valid IPv4/TCP packet with at least 2 payload
bytes and every setting of `first_packet_size`, `split_count` and
`mix_host_case`, the TCP payloads of the fragments of the SPLIT path and of the
DISORDER path, concatenated in build order (ascending payload offset), equal
the original TCP payload up to ASCII letter case, and equal it byte for byte
when `mix_host_case` is clear. -/
theorem C1_payload_reassembly (g : GBypass) (w : World) (pkt : List Nat) (hp : valid_packet pkt)
    (hn : 2 ≤ (tcp_payload pkt).length) (hm : ∀ j, w.malloc_ok j = true) :
    (∃ frags, split_fragments g w pkt = some frags
      ∧ ((frags.map (fun f => tcp_payload f.1)).flatten).map ascii_lower
          = (tcp_payload pkt).map ascii_lower
      ∧ (g.settings.mix_host_case = false →
          (frags.map (fun f => tcp_payload f.1)).flatten = tcp_payload pkt))
    ∧ (∃ frags, disorder_fragments g w pkt = some frags
      ∧ ((frags.map (fun f => tcp_payload f.1)).flatten).map ascii_lower
          = (tcp_payload pkt).map ascii_lower
      ∧ (g.settings.mix_host_case = false →
          (frags.map (fun f => tcp_payload f.1)).flatten = tcp_payload pkt)) := by
  have hh := hp.1
  constructor
  · refine ⟨_, split_fragments_eq g w pkt hh hn hm, ?_, ?_⟩
    · rw [fragments_of_lower pkt _ _ (split_final g pkt hh hn), split_cut_tiling]
    · intro hmix
      have := unmixed_payloads pkt hh (split_cut g.settings (tcp_payload pkt).length)
        (fun c hc => ((split_cut_ok g.settings _ hn).1 c hc).1)
      rw [hmix]
      simp only [mix_if, Bool.false_eq_true, if_false]
      simp only [split_cut, List.map_cons, List.map_nil] at this ⊢
      rw [this]
      exact split_cut_tiling g.settings pkt
  · refine ⟨_, disorder_fragments_eq g w pkt hh hn hm, ?_, ?_⟩
    · rw [fragments_of_lower pkt _ _ (disorder_final g pkt hh hn), disorder_cut_tiling _ _ hn]
    · intro hmix
      have := unmixed_payloads pkt hh (disorder_cut g.settings (tcp_payload pkt).length)
        (fun c hc => ((disorder_cut_ok g.settings _ hn).1 c hc).1)
      rw [hmix]
      have e : ∀ l, mix_head false l = l := fun l => by
        cases l with
        | nil => rfl
        | cons a t => simp [mix_head, mix_if]
      rw [e, this]
      exact disorder_cut_tiling g.settings pkt hn

/-- C1, witness: the sample frame, SPLIT and DISORDER with `mix_host_case` set. -/
theorem C1_payload_reassembly_witness :
    valid_packet sample_http ∧ 2 ≤ (tcp_payload sample_http).length
      ∧ (∃ frags, split_fragments (sample_g 1 2 4 true) sample_world sample_http = some frags
        ∧ ((frags.map (fun f => tcp_payload f.1)).flatten).map ascii_lower
            = (tcp_payload sample_http).map ascii_lower
        ∧ ((sample_g 1 2 4 true).settings.mix_host_case = false →
            (frags.map (fun f => tcp_payload f.1)).flatten = tcp_payload sample_http))
      ∧ (∃ frags, disorder_fragments (sample_g 1 2 4 true) sample_world sample_http = some frags
        ∧ ((frags.map (fun f => tcp_payload f.1)).flatten).map ascii_lower
            = (tcp_payload sample_http).map ascii_lower
        ∧ ((sample_g 1 2 4 true).settings.mix_host_case = false →
            (frags.map (fun f => tcp_payload f.1)).flatten = tcp_payload sample_http)) :=
  ⟨by decide, by decide,
    C1_payload_reassembly (sample_g 1 2 4 true) sample_world sample_http (by decide) (by decide)
      (fun _ => rfl)⟩

/-! ## Sequence numbers (claim C2) -/

theorem tcp_seq_be (m : List Nat) (hb : bytes_ok m) :
    tcp_seq m = 16777216 * load8 m (ip_hdr_len m + 4) + 65536 * load8 m (ip_hdr_len m + 5)
      + 256 * load8 m (ip_hdr_len m + 6) + load8 m (ip_hdr_len m + 7) := by
  have h0 := load8_lt m hb (ip_hdr_len m + 4)
  have h1 := load8_lt m hb (ip_hdr_len m + 5)
  have h2 := load8_lt m hb (ip_hdr_len m + 6)
  have h3 := load8_lt m hb (ip_hdr_len m + 7)
  unfold tcp_seq ntohl
  rw [load32_eq]
  have e : load8 m (ip_hdr_len m + 4) + 256 * load8 m (ip_hdr_len m + 4 + 1)
      + 65536 * load8 m (ip_hdr_len m + 4 + 2) + 16777216 * load8 m (ip_hdr_len m + 4 + 3)
      = 16777216 * load8 m (ip_hdr_len m + 7) + 65536 * load8 m (ip_hdr_len m + 6)
        + 256 * load8 m (ip_hdr_len m + 5) + load8 m (ip_hdr_len m + 4) := by
    have a1 : ip_hdr_len m + 4 + 1 = ip_hdr_len m + 5 := by omega
    have a2 : ip_hdr_len m + 4 + 2 = ip_hdr_len m + 6 := by omega
    have a3 : ip_hdr_len m + 4 + 3 = ip_hdr_len m + 7 := by omega
    rw [a1, a2, a3]; omega
  rw [e, htonl_bytes _ _ _ _ h0 h1 h2 h3]

theorem seq_of_fragments (pkt : List Nat) (cut : List (Nat × Nat))
    (frags : List (List Nat × Nat)) (h : fragments_of pkt cut frags)
    (hc : cut_ok (tcp_payload pkt).length cut) (j : Nat) (f : List Nat × Nat)
    (hf : frags[j]? = some f) :
    tcp_seq f.1 = (tcp_seq pkt + offset_of frags j) % 2 ^ 32
      ∧ tcp_seq f.1 = 16777216 * load8 f.1 (ip_hdr_len f.1 + 4)
          + 65536 * load8 f.1 (ip_hdr_len f.1 + 5) + 256 * load8 f.1 (ip_hdr_len f.1 + 6)
          + load8 f.1 (ip_hdr_len f.1 + 7)
      ∧ offset_of frags j + (tcp_payload f.1).length ≤ (tcp_payload pkt).length
      ∧ (tcp_payload f.1).map ascii_lower
          = (((tcp_payload pkt).drop (offset_of frags j)).take (tcp_payload f.1).length).map
              ascii_lower := by
  obtain ⟨c, mixed, -, ho, hb, -, hfin⟩ := fragments_of_index pkt cut frags h hc j f hf
  have hl := final_payload_length pkt c mixed f hb hfin
  refine ⟨by rw [hfin.seq, ho], tcp_seq_be f.1 hfin.bytes, by omega, ?_⟩
  rw [final_payload_lower pkt c mixed f hfin, hl, ← ho]
  rfl

/-- C2: for every fragment built by the SPLIT and DISORDER paths from a valid
IPv4/TCP packet, the TCP sequence number of the fragment is
`(original_seq + o) mod 2^32`, where `o` is the number of payload bytes of the
fragments before it, which is the offset at which its payload lies inside the
original payload (the bytes there agree up to the letter case that host-case
mixing may change); the value is stored big-endian in the four bytes of
`TCP.seq`. -/
theorem C2_fragment_seq (g : GBypass) (w : World) (pkt : List Nat) (hp : valid_packet pkt)
    (hn : 2 ≤ (tcp_payload pkt).length) (hm : ∀ j, w.malloc_ok j = true) :
    (∃ frags, split_fragments g w pkt = some frags
      ∧ ∀ (j : Nat) (f : List Nat × Nat), frags[j]? = some f →
        tcp_seq f.1 = (tcp_seq pkt + offset_of frags j) % 2 ^ 32
          ∧ tcp_seq f.1 = 16777216 * load8 f.1 (ip_hdr_len f.1 + 4)
              + 65536 * load8 f.1 (ip_hdr_len f.1 + 5) + 256 * load8 f.1 (ip_hdr_len f.1 + 6)
              + load8 f.1 (ip_hdr_len f.1 + 7)
          ∧ offset_of frags j + (tcp_payload f.1).length ≤ (tcp_payload pkt).length
          ∧ (tcp_payload f.1).map ascii_lower
              = (((tcp_payload pkt).drop (offset_of frags j)).take (tcp_payload f.1).length).map
                  ascii_lower)
    ∧ (∃ frags, disorder_fragments g w pkt = some frags
      ∧ ∀ (j : Nat) (f : List Nat × Nat), frags[j]? = some f →
        tcp_seq f.1 = (tcp_seq pkt + offset_of frags j) % 2 ^ 32
          ∧ tcp_seq f.1 = 16777216 * load8 f.1 (ip_hdr_len f.1 + 4)
              + 65536 * load8 f.1 (ip_hdr_len f.1 + 5) + 256 * load8 f.1 (ip_hdr_len f.1 + 6)
              + load8 f.1 (ip_hdr_len f.1 + 7)
          ∧ offset_of frags j + (tcp_payload f.1).length ≤ (tcp_payload pkt).length
          ∧ (tcp_payload f.1).map ascii_lower
              = (((tcp_payload pkt).drop (offset_of frags j)).take (tcp_payload f.1).length).map
                  ascii_lower) := by
  have hh := hp.1
  exact ⟨⟨_, split_fragments_eq g w pkt hh hn hm,
      seq_of_fragments pkt _ _ (split_final g pkt hh hn) (split_cut_ok g.settings _ hn)⟩,
    ⟨_, disorder_fragments_eq g w pkt hh hn hm,
      seq_of_fragments pkt _ _ (disorder_final g pkt hh hn) (disorder_cut_ok g.settings _ hn)⟩⟩

/-- C2, witness: the sample frame under SPLIT and DISORDER. -/
theorem C2_fragment_seq_witness :
    valid_packet sample_http ∧ 2 ≤ (tcp_payload sample_http).length
      ∧ (∃ frags, split_fragments (sample_g 1 2 4 true) sample_world sample_http = some frags
        ∧ ∀ (j : Nat) (f : List Nat × Nat), frags[j]? = some f →
          tcp_seq f.1 = (tcp_seq sample_http + offset_of frags j) % 2 ^ 32) :=
  ⟨by decide, by decide,
    let ⟨frags, h1, h2⟩ := (C2_fragment_seq (sample_g 1 2 4 true) sample_world sample_http
      (by decide) (by decide) (fun _ => rfl)).1
    ⟨frags, h1, fun j f hf => (h2 j f hf).1⟩⟩

/-! ## Checksums (claims C3 and C4) -/

/-- C3: for every fragment that `create_tcp_fragment` produces from a packet
whose IPv4 header length is between 20 and 60 bytes (and whose headers lie
inside the frame), the IP header checksum stored in the fragment verifies: the
16-bit one's-complement sum of the words of the fragment's IP header, stored
checksum included, is 0xFFFF. -/
theorem C3_ip_checksum_verifies (pkt data : List Nat) (dl off : Nat) (hp : headers_ok pkt)
    (hd : bytes_ok data) (hdl : dl ≤ data.length) :
    20 ≤ ip_hdr_len pkt ∧ ip_hdr_len pkt ≤ 60
      ∧ ∃ f, create_tcp_fragment true pkt pkt.length data dl off = some f
          ∧ ip_hdr_len f.1 = ip_hdr_len pkt ∧ ip_verify f.1 = 65535 := by
  obtain ⟨p, h1, h2⟩ := create_tcp_fragment_spec pkt data dl off hp hd hdl
  have hih : ip_hdr_len pkt ≤ 60 := by
    unfold ip_hdr_len ip_ihl; have := Nat.mod_lt (load8 pkt 0) (by norm_num : 16 > 0); omega
  exact ⟨hp.2.2.2.1, hih, _, h1, h2.ip_len, h2.ip_ck⟩

/-- C3, witness: the sample frame with a 2-byte sub-payload. -/
theorem C3_ip_checksum_verifies_witness :
    headers_ok sample_http ∧ bytes_ok [120, 120] ∧ 2 ≤ [120, 120].length
      ∧ ∃ f, create_tcp_fragment true sample_http sample_http.length [120, 120] 2 0 = some f
          ∧ ip_hdr_len f.1 = ip_hdr_len sample_http ∧ ip_verify f.1 = 65535 :=
  ⟨by decide, by decide, by decide,
    (C3_ip_checksum_verifies sample_http [120, 120] 2 0 (by decide) (by decide) (by decide)).2.2⟩

theorem tcp_ck_of_fragments (pkt : List Nat) (hsz : pkt.length ≤ 65535) (cut : List (Nat × Nat))
    (frags : List (List Nat × Nat)) (h : fragments_of pkt cut frags)
    (hc : cut_ok (tcp_payload pkt).length cut) (f : List Nat × Nat) (hf : f ∈ frags) :
    tcp_verify f.1 = 65535 ∧ ip_verify f.1 = 65535 := by
  obtain ⟨j, hj⟩ := List.mem_iff_getElem?.mp hf
  obtain ⟨c, mixed, -, -, hb, hb1, hfin⟩ := fragments_of_index pkt cut frags h hc j f hj
  refine ⟨hfin.tcp_ck ?_, hfin.ip_ck⟩
  rw [hfin.length_eq]
  have : (tcp_payload pkt).length = pkt.length - (ip_hdr_len pkt + tcp_hdr_len pkt) := by
    unfold tcp_payload; rw [List.length_drop]
  omega

/-- C4: for every fragment of the SPLIT and DISORDER paths (payload of even or
odd length, the fragment rewritten by host-case mixing included) built from a
valid packet of at most 65535 bytes, the stored TCP checksum verifies: the
one's-complement sum over the pseudo-header (source, destination, zero,
protocol 6, TCP length), the TCP header with the stored checksum, and the
payload with an odd final byte padded by a zero byte, is 0xFFFF. -/
theorem C4_tcp_checksum_verifies (g : GBypass) (w : World) (pkt : List Nat)
    (hp : valid_packet pkt) (hsz : pkt.length ≤ 65535) (hn : 2 ≤ (tcp_payload pkt).length)
    (hm : ∀ j, w.malloc_ok j = true) :
    (∃ frags, split_fragments g w pkt = some frags ∧ ∀ f ∈ frags, tcp_verify f.1 = 65535)
    ∧ (∃ frags, disorder_fragments g w pkt = some frags ∧ ∀ f ∈ frags, tcp_verify f.1 = 65535) := by
  have hh := hp.1
  exact ⟨⟨_, split_fragments_eq g w pkt hh hn hm, fun f hf =>
      (tcp_ck_of_fragments pkt hsz _ _ (split_final g pkt hh hn) (split_cut_ok g.settings _ hn)
        f hf).1⟩,
    ⟨_, disorder_fragments_eq g w pkt hh hn hm, fun f hf =>
      (tcp_ck_of_fragments pkt hsz _ _ (disorder_final g pkt hh hn)
        (disorder_cut_ok g.settings _ hn) f hf).1⟩⟩

/-- C4, witness: the sample frame (odd payload lengths, host-case mixing on). -/
theorem C4_tcp_checksum_verifies_witness :
    valid_packet sample_http ∧ sample_http.length ≤ 65535
      ∧ 2 ≤ (tcp_payload sample_http).length
      ∧ (∃ frags, split_fragments (sample_g 1 2 4 true) sample_world sample_http = some frags
          ∧ ∀ f ∈ frags, tcp_verify f.1 = 65535)
      ∧ (∃ frags, disorder_fragments (sample_g 1 2 4 true) sample_world sample_http = some frags
          ∧ ∀ f ∈ frags, tcp_verify f.1 = 65535) :=
  ⟨by decide, by decide, by decide,
    C4_tcp_checksum_verifies (sample_g 1 2 4 true) sample_world sample_http (by decide)
      (by decide) (by decide) (fun _ => rfl)⟩

/-! ## IP identification (claim C5) -/

/-- C5, the code at a failing input: DISORDER with `split_count = 4` on the
sample frame (9 payload bytes, IP id 0x1234) builds four fragments, and the
second, third and fourth all carry the IP id 0x1235. -/
theorem C5_disorder_ids_repeat :
    ∃ frags, disorder_fragments (sample_g 3 2 4 false) sample_world sample_http = some frags
      ∧ frags.map (fun f => ip_id f.1) = [4660, 4661, 4661, 4661] := by
  have hp : headers_ok sample_http := by decide
  have hn : 2 ≤ (tcp_payload sample_http).length := by decide
  refine ⟨_, disorder_fragments_eq _ sample_world sample_http hp hn (fun _ => rfl), ?_⟩
  have hcut : disorder_cut (sample_g 3 2 4 false).settings (tcp_payload sample_http).length
      = [(0, 2), (2, 2), (4, 2), (6, 3)] := by decide
  have hmix : (sample_g 3 2 4 false).settings.mix_host_case = false := rfl
  have hid : ip_id sample_http = 4660 := by decide
  have h0 := (final_of_frag_at sample_http (0, 2) hp (by decide) false).id
  have h1 := (final_of_frag_at sample_http (2, 2) hp (by decide) false).id
  have h2 := (final_of_frag_at sample_http (4, 2) hp (by decide) false).id
  have h3 := (final_of_frag_at sample_http (6, 3) hp (by decide) false).id
  simp only [mix_if, Bool.false_eq_true, if_false, hid] at h0 h1 h2 h3
  rw [hcut, hmix]
  simp only [List.map_cons, List.map_nil, mix_head, mix_if, Bool.false_eq_true, if_false]
  rw [h0, h1, h2, h3]
  decide

/-! ## Layout of a fragment (claim C6) -/

/-- C6: for every original packet with well-formed headers (IP header length
`h1`, TCP header length `h2`) and every sub-payload `p` with
`h1 + h2 + |p| ≤ 65535`, `create_tcp_fragment` returns exactly `h1 + h2 + |p|`
bytes: the two original headers followed by `p`, in which `IP.total_length`
holds `h1 + h2 + |p|` big-endian, and every header byte outside
`IP.total_length`, `IP.id`, `IP.checksum`, `TCP.seq` and `TCP.checksum` is the
byte of the original packet. -/
theorem C6_fragment_layout (pkt p : List Nat) (off : Nat) (hp : headers_ok pkt)
    (hb : bytes_ok p) (hsz : ip_hdr_len pkt + tcp_hdr_len pkt + p.length ≤ 65535) :
    ∃ f, create_tcp_fragment true pkt pkt.length p p.length off
        = some (f, ip_hdr_len pkt + tcp_hdr_len pkt + p.length)
      ∧ f.length = ip_hdr_len pkt + tcp_hdr_len pkt + p.length
      ∧ f.drop (ip_hdr_len pkt + tcp_hdr_len pkt) = p
      ∧ ip_tot_len f = ip_hdr_len pkt + tcp_hdr_len pkt + p.length
      ∧ load8 f 2 = (ip_hdr_len pkt + tcp_hdr_len pkt + p.length) / 256
      ∧ load8 f 3 = (ip_hdr_len pkt + tcp_hdr_len pkt + p.length) % 256
      ∧ ∀ i, i < ip_hdr_len pkt + tcp_hdr_len pkt → i ≠ 2 → i ≠ 3 → i ≠ 4 → i ≠ 5 →
          i ≠ 10 → i ≠ 11 → (i < ip_hdr_len pkt + 4 ∨ ip_hdr_len pkt + 8 ≤ i) →
          i ≠ ip_hdr_len pkt + 16 → i ≠ ip_hdr_len pkt + 17 → f[i]? = pkt[i]? := by
  obtain ⟨f, h1, h2⟩ := create_tcp_fragment_spec pkt p p.length off hp hb (le_refl _)
  have hmod : (ip_hdr_len pkt + tcp_hdr_len pkt + p.length) % 2 ^ 32
      = ip_hdr_len pkt + tcp_hdr_len pkt + p.length := Nat.mod_eq_of_lt (by omega)
  have htot : ip_tot_len f = ip_hdr_len pkt + tcp_hdr_len pkt + p.length := by
    rw [h2.tot_len, hmod, Nat.mod_eq_of_lt (by omega)]
  have hpay : f.drop (ip_hdr_len pkt + tcp_hdr_len pkt) = p := by
    have := h2.payload_eq
    unfold tcp_payload at this
    rw [h2.ip_len, h2.tcp_len, List.take_length] at this
    exact this
  have hbytes : 256 * load8 f 2 + load8 f 3 = ip_hdr_len pkt + tcp_hdr_len pkt + p.length := by
    rw [← htot]; unfold ip_tot_len ntohs
    rw [load16_eq, Nat.add_comm (load8 f 2),
      htons_bytes _ _ (load8_lt f h2.bytes 2) (load8_lt f h2.bytes (2 + 1))]
  have b2 := load8_lt f h2.bytes 2
  have b3 := load8_lt f h2.bytes 3
  rw [hmod] at h1
  refine ⟨f, h1, h2.length_eq, hpay, htot, by omega, by omega, ?_⟩
  intro i hi a2 a3 a4 a5 a10 a11 as a16 a17
  have hl := h2.frame i hi a2 a3 a4 a5 a10 a11 as a16 a17
  have hfi : i < f.length := by rw [h2.length_eq]; omega
  have hpi : i < pkt.length := by have := hp.2.2.2.2.2; omega
  rw [load8_eq f i hfi, load8_eq pkt i hpi] at hl
  rw [List.getElem?_eq_getElem hfi, List.getElem?_eq_getElem hpi, hl]

/-- C6, witness: the sample frame with a 2-byte sub-payload. -/
theorem C6_fragment_layout_witness :
    headers_ok sample_http ∧ bytes_ok [120, 120]
      ∧ ip_hdr_len sample_http + tcp_hdr_len sample_http + [120, 120].length ≤ 65535
      ∧ ∃ f, create_tcp_fragment true sample_http sample_http.length [120, 120]
            [120, 120].length 0
          = some (f, ip_hdr_len sample_http + tcp_hdr_len sample_http + [120, 120].length)
        ∧ f.length = ip_hdr_len sample_http + tcp_hdr_len sample_http + [120, 120].length :=
  ⟨by decide, by decide, by decide,
    let ⟨f, h1, h2, _⟩ := C6_fragment_layout sample_http [120, 120] 0 (by decide) (by decide)
      (by decide)
    ⟨f, h1, h2⟩⟩

/-! ## The SPLIT position (claim C7) -/

/-- C8, counterexample: DISORDER with `split_count = 4` on a frame with a
3-byte payload builds 3 fragments, while `clamp(split_count, 2, 10)` is 4. -/
theorem C8_counterexample :
    ∃ frags, disorder_fragments (sample_g 3 2 4 false) sample_world sample_short = some frags
      ∧ disorder_count (sample_g 3 2 4 false).settings = 4 ∧ frags.length = 3 := by
  have hp : headers_ok sample_short := by decide
  have hn : 2 ≤ (tcp_payload sample_short).length := by decide
  refine ⟨_, disorder_fragments_eq _ sample_world sample_short hp hn (fun _ => rfl), by decide, ?_⟩
  have hcut : disorder_cut (sample_g 3 2 4 false).settings (tcp_payload sample_short).length
      = [(0, 1), (1, 1), (2, 1)] := by decide
  rw [hcut]
  rfl

/-- C8 (amended): for every valid packet with a TCP payload of `n ≥ 2` bytes
and every `split_count`, with `c = clamp(split_count, 2, 10)`: when `n ≥ c`
the DISORDER path builds exactly `c` fragments, each of the first `c-1`
carrying `n/c` payload bytes and the last one the remaining
`n - (c-1)*(n/c)` bytes; when `n < c` it builds `n` fragments of one byte
each. -/
theorem C8_disorder_sizes (g : GBypass) (w : World) (pkt : List Nat) (hp : valid_packet pkt)
    (hn : 2 ≤ (tcp_payload pkt).length) (hm : ∀ j, w.malloc_ok j = true) :
    (2 ≤ disorder_count g.settings ∧ disorder_count g.settings ≤ 10
      ∧ (g.settings.split_count % 256 < 2 → disorder_count g.settings = 2)
      ∧ (10 < g.settings.split_count % 256 → disorder_count g.settings = 10)
      ∧ (2 ≤ g.settings.split_count % 256 → g.settings.split_count % 256 ≤ 10 →
          disorder_count g.settings = g.settings.split_count % 256))
    ∧ ∃ frags, disorder_fragments g w pkt = some frags
      ∧ (disorder_count g.settings ≤ (tcp_payload pkt).length →
          frags.length = disorder_count g.settings
          ∧ frags.map (fun f => (tcp_payload f.1).length)
            = List.replicate (disorder_count g.settings - 1)
                ((tcp_payload pkt).length / disorder_count g.settings)
              ++ [(tcp_payload pkt).length - (disorder_count g.settings - 1)
                    * ((tcp_payload pkt).length / disorder_count g.settings)])
      ∧ ((tcp_payload pkt).length < disorder_count g.settings →
          frags.length = (tcp_payload pkt).length
          ∧ frags.map (fun f => (tcp_payload f.1).length)
            = List.replicate (tcp_payload pkt).length 1) := by
  have hh := hp.1
  refine ⟨disorder_count_spec g.settings, _, disorder_fragments_eq g w pkt hh hn hm, ?_, ?_⟩
  all_goals
    intro hcn
    have hsz := fragments_of_sizes pkt _ _ (disorder_final g pkt hh hn)
      (disorder_cut_ok g.settings _ hn).1
    have hlen := congrArg List.length hsz
    rw [List.length_map, List.length_map, disorder_cut_length] at hlen
    obtain ⟨hc2, hc10, -⟩ := disorder_count_spec g.settings
  · have hmin : min (disorder_count g.settings) (tcp_payload pkt).length
        = (disorder_count g.settings - 1) + 1 := by omega
    have hcs : disorder_chunk_size (tcp_payload pkt).length (disorder_count g.settings)
        = (tcp_payload pkt).length / disorder_count g.settings := by
      have := (Nat.one_le_div_iff (by omega : 0 < disorder_count g.settings)).mpr hcn
      unfold disorder_chunk_size; simp only; rw [if_neg (by omega)]
    refine ⟨by omega, ?_⟩
    rw [hsz]
    unfold disorder_cut
    rw [hmin, even_cut_sizes, hcs, Nat.zero_add]
  · have hmin : min (disorder_count g.settings) (tcp_payload pkt).length
        = ((tcp_payload pkt).length - 1) + 1 := by omega
    have hcs : disorder_chunk_size (tcp_payload pkt).length (disorder_count g.settings) = 1 := by
      have := Nat.div_eq_of_lt hcn
      unfold disorder_chunk_size; simp only; rw [if_pos (by omega)]
    refine ⟨by omega, ?_⟩
    rw [hsz]
    unfold disorder_cut
    rw [hmin, even_cut_sizes, hcs, Nat.zero_add, Nat.mul_one]
    have e : (tcp_payload pkt).length - ((tcp_payload pkt).length - 1) = 1 := by omega
    rw [e]
    have e2 : List.replicate (tcp_payload pkt).length 1
        = List.replicate ((tcp_payload pkt).length - 1 + 1) 1 := by
      congr 1; omega
    rw [e2, List.replicate_succ']

/-- C8, witness: the sample frame (9 payload bytes) with `split_count = 4`. -/
theorem C8_disorder_sizes_witness :
    valid_packet sample_http ∧ 2 ≤ (tcp_payload sample_http).length
      ∧ ∃ frags, disorder_fragments (sample_g 3 2 4 false) sample_world sample_http = some frags
        ∧ (disorder_count (sample_g 3 2 4 false).settings ≤ (tcp_payload sample_http).length →
            frags.length = disorder_count (sample_g 3 2 4 false).settings
            ∧ frags.map (fun f => (tcp_payload f.1).length)
              = List.replicate (disorder_count (sample_g 3 2 4 false).settings - 1)
                  ((tcp_payload sample_http).length
                    / disorder_count (sample_g 3 2 4 false).settings)
                ++ [(tcp_payload sample_http).length
                      - (disorder_count (sample_g 3 2 4 false).settings - 1)
                        * ((tcp_payload sample_http).length
                            / disorder_count (sample_g 3 2 4 false).settings)]) :=
  ⟨by decide, by decide,
    let ⟨frags, h1, h2, _⟩ := (C8_disorder_sizes (sample_g 3 2 4 false) sample_world sample_http
      (by decide) (by decide) (fun _ => rfl)).2
    ⟨frags, h1, h2⟩⟩

theorem disorder_loop_in_bounds (w : World) (pkt : List Nat) (len : Nat) (data : List Nat)
    (n count cs : Nat) :
    ∀ rem i offset (arr : FragArray) k, i + rem ≤ arr.length →
      disorder_create_loop w pkt len data n count cs rem i offset arr k
        ≠ .error .out_of_bounds := by
  intro rem
  induction rem with
  | zero => intro i offset arr k _; simp [disorder_create_loop]
  | succ r ih =>
    intro i offset arr k hlen
    unfold disorder_create_loop
    by_cases ho : offset < n
    · simp only [if_pos ho]
      split
      · simp
      · rw [if_pos (by omega)]
        exact ih _ _ _ _ (by rw [List.length_set]; omega)
    · simp [if_neg ho]

/-- C9: for every valid packet with a TCP payload of `n ≥ 2` bytes and every
`split_count` (a `uint8_t`, 0..255), the loop of the DISORDER path never
stores outside the 10-slot fragment array, whatever `malloc` does; and when
the fragments are built there are at least 2 and at most 10 of them, every one
with a non-empty payload. -/
theorem C9_disorder_bounds (g : GBypass) (w : World) (pkt : List Nat) (hp : valid_packet pkt)
    (hn : 2 ≤ (tcp_payload pkt).length) :
    disorder_create g w pkt pkt.length ≠ .error .out_of_bounds
      ∧ ((∀ j, w.malloc_ok j = true) →
          ∃ frags, disorder_fragments g w pkt = some frags
            ∧ 2 ≤ frags.length ∧ frags.length ≤ 10
            ∧ ∀ f ∈ frags, 1 ≤ (tcp_payload f.1).length) := by
  have hh := hp.1
  obtain ⟨hc2, hc10, -⟩ := disorder_count_spec g.settings
  constructor
  · unfold disorder_create
    split
    · simp
    · simp only
      split
      · simp
      · exact disorder_loop_in_bounds w pkt _ _ _ _ _ _ _ _ _ _ (by simp; omega)
  · intro hm
    have hsz := fragments_of_sizes pkt _ _ (disorder_final g pkt hh hn)
      (disorder_cut_ok g.settings _ hn).1
    have hlen := congrArg List.length hsz
    rw [List.length_map, List.length_map, disorder_cut_length] at hlen
    refine ⟨_, disorder_fragments_eq g w pkt hh hn hm, by omega, by omega, ?_⟩
    intro f hf
    have hmem : (tcp_payload f.1).length
        ∈ (mix_head g.settings.mix_host_case
            ((disorder_cut g.settings (tcp_payload pkt).length).map (frag_at pkt))).map
              (fun f => (tcp_payload f.1).length) := List.mem_map_of_mem _ hf
    rw [hsz] at hmem
    obtain ⟨c, hc, hce⟩ := List.mem_map.mp hmem
    have := ((disorder_cut_ok g.settings _ hn).1 c hc).2
    omega

/-- C9, witness: the sample frame with `split_count = 255`. -/
theorem C9_disorder_bounds_witness :
    valid_packet sample_http ∧ 2 ≤ (tcp_payload sample_http).length
      ∧ disorder_create (sample_g 3 2 255 true) sample_world sample_http sample_http.length
          ≠ .error .out_of_bounds
      ∧ ((∀ j, sample_world.malloc_ok j = true) →
          ∃ frags, disorder_fragments (sample_g 3 2 255 true) sample_world sample_http = some frags
            ∧ 2 ≤ frags.length ∧ frags.length ≤ 10
            ∧ ∀ f ∈ frags, 1 ≤ (tcp_payload f.1).length) :=
  ⟨by decide, by decide,
    C9_disorder_bounds (sample_g 3 2 255 true) sample_world sample_http (by decide) (by decide)⟩

/-! ## Order of the sends (claim C10) -/

theorem send_ok (g : GBypass) (ret : Int) (len : Nat) (hinit : g.raw_socket_initialized = true)
    (hfd : 0 ≤ g.raw_socket) (hret : 0 ≤ ret) (hlen : 20 ≤ len) :
    dpi_send_raw_packet g ret len = 0 := by
  unfold dpi_send_raw_packet
  rw [if_neg (by rw [hinit]; simp; omega), if_neg (by omega), if_neg (by omega)]

theorem slots_getD (fs : List (List Nat × Nat)) (k i : Nat) (f : List Nat × Nat)
    (h : fs[i]? = some f) :
    (fs.map some ++ List.replicate k none).getD i none = some f := by
  have hi : i < fs.length := (List.getElem?_eq_some_iff.mp h).1
  rw [List.getD_eq_getElem?_getD, List.getElem?_append_left (by simp; exact hi),
    List.getElem?_map, h]
  rfl

theorem disorder_send_forward_ok (g : GBypass) (w : World) (fs : List (List Nat × Nat))
    (n dst : Nat) (hinit : g.raw_socket_initialized = true) (hfd : 0 ≤ g.raw_socket)
    (hs : ∀ k, 0 ≤ w.sendto_ret k) (hlen : ∀ f ∈ fs, 20 ≤ f.2) :
    ∀ rem i k trace, i + rem = fs.length →
      disorder_send_forward g w (fs.map some ++ List.replicate n none) dst rem i k trace
        = (0, trace ++ (fs.drop i).map (to_call dst)) := by
  intro rem
  induction rem with
  | zero =>
    intro i k trace h
    simp [disorder_send_forward, List.drop_of_length_le (by omega : fs.length ≤ i)]
  | succ r ih =>
    intro i k trace h
    have hi : i < fs.length := by omega
    have hget : fs[i]? = some fs[i] := List.getElem?_eq_getElem hi
    unfold disorder_send_forward
    rw [slots_getD fs n i _ hget]
    simp only
    rw [send_ok g _ _ hinit hfd (hs k) (hlen _ (List.getElem_mem hi)), if_neg (by omega),
      ih (i + 1) (k + 1) _ (by omega)]
    simp only [List.append_assoc, List.singleton_append, Prod.mk.injEq, true_and,
      List.append_cancel_left_eq]
    rw [List.drop_eq_getElem_cons hi, List.map_cons]
    rfl

theorem disorder_send_reverse_ok (g : GBypass) (w : World) (fs : List (List Nat × Nat))
    (n dst : Nat) (hinit : g.raw_socket_initialized = true) (hfd : 0 ≤ g.raw_socket)
    (hs : ∀ k, 0 ≤ w.sendto_ret k) (hlen : ∀ f ∈ fs, 20 ≤ f.2) :
    ∀ i k trace, i ≤ fs.length →
      disorder_send_reverse g w (fs.map some ++ List.replicate n none) dst i k trace
        = (0, trace ++ ((fs.take i).map (to_call dst)).reverse) := by
  intro i
  induction i with
  | zero => intro k trace _; simp [disorder_send_reverse]
  | succ i ih =>
    intro k trace h
    have hi : i < fs.length := by omega
    have hget : fs[i]? = some fs[i] := List.getElem?_eq_getElem hi
    unfold disorder_send_reverse
    rw [slots_getD fs n i _ hget]
    simp only
    rw [send_ok g _ _ hinit hfd (hs k) (hlen _ (List.getElem_mem hi)), if_neg (by omega),
      ih (k + 1) _ (by omega)]
    simp only [List.append_assoc, List.singleton_append, Prod.mk.injEq, true_and,
      List.append_cancel_left_eq]
    rw [List.take_succ, hget, Option.toList, List.map_append, List.reverse_append]
    rfl

theorem final_len_ge (pkt : List Nat) (hp : headers_ok pkt) (cut : List (Nat × Nat))
    (frags : List (List Nat × Nat)) (h : fragments_of pkt cut frags) :
    ∀ f ∈ frags, 20 ≤ f.2 := by
  intro f hf
  obtain ⟨j, hj⟩ := List.mem_iff_getElem?.mp hf
  obtain ⟨c, -, mixed, hfin⟩ := forall₂_index _ _ _ h j f hj
  rw [hfin.len_eq, hfin.length_eq]
  have := hp.2.2.2.1
  omega

/-- C10: for every valid packet with at least 2 payload bytes and fixed
settings, when the fragments are built and every raw send succeeds, SPLIT hands
its two fragments to the raw injector in build order and SPLIT_REVERSE hands
over the same fragments in the reverse order (second, then first); DISORDER
hands over its fragments in build order and DISORDER_REVERSE the same fragments
in the reverse order; all four calls return 0. -/
theorem C10_reverse_order (g : GBypass) (w : World) (pkt : List Nat) (dst : Nat)
    (hp : valid_packet pkt) (hn : 2 ≤ (tcp_payload pkt).length)
    (hm : ∀ j, w.malloc_ok j = true) (hinit : g.raw_socket_initialized = true)
    (hfd : 0 ≤ g.raw_socket) (hs : ∀ k, 0 ≤ w.sendto_ret k) :
    (∃ frags, split_fragments g w pkt = some frags
      ∧ apply_split_with_injection g w pkt pkt.length dst false = (0, frags.map (to_call dst))
      ∧ apply_split_with_injection g w pkt pkt.length dst true
          = (0, (frags.map (to_call dst)).reverse))
    ∧ (∃ frags, disorder_fragments g w pkt = some frags
      ∧ apply_disorder_with_injection g w pkt pkt.length dst false
          = (0, frags.map (to_call dst))
      ∧ apply_disorder_with_injection g w pkt pkt.length dst true
          = (0, (frags.map (to_call dst)).reverse))
    ∧ (apply_split_with_injection g w pkt pkt.length dst true).2
        = (apply_split_with_injection g w pkt pkt.length dst false).2.reverse
    ∧ (apply_disorder_with_injection g w pkt pkt.length dst true).2
        = (apply_disorder_with_injection g w pkt pkt.length dst false).2.reverse := by
  have hh := hp.1
  -- SPLIT
  have hsl := final_len_ge pkt hh _ _ (split_final g pkt hh hn)
  have hb := split_build_spec g w pkt hh hn (hm 0) (hm 1)
  set f1 := frag_at pkt (0, split_pos g.settings (tcp_payload pkt).length) with hf1
  set f2 := mix_if g.settings.mix_host_case
    (frag_at pkt (split_pos g.settings (tcp_payload pkt).length,
      (tcp_payload pkt).length - split_pos g.settings (tcp_payload pkt).length)) with hf2
  have s1 := send_ok g (w.sendto_ret 0) f1.2 hinit hfd (hs 0) (hsl f1 (by simp))
  have s1' := send_ok g (w.sendto_ret 1) f1.2 hinit hfd (hs 1) (hsl f1 (by simp))
  have s2 := send_ok g (w.sendto_ret 0) f2.2 hinit hfd (hs 0) (hsl f2 (by simp))
  have s2' := send_ok g (w.sendto_ret 1) f2.2 hinit hfd (hs 1) (hsl f2 (by simp))
  have hfwd : apply_split_with_injection g w pkt pkt.length dst false
      = (0, [f1, f2].map (to_call dst)) := by
    unfold apply_split_with_injection
    rw [hb]
    simp only [Bool.false_eq_true, if_false, s1, s2', lt_self_iff_false, List.map_cons,
      List.map_nil, to_call]
  have hrev : apply_split_with_injection g w pkt pkt.length dst true
      = (0, ([f1, f2].map (to_call dst)).reverse) := by
    unfold apply_split_with_injection
    rw [hb]
    simp only [if_true, s2, s1', lt_self_iff_false, if_false, List.map_cons, List.map_nil,
      to_call, List.reverse_cons, List.reverse_nil, List.nil_append, List.singleton_append]
  -- DISORDER
  have hdl := final_len_ge pkt hh _ _ (disorder_final g pkt hh hn)
  have hdf := disorder_fragments_eq g w pkt hh hn hm
  set fs := mix_head g.settings.mix_host_case
    ((disorder_cut g.settings (tcp_payload pkt).length).map (frag_at pkt)) with hfs
  have hbuild : ∃ k, disorder_build g w pkt pkt.length
      = .ok (fs.map some ++ List.replicate k none, fs.length) := by
    unfold disorder_build
    rw [disorder_create_eq g w pkt hh hn hm]
    obtain ⟨c, t, hct, -⟩ := disorder_cut_cons g.settings _ hn
    rw [hfs, hct]
    simp only [List.map_cons, List.length_cons, List.cons_append, mix_head]
    cases hmix : g.settings.mix_host_case with
    | false =>
      refine ⟨10 - (t.length + 1), ?_⟩
      simp [mix_if]
    | true =>
      refine ⟨10 - (t.length + 1), ?_⟩
      simp [mix_if]
  obtain ⟨kk, hbuild⟩ := hbuild
  have hdfwd : apply_disorder_with_injection g w pkt pkt.length dst false
      = (0, fs.map (to_call dst)) := by
    unfold apply_disorder_with_injection
    rw [hbuild]
    simp only [Bool.false_eq_true, if_false]
    rw [disorder_send_forward_ok g w fs kk dst hinit hfd hs hdl _ 0 0 [] (by omega)]
    simp
  have hdrev : apply_disorder_with_injection g w pkt pkt.length dst true
      = (0, (fs.map (to_call dst)).reverse) := by
    unfold apply_disorder_with_injection
    rw [hbuild]
    simp only [if_true]
    rw [disorder_send_reverse_ok g w fs kk dst hinit hfd hs hdl _ 0 [] (le_refl _)]
    simp
  refine ⟨⟨[f1, f2], split_fragments_eq g w pkt hh hn hm, hfwd, hrev⟩,
    ⟨fs, hdf, hdfwd, hdrev⟩, ?_, ?_⟩
  · rw [hfwd, hrev]
  · rw [hdfwd, hdrev]

/-- C10, witness: the sample frame, every `malloc` and `sendto` succeeding. -/
theorem C10_reverse_order_witness :
    valid_packet sample_http ∧ 2 ≤ (tcp_payload sample_http).length
      ∧ (sample_g 2 2 4 true).raw_socket_initialized = true
      ∧ 0 ≤ (sample_g 2 2 4 true).raw_socket
      ∧ (apply_split_with_injection (sample_g 2 2 4 true) sample_world sample_http
            sample_http.length 0 true).2
          = (apply_split_with_injection (sample_g 2 2 4 true) sample_world sample_http
              sample_http.length 0 false).2.reverse
      ∧ (apply_disorder_with_injection (sample_g 2 2 4 true) sample_world sample_http
            sample_http.length 0 true).2
          = (apply_disorder_with_injection (sample_g 2 2 4 true) sample_world sample_http
              sample_http.length 0 false).2.reverse :=
  ⟨by decide, by decide, rfl, by decide,
    (C10_reverse_order (sample_g 2 2 4 true) sample_world sample_http 0 (by decide) (by decide)
      (fun _ => rfl) rfl (by decide) (fun _ => le_refl _)).2.2⟩

/-! ## The walk of `dpi_extract_sni` (claims C18, C19, C20) -/

theorem read8_some (data : List Nat) (len i : Nat) (hb : bytes_ok data) (hlen : len ≤ data.length)
    (hi : i < len) : ∃ b, read8 data len i = some b ∧ b < 256 ∧ b = load8 data i := by
  have hi2 : i < data.length := by omega
  refine ⟨data[i], ?_, hb _ (List.getElem_mem hi2), (load8_eq data i hi2).symm⟩
  unfold read8
  rw [if_pos hi, List.getElem?_eq_getElem hi2]

theorem read16_some (data : List Nat) (len o : Nat) (hb : bytes_ok data)
    (hlen : len ≤ data.length) (ho : o + 1 < len) (h32 : o + 1 < 2 ^ 32) :
    ∃ v, read16 data len o = some v ∧ v < 65536
      ∧ v = load8 data o * 256 + load8 data (o + 1) := by
  obtain ⟨a, ha, ha2, ha3⟩ := read8_some data len o hb hlen (by omega)
  obtain ⟨b, hb1, hb2, hb3⟩ := read8_some data len (o + 1) hb hlen ho
  refine ⟨a * 256 + b, ?_, by omega, by rw [ha3, hb3]⟩
  unfold read16
  rw [Nat.mod_eq_of_lt h32, ha, hb1]
  simp only
  rw [Nat.mod_eq_of_lt (by omega)]

theorem sni_entry_safe (data : List Nat) (len sbl offset : Nat) (hb : bytes_ok data)
    (hlen : len ≤ data.length) (h32 : offset + 70000 < 2 ^ 32) :
    ∀ r, sni_entry data len sbl offset = some r → sni_safe data len sbl r := by
  intro r hr
  unfold sni_entry at hr
  have e1 : (offset + 4) % 2 ^ 32 = offset + 4 := Nat.mod_eq_of_lt (by omega)
  have e2 : (offset + 4 + 5) % 2 ^ 32 = offset + 4 + 5 := Nat.mod_eq_of_lt (by omega)
  have e3 : (offset + 4 + 2) % 2 ^ 32 = offset + 4 + 2 := Nat.mod_eq_of_lt (by omega)
  have e4 : (offset + 4 + 3) % 2 ^ 32 = offset + 4 + 3 := Nat.mod_eq_of_lt (by omega)
  simp only [e1, e2, e3, e4] at hr
  by_cases hbrk : offset + 4 + 5 ≥ len
  · rw [if_pos hbrk] at hr
    cases hr
    exact Or.inl ⟨rfl, rfl⟩
  · rw [if_neg hbrk] at hr
    obtain ⟨nt, hnt, -, -⟩ := read8_some data len (offset + 4 + 2) hb hlen (by omega)
    obtain ⟨nl, hnl, hnl2, -⟩ :=
      read16_some data len (offset + 4 + 3) hb hlen (by omega) (by omega)
    rw [hnt, hnl] at hr
    simp only at hr
    by_cases hc : nt = 0 ∧ nl > 0
    · rw [if_pos hc] at hr
      have e5 : (offset + 4 + 5 + nl) % 2 ^ 32 = offset + 4 + 5 + nl :=
        Nat.mod_eq_of_lt (by omega)
      rw [e5] at hr
      by_cases hd : offset + 4 + 5 + nl ≤ len ∧ nl < sbl
      · rw [if_pos hd] at hr
        cases hr
        exact Or.inr ⟨hc.2, hd.2, offset + 4 + 5, hd.1, rfl⟩
      · rw [if_neg hd] at hr
        cases hr
    · rw [if_neg hc] at hr
      cases hr

theorem sni_loop_safe (data : List Nat) (len ext_end sbl : Nat) (hb : bytes_ok data)
    (hlen : len ≤ data.length) (hE : ext_end + 140000 < 2 ^ 32) :
    ∀ fuel offset, 1 ≤ fuel → len < fuel + offset → offset + 70000 < 2 ^ 32 →
      sni_safe data len sbl (sni_loop data len ext_end sbl fuel offset) := by
  intro fuel
  induction fuel with
  | zero => intro offset h; omega
  | succ f ih =>
    intro offset _ hf h32
    unfold sni_loop
    have e1 : (offset + 4) % 2 ^ 32 = offset + 4 := Nat.mod_eq_of_lt (by omega)
    have e2 : (offset + 2) % 2 ^ 32 = offset + 2 := Nat.mod_eq_of_lt (by omega)
    rw [e1, e2]
    by_cases hc : offset + 4 < ext_end ∧ offset + 4 < len
    · rw [if_pos hc]
      obtain ⟨et, het, -, -⟩ := read16_some data len offset hb hlen (by omega) (by omega)
      obtain ⟨el, hel, hel2, -⟩ :=
        read16_some data len (offset + 2) hb hlen (by omega) (by omega)
      rw [het, hel]
      simp only
      have e3 : (offset + 4 + el) % 2 ^ 32 = offset + 4 + el := Nat.mod_eq_of_lt (by omega)
      rw [e3]
      have hrec := ih (offset + 4 + el) (by omega) (by omega) (by omega)
      by_cases ht : et = 0 ∧ el > 5
      · rw [if_pos ht]
        cases hs : sni_entry data len sbl offset with
        | none => exact hrec
        | some r => exact sni_entry_safe data len sbl offset hb hlen h32 r hs
      · rw [if_neg ht]
        exact hrec
    · rw [if_neg hc]
      exact Or.inl ⟨rfl, rfl⟩

theorem sni_header_safe (data : List Nat) (len : Nat) (hb : bytes_ok data)
    (hlen : len ≤ data.length) :
    sni_header data len = .reject
      ∨ ∃ off n, sni_header data len = .extensions off n ∧ off ≤ len ∧ off ≤ 66100
          ∧ n < 65536 := by
  unfold sni_header
  by_cases h1 : len < 43
  · rw [if_pos h1]; exact Or.inl rfl
  rw [if_neg h1]
  simp only
  by_cases h2 : 43 ≥ len
  · rw [if_pos h2]; exact Or.inl rfl
  rw [if_neg h2]
  obtain ⟨sl, hsl, hsl2, -⟩ := read8_some data len 43 hb hlen (by omega)
  rw [hsl]
  simp only
  have e1 : (43 + 1 + sl) % 2 ^ 32 = 43 + 1 + sl := Nat.mod_eq_of_lt (by omega)
  have e2 : (43 + 1 + sl + 2) % 2 ^ 32 = 43 + 1 + sl + 2 := Nat.mod_eq_of_lt (by omega)
  rw [e1, e2]
  by_cases h3 : 43 + 1 + sl + 2 > len
  · rw [if_pos h3]; exact Or.inl rfl
  rw [if_neg h3]
  obtain ⟨cl, hcl, hcl2, -⟩ := read16_some data len (43 + 1 + sl) hb hlen (by omega) (by omega)
  rw [hcl]
  simp only
  have e3 : (43 + 1 + sl + 2 + cl) % 2 ^ 32 = 43 + 1 + sl + 2 + cl := Nat.mod_eq_of_lt (by omega)
  rw [e3]
  by_cases h4 : 43 + 1 + sl + 2 + cl ≥ len
  · rw [if_pos h4]; exact Or.inl rfl
  rw [if_neg h4]
  obtain ⟨ml, hml, hml2, -⟩ := read8_some data len (43 + 1 + sl + 2 + cl) hb hlen (by omega)
  rw [hml]
  simp only
  have e4 : (43 + 1 + sl + 2 + cl + 1 + ml) % 2 ^ 32 = 43 + 1 + sl + 2 + cl + 1 + ml :=
    Nat.mod_eq_of_lt (by omega)
  have e5 : (43 + 1 + sl + 2 + cl + 1 + ml + 2) % 2 ^ 32 = 43 + 1 + sl + 2 + cl + 1 + ml + 2 :=
    Nat.mod_eq_of_lt (by omega)
  rw [e4, e5]
  by_cases h5 : 43 + 1 + sl + 2 + cl + 1 + ml + 2 > len
  · rw [if_pos h5]; exact Or.inl rfl
  rw [if_neg h5]
  obtain ⟨xl, hxl, hxl2, -⟩ :=
    read16_some data len (43 + 1 + sl + 2 + cl + 1 + ml) hb hlen (by omega) (by omega)
  rw [hxl]
  exact Or.inr ⟨_, _, rfl, by omega, by omega, hxl2⟩

theorem sni_safe_iff (data : List Nat) (len sbl : Nat) (r : SniResult) :
    sni_safe data len sbl r ↔ ∃ ret buf, r = .done ret buf
      ∧ ((ret = 0 ∧ buf = [])
        ∨ (1 ≤ ret ∧ ret < sbl ∧ ∃ o, o + ret ≤ len ∧ buf = (data.drop o).take ret ++ [0])) := by
  cases r with
  | fault => simp [sni_safe]
  | no_fuel => simp [sni_safe]
  | done ret buf =>
    constructor
    · intro h; exact ⟨ret, buf, rfl, h⟩
    · rintro ⟨ret', buf', h, h'⟩
      cases h
      exact h'

/-- C18: for every byte buffer and every `len` not beyond it, `dpi_extract_sni`
returns (the loop ends within `len + 1` tests of its condition), no read is at
an index that is not below `len`, and the result is either 0 with nothing
written or a length `ret` with `1 ≤ ret < sni_buf_len`, the bytes written
being `ret` consecutive payload bytes `data[o .. o + ret)` with
`o + ret ≤ len` and a NUL behind them, `ret + 1 ≤ sni_buf_len` bytes in
all. -/
theorem C18_extract_sni_safe (data : List Nat) (len sni_buf_len : Nat) (hb : bytes_ok data)
    (hlen : len ≤ data.length) :
    ∃ ret sni_buf, dpi_extract_sni data len sni_buf_len = .done ret sni_buf
      ∧ ((ret = 0 ∧ sni_buf = [])
        ∨ (1 ≤ ret ∧ ret < sni_buf_len ∧ sni_buf.length ≤ sni_buf_len
            ∧ ∃ o, o + ret ≤ len ∧ sni_buf = (data.drop o).take ret ++ [0])) := by
  have hsafe : sni_safe data len sni_buf_len (dpi_extract_sni data len sni_buf_len) := by
    unfold dpi_extract_sni
    rcases sni_header_safe data len hb hlen with h | ⟨off, n, h, h1, h2, h3⟩
    · rw [h]; exact Or.inl ⟨rfl, rfl⟩
    · rw [h]
      simp only
      have e : (off + n) % 2 ^ 32 = off + n := Nat.mod_eq_of_lt (by omega)
      rw [e]
      exact sni_loop_safe data len (off + n) sni_buf_len hb hlen (by omega) (len + 1) off
        (by omega) (by omega) (by omega)
  obtain ⟨ret, buf, hr, h⟩ := (sni_safe_iff data len sni_buf_len _).mp hsafe
  refine ⟨ret, buf, hr, ?_⟩
  rcases h with h | ⟨h1, h2, o, h3, h4⟩
  · exact Or.inl h
  · refine Or.inr ⟨h1, h2, ?_, o, h3, h4⟩
    rw [h4, List.length_append, List.length_take, List.length_drop, List.length_singleton]
    omega

theorem read8_of_drop (data : List Nat) (len i x : Nat) (c : List Nat)
    (h : data.drop i = x :: c) (hi : i < len) : read8 data len i = some x := by
  unfold read8
  rw [if_pos hi]
  have h0 : (data.drop i)[0]? = data[i]? := by rw [List.getElem?_drop]; rfl
  rw [← h0, h, List.getElem?_cons_zero]

theorem drop_of_drop (data : List Nat) (i : Nat) (a c : List Nat) (h : data.drop i = a ++ c) :
    data.drop (i + a.length) = c := by
  rw [← List.drop_drop, h, List.drop_left]

theorem drop_succ_of_drop (data : List Nat) (i x : Nat) (c : List Nat)
    (h : data.drop i = x :: c) : data.drop (i + 1) = c :=
  drop_of_drop data i [x] c h

theorem read16_of_drop (data : List Nat) (len i v : Nat) (c : List Nat)
    (h : data.drop i = be16 v ++ c) (hv : v < 65536) (hi : i + 1 < len) (h32 : i + 1 < 2 ^ 32) :
    read16 data len i = some v := by
  unfold read16
  rw [Nat.mod_eq_of_lt h32, read8_of_drop data len i (v / 256 % 256) (v % 256 :: c) h (by omega),
    read8_of_drop data len (i + 1) (v % 256) c
      (drop_succ_of_drop data i (v / 256 % 256) (v % 256 :: c) h) hi]
  simp only [Option.some.injEq]
  omega

theorem be16_length (v : Nat) : (be16 v).length = 2 := rfl

theorem encode_ext_length (e : Nat × List Nat) : (encode_ext e).length = 4 + e.2.length := by
  unfold encode_ext
  simp only [List.length_append, be16_length]
  omega

theorem sni_extension_length (name : List Nat) :
    (sni_extension name).length = 9 + name.length := by
  unfold sni_extension
  rw [encode_ext_length]
  simp only [List.length_append, List.length_cons, be16_length]
  omega

theorem encode_exts_length_ge (pre : List (Nat × List Nat)) :
    4 * pre.length ≤ (encode_exts pre).length := by
  induction pre with
  | nil => simp [encode_exts]
  | cons e t ih =>
    simp only [encode_exts, List.length_append, List.length_cons, encode_ext_length]
    omega

theorem sni_entry_finds (data : List Nat) (len sbl offset : Nat) (name rest : List Nat)
    (hn1 : 1 ≤ name.length) (hn2 : name.length < sbl) (hn3 : name.length < 65536)
    (hd : data.drop offset = sni_extension name ++ rest)
    (hin : offset + (9 + name.length) ≤ len) (h32 : len < 2 ^ 32) :
    sni_entry data len sbl offset = some (.done name.length (name ++ [0])) := by
  have d0 : data.drop offset = be16 0 ++ (be16 (name.length + 5)
      ++ (be16 (name.length + 3) ++ (0 :: (be16 name.length ++ (name ++ rest))))) := by
    rw [hd]
    have hl : (be16 (name.length + 3) ++ (0 :: (be16 name.length ++ name))).length
        = name.length + 5 := by
      simp only [List.length_append, List.length_cons, be16_length]
      omega
    simp only [sni_extension, encode_ext, hl, List.append_assoc, List.cons_append]
  have d2 := drop_of_drop data offset _ _ d0
  have d4 := drop_of_drop data _ _ _ d2
  have d6 := drop_of_drop data _ _ _ d4
  have d7 := drop_succ_of_drop data _ _ _ d6
  have d9 := drop_of_drop data _ _ _ d7
  simp only [be16_length] at d2 d4 d6 d7 d9
  unfold sni_entry
  have e1 : (offset + 4) % 2 ^ 32 = offset + 4 := Nat.mod_eq_of_lt (by omega)
  have e2 : (offset + 4 + 5) % 2 ^ 32 = offset + 4 + 5 := Nat.mod_eq_of_lt (by omega)
  have e3 : (offset + 4 + 2) % 2 ^ 32 = offset + 4 + 2 := Nat.mod_eq_of_lt (by omega)
  have e4 : (offset + 4 + 3) % 2 ^ 32 = offset + 4 + 3 := Nat.mod_eq_of_lt (by omega)
  simp only [e1, e2, e3, e4]
  rw [if_neg (by omega)]
  have r1 : read8 data len (offset + 4 + 2) = some 0 :=
    read8_of_drop data len _ 0 _ (by rw [← d6]) (by omega)
  have r2 : read16 data len (offset + 4 + 3) = some name.length :=
    read16_of_drop data len _ _ _ (by rw [← d7]) hn3 (by omega) (by omega)
  rw [r1, r2]
  simp only
  rw [if_pos ⟨trivial, hn1⟩]
  have e5 : (offset + 4 + 5 + name.length) % 2 ^ 32 = offset + 4 + 5 + name.length :=
    Nat.mod_eq_of_lt (by omega)
  rw [e5, if_pos ⟨by omega, hn2⟩]
  have d9' : data.drop (offset + 4 + 5) = name ++ rest := by rw [← d9]
  rw [d9', List.take_left]

theorem sni_loop_finds (data : List Nat) (len ext_end sbl : Nat) (name rest : List Nat)
    (hn1 : 1 ≤ name.length) (hn2 : name.length < sbl) (hn3 : name.length + 5 < 65536)
    (h32 : len < 2 ^ 32) :
    ∀ (pre : List (Nat × List Nat)) (fuel offset : Nat),
      (∀ e ∈ pre, e.1 ≠ 0 ∧ e.1 < 65536 ∧ e.2.length < 65536) →
      data.drop offset = encode_exts pre ++ (sni_extension name ++ rest) →
      offset + (encode_exts pre).length + (9 + name.length) ≤ len →
      offset + (encode_exts pre).length + 4 < ext_end →
      pre.length < fuel →
      sni_loop data len ext_end sbl fuel offset = .done name.length (name ++ [0]) := by
  intro pre
  induction pre with
  | nil =>
    intro fuel offset _ hd hin hend hf
    obtain ⟨f, rfl⟩ : ∃ f, fuel = f + 1 := ⟨fuel - 1, by omega⟩
    simp only [encode_exts, List.nil_append, List.length_nil, Nat.add_zero] at hd hin hend
    have d0 : data.drop offset = be16 0 ++ (be16 (name.length + 5)
        ++ (be16 (name.length + 3) ++ (0 :: (be16 name.length ++ (name ++ rest))))) := by
      rw [hd]
      have hl : (be16 (name.length + 3) ++ (0 :: (be16 name.length ++ name))).length
          = name.length + 5 := by
        simp only [List.length_append, List.length_cons, be16_length]
        omega
      simp only [sni_extension, encode_ext, hl, List.append_assoc, List.cons_append]
    have d2 := drop_of_drop data offset _ _ d0
    simp only [be16_length] at d2
    unfold sni_loop
    have e1 : (offset + 4) % 2 ^ 32 = offset + 4 := Nat.mod_eq_of_lt (by omega)
    have e2 : (offset + 2) % 2 ^ 32 = offset + 2 := Nat.mod_eq_of_lt (by omega)
    rw [e1, e2, if_pos ⟨hend, by omega⟩,
      read16_of_drop data len offset 0 _ d0 (by omega) (by omega) (by omega),
      read16_of_drop data len (offset + 2) (name.length + 5) _ d2 (by omega) (by omega)
        (by omega)]
    simp only
    rw [if_pos ⟨trivial, by omega⟩, sni_entry_finds data len sbl offset name rest hn1 hn2
      (by omega) hd hin h32]
  | cons e t ih =>
    intro fuel offset hpre hd hin hend hf
    obtain ⟨f, rfl⟩ : ∃ f, fuel = f + 1 := ⟨fuel - 1, by omega⟩
    obtain ⟨he1, he2, he3⟩ := hpre e (List.mem_cons_self _ _)
    simp only [encode_exts, List.length_append, encode_ext_length] at hin hend
    have d0 : data.drop offset = be16 e.1 ++ (be16 e.2.length
        ++ (e.2 ++ (encode_exts t ++ (sni_extension name ++ rest)))) := by
      rw [hd]
      simp only [encode_exts, encode_ext, List.append_assoc]
    have d2 := drop_of_drop data offset _ _ d0
    have d4 := drop_of_drop data _ _ _ d2
    have d5 := drop_of_drop data _ _ _ d4
    simp only [be16_length] at d2 d4 d5
    unfold sni_loop
    have e1 : (offset + 4) % 2 ^ 32 = offset + 4 := Nat.mod_eq_of_lt (by omega)
    have e2 : (offset + 2) % 2 ^ 32 = offset + 2 := Nat.mod_eq_of_lt (by omega)
    rw [e1, e2, if_pos ⟨by omega, by omega⟩,
      read16_of_drop data len offset e.1 _ d0 he2 (by omega) (by omega),
      read16_of_drop data len (offset + 2) e.2.length _ d2 he3 (by omega) (by omega)]
    simp only
    rw [if_neg (fun h => he1 h.1)]
    simp only
    have e3 : (offset + 4 + e.2.length) % 2 ^ 32 = offset + 4 + e.2.length :=
      Nat.mod_eq_of_lt (by omega)
    rw [e3]
    refine ih f (offset + 4 + e.2.length) (fun x hx => hpre x (List.mem_cons_of_mem _ hx))
      (by rw [← d5]) (by omega) (by omega) ?_
    simp only [List.length_cons] at hf
    omega

theorem client_hello_head_length (fixed sid cs comp : List Nat) (n : Nat) :
    (client_hello_head fixed sid cs comp n).length
      = fixed.length + 1 + sid.length + 2 + cs.length + 1 + comp.length + 2 := by
  unfold client_hello_head
  simp only [List.length_append, List.length_cons, be16_length]
  omega

theorem sni_header_hello (fixed sid cs comp rest : List Nat) (n len : Nat)
    (hfixed : fixed.length = 43) (hsid : sid.length ≤ 255) (hcs : cs.length ≤ 65535)
    (hcomp : comp.length ≤ 255) (hn : n < 65536)
    (hlen : (client_hello_head fixed sid cs comp n).length ≤ len) (h32 : len < 2 ^ 32) :
    sni_header (client_hello_head fixed sid cs comp n ++ rest) len
        = .extensions (client_hello_head fixed sid cs comp n).length n
      ∧ (client_hello_head fixed sid cs comp n ++ rest).drop
          (client_hello_head fixed sid cs comp n).length = rest := by
  refine ⟨?_, List.drop_left _ _⟩
  rw [client_hello_head_length, hfixed] at hlen ⊢
  generalize hdata : client_hello_head fixed sid cs comp n ++ rest = data
  have d0 : data.drop 43 = sid.length :: (sid ++ (be16 cs.length ++ (cs ++ (comp.length
      :: (comp ++ (be16 n ++ rest)))))) := by
    rw [← hdata, ← hfixed]
    unfold client_hello_head
    rw [List.append_assoc, List.drop_left]
    simp only [List.append_assoc, List.cons_append]
  have d1 := drop_succ_of_drop data _ _ _ d0
  have d2 := drop_of_drop data _ _ _ d1
  have d3 := drop_of_drop data _ _ _ d2
  have d4 := drop_of_drop data _ _ _ d3
  have d5 := drop_succ_of_drop data _ _ _ d4
  have d6 := drop_of_drop data _ _ _ d5
  simp only [be16_length] at d3 d4 d5 d6
  unfold sni_header
  rw [if_neg (by omega)]
  simp only
  rw [if_neg (by omega), read8_of_drop data len 43 _ _ d0 (by omega)]
  simp only
  have e1 : (43 + 1 + sid.length) % 2 ^ 32 = 43 + 1 + sid.length := Nat.mod_eq_of_lt (by omega)
  have e2 : (43 + 1 + sid.length + 2) % 2 ^ 32 = 43 + 1 + sid.length + 2 :=
    Nat.mod_eq_of_lt (by omega)
  rw [e1, e2, if_neg (by omega),
    read16_of_drop data len _ _ _ d2 (by omega) (by omega) (by omega)]
  simp only
  have e3 : (43 + 1 + sid.length + 2 + cs.length) % 2 ^ 32 = 43 + 1 + sid.length + 2 + cs.length :=
    Nat.mod_eq_of_lt (by omega)
  rw [e3, if_neg (by omega), read8_of_drop data len _ _ _ d4 (by omega)]
  simp only
  have e4 : (43 + 1 + sid.length + 2 + cs.length + 1 + comp.length) % 2 ^ 32
      = 43 + 1 + sid.length + 2 + cs.length + 1 + comp.length := Nat.mod_eq_of_lt (by omega)
  have e5 : (43 + 1 + sid.length + 2 + cs.length + 1 + comp.length + 2) % 2 ^ 32
      = 43 + 1 + sid.length + 2 + cs.length + 1 + comp.length + 2 := Nat.mod_eq_of_lt (by omega)
  rw [e4, e5, if_neg (by omega),
    read16_of_drop data len _ _ _ d6 hn (by omega) (by omega)]

theorem extract_sni_hello (fixed sid cs comp name rest : List Nat)
    (pre : List (Nat × List Nat)) (n len : Nat)
    (hfixed : fixed.length = 43) (hsid : sid.length ≤ 255) (hcs : cs.length ≤ 65535)
    (hcomp : comp.length ≤ 255) (hn : n < 65536)
    (hpre : ∀ e ∈ pre, e.1 ≠ 0 ∧ e.1 < 65536 ∧ e.2.length < 65536)
    (hn1 : 1 ≤ name.length) (hn2 : name.length ≤ 255)
    (hin : (client_hello_head fixed sid cs comp n).length + (encode_exts pre).length
      + (sni_extension name).length ≤ len)
    (hend : (encode_exts pre).length + 4 < n)
    (h32 : len < 2 ^ 32) (hw : (client_hello_head fixed sid cs comp n).length + n < 2 ^ 32) :
    dpi_extract_sni
        (client_hello_head fixed sid cs comp n ++ (encode_exts pre ++ (sni_extension name ++ rest)))
        len 256
      = .done name.length (name ++ [0]) := by
  obtain ⟨hh, hd⟩ := sni_header_hello fixed sid cs comp
    (encode_exts pre ++ (sni_extension name ++ rest)) n len hfixed hsid hcs hcomp hn (by omega)
    (by omega)
  unfold dpi_extract_sni
  rw [hh]
  simp only
  rw [sni_extension_length] at hin
  have hH := client_hello_head_length fixed sid cs comp n
  have e : ((client_hello_head fixed sid cs comp n).length + n) % 2 ^ 32
      = (client_hello_head fixed sid cs comp n).length + n := Nat.mod_eq_of_lt hw
  rw [e]
  have hfl := encode_exts_length_ge pre
  exact sni_loop_finds _ len _ 256 name rest hn1 (by omega) (by omega) (by omega) pre (len + 1) _
    hpre hd hin (by omega) (by omega)

/-- C18, witness: a ClientHello of 81 bytes with a server_name extension. -/
theorem C18_extract_sni_safe_witness :
    bytes_ok (sample_client_hello 29) ∧ 81 ≤ (sample_client_hello 29).length
      ∧ ∃ ret sni_buf, dpi_extract_sni (sample_client_hello 29) 81 256 = .done ret sni_buf
        ∧ ((ret = 0 ∧ sni_buf = [])
          ∨ (1 ≤ ret ∧ ret < 256 ∧ sni_buf.length ≤ 256
              ∧ ∃ o, o + ret ≤ 81
                ∧ sni_buf = ((sample_client_hello 29).drop o).take ret ++ [0])) :=
  ⟨by decide, by decide,
    C18_extract_sni_safe (sample_client_hello 29) 81 256 (by decide) (by decide)⟩

/-- C19: for every payload that begins with a well-formed ClientHello (43
fixed bytes, session id, cipher suites, compression methods and extensions,
each behind its length, the extensions wholly inside the payload) whose
extensions are a list `pre` of extensions of types other than 0, then the
server_name extension for one name of type 0 and of length 1 to 255, then any
bytes `post`, `dpi_extract_sni` with a buffer of 256 bytes returns the length
of the name and writes exactly the name and a NUL.  `tail` is what the payload
holds behind the record and `after` what memory holds behind the payload. -/
theorem C19_extract_sni_hostname (fixed sid cs comp name post tail after : List Nat)
    (pre : List (Nat × List Nat))
    (hfixed : fixed.length = 43) (hsid : sid.length ≤ 255) (hcs : cs.length ≤ 65535)
    (hcomp : comp.length ≤ 255)
    (hpre : ∀ e ∈ pre, e.1 ≠ 0 ∧ e.1 < 65536 ∧ e.2.length < 65536)
    (hn1 : 1 ≤ name.length) (hn2 : name.length ≤ 255)
    (hexts : (encode_exts pre ++ (sni_extension name ++ post)).length < 65536)
    (h32 : (client_hello fixed sid cs comp (encode_exts pre ++ (sni_extension name ++ post))
      ++ tail).length < 2 ^ 32) :
    dpi_extract_sni
        (client_hello fixed sid cs comp (encode_exts pre ++ (sni_extension name ++ post))
          ++ tail ++ after)
        (client_hello fixed sid cs comp (encode_exts pre ++ (sni_extension name ++ post))
          ++ tail).length 256
      = .done name.length (name ++ [0]) := by
  have hdata : client_hello fixed sid cs comp (encode_exts pre ++ (sni_extension name ++ post))
        ++ tail ++ after
      = client_hello_head fixed sid cs comp
          (encode_exts pre ++ (sni_extension name ++ post)).length
        ++ (encode_exts pre ++ (sni_extension name ++ (post ++ (tail ++ after)))) := by
    simp only [client_hello, List.append_assoc]
  have hl : (client_hello fixed sid cs comp (encode_exts pre ++ (sni_extension name ++ post))
        ++ tail).length
      = (client_hello_head fixed sid cs comp
          (encode_exts pre ++ (sni_extension name ++ post)).length).length
        + (encode_exts pre).length + (sni_extension name).length + post.length + tail.length := by
    simp only [client_hello, List.length_append]
    omega
  rw [hdata]
  have hx : (encode_exts pre ++ (sni_extension name ++ post)).length
      = (encode_exts pre).length + (sni_extension name).length + post.length := by
    simp only [List.length_append]
    omega
  have hs := sni_extension_length name
  exact extract_sni_hello fixed sid cs comp name _ pre _ _ hfixed hsid hcs hcomp hexts hpre hn1
    hn2 (by omega) (by omega) h32 (by omega)

/-- C19, witness: the sample ClientHello with the name `api.github.com`. -/
theorem C19_extract_sni_hostname_witness :
    dpi_extract_sni
        (client_hello sample_fixed [] [19, 1] [0]
          (encode_exts [(10, [0, 29])] ++ (sni_extension sample_name ++ [])) ++ [] ++ [])
        (client_hello sample_fixed [] [19, 1] [0]
          (encode_exts [(10, [0, 29])] ++ (sni_extension sample_name ++ [])) ++ []).length 256
      = .done sample_name.length (sample_name ++ [0]) :=
  C19_extract_sni_hostname sample_fixed [] [19, 1] [0] sample_name [] [] [] [(10, [0, 29])]
    (by decide) (by decide) (by decide) (by decide) (by decide) (by decide) (by decide)
    (by decide) (by decide)

/-- C20, counterexample: the sample ClientHello of 81 bytes with 65535 in its
extensions length field, so that the declared end of the extensions (52 +
65535) lies beyond the payload; `dpi_extract_sni` returns 14 and the name
`api.github.com`, not 0. -/
theorem C20_counterexample :
    (sample_client_hello 65535).length = 81
      ∧ sni_header (sample_client_hello 65535) 81 = .extensions 52 65535
      ∧ 81 < 52 + 65535
      ∧ dpi_extract_sni (sample_client_hello 65535) 81 256 = .done 14 (sample_name ++ [0]) := by
  decide

/-- C20, amended: a declared end of the extensions beyond the payload is not
rejected, the loop is bounded by the payload length as well.  For every
payload that is a ClientHello head with any value `ext_len` in its extensions
length field, followed by extensions of types other than 0, the server_name
extension for one name of type 0 and length 1 to 255, and any bytes `tail`,
where `ext_len` claims more bytes than the payload holds behind the field,
`dpi_extract_sni` with a buffer of 256 bytes returns the length of the name
and writes the name and a NUL. -/
theorem C20_overlong_extensions (fixed sid cs comp name tail after : List Nat)
    (pre : List (Nat × List Nat)) (ext_len : Nat)
    (hfixed : fixed.length = 43) (hsid : sid.length ≤ 255) (hcs : cs.length ≤ 65535)
    (hcomp : comp.length ≤ 255) (hn : ext_len < 65536)
    (hpre : ∀ e ∈ pre, e.1 ≠ 0 ∧ e.1 < 65536 ∧ e.2.length < 65536)
    (hn1 : 1 ≤ name.length) (hn2 : name.length ≤ 255)
    (hover : (client_hello_head fixed sid cs comp ext_len
        ++ (encode_exts pre ++ (sni_extension name ++ tail))).length
      < (client_hello_head fixed sid cs comp ext_len).length + ext_len)
    (h32 : (client_hello_head fixed sid cs comp ext_len).length + ext_len < 2 ^ 32) :
    dpi_extract_sni
        (client_hello_head fixed sid cs comp ext_len
          ++ (encode_exts pre ++ (sni_extension name ++ tail)) ++ after)
        (client_hello_head fixed sid cs comp ext_len
          ++ (encode_exts pre ++ (sni_extension name ++ tail))).length 256
      = .done name.length (name ++ [0]) := by
  have hdata : client_hello_head fixed sid cs comp ext_len
        ++ (encode_exts pre ++ (sni_extension name ++ tail)) ++ after
      = client_hello_head fixed sid cs comp ext_len
        ++ (encode_exts pre ++ (sni_extension name ++ (tail ++ after))) := by
    simp only [List.append_assoc]
  rw [hdata]
  simp only [List.length_append] at hover ⊢
  have hs := sni_extension_length name
  exact extract_sni_hello fixed sid cs comp name _ pre _ _ hfixed hsid hcs hcomp hn hpre hn1
    hn2 (by omega) (by omega) (by omega) h32

/-- C20, witness: the sample ClientHello with 65535 in its extensions length
field. -/
theorem C20_overlong_extensions_witness :
    dpi_extract_sni
        (client_hello_head sample_fixed [] [19, 1] [0] 65535
          ++ (encode_exts [(10, [0, 29])] ++ (sni_extension sample_name ++ [])) ++ [])
        (client_hello_head sample_fixed [] [19, 1] [0] 65535
          ++ (encode_exts [(10, [0, 29])] ++ (sni_extension sample_name ++ []))).length 256
      = .done sample_name.length (sample_name ++ [0]) :=
  C20_overlong_extensions sample_fixed [] [19, 1] [0] sample_name [] [] [(10, [0, 29])] 65535
    (by decide) (by decide) (by decide) (by decide) (by decide) (by decide) (by decide)
    (by decide) (by decide) (by decide)

/-! ## The guards of `dpi_bypass_process_packet` (claims C13, C15, C16) -/

theorem tcp_doff_append (p a : List Nat) (t : Nat) (h : t + 12 < p.length) :
    tcp_doff (p ++ a) t = tcp_doff p t := by
  unfold tcp_doff
  rw [load8_append_left p a _ h]

/-- C16: a frame shorter than 40 bytes, or with an IP version other than 4,
or with an IP header length below 20 or beyond the frame, or (protocol TCP)
with a TCP header length below 20 or with headers that together exceed the
frame, gets ACCEPT, nothing is sent and `packets_bypassed` and
`packets_dropped` keep their values.  The TCP header length is the one the
code reads at offset `ihl * 4 + 12`, which may lie behind the frame. -/
theorem C16_malformed_accept (g : GBypass) (env : SocketEnv) (w : World)
    (packet : NfqueuePacket)
    (h : packet.payload.length < 40 ∨ ip_version packet.payload ≠ 4
      ∨ ip_hdr_len packet.payload < 20 ∨ packet.payload.length < ip_hdr_len packet.payload
      ∨ (ip_protocol packet.payload = 6
        ∧ (tcp_doff (packet.payload ++ packet.after) (ip_hdr_len packet.payload) * 4 < 20
          ∨ packet.payload.length < ip_hdr_len packet.payload
              + tcp_doff (packet.payload ++ packet.after) (ip_hdr_len packet.payload) * 4))) :
    (dpi_bypass_process_packet g env w packet).verdict = .NFQUEUE_ACCEPT
      ∧ (dpi_bypass_process_packet g env w packet).sends = []
      ∧ (dpi_bypass_process_packet g env w packet).g.stats.packets_bypassed
          = g.stats.packets_bypassed
      ∧ (dpi_bypass_process_packet g env w packet).g.stats.packets_dropped
          = g.stats.packets_dropped := by
  unfold ip_hdr_len at h
  unfold dpi_bypass_process_packet
  simp only
  split_ifs <;> first
    | exact ⟨rfl, rfl, rfl, rfl⟩
    | (exfalso; omega)

/-- C16, witness: the 43-byte sample frame with data offset 15, a TCP header
of 60 bytes in a frame that holds 23 bytes behind the IP header. -/
theorem C16_malformed_accept_witness :
    (ip_protocol (sample_short.set 32 240) = 6
      ∧ (sample_short.set 32 240).length
          < ip_hdr_len (sample_short.set 32 240)
            + tcp_doff (sample_short.set 32 240 ++ []) (ip_hdr_len (sample_short.set 32 240)) * 4)
      ∧ (dpi_bypass_process_packet (sample_g 1 2 4 false) sample_env sample_world
            (sample_packet (sample_short.set 32 240))).verdict = .NFQUEUE_ACCEPT
      ∧ (dpi_bypass_process_packet (sample_g 1 2 4 false) sample_env sample_world
            (sample_packet (sample_short.set 32 240))).sends = [] :=
  ⟨by decide,
    (C16_malformed_accept (sample_g 1 2 4 false) sample_env sample_world
      (sample_packet (sample_short.set 32 240))
      (Or.inr (Or.inr (Or.inr (Or.inr ⟨by decide, Or.inr (by decide)⟩))))).1,
    (C16_malformed_accept (sample_g 1 2 4 false) sample_env sample_world
      (sample_packet (sample_short.set 32 240))
      (Or.inr (Or.inr (Or.inr (Or.inr ⟨by decide, Or.inr (by decide)⟩))))).2.1⟩

/-- C15, counterexample: a well-formed UDP datagram of 28 bytes to port 443
(IPv4, header length 20, total length 28 as delivered), processed with
`block_quic` set, gets ACCEPT and `packets_dropped` stays 0: the frame is
shorter than 40 bytes. -/
theorem C15_counterexample :
    sample_udp_short.length = 28 ∧ ip_version sample_udp_short = 4
      ∧ ip_hdr_len sample_udp_short = 20 ∧ ip_tot_len sample_udp_short = 28
      ∧ ip_protocol sample_udp_short = 17 ∧ (sample_packet sample_udp_short).dst_port = 443
      ∧ (sample_g 1 2 4 false).settings.block_quic = true
      ∧ (dpi_bypass_process_packet (sample_g 1 2 4 false) sample_env sample_world
            (sample_packet sample_udp_short)).verdict = .NFQUEUE_ACCEPT
      ∧ (dpi_bypass_process_packet (sample_g 1 2 4 false) sample_env sample_world
            (sample_packet sample_udp_short)).g.stats.packets_dropped = 0 := by
  decide

/-- C15, amended: for every IPv4 UDP datagram of at least 40 bytes with an IP
header length of at least 20 and inside the frame, to port 443 or 80: with
`block_quic` set it gets DROP, `packets_dropped` grows by one (modulo 2^64,
the counter being a `uint64_t`), nothing is sent and `packets_bypassed` keeps
its value; with `block_quic` clear it gets ACCEPT, nothing is sent and
`packets_dropped` keeps its value. -/
theorem C15_quic_block (g : GBypass) (env : SocketEnv) (w : World) (packet : NfqueuePacket)
    (h40 : 40 ≤ packet.payload.length) (hv : ip_version packet.payload = 4)
    (h20 : 20 ≤ ip_hdr_len packet.payload)
    (hfit : ip_hdr_len packet.payload ≤ packet.payload.length)
    (hudp : ip_protocol packet.payload = 17)
    (hport : packet.dst_port = 443 ∨ packet.dst_port = 80) :
    (g.settings.block_quic = true →
        (dpi_bypass_process_packet g env w packet).verdict = .NFQUEUE_DROP
          ∧ (dpi_bypass_process_packet g env w packet).g.stats.packets_dropped
              = (g.stats.packets_dropped + 1) % 2 ^ 64
          ∧ (g.stats.packets_dropped + 1 < 2 ^ 64 →
              (dpi_bypass_process_packet g env w packet).g.stats.packets_dropped
                = g.stats.packets_dropped + 1)
          ∧ (dpi_bypass_process_packet g env w packet).sends = []
          ∧ (dpi_bypass_process_packet g env w packet).g.stats.packets_bypassed
              = g.stats.packets_bypassed)
      ∧ (g.settings.block_quic = false →
        (dpi_bypass_process_packet g env w packet).verdict = .NFQUEUE_ACCEPT
          ∧ (dpi_bypass_process_packet g env w packet).g.stats.packets_dropped
              = g.stats.packets_dropped
          ∧ (dpi_bypass_process_packet g env w packet).sends = []) := by
  unfold ip_hdr_len at h20 hfit
  have hq : (count_seen g packet.payload.length).settings.block_quic = g.settings.block_quic :=
    rfl
  constructor
  · intro hb
    unfold dpi_bypass_process_packet
    simp only
    rw [if_neg (by omega), if_neg (by omega), if_neg (by omega), if_pos ⟨by rw [hq, hb], hudp, hport⟩]
    refine ⟨rfl, rfl, ?_, rfl, rfl⟩
    intro hlt
    exact Nat.mod_eq_of_lt hlt
  · intro hb
    unfold dpi_bypass_process_packet
    simp only
    rw [if_neg (by omega), if_neg (by omega), if_neg (by omega),
      if_neg (by rw [hq, hb]; simp), if_pos (by omega)]
    exact ⟨rfl, rfl, rfl⟩

/-- C15, witness: a UDP datagram of 48 bytes to port 443. -/
theorem C15_quic_block_witness :
    40 ≤ (sample_frame 48 17 443 [1, 2, 3, 4, 5, 6, 7, 8]).length
      ∧ ip_protocol (sample_frame 48 17 443 [1, 2, 3, 4, 5, 6, 7, 8]) = 17
      ∧ (dpi_bypass_process_packet (sample_g 1 2 4 false) sample_env sample_world
            (sample_packet (sample_frame 48 17 443 [1, 2, 3, 4, 5, 6, 7, 8]))).verdict
          = .NFQUEUE_DROP
      ∧ (dpi_bypass_process_packet (sample_g 1 2 4 false) sample_env sample_world
            (sample_packet (sample_frame 48 17 443 [1, 2, 3, 4, 5, 6, 7, 8]))).g.stats.packets_dropped
          = (0 + 1) % 2 ^ 64 :=
  ⟨by decide, by decide,
    ((C15_quic_block (sample_g 1 2 4 false) sample_env sample_world
      (sample_packet (sample_frame 48 17 443 [1, 2, 3, 4, 5, 6, 7, 8]))
      (by decide) (by decide) (by decide) (by decide) (by decide) (Or.inl (by decide))).1 rfl).1,
    ((C15_quic_block (sample_g 1 2 4 false) sample_env sample_world
      (sample_packet (sample_frame 48 17 443 [1, 2, 3, 4, 5, 6, 7, 8]))
      (by decide) (by decide) (by decide) (by decide) (by decide)
      (Or.inl (by decide))).1 rfl).2.1⟩

/-! ## Classification of a packet (`should_bypass`) -/

theorem frame_facts (p a : List Nat) (h32 : p.length < 2 ^ 32)
    (h2 : 20 ≤ tcp_doff (p ++ a) (ip_ihl p * 4) * 4)
    (hfit : ip_ihl p * 4 + tcp_doff (p ++ a) (ip_ihl p * 4) * 4 ≤ p.length) :
    tcp_doff (p ++ a) (ip_ihl p * 4) * 4 = tcp_hdr_len p
      ∧ sub32 (sub32 p.length (ip_ihl p * 4)) (tcp_doff (p ++ a) (ip_ihl p * 4) * 4)
          = (tcp_payload p).length
      ∧ (p ++ a).drop (ip_ihl p * 4 + tcp_doff (p ++ a) (ip_ihl p * 4) * 4)
          = tcp_payload p ++ a
      ∧ (tcp_payload p).length = p.length - ip_hdr_len p - tcp_hdr_len p := by
  have e : tcp_doff (p ++ a) (ip_ihl p * 4) = tcp_doff p (ip_ihl p * 4) :=
    tcp_doff_append p a _ (by omega)
  rw [e] at h2 hfit ⊢
  have e1 : ip_ihl p * 4 = ip_hdr_len p := rfl
  have e2 : tcp_doff p (ip_hdr_len p) * 4 = tcp_hdr_len p := rfl
  rw [e1] at h2 hfit ⊢
  rw [e2] at h2 hfit ⊢
  have hl : (tcp_payload p).length = p.length - ip_hdr_len p - tcp_hdr_len p := by
    unfold tcp_payload; rw [List.length_drop]; omega
  refine ⟨rfl, ?_, ?_, hl⟩
  · rw [sub32_eq _ _ (by omega) h32, sub32_eq _ _ (by omega) (by omega), hl]
  · unfold tcp_payload
    exact List.drop_append_of_le_length hfit

theorem hello_append (d a : List Nat) :
    dpi_is_tls_client_hello (d ++ a) d.length = dpi_is_tls_client_hello d d.length := by
  unfold dpi_is_tls_client_hello
  by_cases h : d.length < 6
  · rw [if_pos h, if_pos h]
  · rw [if_neg h, if_neg h, load8_append_left d a 0 (by omega),
      load8_append_left d a 5 (by omega)]

theorem should_bypass_count_seen (g : GBypass) (n : Nat) (packet : NfqueuePacket) :
    should_bypass (count_seen g n) packet = should_bypass g packet := rfl

theorem should_bypass_eligible (g : GBypass) (packet : NfqueuePacket)
    (h32 : packet.payload.length < 2 ^ 32)
    (h2 : 20 ≤ tcp_doff (packet.payload ++ packet.after) (ip_ihl packet.payload * 4) * 4)
    (hfit : ip_ihl packet.payload * 4
      + tcp_doff (packet.payload ++ packet.after) (ip_ihl packet.payload * 4) * 4
      ≤ packet.payload.length)
    (h : should_bypass g packet = true) : port_eligible g packet := by
  obtain ⟨-, f2, f3, -⟩ := frame_facts packet.payload packet.after h32 h2 hfit
  unfold should_bypass at h
  unfold port_eligible
  by_cases h443 : packet.dst_port = 443
  · left
    cases hd : g.settings.desync_https with
    | false => rw [if_pos ⟨h443, hd⟩] at h; cases h
    | true =>
      refine ⟨h443, rfl, ?_⟩
      rw [if_neg (by rw [hd]; simp), if_neg (by omega), if_neg (by omega)] at h
      unfold extract_hostname at h
      simp only at h
      rw [if_pos h443, f2, f3, hello_append] at h
      cases hh : dpi_is_tls_client_hello (tcp_payload packet.payload)
          (tcp_payload packet.payload).length with
      | true => rfl
      | false =>
        rw [hh] at h
        simp at h
  · right
    by_cases h80 : packet.dst_port = 80
    · cases hd : g.settings.desync_http with
      | false =>
        rw [if_neg (fun x => h443 x.1), if_pos ⟨h80, hd⟩] at h
        cases h
      | true => exact ⟨h80, rfl⟩
    · rw [if_neg (fun x => h443 x.1), if_neg (fun x => h80 x.1), if_pos ⟨h443, h80⟩] at h
      cases h

theorem process_reaches (g : GBypass) (env : SocketEnv) (w : World) (packet : NfqueuePacket)
    (h : reaches_fragmenting g packet) :
    dpi_bypass_process_packet g env w packet
      = inject_fragments (count_seen g packet.payload.length) env w packet := by
  obtain ⟨h1, h2, h3, h4, h5, h6, h7, h8, h9, h10⟩ := h
  unfold ip_hdr_len at h3 h4 h7 h8 h9
  have h5' : ¬ ((count_seen g packet.payload.length).settings.block_quic = true
      ∧ ip_protocol packet.payload = 17 ∧ (packet.dst_port = 443 ∨ packet.dst_port = 80)) := h5
  unfold dpi_bypass_process_packet
  simp only
  rw [if_neg (by omega), if_neg (by omega), if_neg (by omega), if_neg h5', if_neg (by omega),
    if_neg (by omega), if_neg h9, should_bypass_count_seen, if_neg (by rw [h10]; simp)]

theorem process_not_reaches (g : GBypass) (env : SocketEnv) (w : World)
    (packet : NfqueuePacket) (htcp : ip_protocol packet.payload = 6)
    (h : ¬ reaches_fragmenting g packet) :
    (dpi_bypass_process_packet g env w packet).verdict = .NFQUEUE_ACCEPT
      ∧ (dpi_bypass_process_packet g env w packet).sends = []
      ∧ (dpi_bypass_process_packet g env w packet).g.stats.packets_bypassed
          = g.stats.packets_bypassed
      ∧ (dpi_bypass_process_packet g env w packet).g.stats.packets_dropped
          = g.stats.packets_dropped := by
  unfold dpi_bypass_process_packet
  simp only
  split_ifs with c1 c2 c3 c4 c5 c6 c7 c8 <;> first
    | exact ⟨rfl, rfl, rfl, rfl⟩
    | (exfalso; omega)
    | (exfalso
       apply h
       unfold reaches_fragmenting ip_hdr_len
       rw [should_bypass_count_seen] at c8
       refine ⟨by omega, by omega, by omega, by omega, c4, htcp, by omega, by omega, c7, ?_⟩
       cases hsb : should_bypass g packet with
       | true => rfl
       | false => exact absurd hsb c8)

/-- C13: for every TCP packet (protocol byte 6, frame shorter than 2^32
bytes): if the guards of `dpi_bypass_process_packet` let it pass to the
fragmenting step, then its TCP payload is not empty and it goes either to
port 443 with `desync_https` set and a ClientHello as payload, or to port 80
with `desync_http` set; every other TCP packet, and so every packet to port
22, gets ACCEPT, nothing is sent and `packets_bypassed` keeps its value. -/
theorem C13_fragmenting_gate (g : GBypass) (env : SocketEnv) (w : World)
    (packet : NfqueuePacket) (htcp : ip_protocol packet.payload = 6)
    (h32 : packet.payload.length < 2 ^ 32) :
    (reaches_fragmenting g packet →
        dpi_bypass_process_packet g env w packet
            = inject_fragments (count_seen g packet.payload.length) env w packet
          ∧ tcp_payload packet.payload ≠ [] ∧ port_eligible g packet)
      ∧ (¬ (tcp_payload packet.payload ≠ [] ∧ port_eligible g packet) →
          (dpi_bypass_process_packet g env w packet).verdict = .NFQUEUE_ACCEPT
            ∧ (dpi_bypass_process_packet g env w packet).sends = []
            ∧ (dpi_bypass_process_packet g env w packet).g.stats.packets_bypassed
                = g.stats.packets_bypassed)
      ∧ (packet.dst_port = 22 →
          (dpi_bypass_process_packet g env w packet).verdict = .NFQUEUE_ACCEPT
            ∧ (dpi_bypass_process_packet g env w packet).sends = []
            ∧ (dpi_bypass_process_packet g env w packet).g.stats.packets_bypassed
                = g.stats.packets_bypassed) := by
  have key : reaches_fragmenting g packet →
      tcp_payload packet.payload ≠ [] ∧ port_eligible g packet := by
    intro hr
    obtain ⟨h1, h2, h3, h4, h5, h6, h7, h8, h9, h10⟩ := hr
    unfold ip_hdr_len at h3 h4 h7 h8 h9
    obtain ⟨-, f2, -, -⟩ := frame_facts packet.payload packet.after h32 h7 h8
    refine ⟨?_, should_bypass_eligible g packet h32 h7 h8 h10⟩
    intro he
    rw [f2, he] at h9
    exact h9 rfl
  refine ⟨fun hr => ⟨process_reaches g env w packet hr, key hr⟩, ?_, ?_⟩
  · intro hne
    have hnr : ¬ reaches_fragmenting g packet := fun hr => hne (key hr)
    obtain ⟨a, b, c, -⟩ := process_not_reaches g env w packet htcp hnr
    exact ⟨a, b, c⟩
  · intro h22
    have hnr : ¬ reaches_fragmenting g packet := by
      intro hr
      rcases (key hr).2 with ⟨h443, -⟩ | ⟨h80, -⟩
      · omega
      · omega
    obtain ⟨a, b, c, -⟩ := process_not_reaches g env w packet htcp hnr
    exact ⟨a, b, c⟩

/-- C13, witness: the sample HTTP frame sent to port 22. -/
theorem C13_fragmenting_gate_witness :
    ip_protocol (sample_frame 49 6 22 [120, 120, 72, 111, 115, 116, 58, 97, 10]) = 6
      ∧ (sample_packet (sample_frame 49 6 22 [120, 120, 72, 111, 115, 116, 58, 97, 10])).dst_port
          = 22
      ∧ (dpi_bypass_process_packet (sample_g 1 2 4 false) sample_env sample_world
          (sample_packet (sample_frame 49 6 22 [120, 120, 72, 111, 115, 116, 58, 97, 10]))).verdict
          = .NFQUEUE_ACCEPT :=
  ⟨by decide, by decide,
    ((C13_fragmenting_gate (sample_g 1 2 4 false) sample_env sample_world
      (sample_packet (sample_frame 49 6 22 [120, 120, 72, 111, 115, 116, 58, 97, 10]))
      (by decide) (by decide)).2.2 (by decide)).1⟩

/-! ## The whitelist (claim C14) -/

theorem strcasestr_of_contains (needle : List Nat) :
    ∀ (pre hay post : List Nat), hay.map ascii_lower = pre ++ (needle.map ascii_lower ++ post) →
      (strcasestr hay needle).isSome = true := by
  intro pre
  induction pre with
  | nil =>
    intro hay post h
    rw [List.nil_append] at h
    cases hay with
    | nil =>
      have hn : needle = [] := by
        cases needle with
        | nil => rfl
        | cons a t => simp at h
      rw [hn]
      rfl
    | cons a t =>
      unfold strcasestr
      rw [if_pos (by rw [List.isPrefixOf_iff_prefix, h]; exact List.prefix_append _ _)]
      rfl
  | cons p ps ih =>
    intro hay post h
    cases hay with
    | nil => simp at h
    | cons a t =>
      rw [List.map_cons, List.cons_append] at h
      have ht := ih t post (List.cons.inj h).2
      unfold strcasestr
      split
      · rfl
      · rw [Option.isSome_map']
        exact ht

theorem cstr_ne_nil (h : List Nat) (hne : cstr h ≠ []) : load8 h 0 ≠ 0 := by
  cases h with
  | nil => exact absurd rfl hne
  | cons b t =>
    intro hb
    apply hne
    have hb0 : b = 0 := hb
    rw [hb0]
    rfl

theorem whitelisted_of_contains (g : GBypass) (hostname entry : List Nat)
    (hne : cstr hostname ≠ []) (hentry : entry ∈ g.whitelist.take g.whitelist_count)
    (hsub : contains_nocase (cstr hostname) (cstr entry)) :
    dpi_is_whitelisted g hostname = true := by
  unfold dpi_is_whitelisted
  rw [if_neg (cstr_ne_nil hostname hne), List.any_eq_true]
  obtain ⟨pre, post, h⟩ := hsub
  exact ⟨entry, hentry, strcasestr_of_contains _ pre _ post h⟩

theorem should_bypass_whitelisted (g : GBypass) (packet : NfqueuePacket) (hostname : List Nat)
    (hhost : extract_hostname packet = some hostname) (hne : load8 hostname 0 ≠ 0)
    (hw : dpi_is_whitelisted g hostname = true) : should_bypass g packet = false := by
  unfold should_bypass
  rw [hhost]
  simp only
  split_ifs with c1 c2 c3 c4 <;> first
    | rfl
    | exact absurd ⟨hne, hw⟩ c4

/-- C14: for every TCP packet whose hostname as `should_bypass` extracts it
(the SNI of a ClientHello to port 443, the value of the Host header
otherwise) is not empty and contains a row of the whitelist as a contiguous
substring when ASCII letter case is ignored, `should_bypass` is false and
`dpi_bypass_process_packet` returns ACCEPT, sends nothing and leaves
`packets_bypassed` as it is. -/
theorem C14_whitelisted_accept (g : GBypass) (env : SocketEnv) (w : World)
    (packet : NfqueuePacket) (hostname entry : List Nat)
    (htcp : ip_protocol packet.payload = 6)
    (hhost : extract_hostname packet = some hostname) (hne : cstr hostname ≠ [])
    (hentry : entry ∈ g.whitelist.take g.whitelist_count)
    (hsub : contains_nocase (cstr hostname) (cstr entry)) :
    should_bypass g packet = false
      ∧ (dpi_bypass_process_packet g env w packet).verdict = .NFQUEUE_ACCEPT
      ∧ (dpi_bypass_process_packet g env w packet).sends = []
      ∧ (dpi_bypass_process_packet g env w packet).g.stats.packets_bypassed
          = g.stats.packets_bypassed := by
  have hsb := should_bypass_whitelisted g packet hostname hhost (cstr_ne_nil hostname hne)
    (whitelisted_of_contains g hostname entry hne hentry hsub)
  have hnr : ¬ reaches_fragmenting g packet := by
    intro hr
    have := hr.2.2.2.2.2.2.2.2.2
    rw [hsb] at this
    cases this
  obtain ⟨a, b, c, -⟩ := process_not_reaches g env w packet htcp hnr
  exact ⟨hsb, a, b, c⟩

set_option maxRecDepth 100000 in
/-- C14, witness: the row `github.com` and a ClientHello to port 443 with the
SNI `api.github.com`, in a frame that passes every guard before
`should_bypass`. -/
theorem C14_whitelisted_accept_witness :
    valid_packet (sample_frame 121 6 443 (sample_client_hello 29))
      ∧ port_eligible sample_g_whitelist
          (sample_packet (sample_frame 121 6 443 (sample_client_hello 29)))
      ∧ extract_hostname (sample_packet (sample_frame 121 6 443 (sample_client_hello 29)))
          = some (sample_name ++ [0])
      ∧ should_bypass sample_g_whitelist
          (sample_packet (sample_frame 121 6 443 (sample_client_hello 29))) = false
      ∧ (dpi_bypass_process_packet sample_g_whitelist sample_env sample_world
          (sample_packet (sample_frame 121 6 443 (sample_client_hello 29)))).verdict
          = .NFQUEUE_ACCEPT :=
  ⟨by decide, by decide, by decide,
    (C14_whitelisted_accept sample_g_whitelist sample_env sample_world
      (sample_packet (sample_frame 121 6 443 (sample_client_hello 29))) (sample_name ++ [0])
      sample_entry (by decide) (by decide) (by decide) (by decide)
      ⟨[97, 112, 105, 46], [], by decide⟩).1,
    (C14_whitelisted_accept sample_g_whitelist sample_env sample_world
      (sample_packet (sample_frame 121 6 443 (sample_client_hello 29))) (sample_name ++ [0])
      sample_entry (by decide) (by decide) (by decide) (by decide)
      ⟨[97, 112, 105, 46], [], by decide⟩).2.1⟩

/-! ## The fragmenting step (claims C11, C12) -/

theorem send_fail (g : GBypass) (ret : Int) (len : Nat) (h : ret < 0) :
    dpi_send_raw_packet g ret len = -1 := by
  unfold dpi_send_raw_packet
  split_ifs <;> rfl

theorem create_none (pkt : List Nat) (len : Nat) (data : List Nat) (dl off : Nat) :
    create_tcp_fragment false pkt len data dl off = none := by
  unfold create_tcp_fragment
  split_ifs with a b <;> first
    | rfl
    | exact absurd rfl b

theorem split_build_malloc (g : GBypass) (w : World) (pkt : List Nat) (len : Nat)
    (h : w.malloc_ok 0 = false ∨ w.malloc_ok 1 = false) : split_build g w pkt len = none := by
  have hc : split_create g w pkt len = none := by
    unfold split_create
    by_cases h40 : len < 40
    · rw [if_pos h40]
    · rw [if_neg h40]
      simp only
      split_ifs
      · rfl
      · rcases h with h | h
        · rw [h, create_none]
        · rw [h, create_none]
          split <;> rfl
  unfold split_build
  rw [hc]

theorem disorder_loop_malloc (w : World) (payload : List Nat) (len : Nat) (data : List Nat)
    (n count cs : Nat) :
    ∀ rem i offset (arr : FragArray) k r,
      disorder_create_loop w payload len data n count cs rem i offset arr k = .ok r →
      ∀ j, i ≤ j → j < i + (disorder_chunks n count cs rem i offset).length →
        w.malloc_ok j = true := by
  intro rem
  induction rem with
  | zero =>
    intro i offset arr k r _ j h1 h2
    simp only [disorder_chunks, List.length_nil] at h2
    omega
  | succ m ih =>
    intro i offset arr k r h j h1 h2
    unfold disorder_create_loop at h
    unfold disorder_chunks at h2
    by_cases ho : offset < n
    · rw [if_pos ho] at h h2
      simp only [List.length_cons] at h2
      simp only at h
      split at h
      · cases h
      · rename_i frag hc
        by_cases hji : j = i
        · rw [hji]
          cases hmi : w.malloc_ok i with
          | true => rfl
          | false =>
            rw [hmi, create_none] at hc
            cases hc
        · by_cases hb : i < arr.length
          · rw [if_pos hb] at h
            exact ih _ _ _ _ _ h j (by omega) (by omega)
          · rw [if_neg hb] at h
            cases h
    · rw [if_neg ho] at h2
      simp only [List.length_nil] at h2
      omega

theorem disorder_build_malloc (g : GBypass) (w : World) (pkt : List Nat) (hp : headers_ok pkt)
    (hn : 2 ≤ (tcp_payload pkt).length) (j : Nat)
    (hj : j < (disorder_cut g.settings (tcp_payload pkt).length).length)
    (hm : w.malloc_ok j = false) :
    ∃ e, disorder_build g w pkt pkt.length = .error e := by
  have hc : ∃ e, disorder_create g w pkt pkt.length = .error e := by
    cases h : disorder_create g w pkt pkt.length with
    | error e => exact ⟨e, rfl⟩
    | ok r =>
      exfalso
      unfold disorder_create at h
      rw [if_neg (by have := hp.2.1; omega)] at h
      simp only at h
      rw [payload_length pkt hp, if_neg (by omega)] at h
      have := disorder_loop_malloc w pkt pkt.length _ _ _ _ _ _ _ _ _ r h j (Nat.zero_le _)
        (by rw [disorder_chunks_cut g.settings _ hn (payload_length_lt pkt hp)]; omega)
      rw [hm] at this
      cases this
  obtain ⟨e, he⟩ := hc
  exact ⟨e, by unfold disorder_build; rw [he]⟩

theorem split_inject_ok (g : GBypass) (w : World) (pkt : List Nat) (dst : Nat) (reverse : Bool)
    (hp : headers_ok pkt) (hn : 2 ≤ (tcp_payload pkt).length)
    (hm : ∀ j, w.malloc_ok j = true) (hinit : g.raw_socket_initialized = true)
    (hfd : 0 ≤ g.raw_socket) (hs : ∀ k, 0 ≤ w.sendto_ret k) :
    apply_split_with_injection g w pkt pkt.length dst reverse
      = (0, if reverse = true then
          ([frag_at pkt (0, split_pos g.settings (tcp_payload pkt).length),
            mix_if g.settings.mix_host_case
              (frag_at pkt (split_pos g.settings (tcp_payload pkt).length,
                (tcp_payload pkt).length - split_pos g.settings (tcp_payload pkt).length))].map
            (to_call dst)).reverse
        else
          [frag_at pkt (0, split_pos g.settings (tcp_payload pkt).length),
            mix_if g.settings.mix_host_case
              (frag_at pkt (split_pos g.settings (tcp_payload pkt).length,
                (tcp_payload pkt).length - split_pos g.settings (tcp_payload pkt).length))].map
            (to_call dst)) := by
  have hsl := final_len_ge pkt hp _ _ (split_final g pkt hp hn)
  have hb := split_build_spec g w pkt hp hn (hm 0) (hm 1)
  set f1 := frag_at pkt (0, split_pos g.settings (tcp_payload pkt).length) with hf1
  set f2 := mix_if g.settings.mix_host_case
    (frag_at pkt (split_pos g.settings (tcp_payload pkt).length,
      (tcp_payload pkt).length - split_pos g.settings (tcp_payload pkt).length)) with hf2
  have s1 := send_ok g (w.sendto_ret 0) f1.2 hinit hfd (hs 0) (hsl f1 (by simp))
  have s1' := send_ok g (w.sendto_ret 1) f1.2 hinit hfd (hs 1) (hsl f1 (by simp))
  have s2 := send_ok g (w.sendto_ret 0) f2.2 hinit hfd (hs 0) (hsl f2 (by simp))
  have s2' := send_ok g (w.sendto_ret 1) f2.2 hinit hfd (hs 1) (hsl f2 (by simp))
  unfold apply_split_with_injection
  rw [hb]
  cases reverse with
  | false =>
    simp only [Bool.false_eq_true, if_false, s1, s2', lt_self_iff_false, List.map_cons,
      List.map_nil, to_call]
  | true =>
    simp only [if_true, s2, s1', lt_self_iff_false, if_false, List.map_cons, List.map_nil,
      to_call, List.reverse_cons, List.reverse_nil, List.nil_append, List.singleton_append]

theorem split_inject_fail (g : GBypass) (w : World) (pkt : List Nat) (dst : Nat)
    (reverse : Bool) (hp : headers_ok pkt) (hn : 2 ≤ (tcp_payload pkt).length)
    (hm : ∀ j, w.malloc_ok j = true) (hinit : g.raw_socket_initialized = true)
    (hfd : 0 ≤ g.raw_socket) (kf : Nat) (hkf : kf < 2) (hok : ∀ i, i < kf → 0 ≤ w.sendto_ret i)
    (hbad : w.sendto_ret kf < 0) :
    apply_split_with_injection g w pkt pkt.length dst reverse
      = (-1, (if reverse = true then
          ([frag_at pkt (0, split_pos g.settings (tcp_payload pkt).length),
            mix_if g.settings.mix_host_case
              (frag_at pkt (split_pos g.settings (tcp_payload pkt).length,
                (tcp_payload pkt).length - split_pos g.settings (tcp_payload pkt).length))].map
            (to_call dst)).reverse
        else
          [frag_at pkt (0, split_pos g.settings (tcp_payload pkt).length),
            mix_if g.settings.mix_host_case
              (frag_at pkt (split_pos g.settings (tcp_payload pkt).length,
                (tcp_payload pkt).length - split_pos g.settings (tcp_payload pkt).length))].map
            (to_call dst)).take (kf + 1)) := by
  have hsl := final_len_ge pkt hp _ _ (split_final g pkt hp hn)
  have hb := split_build_spec g w pkt hp hn (hm 0) (hm 1)
  set f1 := frag_at pkt (0, split_pos g.settings (tcp_payload pkt).length) with hf1
  set f2 := mix_if g.settings.mix_host_case
    (frag_at pkt (split_pos g.settings (tcp_payload pkt).length,
      (tcp_payload pkt).length - split_pos g.settings (tcp_payload pkt).length)) with hf2
  unfold apply_split_with_injection
  rw [hb]
  obtain rfl | rfl : kf = 0 ∨ kf = 1 := by omega
  · have b1 := send_fail g (w.sendto_ret 0) f1.2 hbad
    have b2 := send_fail g (w.sendto_ret 0) f2.2 hbad
    cases reverse with
    | false =>
      simp only [Bool.false_eq_true, if_false, b1, List.map_cons, List.map_nil, to_call]
      rfl
    | true =>
      simp only [if_true, b2, List.map_cons, List.map_nil, to_call]
      rfl
  · have s1 := send_ok g (w.sendto_ret 0) f1.2 hinit hfd (hok 0 (by omega)) (hsl f1 (by simp))
    have s2 := send_ok g (w.sendto_ret 0) f2.2 hinit hfd (hok 0 (by omega)) (hsl f2 (by simp))
    have b1 := send_fail g (w.sendto_ret 1) f1.2 hbad
    have b2 := send_fail g (w.sendto_ret 1) f2.2 hbad
    cases reverse with
    | false =>
      simp only [Bool.false_eq_true, if_false, s1, b2, lt_self_iff_false, List.map_cons,
        List.map_nil, to_call]
      rfl
    | true =>
      simp only [if_true, s2, b1, lt_self_iff_false, if_false, List.map_cons, List.map_nil,
        to_call]
      rfl

theorem disorder_build_eq (g : GBypass) (w : World) (pkt : List Nat) (hp : headers_ok pkt)
    (hn : 2 ≤ (tcp_payload pkt).length) (hm : ∀ j, w.malloc_ok j = true) :
    ∃ k, disorder_build g w pkt pkt.length
      = .ok ((mix_head g.settings.mix_host_case
            ((disorder_cut g.settings (tcp_payload pkt).length).map (frag_at pkt))).map some
          ++ List.replicate k none,
        (mix_head g.settings.mix_host_case
          ((disorder_cut g.settings (tcp_payload pkt).length).map (frag_at pkt))).length) := by
  unfold disorder_build
  rw [disorder_create_eq g w pkt hp hn hm]
  obtain ⟨c, t, hct, -⟩ := disorder_cut_cons g.settings _ hn
  rw [hct]
  simp only [List.map_cons, List.length_cons, List.cons_append, mix_head]
  cases hmix : g.settings.mix_host_case with
  | false =>
    refine ⟨10 - (t.length + 1), ?_⟩
    simp [mix_if]
  | true =>
    refine ⟨10 - (t.length + 1), ?_⟩
    simp [mix_if]

theorem disorder_send_forward_fail (g : GBypass) (w : World) (fs : List (List Nat × Nat))
    (n dst : Nat) (hinit : g.raw_socket_initialized = true) (hfd : 0 ≤ g.raw_socket)
    (hlen : ∀ f ∈ fs, 20 ≤ f.2) (kf : Nat) (hok : ∀ i, i < kf → 0 ≤ w.sendto_ret i)
    (hbad : w.sendto_ret kf < 0) :
    ∀ rem i k trace, i + rem = fs.length → k ≤ kf → kf - k < rem →
      disorder_send_forward g w (fs.map some ++ List.replicate n none) dst rem i k trace
        = (-1, trace ++ ((fs.drop i).map (to_call dst)).take (kf - k + 1)) := by
  intro rem
  induction rem with
  | zero => intro i k trace _ _ h; omega
  | succ r ih =>
    intro i k trace h hk hr
    have hi : i < fs.length := by omega
    have hget : fs[i]? = some fs[i] := List.getElem?_eq_getElem hi
    unfold disorder_send_forward
    rw [slots_getD fs n i _ hget]
    simp only
    rw [List.drop_eq_getElem_cons hi, List.map_cons, List.take_succ_cons]
    by_cases hkk : k = kf
    · rw [hkk, send_fail g _ _ hbad, if_pos (by omega), Nat.sub_self, List.take_zero]
      rfl
    · rw [send_ok g _ _ hinit hfd (hok k (by omega)) (hlen _ (List.getElem_mem hi)),
        if_neg (by omega), ih (i + 1) (k + 1) _ (by omega) (by omega) (by omega)]
      have e : kf - k = kf - (k + 1) + 1 := by omega
      rw [e, List.append_assoc]
      rfl

theorem disorder_send_reverse_fail (g : GBypass) (w : World) (fs : List (List Nat × Nat))
    (n dst : Nat) (hinit : g.raw_socket_initialized = true) (hfd : 0 ≤ g.raw_socket)
    (hlen : ∀ f ∈ fs, 20 ≤ f.2) (kf : Nat) (hok : ∀ i, i < kf → 0 ≤ w.sendto_ret i)
    (hbad : w.sendto_ret kf < 0) :
    ∀ i k trace, i ≤ fs.length → k ≤ kf → kf - k < i →
      disorder_send_reverse g w (fs.map some ++ List.replicate n none) dst i k trace
        = (-1, trace ++ (((fs.take i).map (to_call dst)).reverse).take (kf - k + 1)) := by
  intro i
  induction i with
  | zero => intro k trace _ _ h; omega
  | succ i ih =>
    intro k trace h hk hr
    have hi : i < fs.length := by omega
    have hget : fs[i]? = some fs[i] := List.getElem?_eq_getElem hi
    unfold disorder_send_reverse
    rw [slots_getD fs n i _ hget]
    simp only
    have e1 : ((fs.take (i + 1)).map (to_call dst)).reverse
        = to_call dst fs[i] :: ((fs.take i).map (to_call dst)).reverse := by
      rw [List.take_succ, hget, Option.toList, List.map_append, List.reverse_append]
      rfl
    rw [e1, List.take_succ_cons]
    by_cases hkk : k = kf
    · rw [hkk, send_fail g _ _ hbad, if_pos (by omega), Nat.sub_self, List.take_zero]
      rfl
    · rw [send_ok g _ _ hinit hfd (hok k (by omega)) (hlen _ (List.getElem_mem hi)),
        if_neg (by omega), ih (k + 1) _ (by omega) (by omega) (by omega)]
      have e : kf - k = kf - (k + 1) + 1 := by omega
      rw [e, List.append_assoc]
      rfl

theorem disorder_inject_ok (g : GBypass) (w : World) (pkt : List Nat) (dst : Nat)
    (reverse : Bool) (hp : headers_ok pkt) (hn : 2 ≤ (tcp_payload pkt).length)
    (hm : ∀ j, w.malloc_ok j = true) (hinit : g.raw_socket_initialized = true)
    (hfd : 0 ≤ g.raw_socket) (hs : ∀ k, 0 ≤ w.sendto_ret k) :
    apply_disorder_with_injection g w pkt pkt.length dst reverse
      = (0, if reverse = true then
          ((mix_head g.settings.mix_host_case
            ((disorder_cut g.settings (tcp_payload pkt).length).map (frag_at pkt))).map
            (to_call dst)).reverse
        else
          (mix_head g.settings.mix_host_case
            ((disorder_cut g.settings (tcp_payload pkt).length).map (frag_at pkt))).map
            (to_call dst)) := by
  have hdl := final_len_ge pkt hp _ _ (disorder_final g pkt hp hn)
  obtain ⟨kk, hbuild⟩ := disorder_build_eq g w pkt hp hn hm
  unfold apply_disorder_with_injection
  rw [hbuild]
  cases reverse with
  | false =>
    simp only [Bool.false_eq_true, if_false]
    rw [disorder_send_forward_ok g w _ kk dst hinit hfd hs hdl _ 0 0 [] (by omega)]
    simp
  | true =>
    simp only [if_true]
    rw [disorder_send_reverse_ok g w _ kk dst hinit hfd hs hdl _ 0 [] (le_refl _)]
    simp

theorem disorder_inject_fail (g : GBypass) (w : World) (pkt : List Nat) (dst : Nat)
    (reverse : Bool) (hp : headers_ok pkt) (hn : 2 ≤ (tcp_payload pkt).length)
    (hm : ∀ j, w.malloc_ok j = true) (hinit : g.raw_socket_initialized = true)
    (hfd : 0 ≤ g.raw_socket) (kf : Nat)
    (hkf : kf < (disorder_cut g.settings (tcp_payload pkt).length).length)
    (hok : ∀ i, i < kf → 0 ≤ w.sendto_ret i) (hbad : w.sendto_ret kf < 0) :
    apply_disorder_with_injection g w pkt pkt.length dst reverse
      = (-1, (if reverse = true then
          ((mix_head g.settings.mix_host_case
            ((disorder_cut g.settings (tcp_payload pkt).length).map (frag_at pkt))).map
            (to_call dst)).reverse
        else
          (mix_head g.settings.mix_host_case
            ((disorder_cut g.settings (tcp_payload pkt).length).map (frag_at pkt))).map
            (to_call dst)).take (kf + 1)) := by
  have hdl := final_len_ge pkt hp _ _ (disorder_final g pkt hp hn)
  obtain ⟨kk, hbuild⟩ := disorder_build_eq g w pkt hp hn hm
  have hlen : (mix_head g.settings.mix_host_case
      ((disorder_cut g.settings (tcp_payload pkt).length).map (frag_at pkt))).length
      = (disorder_cut g.settings (tcp_payload pkt).length).length := by
    obtain ⟨c, t, hct, -⟩ := disorder_cut_cons g.settings _ hn
    rw [hct]
    simp [mix_head]
  unfold apply_disorder_with_injection
  rw [hbuild]
  cases reverse with
  | false =>
    simp only [Bool.false_eq_true, if_false]
    rw [disorder_send_forward_fail g w _ kk dst hinit hfd hdl kf hok hbad _ 0 0 []
      (by omega) (by omega) (by omega)]
    simp
  | true =>
    simp only [if_true]
    rw [disorder_send_reverse_fail g w _ kk dst hinit hfd hdl kf hok hbad _ 0 []
      (le_refl _) (by omega) (by omega)]
    simp

theorem apply_method_eq (g : GBypass) (w : World) (packet : NfqueuePacket)
    (hmeth : fragmenting_method g) :
    apply_method g w packet
      = if (if g.settings.method = 1 ∨ g.settings.method = 2 then
              apply_split_with_injection g w packet.payload packet.payload.length packet.dst_ip
                (decide (g.settings.method = 2))
            else
              apply_disorder_with_injection g w packet.payload packet.payload.length
                packet.dst_ip (decide (g.settings.method = 4))).1 = 0 then
          ⟨.NFQUEUE_DROP, count_bypassed g,
            (if g.settings.method = 1 ∨ g.settings.method = 2 then
              apply_split_with_injection g w packet.payload packet.payload.length packet.dst_ip
                (decide (g.settings.method = 2))
            else
              apply_disorder_with_injection g w packet.payload packet.payload.length
                packet.dst_ip (decide (g.settings.method = 4))).2⟩
        else
          ⟨.NFQUEUE_ACCEPT, g,
            (if g.settings.method = 1 ∨ g.settings.method = 2 then
              apply_split_with_injection g w packet.payload packet.payload.length packet.dst_ip
                (decide (g.settings.method = 2))
            else
              apply_disorder_with_injection g w packet.payload packet.payload.length
                packet.dst_ip (decide (g.settings.method = 4))).2⟩ := by
  unfold apply_method
  rcases hmeth with h | h | h | h
  · have c2 : ¬ g.settings.method = 2 := by omega
    rw [if_pos h, if_pos (Or.inl h), decide_eq_false c2]
  · have c1 : ¬ g.settings.method = 1 := by omega
    rw [if_neg c1, if_pos h, if_pos (Or.inr h), decide_eq_true h]
  · have c1 : ¬ g.settings.method = 1 := by omega
    have c2 : ¬ g.settings.method = 2 := by omega
    have c4 : ¬ g.settings.method = 4 := by omega
    rw [if_neg c1, if_neg c2, if_pos h, if_neg (by omega : ¬ (g.settings.method = 1
      ∨ g.settings.method = 2)), decide_eq_false c4]
  · have c1 : ¬ g.settings.method = 1 := by omega
    have c2 : ¬ g.settings.method = 2 := by omega
    have c3 : ¬ g.settings.method = 3 := by omega
    rw [if_neg c1, if_neg c2, if_neg c3, if_pos h, if_neg (by omega : ¬ (g.settings.method = 1
      ∨ g.settings.method = 2)), decide_eq_true h]

theorem order_split (g : GBypass) (h : g.settings.method = 1 ∨ g.settings.method = 2)
    (calls : List SendCall) :
    (if decide (g.settings.method = 2) = true then calls.reverse else calls)
      = method_order g calls := by
  unfold method_order
  by_cases h2 : g.settings.method = 2
  · rw [if_pos (by simpa using h2), if_pos (Or.inl h2)]
  · rw [if_neg (by simpa using h2), if_neg (by omega)]

theorem order_disorder (g : GBypass) (h : ¬ (g.settings.method = 1 ∨ g.settings.method = 2))
    (calls : List SendCall) :
    (if decide (g.settings.method = 4) = true then calls.reverse else calls)
      = method_order g calls := by
  unfold method_order
  by_cases h4 : g.settings.method = 4
  · rw [if_pos (by simpa using h4), if_pos (Or.inr h4)]
  · rw [if_neg (by simpa using h4), if_neg (by omega)]

theorem method_fragments_length (g : GBypass) (pkt : List Nat)
    (hn : 2 ≤ (tcp_payload pkt).length) :
    (method_fragments g pkt).length
      = if g.settings.method = 1 ∨ g.settings.method = 2 then 2
        else (disorder_cut g.settings (tcp_payload pkt).length).length := by
  unfold method_fragments
  split
  · rfl
  · obtain ⟨c, t, hct, -⟩ := disorder_cut_cons g.settings _ hn
    rw [hct]
    simp [mix_head]

theorem apply_method_ok (g : GBypass) (w : World) (packet : NfqueuePacket)
    (hp : headers_ok packet.payload) (hn : 2 ≤ (tcp_payload packet.payload).length)
    (hmeth : fragmenting_method g) (hm : ∀ j, w.malloc_ok j = true)
    (hinit : g.raw_socket_initialized = true) (hfd : 0 ≤ g.raw_socket)
    (hs : ∀ k, 0 ≤ w.sendto_ret k) :
    apply_method g w packet
      = ⟨.NFQUEUE_DROP, count_bypassed g,
          method_order g ((method_fragments g packet.payload).map (to_call packet.dst_ip))⟩ := by
  rw [apply_method_eq g w packet hmeth]
  unfold method_fragments
  by_cases h12 : g.settings.method = 1 ∨ g.settings.method = 2
  · rw [if_pos h12, if_pos h12, split_inject_ok g w _ _ _ hp hn hm hinit hfd hs, if_pos rfl,
      order_split g h12]
  · rw [if_neg h12, if_neg h12, disorder_inject_ok g w _ _ _ hp hn hm hinit hfd hs, if_pos rfl,
      order_disorder g h12]

theorem apply_method_send_fail (g : GBypass) (w : World) (packet : NfqueuePacket)
    (hp : headers_ok packet.payload) (hn : 2 ≤ (tcp_payload packet.payload).length)
    (hmeth : fragmenting_method g) (hm : ∀ j, w.malloc_ok j = true)
    (hinit : g.raw_socket_initialized = true) (hfd : 0 ≤ g.raw_socket) (kf : Nat)
    (hkf : kf < (method_fragments g packet.payload).length)
    (hok : ∀ i, i < kf → 0 ≤ w.sendto_ret i) (hbad : w.sendto_ret kf < 0) :
    apply_method g w packet
      = ⟨.NFQUEUE_ACCEPT, g,
          (method_order g ((method_fragments g packet.payload).map
            (to_call packet.dst_ip))).take (kf + 1)⟩ := by
  rw [method_fragments_length g _ hn] at hkf
  rw [apply_method_eq g w packet hmeth]
  unfold method_fragments
  by_cases h12 : g.settings.method = 1 ∨ g.settings.method = 2
  · rw [if_pos h12] at hkf
    rw [if_pos h12, if_pos h12,
      split_inject_fail g w _ _ _ hp hn hm hinit hfd kf hkf hok hbad,
      if_neg (show ¬ ((-1 : Int) = 0) by decide), order_split g h12]
  · rw [if_neg h12] at hkf
    rw [if_neg h12, if_neg h12,
      disorder_inject_fail g w _ _ _ hp hn hm hinit hfd kf hkf hok hbad,
      if_neg (show ¬ ((-1 : Int) = 0) by decide), order_disorder g h12]

theorem apply_method_malloc_fail (g : GBypass) (w : World) (packet : NfqueuePacket)
    (hp : headers_ok packet.payload) (hn : 2 ≤ (tcp_payload packet.payload).length)
    (hmeth : fragmenting_method g) (j : Nat)
    (hj : j < (method_fragments g packet.payload).length) (hm : w.malloc_ok j = false) :
    apply_method g w packet = ⟨.NFQUEUE_ACCEPT, g, []⟩ := by
  rw [method_fragments_length g _ hn] at hj
  rw [apply_method_eq g w packet hmeth]
  by_cases h12 : g.settings.method = 1 ∨ g.settings.method = 2
  · rw [if_pos h12] at hj
    have hb : split_build g w packet.payload packet.payload.length = none := by
      apply split_build_malloc
      obtain rfl | rfl : j = 0 ∨ j = 1 := by omega
      · exact Or.inl hm
      · exact Or.inr hm
    have ha : apply_split_with_injection g w packet.payload packet.payload.length
        packet.dst_ip (decide (g.settings.method = 2)) = (-1, []) := by
      unfold apply_split_with_injection
      rw [hb]
    rw [if_pos h12, ha, if_neg (by decide)]
  · rw [if_neg h12] at hj
    obtain ⟨e, he⟩ := disorder_build_malloc g w packet.payload hp hn j hj hm
    have ha : apply_disorder_with_injection g w packet.payload packet.payload.length
        packet.dst_ip (decide (g.settings.method = 4)) = (-1, []) := by
      unfold apply_disorder_with_injection
      rw [he]
    rw [if_neg h12, ha, if_neg (by decide)]

theorem inject_cases (g : GBypass) (env : SocketEnv) (w : World) (packet : NfqueuePacket) :
    ((inject_fragments g env w packet).verdict = .NFQUEUE_ACCEPT
        ∧ (inject_fragments g env w packet).sends = []
        ∧ (inject_fragments g env w packet).g.stats = g.stats
        ∧ g.raw_socket_initialized = false ∧ (env.socket_ret < 0 ∨ env.hdrincl_ret < 0))
      ∨ ∃ g2, inject_fragments g env w packet = apply_method g2 w packet
          ∧ g2.settings = g.settings ∧ g2.stats = g.stats
          ∧ (injector_ready g env → g2.raw_socket_initialized = true ∧ 0 ≤ g2.raw_socket) := by
  unfold inject_fragments
  by_cases hi : g.raw_socket_initialized = false
  · rw [if_pos hi]
    have hd : dpi_raw_socket_init g env
        = if env.socket_ret < 0 then (-1, { g with raw_socket := env.socket_ret })
          else if env.hdrincl_ret < 0 then (-1, { g with raw_socket := -1 })
          else (0, { g with raw_socket := env.socket_ret, raw_socket_initialized := true }) := by
      unfold dpi_raw_socket_init
      rw [if_neg (by rw [hi]; simp)]
    simp only
    rw [hd]
    by_cases h1 : env.socket_ret < 0
    · left
      rw [if_pos h1, if_pos (show ((-1 : Int) < 0) by decide)]
      exact ⟨rfl, rfl, rfl, hi, Or.inl h1⟩
    · rw [if_neg h1]
      by_cases h2 : env.hdrincl_ret < 0
      · left
        rw [if_pos h2, if_pos (show ((-1 : Int) < 0) by decide)]
        exact ⟨rfl, rfl, rfl, hi, Or.inr h2⟩
      · right
        rw [if_neg h2, if_neg (show ¬ ((0 : Int) < 0) by decide)]
        refine ⟨_, rfl, rfl, rfl, ?_⟩
        intro _
        exact ⟨rfl, by simp only; omega⟩
  · right
    rw [if_neg hi]
    refine ⟨g, rfl, rfl, rfl, ?_⟩
    rintro (⟨h1, h2⟩ | ⟨h, -⟩)
    · exact ⟨h1, h2⟩
    · exact absurd h hi

theorem method_fragments_congr (g g2 : GBypass) (h : g2.settings = g.settings) (pkt : List Nat) :
    method_fragments g2 pkt = method_fragments g pkt := by
  unfold method_fragments
  rw [h]

theorem method_order_congr (g g2 : GBypass) (h : g2.settings = g.settings)
    (calls : List SendCall) : method_order g2 calls = method_order g calls := by
  unfold method_order
  rw [h]

theorem method_order_length (g : GBypass) (calls : List SendCall) :
    (method_order g calls).length = calls.length := by
  unfold method_order
  split
  · exact List.length_reverse _
  · rfl

theorem frame_of_headers (p a : List Nat) (hp : headers_ok p) :
    20 ≤ tcp_doff (p ++ a) (ip_ihl p * 4) * 4
      ∧ ip_ihl p * 4 + tcp_doff (p ++ a) (ip_ihl p * 4) * 4 ≤ p.length := by
  obtain ⟨-, -, -, h1, h2, h3⟩ := hp
  unfold tcp_hdr_len at h2 h3
  unfold ip_hdr_len at h1 h2 h3
  rw [tcp_doff_append p a _ (by omega)]
  exact ⟨h2, h3⟩

theorem should_bypass_of_eligible (g : GBypass) (packet : NfqueuePacket)
    (hp : headers_ok packet.payload) (he : eligible g packet) :
    should_bypass g packet = true := by
  obtain ⟨h2, hfit⟩ := frame_of_headers packet.payload packet.after hp
  obtain ⟨-, f2, f3, -⟩ := frame_facts packet.payload packet.after hp.2.2.1 h2 hfit
  obtain ⟨hport, hw⟩ := he
  have hex : ∃ h, extract_hostname packet = some h := by
    unfold extract_hostname
    simp only
    rw [f2, f3, hello_append]
    rcases hport with ⟨h443, -, hh⟩ | ⟨h80, -⟩
    · rw [if_pos h443, hh]
      simp only [Bool.true_eq_false, if_false]
      split <;> exact ⟨_, rfl⟩
    · rw [if_neg (by omega)]
      exact ⟨_, rfl⟩
  obtain ⟨h, hh⟩ := hex
  unfold hostname_whitelisted at hw
  rw [hh] at hw
  simp only at hw
  unfold should_bypass
  rw [hh]
  simp only
  rcases hport with ⟨h443, hd, -⟩ | ⟨h80, hd⟩
  · rw [if_neg (by rw [hd]; simp), if_neg (by omega), if_neg (by omega),
      if_neg (by rw [hw]; simp)]
  · rw [if_neg (by omega), if_neg (by rw [hd]; simp), if_neg (by omega),
      if_neg (by rw [hw]; simp)]

theorem reaches_of_valid (g : GBypass) (packet : NfqueuePacket)
    (hp : valid_packet packet.payload) (hn : 1 ≤ (tcp_payload packet.payload).length)
    (hsb : should_bypass g packet = true) : reaches_fragmenting g packet := by
  obtain ⟨hh, hv, htcp⟩ := hp
  obtain ⟨h2, hfit⟩ := frame_of_headers packet.payload packet.after hh
  obtain ⟨-, f2, -, -⟩ := frame_facts packet.payload packet.after hh.2.2.1 h2 hfit
  have h20 := hh.2.2.2.1
  have hlen := hh.2.2.2.2.2
  unfold reaches_fragmenting
  refine ⟨hh.2.1, hv, h20, by omega, ?_, htcp, h2, hfit, ?_, hsb⟩
  · intro hq
    have := hq.2.1
    omega
  · show sub32 (sub32 packet.payload.length (ip_ihl packet.payload * 4))
      (tcp_doff (packet.payload ++ packet.after) (ip_ihl packet.payload * 4) * 4) ≠ 0
    rw [f2]
    omega

theorem process_eligible (g : GBypass) (env : SocketEnv) (w : World) (packet : NfqueuePacket)
    (hp : valid_packet packet.payload) (hn : 1 ≤ (tcp_payload packet.payload).length)
    (he : eligible g packet) :
    dpi_bypass_process_packet g env w packet
      = inject_fragments (count_seen g packet.payload.length) env w packet :=
  process_reaches g env w packet
    (reaches_of_valid g packet hp hn (should_bypass_of_eligible g packet hp.1 he))

theorem process_drop (g : GBypass) (env : SocketEnv) (w : World) (packet : NfqueuePacket)
    (hp : valid_packet packet.payload) (hn : 2 ≤ (tcp_payload packet.payload).length)
    (he : eligible g packet) (hmeth : fragmenting_method g) (hr : injector_ready g env)
    (hm : ∀ j, w.malloc_ok j = true) (hs : ∀ k, 0 ≤ w.sendto_ret k) :
    (dpi_bypass_process_packet g env w packet).verdict = .NFQUEUE_DROP
      ∧ (dpi_bypass_process_packet g env w packet).g.stats.packets_bypassed
          = (g.stats.packets_bypassed + 1) % 2 ^ 64
      ∧ (dpi_bypass_process_packet g env w packet).g.stats.packets_dropped
          = g.stats.packets_dropped
      ∧ (dpi_bypass_process_packet g env w packet).sends
          = method_order g ((method_fragments g packet.payload).map
              (to_call packet.dst_ip)) := by
  rw [process_eligible g env w packet hp (by omega) he]
  rcases inject_cases (count_seen g packet.payload.length) env w packet with
    ⟨-, -, -, hni, hf⟩ | ⟨g2, hg2, hset, hst, hrdy⟩
  · exfalso
    rcases hr with ⟨hi, -⟩ | ⟨-, h1, h2⟩
    · have hni' : g.raw_socket_initialized = false := hni
      rw [hi] at hni'
      cases hni'
    · omega
  · obtain ⟨hi, hfd⟩ := hrdy hr
    have hset' : g2.settings = g.settings := hset
    have hst' : g2.stats = { g.stats with
        packets_total := (g.stats.packets_total + 1) % 2 ^ 64,
        bytes_total := (g.stats.bytes_total + packet.payload.length) % 2 ^ 64 } := hst
    rw [hg2, apply_method_ok g2 w packet hp.1 hn
      (by unfold fragmenting_method; rw [hset']; exact hmeth) hm hi hfd hs,
      method_fragments_congr g g2 hset', method_order_congr g g2 hset']
    refine ⟨rfl, ?_, ?_, rfl⟩
    · show (g2.stats.packets_bypassed + 1) % 2 ^ 64 = _
      rw [hst']
    · show g2.stats.packets_dropped = _
      rw [hst']

theorem split_sizes (g : GBypass) (pkt : List Nat) (hp : headers_ok pkt)
    (hn : 2 ≤ (tcp_payload pkt).length) (h12 : g.settings.method = 1 ∨ g.settings.method = 2) :
    (method_fragments g pkt).map (fun f => (tcp_payload f.1).length)
      = [split_pos g.settings (tcp_payload pkt).length,
          (tcp_payload pkt).length - split_pos g.settings (tcp_payload pkt).length] := by
  unfold method_fragments
  rw [if_pos h12, fragments_of_sizes pkt _ _ (split_final g pkt hp hn)
    (split_cut_ok g.settings _ hn).1]
  rfl

/-- C11: for every valid TCP frame that is eligible (to port 443 with
`desync_https` and a ClientHello, or to port 80 with `desync_http`, hostname
not on the whitelist) and has at least 2 payload bytes, with one of the four
fragmenting methods selected, the raw injector initialised (or initialised on
this call), every `malloc` and every `sendto` succeeding:
`dpi_bypass_process_packet` returns DROP, `packets_bypassed` grows by one
(modulo 2^64, the counter being a `uint64_t`), `packets_dropped` keeps its
value, and the sends are the fragments of the method in its order.  In
particular SPLIT with `first_packet_size` 2 on a payload of 32 bytes makes
exactly two sends, with TCP payloads of 2 and 30 bytes. -/
theorem C11_bypass_drop (g : GBypass) (env : SocketEnv) (w : World) (packet : NfqueuePacket)
    (hp : valid_packet packet.payload) (hn : 2 ≤ (tcp_payload packet.payload).length)
    (he : eligible g packet) (hmeth : fragmenting_method g) (hr : injector_ready g env)
    (hm : ∀ j, w.malloc_ok j = true) (hs : ∀ k, 0 ≤ w.sendto_ret k) :
    (dpi_bypass_process_packet g env w packet).verdict = .NFQUEUE_DROP
      ∧ (dpi_bypass_process_packet g env w packet).g.stats.packets_bypassed
          = (g.stats.packets_bypassed + 1) % 2 ^ 64
      ∧ (g.stats.packets_bypassed + 1 < 2 ^ 64 →
          (dpi_bypass_process_packet g env w packet).g.stats.packets_bypassed
            = g.stats.packets_bypassed + 1)
      ∧ (dpi_bypass_process_packet g env w packet).g.stats.packets_dropped
          = g.stats.packets_dropped
      ∧ (dpi_bypass_process_packet g env w packet).sends
          = method_order g ((method_fragments g packet.payload).map (to_call packet.dst_ip))
      ∧ (g.settings.method = 1 → g.settings.first_packet_size = 2 →
          (tcp_payload packet.payload).length = 32 →
          (dpi_bypass_process_packet g env w packet).sends.length = 2
            ∧ (dpi_bypass_process_packet g env w packet).sends.map
                (fun c => (tcp_payload c.packet).length) = [2, 30]) := by
  obtain ⟨h1, h2, h3, h4⟩ := process_drop g env w packet hp hn he hmeth hr hm hs
  refine ⟨h1, h2, ?_, h3, h4, ?_⟩
  · intro hlt
    rw [h2, Nat.mod_eq_of_lt hlt]
  · intro hm1 hfps h32
    have hord : ∀ calls, method_order g calls = calls := by
      intro calls
      unfold method_order
      rw [if_neg (by omega)]
    have hsz := split_sizes g packet.payload hp.1 hn (Or.inl hm1)
    have hpos : split_pos g.settings (tcp_payload packet.payload).length = 2 := by
      have := (split_pos_spec g.settings _ hn).2.2.1
      rw [hfps, h32] at this
      rw [h32]
      exact this (by decide) (by decide)
    rw [hpos, h32] at hsz
    rw [h4, hord]
    constructor
    · have := congrArg List.length hsz
      simpa using this
    · rw [List.map_map]
      exact hsz

set_option maxRecDepth 100000 in
/-- C11, witness: a frame to port 443 whose payload is a ClientHello stub of
32 bytes, SPLIT with `first_packet_size` 2, every `malloc` and `sendto`
succeeding. -/
theorem C11_bypass_drop_witness :
    valid_packet (sample_frame 72 6 443 sample_hello_stub)
      ∧ (tcp_payload (sample_frame 72 6 443 sample_hello_stub)).length = 32
      ∧ eligible (sample_g 1 2 4 false) (sample_packet (sample_frame 72 6 443 sample_hello_stub))
      ∧ (dpi_bypass_process_packet (sample_g 1 2 4 false) sample_env sample_world
          (sample_packet (sample_frame 72 6 443 sample_hello_stub))).verdict = .NFQUEUE_DROP
      ∧ (dpi_bypass_process_packet (sample_g 1 2 4 false) sample_env sample_world
          (sample_packet (sample_frame 72 6 443 sample_hello_stub))).g.stats.packets_bypassed
          = 0 + 1
      ∧ (dpi_bypass_process_packet (sample_g 1 2 4 false) sample_env sample_world
          (sample_packet (sample_frame 72 6 443 sample_hello_stub))).sends.map
            (fun c => (tcp_payload c.packet).length) = [2, 30] :=
  ⟨by decide, by decide, by decide,
    (C11_bypass_drop (sample_g 1 2 4 false) sample_env sample_world
      (sample_packet (sample_frame 72 6 443 sample_hello_stub)) (by decide) (by decide)
      (by decide) (by decide) (by decide) (fun _ => rfl) (fun _ => le_refl _)).1,
    (C11_bypass_drop (sample_g 1 2 4 false) sample_env sample_world
      (sample_packet (sample_frame 72 6 443 sample_hello_stub)) (by decide) (by decide)
      (by decide) (by decide) (by decide) (fun _ => rfl) (fun _ => le_refl _)).2.2.1
      (by decide),
    ((C11_bypass_drop (sample_g 1 2 4 false) sample_env sample_world
      (sample_packet (sample_frame 72 6 443 sample_hello_stub)) (by decide) (by decide)
      (by decide) (by decide) (by decide) (fun _ => rfl) (fun _ => le_refl _)).2.2.2.2.2
      rfl rfl (by decide)).2⟩

/-- C12: for every valid TCP frame that is eligible and has at least 2
payload bytes, with one of the four fragmenting methods selected:
(a) if the raw injector is not initialised and `socket` or the `IP_HDRINCL`
`setsockopt` fails, (b) if the `malloc` of one of the fragments fails, or
(c) if the injector is ready, the fragments are allocated and the `sendto` of
send number `k` is the first that fails, then
`dpi_bypass_process_packet` returns ACCEPT and leaves `packets_bypassed` and
`packets_dropped` as they are; in (a) and (b) nothing is sent, in (c) the
sends are the first `k + 1` of the method's order, the failing one being the
last. -/
theorem C12_fail_open (g : GBypass) (env : SocketEnv) (w : World) (packet : NfqueuePacket)
    (hp : valid_packet packet.payload) (hn : 2 ≤ (tcp_payload packet.payload).length)
    (he : eligible g packet) (hmeth : fragmenting_method g) :
    (g.raw_socket_initialized = false → (env.socket_ret < 0 ∨ env.hdrincl_ret < 0) →
        (dpi_bypass_process_packet g env w packet).verdict = .NFQUEUE_ACCEPT
          ∧ (dpi_bypass_process_packet g env w packet).sends = []
          ∧ (dpi_bypass_process_packet g env w packet).g.stats.packets_bypassed
              = g.stats.packets_bypassed
          ∧ (dpi_bypass_process_packet g env w packet).g.stats.packets_dropped
              = g.stats.packets_dropped)
      ∧ ((∃ j, j < (method_fragments g packet.payload).length ∧ w.malloc_ok j = false) →
        (dpi_bypass_process_packet g env w packet).verdict = .NFQUEUE_ACCEPT
          ∧ (dpi_bypass_process_packet g env w packet).sends = []
          ∧ (dpi_bypass_process_packet g env w packet).g.stats.packets_bypassed
              = g.stats.packets_bypassed
          ∧ (dpi_bypass_process_packet g env w packet).g.stats.packets_dropped
              = g.stats.packets_dropped)
      ∧ (injector_ready g env → (∀ j, w.malloc_ok j = true) →
        ∀ k, k < (method_fragments g packet.payload).length →
          (∀ i, i < k → 0 ≤ w.sendto_ret i) → w.sendto_ret k < 0 →
          (dpi_bypass_process_packet g env w packet).verdict = .NFQUEUE_ACCEPT
            ∧ (dpi_bypass_process_packet g env w packet).sends
                = (method_order g ((method_fragments g packet.payload).map
                    (to_call packet.dst_ip))).take (k + 1)
            ∧ (dpi_bypass_process_packet g env w packet).sends.length = k + 1
            ∧ (dpi_bypass_process_packet g env w packet).g.stats.packets_bypassed
                = g.stats.packets_bypassed
            ∧ (dpi_bypass_process_packet g env w packet).g.stats.packets_dropped
                = g.stats.packets_dropped) := by
  rw [process_eligible g env w packet hp (by omega) he]
  have hcases := inject_cases (count_seen g packet.payload.length) env w packet
  refine ⟨?_, ?_, ?_⟩
  · intro hni hf
    rcases hcases with ⟨a, b, c, -, -⟩ | ⟨g2, -, -, -, -⟩
    · refine ⟨a, b, ?_, ?_⟩
      · rw [c]; rfl
      · rw [c]; rfl
    · unfold inject_fragments
      have hni' : (count_seen g packet.payload.length).raw_socket_initialized = false := hni
      have hd : dpi_raw_socket_init (count_seen g packet.payload.length) env
          = if env.socket_ret < 0 then
              (-1, { count_seen g packet.payload.length with raw_socket := env.socket_ret })
            else (-1, { count_seen g packet.payload.length with raw_socket := -1 }) := by
        unfold dpi_raw_socket_init
        rw [if_neg (by rw [hni']; simp)]
        by_cases h1 : env.socket_ret < 0
        · rw [if_pos h1, if_pos h1]
        · rw [if_neg h1, if_neg h1, if_pos (by omega)]
      rw [if_pos hni']
      simp only
      rw [hd]
      by_cases h1 : env.socket_ret < 0
      · rw [if_pos h1, if_pos (show ((-1 : Int) < 0) by decide)]
        exact ⟨rfl, rfl, rfl, rfl⟩
      · rw [if_neg h1, if_pos (show ((-1 : Int) < 0) by decide)]
        exact ⟨rfl, rfl, rfl, rfl⟩
  · rintro ⟨j, hj, hmj⟩
    rcases hcases with ⟨a, b, c, -, -⟩ | ⟨g2, hg2, hset, hst, -⟩
    · refine ⟨a, b, ?_, ?_⟩
      · rw [c]; rfl
      · rw [c]; rfl
    · have hset' : g2.settings = g.settings := hset
      rw [hg2, apply_method_malloc_fail g2 w packet hp.1 hn
        (by unfold fragmenting_method; rw [hset']; exact hmeth) j
        (by rw [method_fragments_congr g g2 hset']; exact hj) hmj]
      refine ⟨rfl, rfl, ?_, ?_⟩
      · show g2.stats.packets_bypassed = _
        rw [hst]; rfl
      · show g2.stats.packets_dropped = _
        rw [hst]; rfl
  · intro hr hm k hk hok hbad
    rcases hcases with ⟨-, -, -, hni, hf⟩ | ⟨g2, hg2, hset, hst, hrdy⟩
    · exfalso
      rcases hr with ⟨hi, -⟩ | ⟨-, h1, h2⟩
      · have hni' : g.raw_socket_initialized = false := hni
        rw [hi] at hni'
        cases hni'
      · omega
    · obtain ⟨hi, hfd⟩ := hrdy hr
      have hset' : g2.settings = g.settings := hset
      rw [hg2, apply_method_send_fail g2 w packet hp.1 hn
        (by unfold fragmenting_method; rw [hset']; exact hmeth) hm hi hfd k
        (by rw [method_fragments_congr g g2 hset']; exact hk) hok hbad,
        method_fragments_congr g g2 hset', method_order_congr g g2 hset']
      refine ⟨rfl, rfl, ?_, ?_, ?_⟩
      · simp only
        rw [List.length_take, method_order_length, List.length_map]
        omega
      · show g2.stats.packets_bypassed = _
        rw [hst]; rfl
      · show g2.stats.packets_dropped = _
        rw [hst]; rfl

set_option maxRecDepth 100000 in
/-- C12, witness: the ClientHello stub under SPLIT when the second `sendto`
fails: ACCEPT after two sends, `packets_bypassed` still 0. -/
theorem C12_fail_open_witness :
    valid_packet (sample_frame 72 6 443 sample_hello_stub)
      ∧ eligible (sample_g 1 2 4 false) (sample_packet (sample_frame 72 6 443 sample_hello_stub))
      ∧ (dpi_bypass_process_packet (sample_g 1 2 4 false) sample_env sample_world_fail
          (sample_packet (sample_frame 72 6 443 sample_hello_stub))).verdict = .NFQUEUE_ACCEPT
      ∧ (dpi_bypass_process_packet (sample_g 1 2 4 false) sample_env sample_world_fail
          (sample_packet (sample_frame 72 6 443 sample_hello_stub))).sends.length = 1 + 1
      ∧ (dpi_bypass_process_packet (sample_g 1 2 4 false) sample_env sample_world_fail
          (sample_packet (sample_frame 72 6 443 sample_hello_stub))).g.stats.packets_bypassed
          = 0 :=
  ⟨by decide, by decide,
    ((C12_fail_open (sample_g 1 2 4 false) sample_env sample_world_fail
      (sample_packet (sample_frame 72 6 443 sample_hello_stub)) (by decide) (by decide)
      (by decide) (by decide)).2.2 (by decide) (fun _ => rfl) 1 (by decide)
      (fun i hi => by interval_cases i; decide) (by decide)).1,
    ((C12_fail_open (sample_g 1 2 4 false) sample_env sample_world_fail
      (sample_packet (sample_frame 72 6 443 sample_hello_stub)) (by decide) (by decide)
      (by decide) (by decide)).2.2 (by decide) (fun _ => rfl) 1 (by decide)
      (fun i hi => by interval_cases i; decide) (by decide)).2.2.1,
    ((C12_fail_open (sample_g 1 2 4 false) sample_env sample_world_fail
      (sample_packet (sample_frame 72 6 443 sample_hello_stub)) (by decide) (by decide)
      (by decide) (by decide)).2.2 (by decide) (fun _ => rfl) 1 (by decide)
      (fun i hi => by interval_cases i; decide) (by decide)).2.2.2.1⟩

/-! ## The total length of the IP header (claim C17) -/

theorem store16_store16 (m : List Nat) (o v x : Nat) :
    store16 (store16 m o v) o x = store16 m o x := by
  unfold store16
  rw [List.set_comm (v / 256 % 256) (x % 256) (m.set o (v % 256)) (by omega : o + 1 ≠ o),
    List.set_set, List.set_set]

theorem store16_append_left (a b : List Nat) (o v : Nat) (h : o + 2 ≤ a.length) :
    store16 (a ++ b) o v = store16 a o v ++ b := by
  unfold store16
  rw [List.set_append_left _ _ (by omega), List.set_append_left _ _ (by simp; omega)]

theorem create_congr (b : Bool) (p : List Nat) (len : Nat) (data : List Nat) (dl off v : Nat)
    (h1 : 4 ≤ ip_ihl p * 4) (hl : 4 ≤ p.length) :
    create_tcp_fragment b (store16 p 2 v) len data dl off
      = create_tcp_fragment b p len data dl off := by
  have e_ihl : ip_ihl (store16 p 2 v) = ip_ihl p := by
    unfold ip_ihl
    rw [load8_store16_ne _ _ _ _ (by omega) (by omega)]
  have e_doff : ∀ t, tcp_doff (store16 p 2 v) t = tcp_doff p t := by
    intro t
    unfold tcp_doff
    rw [load8_store16_ne _ _ _ _ (by omega) (by omega)]
  have e_l32 : load32 (store16 p 2 v) (ip_ihl p * 4 + 4) = load32 p (ip_ihl p * 4 + 4) :=
    load32_congr _ _ _ (fun i hi _ => load8_store16_ne _ _ _ _ (by omega) (by omega))
  have e_l16 : load16 (store16 p 2 v) 4 = load16 p 4 :=
    load16_congr _ _ _ (load8_store16_ne _ _ _ _ (by omega) (by omega))
      (load8_store16_ne _ _ _ _ (by omega) (by omega))
  have e_drop : (store16 p 2 v).drop (ip_ihl p * 4) = p.drop (ip_ihl p * 4) :=
    store16_drop_ge _ _ _ _ (by omega)
  have key : ∀ (X Y : List Nat) (Z : Nat),
      store16 ((store16 p 2 v).take (ip_ihl p * 4) ++ X ++ Y) 2 Z
        = store16 (p.take (ip_ihl p * 4) ++ X ++ Y) 2 Z := by
    intro X Y Z
    have hlen : 2 + 2 ≤ (p.take (ip_ihl p * 4)).length := by
      rw [List.length_take]; omega
    rw [store16_take, List.append_assoc, List.append_assoc,
      store16_append_left _ _ _ _ (by rw [length_store16]; exact hlen), store16_store16,
      store16_append_left _ _ _ _ hlen]
  unfold create_tcp_fragment
  simp only [e_ihl, e_doff, e_l32, e_l16, e_drop, key]

theorem split_congr (g : GBypass) (w : World) (p : List Nat) (len dst v : Nat) (reverse : Bool)
    (h1 : 4 ≤ ip_ihl p * 4) (hl : 4 ≤ p.length) :
    apply_split_with_injection g w (store16 p 2 v) len dst reverse
      = apply_split_with_injection g w p len dst reverse := by
  have e_ihl : ip_ihl (store16 p 2 v) = ip_ihl p := by
    unfold ip_ihl
    rw [load8_store16_ne _ _ _ _ (by omega) (by omega)]
  have e_doff : ∀ t, tcp_doff (store16 p 2 v) t = tcp_doff p t := by
    intro t
    unfold tcp_doff
    rw [load8_store16_ne _ _ _ _ (by omega) (by omega)]
  have e_drop : (store16 p 2 v).drop (ip_ihl p * 4 + tcp_doff p (ip_ihl p * 4) * 4)
      = p.drop (ip_ihl p * 4 + tcp_doff p (ip_ihl p * 4) * 4) :=
    store16_drop_ge _ _ _ _ (by omega)
  have hc := fun b len data dl off => create_congr b p len data dl off v h1 hl
  have hcreate : split_create g w (store16 p 2 v) len = split_create g w p len := by
    unfold split_create
    simp only [e_ihl, e_doff, e_drop, hc]
  unfold apply_split_with_injection split_build
  rw [hcreate]

theorem disorder_loop_congr (w : World) (p : List Nat) (len : Nat) (data : List Nat)
    (n count cs v : Nat) (h1 : 4 ≤ ip_ihl p * 4) (hl : 4 ≤ p.length) :
    ∀ rem i offset (arr : FragArray) k,
      disorder_create_loop w (store16 p 2 v) len data n count cs rem i offset arr k
        = disorder_create_loop w p len data n count cs rem i offset arr k := by
  have hc := fun b len data dl off => create_congr b p len data dl off v h1 hl
  intro rem
  induction rem with
  | zero => intro i offset arr k; rfl
  | succ m ih =>
    intro i offset arr k
    unfold disorder_create_loop
    simp only [hc, ih]

theorem disorder_congr (g : GBypass) (w : World) (p : List Nat) (len dst v : Nat)
    (reverse : Bool) (h1 : 4 ≤ ip_ihl p * 4) (hl : 4 ≤ p.length) :
    apply_disorder_with_injection g w (store16 p 2 v) len dst reverse
      = apply_disorder_with_injection g w p len dst reverse := by
  have e_ihl : ip_ihl (store16 p 2 v) = ip_ihl p := by
    unfold ip_ihl
    rw [load8_store16_ne _ _ _ _ (by omega) (by omega)]
  have e_doff : ∀ t, tcp_doff (store16 p 2 v) t = tcp_doff p t := by
    intro t
    unfold tcp_doff
    rw [load8_store16_ne _ _ _ _ (by omega) (by omega)]
  have e_drop : (store16 p 2 v).drop (ip_ihl p * 4 + tcp_doff p (ip_ihl p * 4) * 4)
      = p.drop (ip_ihl p * 4 + tcp_doff p (ip_ihl p * 4) * 4) :=
    store16_drop_ge _ _ _ _ (by omega)
  have hcreate : disorder_create g w (store16 p 2 v) len = disorder_create g w p len := by
    unfold disorder_create
    simp only [e_ihl, e_doff, e_drop, disorder_loop_congr w p len _ _ _ _ v h1 hl]
  unfold apply_disorder_with_injection disorder_build
  rw [hcreate]

theorem apply_method_congr (g : GBypass) (w : World) (packet : NfqueuePacket) (v : Nat)
    (h1 : 4 ≤ ip_ihl packet.payload * 4) (hl : 4 ≤ packet.payload.length) :
    apply_method g w (set_tot_len packet v) = apply_method g w packet := by
  have hs := fun len dst reverse => split_congr g w packet.payload len dst v reverse h1 hl
  have hd := fun len dst reverse => disorder_congr g w packet.payload len dst v reverse h1 hl
  unfold apply_method
  simp only [set_tot_len, length_store16, hs, hd]

theorem inject_congr (g : GBypass) (env : SocketEnv) (w : World) (packet : NfqueuePacket)
    (v : Nat) (h1 : 4 ≤ ip_ihl packet.payload * 4) (hl : 4 ≤ packet.payload.length) :
    inject_fragments g env w (set_tot_len packet v) = inject_fragments g env w packet := by
  unfold inject_fragments
  simp only [apply_method_congr _ w packet v h1 hl]

theorem extract_hostname_congr (packet : NfqueuePacket) (v : Nat)
    (h1 : 4 ≤ ip_ihl packet.payload * 4) (hl : 4 ≤ packet.payload.length) :
    extract_hostname (set_tot_len packet v) = extract_hostname packet := by
  have hmem : store16 packet.payload 2 v ++ packet.after
      = store16 (packet.payload ++ packet.after) 2 v :=
    (store16_append_left _ _ _ _ (by omega)).symm
  have e_ihl : ip_ihl (store16 packet.payload 2 v) = ip_ihl packet.payload := by
    unfold ip_ihl
    rw [load8_store16_ne _ _ _ _ (by omega) (by omega)]
  have e_doff : ∀ t, tcp_doff (store16 (packet.payload ++ packet.after) 2 v) t
      = tcp_doff (packet.payload ++ packet.after) t := by
    intro t
    unfold tcp_doff
    rw [load8_store16_ne _ _ _ _ (by omega) (by omega)]
  have e_drop : (store16 (packet.payload ++ packet.after) 2 v).drop
        (ip_ihl packet.payload * 4
          + tcp_doff (packet.payload ++ packet.after) (ip_ihl packet.payload * 4) * 4)
      = (packet.payload ++ packet.after).drop
        (ip_ihl packet.payload * 4
          + tcp_doff (packet.payload ++ packet.after) (ip_ihl packet.payload * 4) * 4) :=
    store16_drop_ge _ _ _ _ (by omega)
  unfold extract_hostname
  simp only [set_tot_len, hmem, e_ihl, e_doff, length_store16, e_drop]

theorem should_bypass_congr (g : GBypass) (packet : NfqueuePacket) (v : Nat)
    (h1 : 4 ≤ ip_ihl packet.payload * 4) (hl : 4 ≤ packet.payload.length) :
    should_bypass g (set_tot_len packet v) = should_bypass g packet := by
  unfold should_bypass
  rw [extract_hostname_congr packet v h1 hl]
  rfl

theorem process_congr (g : GBypass) (env : SocketEnv) (w : World) (packet : NfqueuePacket)
    (v : Nat) :
    dpi_bypass_process_packet g env w (set_tot_len packet v)
      = dpi_bypass_process_packet g env w packet := by
  have e_len : (set_tot_len packet v).payload.length = packet.payload.length :=
    length_store16 _ _ _
  by_cases h40 : packet.payload.length < 40
  · unfold dpi_bypass_process_packet
    rw [e_len, if_pos h40, if_pos h40]
  · have hl : 4 ≤ packet.payload.length := by omega
    have e_ihl : ip_ihl (set_tot_len packet v).payload = ip_ihl packet.payload := by
      unfold ip_ihl set_tot_len
      rw [load8_store16_ne _ _ _ _ (by omega) (by omega)]
    have e_ver : ip_version (set_tot_len packet v).payload = ip_version packet.payload := by
      unfold ip_version set_tot_len
      rw [load8_store16_ne _ _ _ _ (by omega) (by omega)]
    have e_proto : ip_protocol (set_tot_len packet v).payload = ip_protocol packet.payload := by
      unfold ip_protocol set_tot_len
      rw [load8_store16_ne _ _ _ _ (by omega) (by omega)]
    have e_doff : ∀ t, tcp_doff ((set_tot_len packet v).payload ++ (set_tot_len packet v).after) t
        = tcp_doff (packet.payload ++ packet.after) t := by
      intro t
      have hmem : (set_tot_len packet v).payload ++ (set_tot_len packet v).after
          = store16 (packet.payload ++ packet.after) 2 v :=
        (store16_append_left _ _ _ _ (by omega)).symm
      rw [hmem]
      unfold tcp_doff
      rw [load8_store16_ne _ _ _ _ (by omega) (by omega)]
    have e_port : (set_tot_len packet v).dst_port = packet.dst_port := rfl
    unfold dpi_bypass_process_packet
    simp only [e_len, e_ihl, e_ver, e_proto, e_doff, e_port]
    by_cases hg : 20 ≤ ip_ihl packet.payload * 4
    · simp only [should_bypass_count_seen, should_bypass_congr g packet v (by omega) hl,
        inject_congr _ env w packet v (by omega) hl]
    · rw [if_neg h40, if_neg h40]
      split_ifs <;> first
        | rfl
        | (exfalso; omega)

/-- C17, counterexample: the frame of 72 bytes with the ClientHello stub and
65535 in its total length field is not rejected: it gets DROP and its two
fragments are sent. -/
theorem C17_counterexample :
    (sample_frame 65535 6 443 sample_hello_stub).length = 72
      ∧ ip_tot_len (sample_frame 65535 6 443 sample_hello_stub) = 65535
      ∧ (dpi_bypass_process_packet (sample_g 1 2 4 false) sample_env sample_world
          (sample_packet (sample_frame 65535 6 443 sample_hello_stub))).verdict = .NFQUEUE_DROP
      ∧ (dpi_bypass_process_packet (sample_g 1 2 4 false) sample_env sample_world
          (sample_packet (sample_frame 65535 6 443 sample_hello_stub))).sends.length = 2 := by
  have h := process_drop (sample_g 1 2 4 false) sample_env sample_world
    (sample_packet (sample_frame 65535 6 443 sample_hello_stub)) (by decide) (by decide)
    (by decide) (by decide) (by decide) (fun _ => rfl) (fun _ => le_refl _)
  refine ⟨by decide, by decide, h.1, ?_⟩
  rw [h.2.2.2, method_order_length, List.length_map, method_fragments_length _ _ (by decide)]
  rfl

/-- C17, amended: `dpi_bypass_process_packet` does not look at the total
length field.  For every packet with a frame of at least 4 bytes and every
16-bit value `t`, the packet whose total length field is set to `t` (so any
value beyond the bytes delivered) gets the same verdict, the same sends and
the same state as the packet itself. -/
theorem C17_total_length_unchecked (g : GBypass) (env : SocketEnv) (w : World)
    (packet : NfqueuePacket) (t : Nat) (ht : t < 65536) (h4 : 4 ≤ packet.payload.length) :
    ip_tot_len (set_tot_len packet (htons t)).payload = t
      ∧ (set_tot_len packet (htons t)).payload.length = packet.payload.length
      ∧ dpi_bypass_process_packet g env w (set_tot_len packet (htons t))
          = dpi_bypass_process_packet g env w packet := by
  refine ⟨?_, length_store16 _ _ _, process_congr g env w packet _⟩
  unfold ip_tot_len set_tot_len
  rw [load16_store16 _ _ _ (by omega)]
  exact ntohs_htons t ht

/-- C17, witness: the frame with the ClientHello stub, its total length
field set to 65535. -/
theorem C17_total_length_unchecked_witness :
    ip_tot_len (set_tot_len (sample_packet (sample_frame 72 6 443 sample_hello_stub))
        (htons 65535)).payload = 65535
      ∧ dpi_bypass_process_packet (sample_g 1 2 4 false) sample_env sample_world
          (set_tot_len (sample_packet (sample_frame 72 6 443 sample_hello_stub)) (htons 65535))
        = dpi_bypass_process_packet (sample_g 1 2 4 false) sample_env sample_world
          (sample_packet (sample_frame 72 6 443 sample_hello_stub)) :=
  ⟨(C17_total_length_unchecked (sample_g 1 2 4 false) sample_env sample_world
      (sample_packet (sample_frame 72 6 443 sample_hello_stub)) 65535 (by decide)
      (by decide)).1,
    (C17_total_length_unchecked (sample_g 1 2 4 false) sample_env sample_world
      (sample_packet (sample_frame 72 6 443 sample_hello_stub)) 65535 (by decide)
      (by decide)).2.2⟩

/-! ## The ClientHello test (claim C22) -/

/-- C22: for every non-`NULL` buffer and every `len` not beyond it,
`dpi_is_tls_client_hello` returns true exactly when `len ≥ 6`, byte 0 is 0x16
and byte 5 is 0x01; for a `NULL` pointer it returns false. -/
theorem C22_client_hello_iff (data : List Nat) (len : Nat) (hlen : len ≤ data.length) :
    (is_tls_client_hello_ptr (some data) len = true
        ↔ 6 ≤ len ∧ data[0]? = some 22 ∧ data[5]? = some 1)
      ∧ is_tls_client_hello_ptr none len = false := by
  refine ⟨?_, rfl⟩
  unfold is_tls_client_hello_ptr dpi_is_tls_client_hello
  simp only
  by_cases h : len < 6
  · rw [if_pos h]
    constructor
    · intro hc; cases hc
    · intro hc; omega
  · rw [if_neg h, load8_eq data 0 (by omega), load8_eq data 5 (by omega),
      List.getElem?_eq_getElem (by omega : 0 < data.length),
      List.getElem?_eq_getElem (by omega : 5 < data.length)]
    simp only [decide_eq_true_eq, Option.some.injEq]
    constructor
    · intro hc; exact ⟨by omega, hc⟩
    · intro hc; exact hc.2

/-- C22, witness: the ClientHello stub of 32 bytes. -/
theorem C22_client_hello_iff_witness :
    (is_tls_client_hello_ptr (some sample_hello_stub) 32 = true
        ↔ 6 ≤ 32 ∧ sample_hello_stub[0]? = some 22 ∧ sample_hello_stub[5]? = some 1)
      ∧ is_tls_client_hello_ptr none 32 = false :=
  C22_client_hello_iff sample_hello_stub 32 (by decide)

/-! ## The whitelist test (claim C24) -/

theorem contains_of_strcasestr (needle : List Nat) :
    ∀ (hay : List Nat), (strcasestr hay needle).isSome = true → contains_nocase hay needle := by
  intro hay
  induction hay with
  | nil =>
    intro h
    unfold strcasestr at h
    by_cases hn : needle.isEmpty = true
    · have : needle = [] := List.isEmpty_iff.mp hn
      rw [this]
      exact ⟨[], [], rfl⟩
    · rw [if_neg hn] at h
      cases h
  | cons a t ih =>
    intro h
    unfold strcasestr at h
    by_cases hp : (needle.map ascii_lower).isPrefixOf ((a :: t).map ascii_lower) = true
    · rw [List.isPrefixOf_iff_prefix] at hp
      obtain ⟨post, hpost⟩ := hp
      exact ⟨[], post, by rw [List.nil_append]; exact hpost.symm⟩
    · rw [if_neg hp, Option.isSome_map'] at h
      obtain ⟨pre, post, hpp⟩ := ih h
      exact ⟨ascii_lower a :: pre, post, by rw [List.map_cons, hpp]; rfl⟩

theorem cstr_nil_of_zero (h : List Nat) (h0 : load8 h 0 = 0) : cstr h = [] := by
  cases h with
  | nil => rfl
  | cons b t =>
    have hb : b = 0 := h0
    rw [hb]
    rfl

/-- C24: for every state of the whitelist and every hostname buffer,
`dpi_is_whitelisted` is true exactly when the hostname is not empty and one of
the rows `whitelist[0 .. whitelist_count)` occurs in it as a contiguous
substring, ASCII letter case ignored; after `dpi_whitelist_clear` it is false
for every hostname. -/
theorem C24_whitelisted_iff (g : GBypass) (hostname : List Nat) :
    (dpi_is_whitelisted g hostname = true
        ↔ cstr hostname ≠ []
          ∧ ∃ entry, entry ∈ g.whitelist.take g.whitelist_count
              ∧ contains_nocase (cstr hostname) (cstr entry))
      ∧ dpi_is_whitelisted (dpi_whitelist_clear g) hostname = false := by
  constructor
  · constructor
    · intro h
      unfold dpi_is_whitelisted at h
      by_cases h0 : load8 hostname 0 = 0
      · rw [if_pos h0] at h
        cases h
      · rw [if_neg h0, List.any_eq_true] at h
        obtain ⟨e, he, hs⟩ := h
        refine ⟨?_, e, he, contains_of_strcasestr _ _ hs⟩
        intro hc
        cases hostname with
        | nil => exact h0 rfl
        | cons b t =>
          have hb : b ≠ 0 := h0
          unfold cstr at hc
          rw [List.takeWhile_cons, if_pos (by simpa using hb)] at hc
          cases hc
    · rintro ⟨hne, e, he, hs⟩
      exact whitelisted_of_contains g hostname e hne he hs
  · unfold dpi_is_whitelisted dpi_whitelist_clear
    split
    · rfl
    · simp

/-- C24, an instance: with the one row `github.com`, the hostname
`API.GitHub.com` is on the whitelist and `example.com` is not. -/
theorem C24_whitelisted_iff_witness :
    dpi_is_whitelisted sample_g_whitelist [65, 80, 73, 46, 71, 105, 116, 72, 117, 98, 46, 99, 111,
        109, 0] = true
      ∧ dpi_is_whitelisted sample_g_whitelist [101, 120, 97, 109, 112, 108, 101, 46, 99, 111, 109,
          0] = false
      ∧ dpi_is_whitelisted (dpi_whitelist_clear sample_g_whitelist)
          [65, 80, 73, 46, 71, 105, 116, 72, 117, 98, 46, 99, 111, 109, 0] = false :=
  ⟨(C24_whitelisted_iff sample_g_whitelist _).1.mpr
      ⟨by decide, sample_entry, by decide, ⟨[97, 112, 105, 46], [], by decide⟩⟩,
    by decide,
    (C24_whitelisted_iff sample_g_whitelist _).2⟩

/-! ## What `mix_hostname_case` changes (claim C26) -/

theorem isPrefixOf_iff_occurs (d needle : List Nat) :
    needle.isPrefixOf d = true ↔ occurs_at d needle 0 := by
  unfold occurs_at
  rw [List.isPrefixOf_iff_prefix, List.prefix_iff_eq_take, List.drop_zero]
  exact eq_comm

theorem occurs_at_succ (a : Nat) (t needle : List Nat) (j : Nat) :
    occurs_at (a :: t) needle (j + 1) ↔ occurs_at t needle j := by
  unfold occurs_at
  rw [List.drop_succ_cons]

theorem occurs_at_bound (d needle : List Nat) (i : Nat) (h : occurs_at d needle i) :
    i + needle.length ≤ d.length ∨ needle = [] := by
  unfold occurs_at at h
  have hl := congrArg List.length h
  rw [List.length_take, List.length_drop] at hl
  by_cases hn : needle.length = 0
  · right; exact List.length_eq_zero.mp hn
  · left; omega

theorem memmem_of_first (needle : List Nat) (hn : needle ≠ []) :
    ∀ (d : List Nat) (h : Nat), first_at d needle h → memmem d needle = some h := by
  intro d
  induction d with
  | nil =>
    intro h hf
    rcases occurs_at_bound [] needle h hf.1 with hb | hb
    · have : needle.length = 0 := by
        simp only [List.length_nil] at hb
        omega
      exact absurd (List.length_eq_zero.mp this) hn
    · exact absurd hb hn
  | cons a t ih =>
    intro h hf
    unfold memmem
    cases h with
    | zero => rw [if_pos ((isPrefixOf_iff_occurs _ _).mpr hf.1)]
    | succ k =>
      have h0 : ¬ needle.isPrefixOf (a :: t) = true :=
        fun hc => hf.2 0 (by omega) ((isPrefixOf_iff_occurs _ _).mp hc)
      have hk : first_at t needle k :=
        ⟨(occurs_at_succ a t needle k).mp hf.1,
          fun j hj hc => hf.2 (j + 1) (by omega) ((occurs_at_succ a t needle j).mpr hc)⟩
      rw [if_neg h0, ih k hk]
      rfl

theorem memmem_none (needle : List Nat) (hn : needle ≠ []) :
    ∀ (d : List Nat), (∀ j, j < d.length → ¬ occurs_at d needle j) → memmem d needle = none := by
  intro d
  induction d with
  | nil =>
    intro _
    unfold memmem
    rw [if_neg (by simpa using hn)]
  | cons a t ih =>
    intro h
    unfold memmem
    have h0 : ¬ needle.isPrefixOf (a :: t) = true :=
      fun hc => h 0 (by simp) ((isPrefixOf_iff_occurs _ _).mp hc)
    rw [if_neg h0, ih (fun j hj hc => h (j + 1) (by simp; omega)
      ((occurs_at_succ a t needle j).mpr hc))]
    rfl

theorem skip_spaces_spec (d : List Nat) :
    ∀ rem p, p ≤ skip_spaces d rem p ∧ skip_spaces d rem p ≤ p + rem
      ∧ (∀ j, p ≤ j → j < skip_spaces d rem p → load8 d j = 32)
      ∧ (skip_spaces d rem p < p + rem → load8 d (skip_spaces d rem p) ≠ 32) := by
  intro rem
  induction rem with
  | zero =>
    intro p
    unfold skip_spaces
    exact ⟨le_refl _, le_refl _, fun j h1 h2 => by omega, fun h => by omega⟩
  | succ r ih =>
    intro p
    unfold skip_spaces
    by_cases hc : load8 d p = 32
    · rw [if_pos hc]
      obtain ⟨a1, a2, a3, a4⟩ := ih (p + 1)
      refine ⟨by omega, by omega, ?_, fun h => a4 (by omega)⟩
      intro j h1 h2
      by_cases hj : j = p
      · rw [hj]; exact hc
      · exact a3 j (by omega) h2
    · rw [if_neg hc]
      exact ⟨le_refl _, by omega, fun j h1 h2 => by omega, fun _ => hc⟩

theorem load8_set (l : List Nat) (i v j : Nat) :
    load8 (l.set i v) j = if i = j ∧ i < l.length then v else load8 l j := by
  by_cases h : i = j
  · subst h
    by_cases hl : i < l.length
    · rw [if_pos ⟨rfl, hl⟩, load8_set_eq l i v hl]
    · rw [if_neg (fun hc => hl hc.2), List.set_eq_of_length_le (by omega)]
  · rw [if_neg (fun hc => h hc.1), load8_set_ne l i v j h]

theorem load8_zero_of_ge (l : List Nat) (i : Nat) (h : l.length ≤ i) : load8 l i = 0 := by
  unfold load8
  rw [List.getD_eq_getElem?_getD, List.getElem?_eq_none_iff.mpr h]
  rfl

theorem mix_loop_spec (host : Nat) :
    ∀ rem i (data : List Nat), ∃ e, host + i ≤ e ∧ e ≤ host + i + rem
      ∧ (∀ j, host + i ≤ j → j < e → load8 data j ≠ 13 ∧ load8 data j ≠ 10)
      ∧ (e < host + i + rem → load8 data e = 13 ∨ load8 data e = 10)
      ∧ ∀ p, load8 (mix_loop host rem i data) p
          = if host + i ≤ p ∧ p < e then alt_case (p - host) (load8 data p) else load8 data p := by
  intro rem
  induction rem with
  | zero =>
    intro i data
    refine ⟨host + i, le_refl _, le_refl _, fun j h1 h2 => by omega, fun h => by omega, ?_⟩
    intro p
    unfold mix_loop
    rw [if_neg (by omega)]
  | succ r ih =>
    intro i data
    unfold mix_loop
    simp only
    by_cases hc : load8 data (host + i) ≠ 13 ∧ load8 data (host + i) ≠ 10
    · rw [if_pos hc]
      -- the buffer after the step at `host + i`
      have hstep : ∀ q, load8 (if i % 2 = 0 ∧ 97 ≤ load8 data (host + i)
            ∧ load8 data (host + i) ≤ 122 then
              data.set (host + i) (load8 data (host + i) - 32)
            else if i % 2 = 1 ∧ 65 ≤ load8 data (host + i) ∧ load8 data (host + i) ≤ 90 then
              data.set (host + i) (load8 data (host + i) + 32)
            else data) q
          = if q = host + i then alt_case i (load8 data (host + i)) else load8 data q := by
        intro q
        have hin : ¬ load8 data (host + i) = 0 → host + i < data.length := by
          intro h0
          by_contra hge
          exact h0 (load8_zero_of_ge data _ (by omega))
        unfold alt_case
        by_cases c1 : i % 2 = 0 ∧ 97 ≤ load8 data (host + i) ∧ load8 data (host + i) ≤ 122
        · rw [if_pos c1, if_pos c1, load8_set]
          by_cases hq : q = host + i
          · rw [if_pos ⟨hq.symm, hin (by omega)⟩, if_pos hq]
          · rw [if_neg (fun h => hq h.1.symm), if_neg hq]
        · rw [if_neg c1, if_neg c1]
          by_cases c2 : i % 2 = 1 ∧ 65 ≤ load8 data (host + i) ∧ load8 data (host + i) ≤ 90
          · rw [if_pos c2, if_pos c2, load8_set]
            by_cases hq : q = host + i
            · rw [if_pos ⟨hq.symm, hin (by omega)⟩, if_pos hq]
            · rw [if_neg (fun h => hq h.1.symm), if_neg hq]
          · rw [if_neg c2, if_neg c2]
            by_cases hq : q = host + i
            · rw [if_pos hq, hq]
            · rw [if_neg hq]
      obtain ⟨e, e1, e2, e3, e4, e5⟩ := ih (i + 1) (if i % 2 = 0 ∧ 97 ≤ load8 data (host + i)
            ∧ load8 data (host + i) ≤ 122 then
              data.set (host + i) (load8 data (host + i) - 32)
            else if i % 2 = 1 ∧ 65 ≤ load8 data (host + i) ∧ load8 data (host + i) ≤ 90 then
              data.set (host + i) (load8 data (host + i) + 32)
            else data)
      refine ⟨e, by omega, by omega, ?_, ?_, ?_⟩
      · intro j h1 h2
        by_cases hj : j = host + i
        · rw [hj]; exact hc
        · have := e3 j (by omega) h2
          rw [hstep j, if_neg hj] at this
          exact this
      · intro h
        have := e4 (by omega)
        rw [hstep e, if_neg (by omega)] at this
        exact this
      · intro p
        rw [e5 p, hstep p]
        by_cases hp : p = host + i
        · rw [if_neg (by omega), if_pos hp, if_pos (by omega), hp, Nat.add_sub_cancel_left]
        · rw [if_neg hp]
          by_cases hr : host + (i + 1) ≤ p ∧ p < e
          · rw [if_pos hr, if_pos (by omega)]
          · rw [if_neg hr, if_neg (by omega)]
    · rw [if_neg hc]
      refine ⟨host + i, le_refl _, by omega, fun j h1 h2 => by omega, fun _ => by omega, ?_⟩
      intro p
      rw [if_neg (by omega)]

theorem mix_hostname_case_anchor (d : List Nat) (h : Nat) (ha : host_anchor d h) :
    h + 5 ≤ d.length
      ∧ mix_hostname_case d d.length
          = mix_loop (skip_spaces d (d.length - (h + 5)) (h + 5))
              (d.length - skip_spaces d (d.length - (h + 5)) (h + 5)) 0 d := by
  have hu : host_upper ≠ [] := by decide
  have hl : host_lower ≠ [] := by decide
  unfold mix_hostname_case
  rw [List.take_length]
  rcases ha with hf | ⟨hno, hf⟩
  · constructor
    · rcases occurs_at_bound d host_upper h hf.1 with hb | hb
      · exact hb
      · exact absurd hb hu
    · rw [memmem_of_first host_upper hu d h hf]
  · constructor
    · rcases occurs_at_bound d host_lower h hf.1 with hb | hb
      · exact hb
      · exact absurd hb hl
    · rw [memmem_none host_upper hu d hno, memmem_of_first host_lower hl d h hf]

/-- C26: for every byte string `d`, `mix_hostname_case(d, |d|)` has the length
of `d` and equals `d` byte by byte up to ASCII letter case; when `d` holds
neither `Host:` nor `host:` it equals `d`; and when `h` is the position of the
first `Host:` (or, there being none, of the first `host:`), there are a start
`s` and an end `e` of the header value, `s` behind the name and the spaces
that follow it, `e` at the next CR or LF (or at the end of `d`), such that
every byte outside `[s, e)` is unchanged, the bytes of the header name among
them, and the byte at `s + k` inside is the old byte in alternating case. -/
theorem C26_mix_frame (d : List Nat) :
    (mix_hostname_case d d.length).length = d.length
      ∧ (mix_hostname_case d d.length).map ascii_lower = d.map ascii_lower
      ∧ ((∀ j, j < d.length → ¬ occurs_at d host_upper j ∧ ¬ occurs_at d host_lower j) →
          mix_hostname_case d d.length = d)
      ∧ ∀ h, host_anchor d h →
          ∃ s e, h + 5 ≤ s ∧ s ≤ e ∧ e ≤ d.length
            ∧ (∀ j, h + 5 ≤ j → j < s → load8 d j = 32)
            ∧ (s < d.length → load8 d s ≠ 32)
            ∧ (∀ j, s ≤ j → j < e → load8 d j ≠ 13 ∧ load8 d j ≠ 10)
            ∧ (e < d.length → load8 d e = 13 ∨ load8 d e = 10)
            ∧ (∀ i, i < s ∨ e ≤ i → load8 (mix_hostname_case d d.length) i = load8 d i)
            ∧ (∀ k, s + k < e →
                load8 (mix_hostname_case d d.length) (s + k) = alt_case k (load8 d (s + k))) := by
  refine ⟨mix_hostname_case_length d _, mix_hostname_case_lower d _, ?_, ?_⟩
  · intro hno
    unfold mix_hostname_case
    rw [List.take_length, memmem_none host_upper (by decide) d (fun j hj => (hno j hj).1),
      memmem_none host_lower (by decide) d (fun j hj => (hno j hj).2)]
  · intro h ha
    obtain ⟨hb, hm⟩ := mix_hostname_case_anchor d h ha
    obtain ⟨s1, s2, s3, s4⟩ := skip_spaces_spec d (d.length - (h + 5)) (h + 5)
    obtain ⟨e, e1, e2, e3, e4, e5⟩ :=
      mix_loop_spec (skip_spaces d (d.length - (h + 5)) (h + 5))
        (d.length - skip_spaces d (d.length - (h + 5)) (h + 5)) 0 d
    rw [hm]
    refine ⟨skip_spaces d (d.length - (h + 5)) (h + 5), e, s1, by omega, by omega, s3,
      fun hs => s4 (by omega), fun j h1 h2 => e3 j (by omega) h2, fun he => e4 (by omega), ?_, ?_⟩
    · intro i hi
      rw [e5 i, if_neg (by omega)]
    · intro k hk
      rw [e5 _, if_pos (by omega), Nat.add_sub_cancel_left]

/-- C26, witness: in `GET /` CR LF `Host: abCD` CR LF the header name stands
at 7, the value is `[13, 17)`, and `abCD` becomes `AbCd`. -/
theorem C26_mix_frame_witness :
    host_anchor [71, 69, 84, 32, 47, 13, 10, 72, 111, 115, 116, 58, 32, 97, 98, 67,
        68, 13, 10] 7
      ∧ mix_hostname_case [71, 69, 84, 32, 47, 13, 10, 72, 111, 115, 116, 58, 32, 97, 98, 67,
          68, 13, 10] 19
        = [71, 69, 84, 32, 47, 13, 10, 72, 111, 115, 116, 58, 32, 65, 98, 67, 100, 13, 10]
      ∧ ∃ s e, 7 + 5 ≤ s ∧ s ≤ e ∧ e ≤ 19
        ∧ ∀ i, i < s ∨ e ≤ i →
            load8 (mix_hostname_case [71, 69, 84, 32, 47, 13, 10, 72, 111, 115, 116, 58, 32, 97,
                98, 67, 68, 13, 10] 19) i
              = load8 [71, 69, 84, 32, 47, 13, 10, 72, 111, 115, 116, 58, 32, 97, 98, 67, 68, 13,
                  10] i :=
  ⟨by decide, by decide,
    let ⟨s, e, h1, h2, h3, _, _, _, _, h8, _⟩ :=
      (C26_mix_frame [71, 69, 84, 32, 47, 13, 10, 72, 111, 115, 116, 58, 32, 97, 98, 67,
        68, 13, 10]).2.2.2 7 (by decide)
    ⟨s, e, h1, h2, h3, h8⟩⟩

/-! ## The Host header of an HTTP request (claim C23) -/

theorem count_spaces_replicate (k : Nat) (l : List Nat) (h : l.head? ≠ some 32) :
    count_spaces (List.replicate k 32 ++ l) = k := by
  induction k with
  | zero =>
    rw [List.replicate_zero, List.nil_append]
    cases l with
    | nil => rfl
    | cons b t =>
      unfold count_spaces
      rw [if_neg (fun hb => h (by rw [hb]; rfl))]
  | succ k ih =>
    rw [List.replicate_succ, List.cons_append]
    unfold count_spaces
    rw [if_pos rfl, ih]

theorem strchr_cons (a : Nat) (t : List Nat) (c : Nat) :
    strchr (a :: t) c
      = if a = c then some 0 else if a = 0 then none else (strchr t c).map (· + 1) := by
  rw [strchr]

theorem strchr_skip (c : Nat) (rest : List Nat) :
    ∀ (v : List Nat), (∀ b ∈ v, b ≠ c ∧ b ≠ 0) →
      strchr (v ++ rest) c = (strchr rest c).map (· + v.length) := by
  intro v
  induction v with
  | nil =>
    intro _
    rw [List.nil_append, List.length_nil]
    cases strchr rest c <;> rfl
  | cons a t ih =>
    intro h
    have ha := h a (List.mem_cons_self _ _)
    rw [List.cons_append, strchr_cons, if_neg ha.1, if_neg ha.2,
      ih (fun b hb => h b (List.mem_cons_of_mem _ hb))]
    cases strchr rest c with
    | none => rfl
    | some e =>
      simp only [Option.map_some', List.length_cons, Option.some.injEq]
      omega

theorem strchr_head (c : Nat) (rest : List Nat) : strchr (c :: rest) c = some 0 := by
  rw [strchr_cons, if_pos rfl]

/-- C23, where the code departs from the claim: the scan for the value
(`while (*host_start == ' ')` and `strchr`) is not bounded by `tcp_data_len`,
and `memmem` is called for two spellings of the name only.  For the payload
`Host: ab` of 8 bytes the hostname is `abcd` when `cd` CR lies behind the
payload in memory and `ab` when a CR lies there, so two memories that agree on
the payload give different hostnames; and the payload `HOST: a.io` CR LF
leaves the hostname empty, as a buffer and as the payload of a frame to
port 80. -/
theorem C23_value_scan_unbounded :
    http_host ([72, 111, 115, 116, 58, 32, 97, 98] ++ [99, 100, 13]) 8 256
        = [97, 98, 99, 100]
      ∧ http_host ([72, 111, 115, 116, 58, 32, 97, 98] ++ [13]) 8 256 = [97, 98]
      ∧ http_host [72, 79, 83, 84, 58, 32, 97, 46, 105, 111, 13, 10] 12 256 = []
      ∧ extract_hostname (sample_packet
          (sample_frame 52 6 80 [72, 79, 83, 84, 58, 32, 97, 46, 105, 111, 13, 10])) = some [] := by
  decide

/-- The value that `http_host` returns.  When `h` is the position of the first
`Host:` in the payload `mem[0 .. n)` (of the first `host:` when there is no
`Host:`) and memory holds behind the name `k` spaces, a value `v` of 1 to 255
bytes that does not begin with a space and holds no NUL, CR or LF, and then
either a CR, or a LF that no CR follows before the next NUL, the hostname
extracted is `v`. -/
theorem http_host_value (mem : List Nat) (n h k t : Nat) (v rest : List Nat)
    (hanchor : host_anchor (mem.take n) h)
    (hmem : mem.drop (h + 5) = List.replicate k 32 ++ (v ++ t :: rest))
    (hv1 : 1 ≤ v.length) (hv2 : v.length ≤ 255)
    (hv : ∀ b ∈ v, b ≠ 0 ∧ b ≠ 13 ∧ b ≠ 10) (hv0 : v.head? ≠ some 32)
    (ht : t = 13 ∨ (t = 10 ∧ strchr rest 13 = none)) :
    http_host mem n 256 = v := by
  have hfound : memmem (mem.take n) host_upper = some h
      ∨ (memmem (mem.take n) host_upper = none ∧ memmem (mem.take n) host_lower = some h) := by
    rcases hanchor with hf | ⟨hno, hf⟩
    · exact Or.inl (memmem_of_first host_upper (by decide) _ h hf)
    · exact Or.inr ⟨memmem_none host_upper (by decide) _ hno,
        memmem_of_first host_lower (by decide) _ h hf⟩
  have hhead : (v ++ t :: rest).head? ≠ some 32 := by
    cases v with
    | nil => simp at hv1
    | cons a l => exact hv0
  have hcnt : count_spaces (mem.drop (h + 5)) = k := by
    rw [hmem]; exact count_spaces_replicate k _ hhead
  have hdrop : mem.drop (h + 5 + k) = v ++ t :: rest := by
    have := drop_of_drop mem (h + 5) (List.replicate k 32) _ hmem
    rw [List.length_replicate] at this
    exact this
  have hend : (match strchr (v ++ t :: rest) 13 with
        | some e => some e
        | none => strchr (v ++ t :: rest) 10) = some v.length := by
    rcases ht with rfl | ⟨rfl, hr⟩
    · rw [strchr_skip 13 _ v (fun b hb => ⟨(hv b hb).2.1, (hv b hb).1⟩), strchr_head]
      simp
    · have h13 : strchr (v ++ 10 :: rest) 13 = none := by
        rw [strchr_skip 13 _ v (fun b hb => ⟨(hv b hb).2.1, (hv b hb).1⟩), strchr_cons,
          if_neg (by decide), if_neg (by decide), hr]
        rfl
      rw [h13, strchr_skip 10 _ v (fun b hb => ⟨(hv b hb).2.2, (hv b hb).1⟩), strchr_head]
      simp
  unfold http_host
  rcases hfound with h1 | ⟨h1, h2⟩
  · rw [h1]
    simp only
    rw [hcnt, hdrop, hend]
    simp only
    rw [if_pos ⟨by omega, by omega⟩, List.take_left]
  · rw [h1, h2]
    simp only
    rw [hcnt, hdrop, hend]
    simp only
    rw [if_pos ⟨by omega, by omega⟩, List.take_left]

/-- The request `GET /` CR LF `host:  a.io` LF, with the spelling `host:`, two
spaces and a value that ends at a LF inside the payload. -/
theorem http_host_value_sample :
    http_host [71, 69, 84, 32, 47, 13, 10, 104, 111, 115, 116, 58, 32, 32, 97, 46, 105, 111, 10]
        19 256 = [97, 46, 105, 111] :=
  http_host_value [71, 69, 84, 32, 47, 13, 10, 104, 111, 115, 116, 58, 32, 32, 97, 46, 105, 111, 10]
    19 7 2 10 [97, 46, 105, 111] [] (by decide) (by decide) (by decide)
    (by decide) (by decide) (by decide) (Or.inr ⟨rfl, by decide⟩)

/-! ## A ClientHello without a name (claim C21) -/

theorem hello_len (d : List Nat) (len : Nat) (h : dpi_is_tls_client_hello d len = true) :
    6 ≤ len := by
  unfold dpi_is_tls_client_hello at h
  by_cases hl : len < 6
  · rw [if_pos hl] at h
    cases h
  · omega

theorem extract_hostname_https (packet : NfqueuePacket) (hp : headers_ok packet.payload)
    (hport : packet.dst_port = 443)
    (hhello : dpi_is_tls_client_hello (tcp_payload packet.payload)
      (tcp_payload packet.payload).length = true) :
    extract_hostname packet
      = match dpi_extract_sni (tcp_payload packet.payload ++ packet.after)
          (tcp_payload packet.payload).length 256 with
        | .done _ sni_buf => some sni_buf
        | _ => some [] := by
  obtain ⟨h2, hfit⟩ := frame_of_headers packet.payload packet.after hp
  obtain ⟨-, f2, f3, -⟩ := frame_facts packet.payload packet.after hp.2.2.1 h2 hfit
  unfold extract_hostname
  simp only
  rw [f2, f3, hello_append, if_pos hport, hhello]
  simp only [Bool.true_eq_false, if_false]

theorem method_fragments_two (g : GBypass) (pkt : List Nat)
    (hn : 2 ≤ (tcp_payload pkt).length) : 2 ≤ (method_fragments g pkt).length := by
  rw [method_fragments_length g pkt hn]
  split
  · exact le_refl _
  · rw [disorder_cut_length]
    have := (disorder_count_spec g.settings).1
    omega

/-- C21, counterexample: a frame to port 443 with a ClientHello of 58 bytes
whose extensions length field holds 65535 and which has no server_name
extension: `dpi_extract_sni` returns 0, and with `desync_https` set and SPLIT
selected the packet gets DROP and two fragments are sent. -/
theorem C21_counterexample :
    dpi_is_tls_client_hello sample_hello_no_sni 58 = true
      ∧ sni_header sample_hello_no_sni 58 = .extensions 52 65535
      ∧ dpi_extract_sni sample_hello_no_sni 58 256 = .done 0 []
      ∧ (sample_g 1 2 4 false).settings.desync_https = true
      ∧ (dpi_bypass_process_packet (sample_g 1 2 4 false) sample_env sample_world
          (sample_packet (sample_frame 98 6 443 sample_hello_no_sni))).verdict = .NFQUEUE_DROP
      ∧ (dpi_bypass_process_packet (sample_g 1 2 4 false) sample_env sample_world
          (sample_packet (sample_frame 98 6 443 sample_hello_no_sni))).sends.length = 2 := by
  have h := process_drop (sample_g 1 2 4 false) sample_env sample_world
    (sample_packet (sample_frame 98 6 443 sample_hello_no_sni)) (by decide) (by decide)
    (by decide) (by decide) (by decide) (fun _ => rfl) (fun _ => le_refl _)
  refine ⟨by decide, by decide, by decide, rfl, h.1, ?_⟩
  rw [h.2.2.2, method_order_length, List.length_map, method_fragments_length _ _ (by decide)]
  rfl

/-- C21, amended: a ClientHello from which `dpi_extract_sni` returns 0 leaves
the hostname empty, and an empty hostname is never on the whitelist, so the
packet is fragmented like any other.  For every valid TCP frame to port 443
whose payload is a ClientHello with `dpi_extract_sni` returning 0, with
`desync_https` set, a fragmenting method selected, the injector ready and
every `malloc` and `sendto` succeeding: `should_bypass` is true,
`dpi_bypass_process_packet` returns DROP, `packets_bypassed` grows by one
(modulo 2^64) and the fragments of the method, at least two, are sent. -/
theorem C21_empty_sni_fragmented (g : GBypass) (env : SocketEnv) (w : World)
    (packet : NfqueuePacket) (hp : valid_packet packet.payload)
    (hport : packet.dst_port = 443) (hd : g.settings.desync_https = true)
    (hhello : dpi_is_tls_client_hello (tcp_payload packet.payload)
      (tcp_payload packet.payload).length = true)
    (hsni : dpi_extract_sni (tcp_payload packet.payload ++ packet.after)
      (tcp_payload packet.payload).length 256 = .done 0 [])
    (hmeth : fragmenting_method g) (hr : injector_ready g env)
    (hm : ∀ j, w.malloc_ok j = true) (hs : ∀ k, 0 ≤ w.sendto_ret k) :
    should_bypass g packet = true
      ∧ (dpi_bypass_process_packet g env w packet).verdict = .NFQUEUE_DROP
      ∧ (dpi_bypass_process_packet g env w packet).g.stats.packets_bypassed
          = (g.stats.packets_bypassed + 1) % 2 ^ 64
      ∧ (dpi_bypass_process_packet g env w packet).sends
          = method_order g ((method_fragments g packet.payload).map (to_call packet.dst_ip))
      ∧ 2 ≤ (dpi_bypass_process_packet g env w packet).sends.length := by
  have hn : 2 ≤ (tcp_payload packet.payload).length := by
    have := hello_len _ _ hhello
    omega
  have he : eligible g packet := by
    refine ⟨Or.inl ⟨hport, hd, hhello⟩, ?_⟩
    unfold hostname_whitelisted
    rw [extract_hostname_https packet hp.1 hport hhello, hsni]
    rfl
  obtain ⟨h1, h2, -, h4⟩ := process_drop g env w packet hp hn he hmeth hr hm hs
  refine ⟨should_bypass_of_eligible g packet hp.1 he, h1, h2, h4, ?_⟩
  rw [h4, method_order_length, List.length_map]
  exact method_fragments_two g _ hn

set_option maxRecDepth 100000 in
/-- C21, witness: the ClientHello stub of 32 bytes, too short for
`dpi_extract_sni`, under DISORDER with 4 fragments. -/
theorem C21_empty_sni_fragmented_witness :
    dpi_extract_sni (tcp_payload (sample_frame 72 6 443 sample_hello_stub) ++ []) 32 256
        = .done 0 []
      ∧ should_bypass (sample_g 3 2 4 false)
          (sample_packet (sample_frame 72 6 443 sample_hello_stub)) = true
      ∧ (dpi_bypass_process_packet (sample_g 3 2 4 false) sample_env sample_world
          (sample_packet (sample_frame 72 6 443 sample_hello_stub))).verdict = .NFQUEUE_DROP :=
  ⟨by decide,
    (C21_empty_sni_fragmented (sample_g 3 2 4 false) sample_env sample_world
      (sample_packet (sample_frame 72 6 443 sample_hello_stub)) (by decide) (by decide) rfl
      (by decide) (by decide) (by decide) (by decide) (fun _ => rfl) (fun _ => le_refl _)).1,
    (C21_empty_sni_fragmented (sample_g 3 2 4 false) sample_env sample_world
      (sample_packet (sample_frame 72 6 443 sample_hello_stub)) (by decide) (by decide) rfl
      (by decide) (by decide) (by decide) (by decide) (fun _ => rfl) (fun _ => le_refl _)).2.1⟩

/-! ## The fragment whose host case is mixed (claim C25) -/

theorem mix_if_false (f : List Nat × Nat) : mix_if false f = f := rfl

theorem payload_of_frag_at (pkt : List Nat) (c : Nat × Nat) (hp : headers_ok pkt)
    (hc : c.1 + c.2 ≤ (tcp_payload pkt).length) :
    tcp_payload (frag_at pkt c).1 = payload_slice pkt c
      ∧ ((frag_at pkt c).1.length ≤ 65535 → tcp_verify (frag_at pkt c).1 = 65535) := by
  have h := final_of_frag_at pkt c hp hc false
  rw [mix_if_false] at h
  refine ⟨?_, h.tcp_ck⟩
  have := h.payload_eq
  simpa using this

theorem payload_of_mixed (pkt : List Nat) (c : Nat × Nat) (hp : headers_ok pkt)
    (hc : c.1 + c.2 ≤ (tcp_payload pkt).length) :
    tcp_payload (mix_if true (frag_at pkt c)).1
        = mix_hostname_case (payload_slice pkt c) c.2
      ∧ ((mix_if true (frag_at pkt c)).1.length ≤ 65535 →
          tcp_verify (mix_if true (frag_at pkt c)).1 = 65535) := by
  have h := final_of_frag_at pkt c hp hc true
  refine ⟨?_, h.tcp_ck⟩
  have := h.payload_eq
  simpa using this

/-- C25, where the code departs from the claim: under DISORDER the rewrite is
applied to `fragments[0]`, whether or not it holds the header.  For the request
of 47 bytes to port 80 with 2 fragments and `mix_host_case` set, the first
fragment that is sent is `GET /index.html HTTP/1.`, without a `Host:`, and the
second carries `Host: example.com` whole, with the bytes of the request
unchanged, although `mix_hostname_case` would change them. -/
theorem C25_header_not_mixed :
    eligible (sample_g 3 2 2 true) (sample_packet (sample_frame 87 6 80 sample_request))
      ∧ (sample_g 3 2 2 true).settings.mix_host_case = true
      ∧ (dpi_bypass_process_packet (sample_g 3 2 2 true) sample_env sample_world
          (sample_packet (sample_frame 87 6 80 sample_request))).verdict = .NFQUEUE_DROP
      ∧ ∃ c1 c2,
        (dpi_bypass_process_packet (sample_g 3 2 2 true) sample_env sample_world
          (sample_packet (sample_frame 87 6 80 sample_request))).sends = [c1, c2]
        ∧ tcp_payload c1.packet
            = [71, 69, 84, 32, 47, 105, 110, 100, 101, 120, 46, 104, 116, 109, 108, 32, 72, 84,
                84, 80, 47, 49, 46]
        ∧ tcp_payload c2.packet
            = [49, 13, 10, 72, 111, 115, 116, 58, 32, 101, 120, 97, 109, 112, 108, 101, 46, 99,
                111, 109, 13, 10, 13, 10]
        ∧ mix_hostname_case (tcp_payload c2.packet) 24 ≠ tcp_payload c2.packet := by
  have hp : valid_packet (sample_frame 87 6 80 sample_request) := by decide
  have h := process_drop (sample_g 3 2 2 true) sample_env sample_world
    (sample_packet (sample_frame 87 6 80 sample_request)) hp (by decide)
    (by decide) (by decide) (by decide) (fun _ => rfl) (fun _ => le_refl _)
  have hcut : disorder_cut (sample_g 3 2 2 true).settings
      (tcp_payload (sample_frame 87 6 80 sample_request)).length = [(0, 23), (23, 24)] := by
    decide
  have hfr : method_fragments (sample_g 3 2 2 true) (sample_frame 87 6 80 sample_request)
      = [mix_if true (frag_at (sample_frame 87 6 80 sample_request) (0, 23)),
          frag_at (sample_frame 87 6 80 sample_request) (23, 24)] := by
    unfold method_fragments
    rw [if_neg (by decide), hcut]
    rfl
  have hpay := (payload_of_frag_at (sample_frame 87 6 80 sample_request) (23, 24) hp.1
    (by decide)).1
  have hslice : payload_slice (sample_frame 87 6 80 sample_request) (23, 24)
      = [49, 13, 10, 72, 111, 115, 116, 58, 32, 101, 120, 97, 109, 112, 108, 101, 46, 99,
          111, 109, 13, 10, 13, 10] := by decide
  refine ⟨by decide, rfl, h.1,
    to_call (sample_packet (sample_frame 87 6 80 sample_request)).dst_ip
      (mix_if true (frag_at (sample_frame 87 6 80 sample_request) (0, 23))),
    to_call (sample_packet (sample_frame 87 6 80 sample_request)).dst_ip
      (frag_at (sample_frame 87 6 80 sample_request) (23, 24)), ?_, ?_, ?_, ?_⟩
  · rw [h.2.2.2]
    show method_order (sample_g 3 2 2 true)
      ((method_fragments (sample_g 3 2 2 true) (sample_frame 87 6 80 sample_request)).map
        (to_call (sample_packet (sample_frame 87 6 80 sample_request)).dst_ip)) = _
    rw [hfr]
    rfl
  · show tcp_payload (mix_if true (frag_at (sample_frame 87 6 80 sample_request) (0, 23))).1 = _
    rw [(payload_of_mixed (sample_frame 87 6 80 sample_request) (0, 23) hp.1 (by decide)).1]
    decide
  · show tcp_payload (frag_at (sample_frame 87 6 80 sample_request) (23, 24)).1 = _
    rw [hpay, hslice]
  · show mix_hostname_case (tcp_payload (frag_at (sample_frame 87 6 80 sample_request)
      (23, 24)).1) 24 ≠ tcp_payload (frag_at (sample_frame 87 6 80 sample_request) (23, 24)).1
    rw [hpay, hslice]
    decide

/-- The fragment that `mix_hostname_case` is called on.  For every valid
eligible frame with at least 2 payload bytes, processed with `mix_host_case`
set, a fragmenting method, the injector ready and every `malloc` and `sendto`
succeeding, the sends are the fragments of the method in its order, and: under
SPLIT and SPLIT_REVERSE the first fragment carries its part of the payload
unchanged and the second the result of `mix_hostname_case` on its part; under
DISORDER and DISORDER_REVERSE the first fragment (index 0) carries the result
of `mix_hostname_case` on its part and every other fragment its part
unchanged; the TCP checksum of every fragment, recomputed after the rewrite,
verifies. -/
theorem mixed_fragment_payloads (g : GBypass) (env : SocketEnv) (w : World) (packet : NfqueuePacket)
    (hp : valid_packet packet.payload) (hn : 2 ≤ (tcp_payload packet.payload).length)
    (he : eligible g packet) (hmeth : fragmenting_method g) (hr : injector_ready g env)
    (hm : ∀ j, w.malloc_ok j = true) (hs : ∀ k, 0 ≤ w.sendto_ret k)
    (hmix : g.settings.mix_host_case = true) :
    (dpi_bypass_process_packet g env w packet).sends
        = method_order g ((method_fragments g packet.payload).map (to_call packet.dst_ip))
      ∧ ((g.settings.method = 1 ∨ g.settings.method = 2) →
          ∃ f1 f2, method_fragments g packet.payload = [f1, f2]
            ∧ tcp_payload f1.1
                = payload_slice packet.payload
                    (0, split_pos g.settings (tcp_payload packet.payload).length)
            ∧ tcp_payload f2.1
                = mix_hostname_case
                    (payload_slice packet.payload
                      (split_pos g.settings (tcp_payload packet.payload).length,
                        (tcp_payload packet.payload).length
                          - split_pos g.settings (tcp_payload packet.payload).length))
                    ((tcp_payload packet.payload).length
                      - split_pos g.settings (tcp_payload packet.payload).length)
            ∧ (f1.1.length ≤ 65535 → tcp_verify f1.1 = 65535)
            ∧ (f2.1.length ≤ 65535 → tcp_verify f2.1 = 65535))
      ∧ ((g.settings.method = 3 ∨ g.settings.method = 4) →
          ∀ (j : Nat) (f : List Nat × Nat), (method_fragments g packet.payload)[j]? = some f →
            ∃ c, (disorder_cut g.settings (tcp_payload packet.payload).length)[j]? = some c
              ∧ tcp_payload f.1
                  = (if j = 0 then mix_hostname_case (payload_slice packet.payload c) c.2
                    else payload_slice packet.payload c)
              ∧ (f.1.length ≤ 65535 → tcp_verify f.1 = 65535)) := by
  obtain ⟨-, -, -, h4⟩ := process_drop g env w packet hp hn he hmeth hr hm hs
  refine ⟨h4, ?_, ?_⟩
  · intro h12
    obtain ⟨hk1, hk2, -⟩ := split_pos_spec g.settings _ hn
    have a := payload_of_frag_at packet.payload
      (0, split_pos g.settings (tcp_payload packet.payload).length) hp.1 (by simp only; omega)
    have b := payload_of_mixed packet.payload
      (split_pos g.settings (tcp_payload packet.payload).length,
        (tcp_payload packet.payload).length
          - split_pos g.settings (tcp_payload packet.payload).length) hp.1 (by simp only; omega)
    refine ⟨_, _, ?_, a.1, b.1, a.2, b.2⟩
    unfold method_fragments
    rw [if_pos h12, hmix]
  · intro h34 j f hj
    have hok := (disorder_cut_ok g.settings _ hn).1
    obtain ⟨c, t, hct, -⟩ := disorder_cut_cons g.settings _ hn
    have hfr : method_fragments g packet.payload
        = mix_if true (frag_at packet.payload c) :: t.map (frag_at packet.payload) := by
      unfold method_fragments
      rw [if_neg (by omega), hct, hmix]
      rfl
    rw [hfr] at hj
    rw [hct] at hok ⊢
    cases j with
    | zero =>
      have hf : f = mix_if true (frag_at packet.payload c) := by
        simpa using hj.symm
      have b := payload_of_mixed packet.payload c hp.1 (hok c (List.mem_cons_self _ _)).1
      refine ⟨c, List.getElem?_cons_zero, ?_, ?_⟩
      · rw [hf, if_pos rfl]; exact b.1
      · rw [hf]; exact b.2
    | succ j' =>
      have hj' : (t.map (frag_at packet.payload))[j']? = some f := by
        simpa using hj
      rw [List.getElem?_map] at hj'
      cases hc : t[j']? with
      | none => rw [hc] at hj'; cases hj'
      | some c' =>
        rw [hc] at hj'
        have hf : f = frag_at packet.payload c' := by
          simpa using hj'.symm
        have a := payload_of_frag_at packet.payload c' hp.1
          (hok c' (List.mem_cons_of_mem _ (List.getElem?_mem hc))).1
        refine ⟨c', by simpa using hc, ?_, ?_⟩
        · rw [hf, if_neg (by omega)]; exact a.1
        · rw [hf]; exact a.2

set_option maxRecDepth 100000 in
/-- The request of 47 bytes under SPLIT with `first_packet_size` 2: the second
fragment holds the header and carries `Host: ExAmPlE.CoM`. -/
theorem mixed_fragment_split_sample :
    eligible (sample_g 1 2 4 true) (sample_packet (sample_frame 87 6 80 sample_request))
      ∧ ∃ f1 f2,
        method_fragments (sample_g 1 2 4 true) (sample_frame 87 6 80 sample_request) = [f1, f2]
        ∧ tcp_payload f2.1
            = [84, 32, 47, 105, 110, 100, 101, 120, 46, 104, 116, 109, 108, 32, 72, 84, 84, 80,
                47, 49, 46, 49, 13, 10, 72, 111, 115, 116, 58, 32, 69, 120, 65, 109, 80, 108, 69,
                46, 67, 111, 77, 13, 10, 13, 10] := by
  obtain ⟨f1, f2, h1, -, h3, -, -⟩ :=
    (mixed_fragment_payloads (sample_g 1 2 4 true) sample_env sample_world
      (sample_packet (sample_frame 87 6 80 sample_request)) (by decide) (by decide) (by decide)
      (by decide) (by decide) (fun _ => rfl) (fun _ => le_refl _) rfl).2.1 (Or.inl rfl)
  refine ⟨by decide, f1, f2, h1, ?_⟩
  rw [h3]
  decide

/-! ## The dispatch loop (claims C27 and C28) -/

/-- C28, the test on the wrong byte: the dispatch loop compares the low byte of
`nlmsg_type`, the message type inside the subsystem, with `NFNL_SUBSYS_QUEUE`.
A packet message of the queue subsystem, `(NFNL_SUBSYS_QUEUE << 8) |
NFQNL_MSG_PACKET`, is therefore never parsed, whatever its length and its
bytes: the callback is not called and no verdict is sent.  A message of
subsystem 1 with message type 3 and the attributes of a packet is parsed and
handed to the callback, and its verdict is sent. -/
theorem C28_dispatch_tests_low_byte (callback : Option (PacketView → NfqueueVerdict))
    (nlmsg_len : Nat) (rest : List Nat) :
    dispatch_message callback
        (le32 nlmsg_len ++ (le16 (NFNL_SUBSYS_QUEUE * 256 + NFQNL_MSG_PACKET) ++ rest))
        = .done none []
      ∧ dispatch_message callback (sample_nl_message (NFNL_SUBSYS_QUEUE * 256 + NFQNL_MSG_PACKET) 7 0)
        = .done none []
      ∧ load16 (sample_nl_message (1 * 256 + 3) 7 0) 4 = 1 * 256 + 3
      ∧ dispatch_message (some fun _ => .NFQUEUE_DROP) (sample_nl_message (1 * 256 + 3) 7 0)
        = .done (some (sample_nl_view 7 0)) [(7, .NFQUEUE_DROP)] := by
  have h : ∀ msg : List Nat, load16 msg 4 = 768 → dispatch_message callback msg = .done none [] := by
    intro msg e
    unfold dispatch_message
    simp only [e]
    rw [if_neg (by decide), if_neg (by decide)]
  have e1 : load16 (le32 nlmsg_len ++ (le16 (NFNL_SUBSYS_QUEUE * 256 + NFQNL_MSG_PACKET) ++ rest)) 4
      = 768 := by
    simp [load16, le32, le16, NFNL_SUBSYS_QUEUE, NFQNL_MSG_PACKET]
  exact ⟨h _ e1, h _ (by decide), by decide, by decide⟩

/-! ## Reads of the attribute walker (claim C29) -/

/-- C29, reads behind the message: `parse_packet` never compares `nla_len`
with what is left of the message.  (1) `nlmsg_len` 24 and a PAYLOAD attribute
that gives its length as 28: the byte `data[0]` is read at offset 24, which
is not below `nlmsg_len`, whatever stands behind the message; the dispatch
loop takes this message out of a buffer of 48 bytes.  (2) `nlmsg_len` 36,
packet id 7 and a PAYLOAD attribute that gives its length as 14: no body byte
is read, the call returns 0, and the payload view is the 10 bytes from offset
36 on, all of them behind the message.  (3) `nlmsg_len` 21: of the two bytes
of `nla_len` the second is read at offset 21. -/
theorem C29_reads_behind_message (after : List Nat) :
    parse_packet (le32 24 ++ le16 771 ++ [0, 0, 0, 0, 0, 0, 0, 0, 0, 0] ++ [2, 0, 0, 0]
        ++ le16 28 ++ le16 10 ++ after) zero_packet = .fault 24
      ∧ load32 sample_nl_overread 0 = 24
      ∧ parse_packet sample_nl_overread zero_packet = .fault 24
      ∧ dispatch_loop none 3 sample_nl_overread 48 = [.fault 24]
      ∧ load32 sample_nl_outside 0 = 36
      ∧ parse_packet sample_nl_outside zero_packet
          = .done 0 { zero_packet with packet_id := 7, payload := some 36, payload_len := 10 }
      ∧ load32 sample_nl_odd 0 = 21
      ∧ parse_packet sample_nl_odd zero_packet = .fault 21 := by
  refine ⟨?_, by decide⟩
  have hl : load32 (le32 24 ++ le16 771 ++ [0, 0, 0, 0, 0, 0, 0, 0, 0, 0] ++ [2, 0, 0, 0]
      ++ le16 28 ++ le16 10 ++ after) 0 = 24 := by
    simp [load32, le32, le16]
  have r0 : nl_read16 (le32 24 ++ le16 771 ++ [0, 0, 0, 0, 0, 0, 0, 0, 0, 0] ++ [2, 0, 0, 0]
      ++ le16 28 ++ le16 10 ++ after) 24 20 = .ok 28 := by
    simp [nl_read16, nl_read8, le32, le16]
  have r2 : nl_read16 (le32 24 ++ le16 771 ++ [0, 0, 0, 0, 0, 0, 0, 0, 0, 0] ++ [2, 0, 0, 0]
      ++ le16 28 ++ le16 10 ++ after) 24 (20 + 2) = .ok 10 := by
    simp [nl_read16, nl_read8, le32, le16]
  have r4 : nl_read8 (le32 24 ++ le16 771 ++ [0, 0, 0, 0, 0, 0, 0, 0, 0, 0] ++ [2, 0, 0, 0]
      ++ le16 28 ++ le16 10 ++ after) 24 (20 + 4) = .error 24 := by
    unfold nl_read8
    rw [if_neg (by decide)]
  unfold parse_packet
  simp only [hl]
  rw [parse_loop, if_pos (by decide)]
  simp only [r0]
  rw [if_pos (by decide)]
  unfold parse_attr
  simp only [r2]
  rw [if_neg (by decide), if_neg (by decide), if_pos (by decide)]
  unfold parse_payload_attr
  simp only [r4]
  rw [if_pos (by decide)]

/-! ## What `parse_packet` yields (claim C30) -/

theorem getElem?_of_drop (msg : List Nat) (a : Nat) (X r : List Nat) (j : Nat)
    (h : msg.drop a = X ++ r) (hj : j < X.length) : msg[a + j]? = X[j]? := by
  rw [← List.getElem?_drop, h, List.getElem?_append_left hj]

theorem nl_read8_at (msg : List Nat) (limit data : Nat) (X rest : List Nat) (k : Nat)
    (h : msg.drop data = X ++ rest) (hk : k < X.length) (hl : data + k < limit) :
    nl_read8 msg limit (data + k) = .ok (load8 X k) := by
  unfold nl_read8
  rw [if_pos hl, getElem?_of_drop msg data X rest k h hk, List.getElem?_eq_getElem hk,
    load8_eq X k hk]

theorem nl_read16_at (msg : List Nat) (limit data : Nat) (X rest : List Nat) (k : Nat)
    (h : msg.drop data = X ++ rest) (hk : k + 1 < X.length) (hl : data + k + 1 < limit) :
    nl_read16 msg limit (data + k) = .ok (load16 X k) := by
  unfold nl_read16
  rw [nl_read8_at msg limit data X rest k h (by omega) (by omega), Nat.add_assoc,
    nl_read8_at msg limit data X rest (k + 1) h hk (by omega)]
  rfl

theorem nl_read32_at (msg : List Nat) (limit data : Nat) (X rest : List Nat) (k : Nat)
    (h : msg.drop data = X ++ rest) (hk : k + 3 < X.length) (hl : data + k + 3 < limit) :
    nl_read32 msg limit (data + k) = .ok (load32 X k) := by
  unfold nl_read32
  rw [nl_read16_at msg limit data X rest k h (by omega) (by omega), Nat.add_assoc,
    nl_read16_at msg limit data X rest (k + 2) h (by omega) (by omega)]
  simp only [load16, load32, show k + 2 + 1 = k + 3 from rfl]
  congr 1
  omega

theorem encode_nla_length (a : NlAttr) :
    (encode_nla a).length = 4 + a.body.length + a.pad.length := by
  simp [encode_nla, le16]; omega

theorem encode_nla_body (msg : List Nat) (attr : Nat) (a : NlAttr) (rest : List Nat)
    (h : msg.drop attr = encode_nla a ++ rest) :
    msg.drop (attr + 4) = a.body ++ (a.pad ++ rest) := by
  have e : encode_nla a ++ rest
      = (le16 (4 + a.body.length) ++ le16 a.nla_type) ++ (a.body ++ (a.pad ++ rest)) := by
    simp [encode_nla]
  rw [e] at h
  exact drop_of_drop msg attr _ _ h

theorem load16_encode_nla (a : NlAttr) (hw : wf_nla a) :
    load16 (encode_nla a) 0 = 4 + a.body.length ∧ load16 (encode_nla a) 2 = a.nla_type := by
  obtain ⟨h1, h2, _, _⟩ := hw
  simp only [load16, encode_nla, le16, List.cons_append, List.nil_append, List.getD_cons_zero,
    List.getD_cons_succ]
  constructor <;> omega

theorem parse_payload_attr_spec (msg : List Nat) (limit data : Nat) (body rest : List Nat)
    (pkt : PacketView) (h : msg.drop data = body ++ rest) (hl : data + body.length ≤ limit) :
    parse_payload_attr msg limit data body.length pkt = .ok (apply_payload data body pkt) := by
  unfold parse_payload_attr apply_payload
  by_cases h20 : body.length ≥ 20
  · have r0 := nl_read8_at msg limit data body rest 0 h (by omega) (by omega)
    have r9 := nl_read8_at msg limit data body rest 9 h (by omega) (by omega)
    have r12 := nl_read32_at msg limit data body rest 12 h (by omega) (by omega)
    have r16 := nl_read32_at msg limit data body rest 16 h (by omega) (by omega)
    rw [Nat.add_zero] at r0
    simp only [if_pos h20, r0, r9, r12, r16]
    by_cases hp : body.length ≥ load8 body 0 % 16 * 4 % 256 + 4
    · have rs := nl_read16_at msg limit data body rest (load8 body 0 % 16 * 4 % 256) h
        (by omega) (by omega)
      have rd := nl_read16_at msg limit data body rest (load8 body 0 % 16 * 4 % 256 + 2) h
        (by omega) (by omega)
      rw [← Nat.add_assoc] at rd
      simp only [if_pos hp, rs, rd]
    · simp only [if_neg hp]
  · simp only [if_neg h20]

theorem parse_attr_spec (msg : List Nat) (limit attr : Nat) (a : NlAttr) (rest : List Nat)
    (pkt : PacketView) (h : msg.drop attr = encode_nla a ++ rest) (hw : wf_nla a)
    (hl : attr + 4 + a.body.length ≤ limit) :
    nl_read16 msg limit attr = .ok (4 + a.body.length)
      ∧ parse_attr msg limit attr (4 + a.body.length) pkt = .ok (apply_nla attr a pkt) := by
  have hlen := encode_nla_length a
  have hh := load16_encode_nla a hw
  have r0 := nl_read16_at msg limit attr (encode_nla a) rest 0 h (by omega) (by omega)
  have r2 := nl_read16_at msg limit attr (encode_nla a) rest 2 h (by omega) (by omega)
  rw [Nat.add_zero, hh.1] at r0
  rw [hh.2] at r2
  have hb := encode_nla_body msg attr a rest h
  refine ⟨r0, ?_⟩
  unfold parse_attr apply_nla
  have e1 : NLA_TYPE_MASK + 1 = 16384 := rfl
  have e2 : 4 + a.body.length - 4 = a.body.length := by omega
  simp only [r2, e1, e2, NFQA_PACKET_HDR, NFQA_MARK, NFQA_PAYLOAD]
  by_cases t1 : a.nla_type % 16384 = 1
  · have r := nl_read32_at msg limit (attr + 4) a.body (a.pad ++ rest) 0 hb
      (by have := hw.2.2.2 (Or.inl t1); omega) (by have := hw.2.2.2 (Or.inl t1); omega)
    rw [Nat.add_zero] at r
    simp only [if_pos t1, r]
  · by_cases t3 : a.nla_type % 16384 = 3
    · have r := nl_read32_at msg limit (attr + 4) a.body (a.pad ++ rest) 0 hb
        (by have := hw.2.2.2 (Or.inr t3); omega) (by have := hw.2.2.2 (Or.inr t3); omega)
      rw [Nat.add_zero] at r
      simp only [if_neg t1, if_pos t3, r]
    · by_cases t10 : a.nla_type % 16384 = 10
      · simp only [if_neg t1, if_neg t3, if_pos t10]
        exact parse_payload_attr_spec msg limit (attr + 4) a.body (a.pad ++ rest) pkt hb
          (by omega)
      · simp only [if_neg t1, if_neg t3, if_neg t10]

theorem parse_loop_attrs (msg : List Nat) (limit : Nat) :
    ∀ (attrs : List NlAttr) (fuel attr : Nat) (rest : List Nat) (pkt : PacketView),
      msg.drop attr = encode_nlas attrs ++ rest → (∀ a ∈ attrs, wf_nla a) →
      nlas_fit limit attr attrs → attrs.length < fuel →
      parse_loop msg limit fuel attr ((limit : Int) - (attr : Int)) pkt
        = .done (parse_ret (apply_nlas attr attrs pkt)) (apply_nlas attr attrs pkt) := by
  intro attrs
  induction attrs with
  | nil =>
    intro fuel attr rest pkt _ _ hfit hfuel
    obtain ⟨f, rfl⟩ : ∃ f, fuel = f + 1 := ⟨fuel - 1, by simp at hfuel; omega⟩
    unfold nlas_fit at hfit
    unfold parse_loop
    rw [if_neg (by omega)]
    rfl
  | cons a t ih =>
    intro fuel attr rest pkt h hwf hfit hfuel
    obtain ⟨f, rfl⟩ : ∃ f, fuel = f + 1 := ⟨fuel - 1, by simp at hfuel; omega⟩
    have hw := hwf a (List.mem_cons_self a t)
    unfold nlas_fit at hfit
    have h1 : msg.drop attr = encode_nla a ++ (encode_nlas t ++ rest) := by
      rw [h]; simp [encode_nlas]
    obtain ⟨r0, ra⟩ := parse_attr_spec msg limit attr a (encode_nlas t ++ rest) pkt h1 hw hfit.1
    have hlen := encode_nla_length a
    have hal : NFA_ALIGN_SIZE (4 + a.body.length) = (encode_nla a).length := by
      rw [hlen]; exact hw.2.2.1.symm
    unfold parse_loop
    rw [if_pos (by omega)]
    simp only [r0]
    rw [if_pos (by omega)]
    simp only [ra, hal]
    have e : (limit : Int) - (attr : Int) - ((encode_nla a).length : Int)
        = (limit : Int) - ((attr + (encode_nla a).length : Nat) : Int) := by
      push_cast; ring
    rw [e]
    have hi := ih f (attr + (encode_nla a).length) rest (apply_nla attr a pkt)
      (drop_of_drop msg attr _ _ h1) (fun x hx => hwf x (List.mem_cons_of_mem a hx)) hfit.2
      (by simp at hfuel; omega)
    rw [hi]
    rfl

theorem nlas_fit_count (limit : Nat) :
    ∀ (attrs : List NlAttr) (attr : Nat), attrs ≠ [] → nlas_fit limit attr attrs →
      attr + 4 * attrs.length ≤ limit := by
  intro attrs
  induction attrs with
  | nil => intro attr h _; exact absurd rfl h
  | cons a t ih =>
    intro attr _ hfit
    unfold nlas_fit at hfit
    have hlen := encode_nla_length a
    by_cases ht : t = []
    · subst ht; simp; omega
    · have := ih (attr + (encode_nla a).length) ht hfit.2
      simp only [List.length_cons]; omega

theorem nl_message_drop (nlmsg_len nlmsg_type : Nat) (hdr_rest nfg : List Nat)
    (attrs : List NlAttr) (after : List Nat) (hrest : hdr_rest.length = 10)
    (hnfg : nfg.length = 4) :
    (nl_message nlmsg_len nlmsg_type hdr_rest nfg attrs ++ after).drop 20
      = encode_nlas attrs ++ after := by
  have e : nl_message nlmsg_len nlmsg_type hdr_rest nfg attrs ++ after
      = (le32 nlmsg_len ++ (le16 nlmsg_type ++ (hdr_rest ++ nfg))) ++ (encode_nlas attrs ++ after) := by
    simp [nl_message]
  have hl : (le32 nlmsg_len ++ (le16 nlmsg_type ++ (hdr_rest ++ nfg))).length = 20 := by
    simp [le32, le16, hrest, hnfg]
  rw [e, ← hl, List.drop_left]

theorem nl_message_len (nlmsg_len nlmsg_type : Nat) (hdr_rest nfg : List Nat)
    (attrs : List NlAttr) (after : List Nat) (h : nlmsg_len < 2 ^ 32) :
    load32 (nl_message nlmsg_len nlmsg_type hdr_rest nfg attrs ++ after) 0 = nlmsg_len := by
  simp only [load32, nl_message, le32, List.cons_append, List.getD_cons_zero,
    List.getD_cons_succ]
  omega

theorem parse_packet_message (nlmsg_len nlmsg_type : Nat) (hdr_rest nfg : List Nat)
    (attrs : List NlAttr) (after : List Nat) (pkt : PacketView) (hrest : hdr_rest.length = 10)
    (hnfg : nfg.length = 4) (hlen : nlmsg_len < 2 ^ 31) (hne : attrs ≠ [])
    (hwf : ∀ a ∈ attrs, wf_nla a) (hfit : nlas_fit nlmsg_len 20 attrs) :
    parse_packet (nl_message nlmsg_len nlmsg_type hdr_rest nfg attrs ++ after) pkt
      = .done (parse_ret (apply_nlas 20 attrs pkt)) (apply_nlas 20 attrs pkt) := by
  have hc := nlas_fit_count nlmsg_len attrs 20 hne hfit
  have hl : 0 < attrs.length := List.length_pos.mpr hne
  unfold parse_packet
  simp only [nl_message_len nlmsg_len nlmsg_type hdr_rest nfg attrs after (by omega)]
  have e : to_int32 (nlmsg_len + 4294967296 - 16 - 4) = (nlmsg_len : Int) - ((20 : Nat) : Int) := by
    unfold to_int32
    have e1 : (nlmsg_len + 4294967296 - 16 - 4) % 4294967296 = nlmsg_len - 20 := by omega
    rw [e1, if_pos (by omega)]
    omega
  rw [e]
  exact parse_loop_attrs _ nlmsg_len attrs (nlmsg_len + 1) 20 after pkt
    (nl_message_drop nlmsg_len nlmsg_type hdr_rest nfg attrs after hrest hnfg) hwf hfit (by omega)

theorem encode_nlas_append (l1 l2 : List NlAttr) :
    encode_nlas (l1 ++ l2) = encode_nlas l1 ++ encode_nlas l2 := by
  induction l1 with
  | nil => rfl
  | cons a t ih => simp [encode_nlas, ih]

theorem apply_nlas_append (l1 l2 : List NlAttr) :
    ∀ (attr : Nat) (pkt : PacketView),
      apply_nlas attr (l1 ++ l2) pkt
        = apply_nlas (attr + (encode_nlas l1).length) l2 (apply_nlas attr l1 pkt) := by
  induction l1 with
  | nil => intro attr pkt; rfl
  | cons a t ih =>
    intro attr pkt
    have e : attr + (encode_nlas (a :: t)).length
        = attr + (encode_nla a).length + (encode_nlas t).length := by
      simp [encode_nlas]; omega
    rw [e]
    exact ih (attr + (encode_nla a).length) (apply_nla attr a pkt)

theorem apply_payload_keeps (data : Nat) (body : List Nat) (pkt : PacketView) :
    (apply_payload data body pkt).packet_id = pkt.packet_id
      ∧ (apply_payload data body pkt).mark = pkt.mark := by
  unfold apply_payload
  dsimp only
  split_ifs <;> exact ⟨rfl, rfl⟩

theorem apply_nlas_packet_id (l : List NlAttr) :
    ∀ (attr : Nat) (pkt : PacketView), (∀ a ∈ l, a.nla_type % 16384 ≠ 1) →
      (apply_nlas attr l pkt).packet_id = pkt.packet_id := by
  induction l with
  | nil => intro attr pkt _; rfl
  | cons a t ih =>
    intro attr pkt h
    have h1 := h a (List.mem_cons_self a t)
    have e : (apply_nla attr a pkt).packet_id = pkt.packet_id := by
      unfold apply_nla
      rw [if_neg h1]
      split_ifs <;> first | rfl | exact (apply_payload_keeps _ _ _).1
    show (apply_nlas (attr + (encode_nla a).length) t (apply_nla attr a pkt)).packet_id = _
    rw [ih _ _ (fun x hx => h x (List.mem_cons_of_mem a hx)), e]

theorem apply_nlas_mark (l : List NlAttr) :
    ∀ (attr : Nat) (pkt : PacketView), (∀ a ∈ l, a.nla_type % 16384 ≠ 3) →
      (apply_nlas attr l pkt).mark = pkt.mark := by
  induction l with
  | nil => intro attr pkt _; rfl
  | cons a t ih =>
    intro attr pkt h
    have h1 := h a (List.mem_cons_self a t)
    have e : (apply_nla attr a pkt).mark = pkt.mark := by
      unfold apply_nla
      rw [if_neg h1]
      split_ifs <;> first | rfl | exact (apply_payload_keeps _ _ _).2
    show (apply_nlas (attr + (encode_nla a).length) t (apply_nla attr a pkt)).mark = _
    rw [ih _ _ (fun x hx => h x (List.mem_cons_of_mem a hx)), e]

/-- The fields of the packet that only a PAYLOAD attribute writes. -/
theorem apply_nlas_payload (l : List NlAttr) :
    ∀ (attr : Nat) (pkt : PacketView), (∀ a ∈ l, a.nla_type % 16384 ≠ 10) →
      (apply_nlas attr l pkt).payload = pkt.payload
        ∧ (apply_nlas attr l pkt).payload_len = pkt.payload_len
        ∧ (apply_nlas attr l pkt).protocol = pkt.protocol
        ∧ (apply_nlas attr l pkt).src_ip = pkt.src_ip
        ∧ (apply_nlas attr l pkt).dst_ip = pkt.dst_ip
        ∧ (apply_nlas attr l pkt).src_port = pkt.src_port
        ∧ (apply_nlas attr l pkt).dst_port = pkt.dst_port := by
  induction l with
  | nil => intro attr pkt _; exact ⟨rfl, rfl, rfl, rfl, rfl, rfl, rfl⟩
  | cons a t ih =>
    intro attr pkt h
    have h1 := h a (List.mem_cons_self a t)
    have e : (apply_nla attr a pkt).payload = pkt.payload
        ∧ (apply_nla attr a pkt).payload_len = pkt.payload_len
        ∧ (apply_nla attr a pkt).protocol = pkt.protocol
        ∧ (apply_nla attr a pkt).src_ip = pkt.src_ip
        ∧ (apply_nla attr a pkt).dst_ip = pkt.dst_ip
        ∧ (apply_nla attr a pkt).src_port = pkt.src_port
        ∧ (apply_nla attr a pkt).dst_port = pkt.dst_port := by
      unfold apply_nla
      rw [if_neg h1]
      split_ifs <;> exact ⟨rfl, rfl, rfl, rfl, rfl, rfl, rfl⟩
    have hi := ih (attr + (encode_nla a).length) (apply_nla attr a pkt)
      (fun x hx => h x (List.mem_cons_of_mem a hx))
    show (apply_nlas (attr + (encode_nla a).length) t (apply_nla attr a pkt)).payload = _ ∧ _
    obtain ⟨a1, a2, a3, a4, a5, a6, a7⟩ := hi
    obtain ⟨b1, b2, b3, b4, b5, b6, b7⟩ := e
    exact ⟨a1.trans b1, a2.trans b2, a3.trans b3, a4.trans b4, a5.trans b5, a6.trans b6,
      a7.trans b7⟩

theorem ntohl_load32_be32 (v : Nat) (r : List Nat) (h : v < 2 ^ 32) :
    ntohl (load32 (be32 v ++ r) 0) = v := by
  simp only [load32, be32, List.cons_append, List.getD_cons_zero, List.getD_cons_succ]
  have e : v / 16777216 % 256 + 256 * (v / 65536 % 256) + 65536 * (v / 256 % 256)
      + 16777216 * (v % 256)
      = 16777216 * (v % 256) + 65536 * (v / 256 % 256) + 256 * (v / 65536 % 256)
        + v / 16777216 % 256 := by omega
  rw [e, ntohl, htonl_bytes _ _ _ _ (Nat.mod_lt _ (by norm_num)) (Nat.mod_lt _ (by norm_num))
    (Nat.mod_lt _ (by norm_num)) (Nat.mod_lt _ (by norm_num))]
  omega

theorem ntohs_load16 (m : List Nat) (hb : bytes_ok m) (o : Nat) :
    ntohs (load16 m o) = 256 * load8 m o + load8 m (o + 1) := by
  have h0 := load8_lt m hb o
  have h1 := load8_lt m hb (o + 1)
  rw [load16_eq, Nat.add_comm, ntohs, htons_bytes _ _ h0 h1]

theorem le32_load32 (m : List Nat) (hb : bytes_ok m) (o : Nat) (h : o + 4 ≤ m.length) :
    le32 (load32 m o) = (m.drop o).take 4 := by
  have h0 := load8_lt m hb o
  have h1 := load8_lt m hb (o + 1)
  have h2 := load8_lt m hb (o + 2)
  have h3 := load8_lt m hb (o + 3)
  rw [drop_two m o (by omega), drop_two m (o + 2) (by omega), load32_eq]
  simp only [le32, List.take_succ_cons, List.take_zero]
  have e0 : (load8 m o + 256 * load8 m (o + 1) + 65536 * load8 m (o + 2)
      + 16777216 * load8 m (o + 3)) % 256 = load8 m o := by omega
  have e1 : (load8 m o + 256 * load8 m (o + 1) + 65536 * load8 m (o + 2)
      + 16777216 * load8 m (o + 3)) / 256 % 256 = load8 m (o + 1) := by omega
  have e2 : (load8 m o + 256 * load8 m (o + 1) + 65536 * load8 m (o + 2)
      + 16777216 * load8 m (o + 3)) / 65536 % 256 = load8 m (o + 2) := by omega
  have e3 : (load8 m o + 256 * load8 m (o + 1) + 65536 * load8 m (o + 2)
      + 16777216 * load8 m (o + 3)) / 16777216 % 256 = load8 m (o + 3) := by omega
  rw [e0, e1, e2, e3]

theorem load8_of_drop (msg : List Nat) (a : Nat) (X r : List Nat) (j : Nat)
    (h : msg.drop a = X ++ r) (hj : j < X.length) : load8 msg (a + j) = load8 X j := by
  unfold load8
  rw [List.getD_eq_getElem?_getD, List.getD_eq_getElem?_getD, getElem?_of_drop msg a X r j h hj]

theorem apply_payload_fields (data : Nat) (body : List Nat) (pkt : PacketView) :
    (apply_payload data body pkt).payload = some data
      ∧ (apply_payload data body pkt).payload_len = body.length
      ∧ (20 ≤ body.length →
          (apply_payload data body pkt).protocol = load8 body 9
          ∧ (apply_payload data body pkt).src_ip = load32 body 12
          ∧ (apply_payload data body pkt).dst_ip = load32 body 16
          ∧ (ip_hdr_len body + 4 ≤ body.length →
              (apply_payload data body pkt).src_port = ntohs (load16 body (ip_hdr_len body))
              ∧ (apply_payload data body pkt).dst_port
                  = ntohs (load16 body (ip_hdr_len body + 2)))) := by
  have e : load8 body 0 % 16 * 4 % 256 = ip_hdr_len body := by
    unfold ip_hdr_len ip_ihl; omega
  unfold apply_payload
  simp only [e]
  refine ⟨?_, ?_, ?_⟩
  · split_ifs <;> rfl
  · split_ifs <;> rfl
  · intro h20
    rw [if_pos h20]
    refine ⟨?_, ?_, ?_, ?_⟩
    · split_ifs <;> rfl
    · split_ifs <;> rfl
    · split_ifs <;> rfl
    · intro hp
      rw [if_pos hp]
      exact ⟨rfl, rfl⟩

/-- C30: take a message of `nlmsg_len` bytes (below 2^31) whose attributes are
well-formed and fit the message, among them a PACKET_HDR whose body begins
with the big-endian `id`, a MARK whose body begins with the big-endian
`mark` and a PAYLOAD with body `pl.body`, each the last of its type.  Then
`parse_packet` on a zeroed packet returns, with `packet_id = id`,
`mark = mark`, the payload view at the body of the PAYLOAD attribute with
`payload_len = nla_len - 4`, the bytes under the view being that body; for a
payload of at least 20 bytes `protocol` is byte 9 and `src_ip`, `dst_ip` hold
in memory the payload bytes 12..15 and 16..19, and for one of at least
`ihl * 4 + 4` bytes the ports are the big-endian values at `ihl * 4` and
`ihl * 4 + 2`.  The return value is 0 when `id` is not 0 and -1 when it is. -/
theorem C30_parse_packet_fields (msg : List Nat) (nlmsg_len nlmsg_type : Nat)
    (hdr_rest nfg after : List Nat) (attrs h1 h2 m1 m2 p1 p2 : List NlAttr)
    (hdr mk pl : NlAttr) (id mark : Nat) (r1 r2 : List Nat)
    (hmsg : msg = nl_message nlmsg_len nlmsg_type hdr_rest nfg attrs ++ after)
    (hrest : hdr_rest.length = 10) (hnfg : nfg.length = 4) (hlen : nlmsg_len < 2 ^ 31)
    (hwf : ∀ a ∈ attrs, wf_nla a) (hfit : nlas_fit nlmsg_len 20 attrs)
    (hh : attrs = h1 ++ hdr :: h2) (hht : hdr.nla_type % 16384 = NFQA_PACKET_HDR)
    (hh2 : ∀ a ∈ h2, a.nla_type % 16384 ≠ NFQA_PACKET_HDR)
    (hhb : hdr.body = be32 id ++ r1) (hid : id < 2 ^ 32)
    (hm : attrs = m1 ++ mk :: m2) (hmt : mk.nla_type % 16384 = NFQA_MARK)
    (hm2 : ∀ a ∈ m2, a.nla_type % 16384 ≠ NFQA_MARK)
    (hmb : mk.body = be32 mark ++ r2) (hmark : mark < 2 ^ 32)
    (hp : attrs = p1 ++ pl :: p2) (hpt : pl.nla_type % 16384 = NFQA_PAYLOAD)
    (hp2 : ∀ a ∈ p2, a.nla_type % 16384 ≠ NFQA_PAYLOAD) (hb : bytes_ok pl.body) :
    ∃ pkt : PacketView,
      parse_packet msg zero_packet = .done (if id ≠ 0 then 0 else -1) pkt
        ∧ pkt.packet_id = id ∧ pkt.mark = mark
        ∧ pkt.payload = some (20 + (encode_nlas p1).length + 4)
        ∧ pkt.payload_len = pl.body.length
        ∧ pkt.payload_len + 4 = load16 msg (20 + (encode_nlas p1).length)
        ∧ (msg.drop (20 + (encode_nlas p1).length + 4)).take pkt.payload_len = pl.body
        ∧ (20 ≤ pl.body.length →
            pkt.protocol = load8 pl.body 9
            ∧ le32 pkt.src_ip = (pl.body.drop 12).take 4
            ∧ le32 pkt.dst_ip = (pl.body.drop 16).take 4
            ∧ (ip_hdr_len pl.body + 4 ≤ pl.body.length →
                pkt.src_port = 256 * load8 pl.body (ip_hdr_len pl.body)
                    + load8 pl.body (ip_hdr_len pl.body + 1)
                ∧ pkt.dst_port = 256 * load8 pl.body (ip_hdr_len pl.body + 2)
                    + load8 pl.body (ip_hdr_len pl.body + 3))) := by
  have hne : attrs ≠ [] := by rw [hh]; simp
  have hP := parse_packet_message nlmsg_len nlmsg_type hdr_rest nfg attrs after zero_packet
    hrest hnfg hlen hne hwf hfit
  rw [← hmsg] at hP
  have hpid : (apply_nlas 20 attrs zero_packet).packet_id = id := by
    rw [hh, apply_nlas_append]
    show (apply_nlas _ h2 (apply_nla _ hdr _)).packet_id = id
    rw [apply_nlas_packet_id h2 _ _ hh2]
    unfold apply_nla
    rw [if_pos (show hdr.nla_type % 16384 = 1 from hht), hhb]
    exact ntohl_load32_be32 id r1 hid
  have hmk : (apply_nlas 20 attrs zero_packet).mark = mark := by
    rw [hm, apply_nlas_append]
    show (apply_nlas _ m2 (apply_nla _ mk _)).mark = mark
    rw [apply_nlas_mark m2 _ _ hm2]
    unfold apply_nla
    have h1 : ¬ mk.nla_type % 16384 = 1 := by rw [hmt]; decide
    rw [if_neg h1, if_pos (show mk.nla_type % 16384 = 3 from hmt), hmb]
    exact ntohl_load32_be32 mark r2 hmark
  have hpl : ∃ q, apply_nlas 20 attrs zero_packet
      = apply_nlas (20 + (encode_nlas p1).length + (encode_nla pl).length) p2
          (apply_payload (20 + (encode_nlas p1).length + 4) pl.body q) := by
    refine ⟨apply_nlas 20 p1 zero_packet, ?_⟩
    rw [hp, apply_nlas_append]
    show apply_nlas _ p2 (apply_nla _ pl _) = _
    unfold apply_nla
    have h1 : ¬ pl.nla_type % 16384 = 1 := by rw [hpt]; decide
    have h3 : ¬ pl.nla_type % 16384 = 3 := by rw [hpt]; decide
    rw [if_neg h1, if_neg h3, if_pos (show pl.nla_type % 16384 = 10 from hpt)]
  obtain ⟨q, hq⟩ := hpl
  obtain ⟨k1, k2, k3, k4, k5, k6, k7⟩ := apply_nlas_payload p2
    (20 + (encode_nlas p1).length + (encode_nla pl).length)
    (apply_payload (20 + (encode_nlas p1).length + 4) pl.body q) hp2
  rw [← hq] at k1 k2 k3 k4 k5 k6 k7
  obtain ⟨f1, f2, f3⟩ := apply_payload_fields (20 + (encode_nlas p1).length + 4) pl.body q
  have hd : msg.drop (20 + (encode_nlas p1).length)
      = encode_nla pl ++ (encode_nlas p2 ++ after) := by
    have h0 := nl_message_drop nlmsg_len nlmsg_type hdr_rest nfg attrs after hrest hnfg
    rw [← hmsg] at h0
    have h1 : msg.drop 20 = encode_nlas p1 ++ (encode_nla pl ++ (encode_nlas p2 ++ after)) := by
      rw [h0, hp, encode_nlas_append]; simp [encode_nlas]
    exact drop_of_drop msg 20 _ _ h1
  have hwp : wf_nla pl := hwf pl (by rw [hp]; simp)
  have hl16 : load16 msg (20 + (encode_nlas p1).length) = 4 + pl.body.length := by
    have hlen2 := encode_nla_length pl
    have a0 := load8_of_drop msg _ _ _ 0 hd (by omega)
    have a1 := load8_of_drop msg _ _ _ 1 hd (by omega)
    rw [Nat.add_zero] at a0
    rw [load16_eq, a0, a1, ← (load16_encode_nla pl hwp).1, load16_eq]
  refine ⟨apply_nlas 20 attrs zero_packet, ?_, hpid, hmk, k1.trans f1, k2.trans f2, ?_, ?_, ?_⟩
  · rw [hP]
    unfold parse_ret
    rw [hpid]
  · rw [hl16, k2.trans f2]; omega
  · rw [k2.trans f2, encode_nla_body msg _ pl _ hd, List.take_left]
  · intro h20
    obtain ⟨g1, g2, g3, g4⟩ := f3 h20
    refine ⟨k3.trans g1, ?_, ?_, ?_⟩
    · rw [k4.trans g2]; exact le32_load32 pl.body hb 12 (by omega)
    · rw [k5.trans g3]; exact le32_load32 pl.body hb 16 (by omega)
    · intro hpo
      obtain ⟨g5, g6⟩ := g4 hpo
      refine ⟨?_, ?_⟩
      · rw [k6.trans g5]; exact ntohs_load16 pl.body hb _
      · rw [k7.trans g6]; exact ntohs_load16 pl.body hb _

/-- C30 at the packet message of 68 bytes with packet id 7 and mark 5
(PACKET_HDR, MARK, PAYLOAD in this order, a payload of 24 bytes): the call
returns 0 with packet id 7, mark 5, a view of 24 bytes at offset 44,
protocol 6, source port 49152 and destination port 443. -/
theorem C30_parse_packet_fields_witness :
    (∀ a ∈ sample_nl_attrs 7 5, wf_nla a) ∧ nlas_fit 68 20 (sample_nl_attrs 7 5)
      ∧ ∃ pkt : PacketView,
        parse_packet (sample_nl_message 768 7 5 ++ []) zero_packet
            = .done (if 7 ≠ 0 then 0 else -1) pkt
          ∧ pkt.packet_id = 7 ∧ pkt.mark = 5
          ∧ pkt.payload = some (20 + (encode_nlas [⟨1, be32 7 ++ [8, 0, 3], [0]⟩,
              ⟨3, be32 5, []⟩]).length + 4)
          ∧ pkt.payload_len = sample_ip24.length
          ∧ pkt.payload_len + 4 = load16 (sample_nl_message 768 7 5 ++ [])
              (20 + (encode_nlas [⟨1, be32 7 ++ [8, 0, 3], [0]⟩, ⟨3, be32 5, []⟩]).length)
          ∧ ((sample_nl_message 768 7 5 ++ []).drop (20 + (encode_nlas
              [⟨1, be32 7 ++ [8, 0, 3], [0]⟩, ⟨3, be32 5, []⟩]).length + 4)).take pkt.payload_len
              = sample_ip24
          ∧ (20 ≤ sample_ip24.length →
              pkt.protocol = load8 sample_ip24 9
              ∧ le32 pkt.src_ip = (sample_ip24.drop 12).take 4
              ∧ le32 pkt.dst_ip = (sample_ip24.drop 16).take 4
              ∧ (ip_hdr_len sample_ip24 + 4 ≤ sample_ip24.length →
                  pkt.src_port = 256 * load8 sample_ip24 (ip_hdr_len sample_ip24)
                      + load8 sample_ip24 (ip_hdr_len sample_ip24 + 1)
                  ∧ pkt.dst_port = 256 * load8 sample_ip24 (ip_hdr_len sample_ip24 + 2)
                      + load8 sample_ip24 (ip_hdr_len sample_ip24 + 3))) :=
  ⟨by decide, by decide,
    C30_parse_packet_fields (sample_nl_message 768 7 5 ++ []) 68 768
      [0, 0, 0, 0, 0, 0, 0, 0, 0, 0] [2, 0, 0, 0] [] (sample_nl_attrs 7 5)
      [] [⟨3, be32 5, []⟩, ⟨10, sample_ip24, []⟩]
      [⟨1, be32 7 ++ [8, 0, 3], [0]⟩] [⟨10, sample_ip24, []⟩]
      [⟨1, be32 7 ++ [8, 0, 3], [0]⟩, ⟨3, be32 5, []⟩] []
      ⟨1, be32 7 ++ [8, 0, 3], [0]⟩ ⟨3, be32 5, []⟩ ⟨10, sample_ip24, []⟩ 7 5 [8, 0, 3] []
      rfl rfl rfl (by decide) (by decide) (by decide) rfl (by decide) (by decide) rfl
      (by decide) rfl (by decide) (by decide) (by simp) (by decide) rfl (by decide)
      (by decide) (by decide)⟩

/-! ## Termination of the attribute walk (claim C39) -/

theorem NFA_ALIGN_SIZE_ge (n : Nat) :
    n ≤ NFA_ALIGN_SIZE n ∧ NFA_ALIGN_SIZE n < n + 4 ∧ NFA_ALIGN_SIZE n % 4 = 0 := by
  unfold NFA_ALIGN_SIZE
  omega

theorem parse_loop_fuel (msg : List Nat) (limit : Nat) :
    ∀ (fuel attr : Nat) (attr_len : Int) (pkt : PacketView),
      0 < fuel → attr_len < (fuel : Int) →
      parse_loop msg limit fuel attr attr_len pkt ≠ .no_fuel
        ∧ ∀ fuel2 : Nat, 0 < fuel2 → attr_len < (fuel2 : Int) →
            parse_loop msg limit fuel2 attr attr_len pkt
              = parse_loop msg limit fuel attr attr_len pkt := by
  intro fuel
  induction fuel with
  | zero => intro attr attr_len pkt h; exact absurd h (by decide)
  | succ n ih =>
    intro attr attr_len pkt _ hlt
    by_cases hpos : attr_len > 0
    · cases hr : nl_read16 msg limit attr with
      | error o =>
        refine ⟨?_, ?_⟩
        · unfold parse_loop
          simp only [if_pos hpos, hr]
          exact fun h => ParseResult.noConfusion h
        · intro fuel2 h2 _
          obtain ⟨m, rfl⟩ : ∃ m, fuel2 = m + 1 := ⟨fuel2 - 1, by omega⟩
          unfold parse_loop
          simp only [if_pos hpos, hr]
      | ok nla_len =>
        by_cases h4 : nla_len ≥ 4
        · cases ha : parse_attr msg limit attr nla_len pkt with
          | error o =>
            refine ⟨?_, ?_⟩
            · unfold parse_loop
              simp only [if_pos hpos, hr, if_pos h4, ha]
              exact fun h => ParseResult.noConfusion h
            · intro fuel2 h2 _
              obtain ⟨m, rfl⟩ : ∃ m, fuel2 = m + 1 := ⟨fuel2 - 1, by omega⟩
              unfold parse_loop
              simp only [if_pos hpos, hr, if_pos h4, ha]
          | ok p =>
            have hal := NFA_ALIGN_SIZE_ge nla_len
            have hn : 0 < n := by omega
            have hi := ih (attr + NFA_ALIGN_SIZE nla_len)
              (attr_len - (NFA_ALIGN_SIZE nla_len : Nat)) p hn (by omega)
            refine ⟨?_, ?_⟩
            · unfold parse_loop
              simp only [if_pos hpos, hr, if_pos h4, ha]
              exact hi.1
            · intro fuel2 h2 hlt2
              obtain ⟨m, rfl⟩ : ∃ m, fuel2 = m + 1 := ⟨fuel2 - 1, by omega⟩
              have hm : 0 < m := by omega
              have e := hi.2 m hm (by omega)
              rw [parse_loop, parse_loop]
              simp only [if_pos hpos, hr, if_pos h4, ha]
              exact e
        · refine ⟨?_, ?_⟩
          · unfold parse_loop
            simp only [if_pos hpos, hr, if_neg h4]
            exact fun h => ParseResult.noConfusion h
          · intro fuel2 h2 _
            obtain ⟨m, rfl⟩ : ∃ m, fuel2 = m + 1 := ⟨fuel2 - 1, by omega⟩
            unfold parse_loop
            simp only [if_pos hpos, hr, if_neg h4]
    · refine ⟨?_, ?_⟩
      · unfold parse_loop
        simp only [if_neg hpos]
        exact fun h => ParseResult.noConfusion h
      · intro fuel2 h2 _
        obtain ⟨m, rfl⟩ : ∃ m, fuel2 = m + 1 := ⟨fuel2 - 1, by omega⟩
        unfold parse_loop
        simp only [if_neg hpos]

theorem parse_packet_fuel (msg : List Nat) :
    to_int32 (load32 msg 0 + 4294967296 - 16 - 4) < ((load32 msg 0 + 1 : Nat) : Int) := by
  unfold to_int32
  split_ifs <;> omega

/-- C39: the attribute walk of `parse_packet` ends, whatever the message holds
and whatever bound `limit` is put on its reads.  Every pass of the loop that goes on takes `NFA_ALIGN_SIZE(nla_len)`, at least
4, off `attr_len`; so a loop that is given more tests of its condition than
`attr_len` never runs out of them, and its result does not depend on how
many more it is given.  `parse_packet`, which gives `nlmsg_len + 1`, always
returns: its result is a fault or a return value with a packet. -/
theorem C39_walk_terminates (msg : List Nat) (limit fuel attr : Nat) (attr_len : Int)
    (pkt : PacketView) (hfuel : 0 < fuel) (hlen : attr_len < (fuel : Int)) :
    (∀ nla_len : Nat, 4 ≤ nla_len → 4 ≤ NFA_ALIGN_SIZE nla_len)
      ∧ parse_loop msg limit fuel attr attr_len pkt ≠ .no_fuel
      ∧ (∀ fuel2 : Nat, 0 < fuel2 → attr_len < (fuel2 : Int) →
          parse_loop msg limit fuel2 attr attr_len pkt
            = parse_loop msg limit fuel attr attr_len pkt)
      ∧ parse_packet msg pkt ≠ .no_fuel := by
  refine ⟨fun n hn => ?_, (parse_loop_fuel msg limit fuel attr attr_len pkt hfuel hlen).1,
    (parse_loop_fuel msg limit fuel attr attr_len pkt hfuel hlen).2, ?_⟩
  · have := NFA_ALIGN_SIZE_ge n; omega
  · unfold parse_packet
    exact (parse_loop_fuel msg (load32 msg 0) (load32 msg 0 + 1) 20 _ pkt (by omega)
      (parse_packet_fuel msg)).1

/-- C39 at the message of 68 bytes with three attributes: with 49 tests (48 is
what is left of the message behind the headers) the walk returns the packet,
and so does `parse_packet`. -/
theorem C39_walk_terminates_witness :
    parse_loop (sample_nl_message 768 7 5) 68 49 20 48 zero_packet ≠ .no_fuel
      ∧ parse_loop (sample_nl_message 768 7 5) 68 100 20 48 zero_packet
          = parse_loop (sample_nl_message 768 7 5) 68 49 20 48 zero_packet
      ∧ parse_packet (sample_nl_message 768 7 5) zero_packet ≠ .no_fuel :=
  have h := C39_walk_terminates (sample_nl_message 768 7 5) 68 49 20 48 zero_packet
    (by decide) (by decide)
  ⟨h.2.1, h.2.2.1 100 (by decide) (by decide), h.2.2.2⟩


/-! ## Verdicts and counters of the packet callback (claims C36, C40) -/

theorem apply_method_cases (g : GBypass) (w : World) (packet : NfqueuePacket) :
    ((apply_method g w packet).verdict = .NFQUEUE_ACCEPT ∧ (apply_method g w packet).g = g)
      ∨ ((apply_method g w packet).verdict = .NFQUEUE_DROP
          ∧ (apply_method g w packet).g = count_bypassed g ∧ fragmenting_method g) := by
  unfold apply_method fragmenting_method
  by_cases m1 : g.settings.method = 1
  · simp only [if_pos m1]
    split_ifs
    · exact Or.inr ⟨rfl, rfl, Or.inl m1⟩
    · exact Or.inl ⟨rfl, rfl⟩
  · by_cases m2 : g.settings.method = 2
    · simp only [if_neg m1, if_pos m2]
      split_ifs
      · exact Or.inr ⟨rfl, rfl, Or.inr (Or.inl m2)⟩
      · exact Or.inl ⟨rfl, rfl⟩
    · by_cases m3 : g.settings.method = 3
      · simp only [if_neg m1, if_neg m2, if_pos m3]
        split_ifs
        · exact Or.inr ⟨rfl, rfl, Or.inr (Or.inr (Or.inl m3))⟩
        · exact Or.inl ⟨rfl, rfl⟩
      · by_cases m4 : g.settings.method = 4
        · simp only [if_neg m1, if_neg m2, if_neg m3, if_pos m4]
          split_ifs
          · exact Or.inr ⟨rfl, rfl, Or.inr (Or.inr (Or.inr m4))⟩
          · exact Or.inl ⟨rfl, rfl⟩
        · simp only [if_neg m1, if_neg m2, if_neg m3, if_neg m4]
          exact Or.inl ⟨trivial, trivial⟩

theorem apply_method_none (g : GBypass) (w : World) (packet : NfqueuePacket)
    (h : ¬ fragmenting_method g) : apply_method g w packet = ⟨.NFQUEUE_ACCEPT, g, []⟩ := by
  unfold fragmenting_method at h
  unfold apply_method
  simp only [if_neg (fun c => h (Or.inl c)), if_neg (fun c => h (Or.inr (Or.inl c))),
    if_neg (fun c => h (Or.inr (Or.inr (Or.inl c)))),
    if_neg (fun c => h (Or.inr (Or.inr (Or.inr c))))]

/-- The fragmenting step returns ACCEPT and leaves the counters, or returns
DROP and counts the packet as bypassed. -/
theorem inject_stats (g : GBypass) (env : SocketEnv) (w : World) (packet : NfqueuePacket) :
    ((inject_fragments g env w packet).verdict = .NFQUEUE_ACCEPT
        ∧ (inject_fragments g env w packet).g.stats = g.stats)
      ∨ ((inject_fragments g env w packet).verdict = .NFQUEUE_DROP
          ∧ (inject_fragments g env w packet).g.stats = (count_bypassed g).stats
          ∧ fragmenting_method g) := by
  rcases inject_cases g env w packet with ⟨a, -, c, -⟩ | ⟨g2, e, hs, ht, -⟩
  · exact Or.inl ⟨a, c⟩
  · rw [e]
    rcases apply_method_cases g2 w packet with ⟨a, b⟩ | ⟨a, b, c⟩
    · exact Or.inl ⟨a, by rw [b, ht]⟩
    · refine Or.inr ⟨a, ?_, ?_⟩
      · rw [b]; unfold count_bypassed; simp only [ht]
      · unfold fragmenting_method at c ⊢
        rw [← hs]; exact c

theorem inject_none (g : GBypass) (env : SocketEnv) (w : World) (packet : NfqueuePacket)
    (h : ¬ fragmenting_method g) :
    (inject_fragments g env w packet).verdict = .NFQUEUE_ACCEPT
      ∧ (inject_fragments g env w packet).sends = []
      ∧ (inject_fragments g env w packet).g.stats = g.stats := by
  rcases inject_cases g env w packet with ⟨a, b, c, -⟩ | ⟨g2, e, hs, ht, -⟩
  · exact ⟨a, b, c⟩
  · have h2 : ¬ fragmenting_method g2 := by
      unfold fragmenting_method at h ⊢
      rw [hs]; exact h
    rw [e, apply_method_none g2 w packet h2]
    exact ⟨rfl, rfl, ht⟩

/-- The four ways through `dpi_bypass_process_packet`. -/
theorem process_cases (g : GBypass) (env : SocketEnv) (w : World) (packet : NfqueuePacket) :
    (packet.payload.length < 40
        ∧ dpi_bypass_process_packet g env w packet = ⟨.NFQUEUE_ACCEPT, g, []⟩)
      ∨ (40 ≤ packet.payload.length
          ∧ (dpi_bypass_process_packet g env w packet
                = ⟨.NFQUEUE_ACCEPT, count_seen g packet.payload.length, []⟩
            ∨ (dpi_bypass_process_packet g env w packet
                  = ⟨.NFQUEUE_DROP, count_dropped (count_seen g packet.payload.length), []⟩
                ∧ g.settings.block_quic = true ∧ ip_protocol packet.payload = 17
                ∧ (packet.dst_port = 443 ∨ packet.dst_port = 80))
            ∨ (dpi_bypass_process_packet g env w packet
                  = inject_fragments (count_seen g packet.payload.length) env w packet
                ∧ ip_protocol packet.payload = 6))) := by
  unfold dpi_bypass_process_packet
  simp only
  split_ifs with c1 c2 c3 c4 c5 c6 c7 c8
  · exact Or.inl ⟨c1, rfl⟩
  · exact Or.inr ⟨by omega, Or.inl rfl⟩
  · exact Or.inr ⟨by omega, Or.inl rfl⟩
  · exact Or.inr ⟨by omega, Or.inr (Or.inl ⟨rfl, c4.1, c4.2.1, c4.2.2⟩)⟩
  · exact Or.inr ⟨by omega, Or.inl rfl⟩
  · exact Or.inr ⟨by omega, Or.inl rfl⟩
  · exact Or.inr ⟨by omega, Or.inl rfl⟩
  · exact Or.inr ⟨by omega, Or.inl rfl⟩
  · exact Or.inr ⟨by omega, Or.inr (Or.inr ⟨rfl, by omega⟩)⟩


/-- Verdict and counters after one call: ACCEPT with the counters as they
were (frames below 40 bytes) or with the frame counted, or DROP with the
frame counted and one of `packets_dropped`, `packets_bypassed` raised. -/
theorem process_stats (g : GBypass) (env : SocketEnv) (w : World) (packet : NfqueuePacket) :
    (packet.payload.length < 40
        ∧ (dpi_bypass_process_packet g env w packet).verdict = .NFQUEUE_ACCEPT
        ∧ (dpi_bypass_process_packet g env w packet).g.stats = g.stats)
      ∨ (40 ≤ packet.payload.length
          ∧ (dpi_bypass_process_packet g env w packet).verdict = .NFQUEUE_ACCEPT
          ∧ (dpi_bypass_process_packet g env w packet).g.stats
              = (count_seen g packet.payload.length).stats)
      ∨ (40 ≤ packet.payload.length
          ∧ (dpi_bypass_process_packet g env w packet).verdict = .NFQUEUE_DROP
          ∧ (dpi_bypass_process_packet g env w packet).g.stats
              = (count_dropped (count_seen g packet.payload.length)).stats)
      ∨ (40 ≤ packet.payload.length
          ∧ (dpi_bypass_process_packet g env w packet).verdict = .NFQUEUE_DROP
          ∧ (dpi_bypass_process_packet g env w packet).g.stats
              = (count_bypassed (count_seen g packet.payload.length)).stats) := by
  rcases process_cases g env w packet with ⟨h, e⟩ | ⟨h, e | ⟨e, -⟩ | ⟨e, -⟩⟩
  · rw [e]; exact Or.inl ⟨h, rfl, rfl⟩
  · rw [e]; exact Or.inr (Or.inl ⟨h, rfl, rfl⟩)
  · rw [e]; exact Or.inr (Or.inr (Or.inl ⟨h, rfl, rfl⟩))
  · rw [e]
    rcases inject_stats (count_seen g packet.payload.length) env w packet with ⟨a, b⟩ | ⟨a, b, -⟩
    · exact Or.inr (Or.inl ⟨h, a, b⟩)
    · exact Or.inr (Or.inr (Or.inr ⟨h, a, b⟩))

/-- C36: for every state, packet and outcome of the socket calls, with `o` what
one call of `dpi_bypass_process_packet` gives: the verdict is DROP or ACCEPT;
it is DROP exactly when one of `packets_bypassed`, `packets_dropped` is one
more (modulo 2^64) and the other has its old value, and ACCEPT exactly when
both have their old values; `packets_total` is one more and `bytes_total` is
more by the frame length (modulo 2^64) for frames of at least 40 bytes, and
both keep their values for shorter frames.  When no counter wraps, no counter
gets smaller, and `packets_bypassed + packets_dropped <= packets_total` holds
afterwards if it held before. -/
theorem C36_counters (g : GBypass) (env : SocketEnv) (w : World) (packet : NfqueuePacket)
    (o : Outcome) (ho : o = dpi_bypass_process_packet g env w packet) :
    (o.verdict = .NFQUEUE_DROP ∨ o.verdict = .NFQUEUE_ACCEPT)
      ∧ (o.verdict = .NFQUEUE_DROP ↔
          (o.g.stats.packets_bypassed = (g.stats.packets_bypassed + 1) % 2 ^ 64
              ∧ o.g.stats.packets_dropped = g.stats.packets_dropped)
            ∨ (o.g.stats.packets_dropped = (g.stats.packets_dropped + 1) % 2 ^ 64
              ∧ o.g.stats.packets_bypassed = g.stats.packets_bypassed))
      ∧ (o.verdict = .NFQUEUE_ACCEPT ↔
          o.g.stats.packets_bypassed = g.stats.packets_bypassed
            ∧ o.g.stats.packets_dropped = g.stats.packets_dropped)
      ∧ (40 ≤ packet.payload.length →
          o.g.stats.packets_total = (g.stats.packets_total + 1) % 2 ^ 64
            ∧ o.g.stats.bytes_total = (g.stats.bytes_total + packet.payload.length) % 2 ^ 64)
      ∧ (packet.payload.length < 40 →
          o.g.stats.packets_total = g.stats.packets_total
            ∧ o.g.stats.bytes_total = g.stats.bytes_total)
      ∧ (g.stats.packets_total + 1 < 2 ^ 64 → g.stats.packets_bypassed + 1 < 2 ^ 64 →
          g.stats.packets_dropped + 1 < 2 ^ 64 →
          g.stats.bytes_total + packet.payload.length < 2 ^ 64 →
          g.stats.packets_total ≤ o.g.stats.packets_total
            ∧ g.stats.packets_bypassed ≤ o.g.stats.packets_bypassed
            ∧ g.stats.packets_dropped ≤ o.g.stats.packets_dropped
            ∧ g.stats.bytes_total ≤ o.g.stats.bytes_total
            ∧ (g.stats.packets_bypassed + g.stats.packets_dropped ≤ g.stats.packets_total →
                o.g.stats.packets_bypassed + o.g.stats.packets_dropped
                  ≤ o.g.stats.packets_total)) := by
  subst ho
  have hd : NfqueueVerdict.NFQUEUE_DROP ≠ NfqueueVerdict.NFQUEUE_ACCEPT := by decide
  have p64 : (2 : Nat) ^ 64 = 18446744073709551616 := by norm_num
  rcases process_stats g env w packet with ⟨h, a, b⟩ | ⟨h, a, b⟩ | ⟨h, a, b⟩ | ⟨h, a, b⟩
  · rw [a, b, p64]
    refine ⟨Or.inr rfl, ⟨fun c => absurd c.symm hd, fun c => ?_⟩,
      ⟨fun _ => ⟨rfl, rfl⟩, fun _ => rfl⟩, fun c => ?_, fun _ => ⟨rfl, rfl⟩, ?_⟩
    · exfalso; omega
    · exfalso; omega
    · intro _ _ _ _
      exact ⟨Nat.le_refl _, Nat.le_refl _, Nat.le_refl _, Nat.le_refl _, fun c => c⟩
  · have e1 : (count_seen g packet.payload.length).stats.packets_total
        = (g.stats.packets_total + 1) % 18446744073709551616 := rfl
    have e2 : (count_seen g packet.payload.length).stats.bytes_total
        = (g.stats.bytes_total + packet.payload.length) % 18446744073709551616 := rfl
    have e3 : (count_seen g packet.payload.length).stats.packets_bypassed
        = g.stats.packets_bypassed := rfl
    have e4 : (count_seen g packet.payload.length).stats.packets_dropped
        = g.stats.packets_dropped := rfl
    rw [a, b, e1, e2, e3, e4, p64]
    refine ⟨Or.inr rfl, ⟨fun c => absurd c.symm hd, fun c => ?_⟩,
      ⟨fun _ => ⟨rfl, rfl⟩, fun _ => rfl⟩, fun _ => ⟨rfl, rfl⟩, fun c => ?_, ?_⟩
    · exfalso; omega
    · exfalso; omega
    · intro _ _ _ _
      refine ⟨by omega, Nat.le_refl _, Nat.le_refl _, by omega, fun c => by omega⟩
  · have e1 : (count_dropped (count_seen g packet.payload.length)).stats.packets_total
        = (g.stats.packets_total + 1) % 18446744073709551616 := rfl
    have e2 : (count_dropped (count_seen g packet.payload.length)).stats.bytes_total
        = (g.stats.bytes_total + packet.payload.length) % 18446744073709551616 := rfl
    have e3 : (count_dropped (count_seen g packet.payload.length)).stats.packets_bypassed
        = g.stats.packets_bypassed := rfl
    have e4 : (count_dropped (count_seen g packet.payload.length)).stats.packets_dropped
        = (g.stats.packets_dropped + 1) % 18446744073709551616 := rfl
    rw [a, b, e1, e2, e3, e4, p64]
    refine ⟨Or.inl rfl, ⟨fun _ => Or.inr ⟨rfl, rfl⟩, fun _ => rfl⟩,
      ⟨fun c => absurd c hd, fun c => ?_⟩, fun _ => ⟨rfl, rfl⟩, fun c => ?_, ?_⟩
    · exfalso; omega
    · exfalso; omega
    · intro _ _ _ _
      refine ⟨by omega, Nat.le_refl _, by omega, by omega, fun c => by omega⟩
  · have e1 : (count_bypassed (count_seen g packet.payload.length)).stats.packets_total
        = (g.stats.packets_total + 1) % 18446744073709551616 := rfl
    have e2 : (count_bypassed (count_seen g packet.payload.length)).stats.bytes_total
        = (g.stats.bytes_total + packet.payload.length) % 18446744073709551616 := rfl
    have e3 : (count_bypassed (count_seen g packet.payload.length)).stats.packets_bypassed
        = (g.stats.packets_bypassed + 1) % 18446744073709551616 := rfl
    have e4 : (count_bypassed (count_seen g packet.payload.length)).stats.packets_dropped
        = g.stats.packets_dropped := rfl
    rw [a, b, e1, e2, e3, e4, p64]
    refine ⟨Or.inl rfl, ⟨fun _ => Or.inl ⟨rfl, rfl⟩, fun _ => rfl⟩,
      ⟨fun c => absurd c hd, fun c => ?_⟩, fun _ => ⟨rfl, rfl⟩, fun c => ?_, ?_⟩
    · exfalso; omega
    · exfalso; omega
    · intro _ _ _ _
      refine ⟨by omega, by omega, Nat.le_refl _, by omega, fun c => by omega⟩

/-- C36 at the HTTP request of 87 bytes under SPLIT with counters 0: if the
verdict is DROP one of the two counters is 1 and the other 0, the frame is
counted with its 87 bytes, and the sum of the two counters is at most 1. -/
theorem C36_counters_witness :
    ((dpi_bypass_process_packet (sample_g 1 2 4 false) sample_env sample_world
          (sample_packet (sample_frame 87 6 80 sample_request))).verdict = .NFQUEUE_DROP ↔
        ((dpi_bypass_process_packet (sample_g 1 2 4 false) sample_env sample_world
            (sample_packet (sample_frame 87 6 80 sample_request))).g.stats.packets_bypassed
              = (0 + 1) % 2 ^ 64
          ∧ (dpi_bypass_process_packet (sample_g 1 2 4 false) sample_env sample_world
            (sample_packet (sample_frame 87 6 80 sample_request))).g.stats.packets_dropped = 0)
        ∨ ((dpi_bypass_process_packet (sample_g 1 2 4 false) sample_env sample_world
            (sample_packet (sample_frame 87 6 80 sample_request))).g.stats.packets_dropped
              = (0 + 1) % 2 ^ 64
          ∧ (dpi_bypass_process_packet (sample_g 1 2 4 false) sample_env sample_world
            (sample_packet (sample_frame 87 6 80 sample_request))).g.stats.packets_bypassed = 0))
      ∧ (dpi_bypass_process_packet (sample_g 1 2 4 false) sample_env sample_world
          (sample_packet (sample_frame 87 6 80 sample_request))).g.stats.packets_total
            = (0 + 1) % 2 ^ 64
      ∧ (dpi_bypass_process_packet (sample_g 1 2 4 false) sample_env sample_world
          (sample_packet (sample_frame 87 6 80 sample_request))).g.stats.packets_bypassed
          + (dpi_bypass_process_packet (sample_g 1 2 4 false) sample_env sample_world
          (sample_packet (sample_frame 87 6 80 sample_request))).g.stats.packets_dropped
          ≤ (dpi_bypass_process_packet (sample_g 1 2 4 false) sample_env sample_world
          (sample_packet (sample_frame 87 6 80 sample_request))).g.stats.packets_total :=
  have h := C36_counters (sample_g 1 2 4 false) sample_env sample_world
    (sample_packet (sample_frame 87 6 80 sample_request)) _ rfl
  ⟨h.2.1, (h.2.2.2.1 (by decide)).1,
    (h.2.2.2.2.2 (by decide) (by decide) (by decide) (by decide)).2.2.2.2 (by decide)⟩

/-- C40: with a method that is none of SPLIT, SPLIT_REVERSE, DISORDER and
DISORDER_REVERSE (so with NONE), for every packet and every answer of the
socket calls: nothing is sent, `packets_bypassed` keeps its value, a TCP
packet gets ACCEPT, and when the verdict is DROP the frame has at least 40
bytes, `block_quic` is set and the packet is UDP to port 443 or 80. -/
theorem C40_method_none (g : GBypass) (env : SocketEnv) (w : World) (packet : NfqueuePacket)
    (hm : ¬ fragmenting_method g) :
    (dpi_bypass_process_packet g env w packet).sends = []
      ∧ (dpi_bypass_process_packet g env w packet).g.stats.packets_bypassed
          = g.stats.packets_bypassed
      ∧ (ip_protocol packet.payload = 6 →
          (dpi_bypass_process_packet g env w packet).verdict = .NFQUEUE_ACCEPT)
      ∧ ((dpi_bypass_process_packet g env w packet).verdict = .NFQUEUE_ACCEPT
          ∨ (dpi_bypass_process_packet g env w packet).verdict = .NFQUEUE_DROP)
      ∧ ((dpi_bypass_process_packet g env w packet).verdict = .NFQUEUE_DROP →
          40 ≤ packet.payload.length ∧ g.settings.block_quic = true
            ∧ ip_protocol packet.payload = 17
            ∧ (packet.dst_port = 443 ∨ packet.dst_port = 80)) := by
  have hd : NfqueueVerdict.NFQUEUE_ACCEPT ≠ NfqueueVerdict.NFQUEUE_DROP := by decide
  have hm2 : ¬ fragmenting_method (count_seen g packet.payload.length) := hm
  rcases process_cases g env w packet with ⟨h, e⟩ | ⟨h, e | ⟨e, q1, q2, q3⟩ | ⟨e, -⟩⟩
  · rw [e]
    exact ⟨rfl, rfl, fun _ => rfl, Or.inl rfl, fun c => absurd c hd⟩
  · rw [e]
    exact ⟨rfl, rfl, fun _ => rfl, Or.inl rfl, fun c => absurd c hd⟩
  · rw [e]
    refine ⟨rfl, rfl, fun c => ?_, Or.inr rfl, fun _ => ⟨h, q1, q2, q3⟩⟩
    rw [q2] at c
    exact absurd c (by decide)
  · rw [e]
    obtain ⟨a, b, c⟩ := inject_none (count_seen g packet.payload.length) env w packet hm2
    refine ⟨b, ?_, fun _ => a, Or.inl a, fun c2 => ?_⟩
    · rw [c]; rfl
    · rw [a] at c2
      exact absurd c2 hd

/-- C40 at the HTTP request of 87 bytes to port 80 with method NONE: ACCEPT,
nothing sent, `packets_bypassed` still 0. -/
theorem C40_method_none_witness :
    (dpi_bypass_process_packet (sample_g 0 2 4 false) sample_env sample_world
        (sample_packet (sample_frame 87 6 80 sample_request))).sends = []
      ∧ (dpi_bypass_process_packet (sample_g 0 2 4 false) sample_env sample_world
        (sample_packet (sample_frame 87 6 80 sample_request))).g.stats.packets_bypassed = 0
      ∧ (dpi_bypass_process_packet (sample_g 0 2 4 false) sample_env sample_world
        (sample_packet (sample_frame 87 6 80 sample_request))).verdict = .NFQUEUE_ACCEPT :=
  have h := C40_method_none (sample_g 0 2 4 false) sample_env sample_world
    (sample_packet (sample_frame 87 6 80 sample_request)) (by decide)
  ⟨h.1, h.2.1, h.2.2.1 (by decide)⟩


/-! ## What `dpi_send_raw_packet` reports (claim C32) -/

/-- C32, counterexample: with the raw socket open and a packet of 40 bytes, a
`sendto` that takes only 10 of the 40 bytes makes `dpi_send_raw_packet`
return 0, the value for success, after one call of `sendto`. -/
theorem C32_counterexample :
    (10 : Int) < 40
      ∧ dpi_send_raw_packet_calls (sample_g 1 2 4 false) 10 (some sample_options_frame) 40 7
          = (0, [⟨3, sample_options_frame, 40, 7⟩])
      ∧ dpi_send_raw_packet (sample_g 1 2 4 false) 10 40 = 0 := by
  decide

/-- C32, amended: a short count is not a failure.  With the raw socket
initialised and open and a packet of at least 20 bytes, `sendto` is called
once, with the socket, the packet, its length and the address, and the return
value is 0 exactly when `sendto` did not return a negative value, and -1
otherwise; a call with the socket not initialised or closed, with `NULL`
or with fewer than 20 bytes returns -1 and does not call `sendto`. -/
theorem C32_send_reports (g : GBypass) (sendto_ret : Int) (p : List Nat) (len dst_ip : Nat)
    (hinit : g.raw_socket_initialized = true) (hsock : 0 ≤ g.raw_socket) (hlen : 20 ≤ len) :
    (dpi_send_raw_packet_calls g sendto_ret (some p) len dst_ip).2
        = [⟨g.raw_socket, p, len, dst_ip⟩]
      ∧ ((dpi_send_raw_packet_calls g sendto_ret (some p) len dst_ip).1 = 0 ↔ 0 ≤ sendto_ret)
      ∧ ((dpi_send_raw_packet_calls g sendto_ret (some p) len dst_ip).1 = -1 ↔ sendto_ret < 0)
      ∧ (dpi_send_raw_packet_calls g sendto_ret (some p) len dst_ip).1
          = dpi_send_raw_packet g sendto_ret len
      ∧ (∀ (g2 : GBypass) (q : Option (List Nat)) (len2 : Nat),
          g2.raw_socket_initialized = false ∨ g2.raw_socket < 0 ∨ q = none ∨ len2 < 20 →
          dpi_send_raw_packet_calls g2 sendto_ret q len2 dst_ip = (-1, [])) := by
  have h1 : ¬ (g.raw_socket_initialized = false ∨ g.raw_socket < 0) := by
    rw [hinit]
    rintro (c | c)
    · cases c
    · omega
  have h2 : ¬ len < 20 := by omega
  refine ⟨?_, ?_, ?_, ?_, ?_⟩
  · unfold dpi_send_raw_packet_calls
    simp only [if_neg h1, if_neg h2]
    split_ifs <;> rfl
  · unfold dpi_send_raw_packet_calls
    simp only [if_neg h1, if_neg h2]
    by_cases c : sendto_ret < 0
    · simp only [if_pos c]
      constructor
      · intro h; exact absurd h (by decide)
      · intro h; omega
    · simp only [if_neg c]
      exact ⟨fun _ => by omega, fun _ => trivial⟩
  · unfold dpi_send_raw_packet_calls
    simp only [if_neg h1, if_neg h2]
    by_cases c : sendto_ret < 0
    · simp only [if_pos c]
      exact ⟨fun _ => c, fun _ => trivial⟩
    · simp only [if_neg c]
      constructor
      · intro h; exact absurd h (by decide)
      · intro h; exact absurd h c
  · unfold dpi_send_raw_packet_calls dpi_send_raw_packet
    simp only [if_neg h1, if_neg h2]
    split_ifs <;> rfl
  · intro g2 q len2 hc
    unfold dpi_send_raw_packet_calls
    by_cases c1 : g2.raw_socket_initialized = false ∨ g2.raw_socket < 0
    · rw [if_pos c1]
    · rw [if_neg c1]
      cases q with
      | none => rfl
      | some p2 =>
        have hl : len2 < 20 := by
          rcases hc with c | c | c | c
          · exact absurd (Or.inl c) c1
          · exact absurd (Or.inr c) c1
          · cases c
          · exact c
        simp only [if_pos hl]

/-- C32 at a packet of 40 bytes: a `sendto` that returns 40, and one that
returns 10, give 0; one that returns -1 gives -1; with 19 bytes nothing is
sent. -/
theorem C32_send_reports_witness :
    (dpi_send_raw_packet_calls (sample_g 1 2 4 false) 40 (some sample_options_frame) 40 7).1 = 0
      ∧ (dpi_send_raw_packet_calls (sample_g 1 2 4 false) (-1) (some sample_options_frame)
          40 7).1 = -1
      ∧ dpi_send_raw_packet_calls (sample_g 1 2 4 false) 40 (some sample_options_frame) 19 7
          = (-1, []) :=
  ⟨(C32_send_reports (sample_g 1 2 4 false) 40 sample_options_frame 40 7 rfl (by decide)
      (by decide)).2.1.mpr (by decide),
    (C32_send_reports (sample_g 1 2 4 false) (-1) sample_options_frame 40 7 rfl (by decide)
      (by decide)).2.2.1.mpr (by decide),
    (C32_send_reports (sample_g 1 2 4 false) 40 sample_options_frame 40 7 rfl (by decide)
      (by decide)).2.2.2.2 (sample_g 1 2 4 false) (some sample_options_frame) 19
      (Or.inr (Or.inr (Or.inr (by decide))))⟩

/-! ## Header reads of the packet callback (claim C37) -/

theorem nl_read8_ok (mem : List Nat) (n i : Nat) (h : i < n) (hn : n ≤ mem.length) :
    nl_read8 mem n i = .ok (load8 mem i) := by
  unfold nl_read8
  rw [if_pos h, List.getElem?_eq_getElem (by omega), load8_eq mem i (by omega)]

theorem nl_read16_ok (mem : List Nat) (n i : Nat) (h : i + 1 < n) (hn : n ≤ mem.length) :
    nl_read16 mem n i = .ok (load16 mem i) := by
  unfold nl_read16
  rw [nl_read8_ok mem n i (by omega) hn, nl_read8_ok mem n (i + 1) h hn]
  rfl

theorem nl_read32_ok (mem : List Nat) (n i : Nat) (h : i + 3 < n) (hn : n ≤ mem.length) :
    nl_read32 mem n i = .ok (load32 mem i) := by
  unfold nl_read32
  rw [nl_read16_ok mem n i (by omega) hn, nl_read16_ok mem n (i + 2) (by omega) hn]
  simp only [load16, load32, show i + 2 + 1 = i + 3 from rfl]
  congr 1
  omega

theorem nl_read8_error (mem : List Nat) (n i o : Nat) (hn : n ≤ mem.length)
    (h : nl_read8 mem n i = .error o) : o = i ∧ n ≤ i := by
  by_cases c : i < n
  · rw [nl_read8_ok mem n i c hn] at h
    cases h
  · unfold nl_read8 at h
    rw [if_neg c] at h
    injection h with h
    exact ⟨h.symm, by omega⟩

/-- The only read of the header parse that can fall behind the frame is the
read of `tcp->doff`. -/
theorem parse_headers_fault (g : GBypass) (packet : NfqueuePacket) (o : Nat)
    (h : parse_headers g packet = .fault o) :
    o = ip_hdr_len packet.payload + 12 ∧ packet.payload.length ≤ o
      ∧ 40 ≤ packet.payload.length ∧ ip_protocol packet.payload = 6 := by
  have hn : packet.payload.length ≤ (packet.payload ++ packet.after).length := by
    rw [List.length_append]; omega
  unfold parse_headers at h
  simp only at h
  by_cases c1 : packet.payload.length < 40
  · rw [if_pos c1] at h; cases h
  · rw [if_neg c1] at h
    rw [nl_read8_ok _ _ 0 (by omega) hn, nl_read32_ok _ _ 12 (by omega) hn,
      nl_read32_ok _ _ 16 (by omega) hn, nl_read8_ok _ _ 9 (by omega) hn] at h
    simp only at h
    have e0 : load8 (packet.payload ++ packet.after) 0 = load8 packet.payload 0 :=
      load8_append_left _ _ 0 (by omega)
    have e9 : load8 (packet.payload ++ packet.after) 9 = load8 packet.payload 9 :=
      load8_append_left _ _ 9 (by omega)
    rw [e0, e9] at h
    split_ifs at h with c2 c3 c4 c5
    unfold parse_tcp_header at h
    cases hr : nl_read8 (packet.payload ++ packet.after) packet.payload.length
        (load8 packet.payload 0 % 16 * 4 + 12) with
    | error o2 =>
      rw [hr] at h
      injection h with h
      obtain ⟨a, b⟩ := nl_read8_error _ _ _ _ hn hr
      unfold ip_hdr_len ip_ihl ip_protocol
      refine ⟨by omega, by omega, by omega, by omega⟩
    | ok b =>
      rw [hr] at h
      simp only at h
      split_ifs at h with c6 c7
      · rw [nl_read8_ok _ _ _ (by omega) hn, nl_read32_ok _ _ _ (by omega) hn,
          nl_read32_ok _ _ _ (by omega) hn] at h
        simp only at h
        cases h
      · rw [nl_read8_ok _ _ _ (by omega) hn, nl_read32_ok _ _ _ (by omega) hn,
          nl_read32_ok _ _ _ (by omega) hn] at h
        simp only at h
        cases h

/-- The header parse with checked reads and `dpi_bypass_process_packet` agree:
a verdict of the parse is the verdict of the call, with nothing sent. -/
theorem parse_headers_verdict (g : GBypass) (env : SocketEnv) (w : World)
    (packet : NfqueuePacket) (v : NfqueueVerdict) (h : parse_headers g packet = .verdict v) :
    (dpi_bypass_process_packet g env w packet).verdict = v
      ∧ (dpi_bypass_process_packet g env w packet).sends = [] := by
  have hn : packet.payload.length ≤ (packet.payload ++ packet.after).length := by
    rw [List.length_append]; omega
  unfold parse_headers at h
  unfold dpi_bypass_process_packet ip_version ip_ihl ip_protocol tcp_doff
  simp only at h ⊢
  by_cases c1 : packet.payload.length < 40
  · rw [if_pos c1] at h ⊢
    injection h with h
    exact ⟨h, rfl⟩
  · rw [if_neg c1] at h ⊢
    rw [nl_read8_ok _ _ 0 (by omega) hn, nl_read32_ok _ _ 12 (by omega) hn,
      nl_read32_ok _ _ 16 (by omega) hn, nl_read8_ok _ _ 9 (by omega) hn] at h
    simp only at h
    have e0 : load8 (packet.payload ++ packet.after) 0 = load8 packet.payload 0 :=
      load8_append_left _ _ 0 (by omega)
    have e9 : load8 (packet.payload ++ packet.after) 9 = load8 packet.payload 9 :=
      load8_append_left _ _ 9 (by omega)
    rw [e0, e9] at h
    by_cases c2 : load8 packet.payload 0 / 16 % 16 ≠ 4
    · rw [if_pos c2] at h ⊢
      injection h with h
      exact ⟨h, rfl⟩
    · rw [if_neg c2] at h ⊢
      by_cases c3 : load8 packet.payload 0 % 16 * 4 < 20
          ∨ packet.payload.length < load8 packet.payload 0 % 16 * 4
      · rw [if_pos c3] at h ⊢
        injection h with h
        exact ⟨h, rfl⟩
      · rw [if_neg c3] at h ⊢
        by_cases c4 : g.settings.block_quic = true ∧ load8 packet.payload 9 = 17
            ∧ (packet.dst_port = 443 ∨ packet.dst_port = 80)
        · have c4' : (count_seen g packet.payload.length).settings.block_quic = true
              ∧ load8 packet.payload 9 = 17
              ∧ (packet.dst_port = 443 ∨ packet.dst_port = 80) := c4
          rw [if_pos c4] at h
          rw [if_pos c4']
          injection h with h
          exact ⟨h, rfl⟩
        · have c4' : ¬ ((count_seen g packet.payload.length).settings.block_quic = true
              ∧ load8 packet.payload 9 = 17
              ∧ (packet.dst_port = 443 ∨ packet.dst_port = 80)) := c4
          rw [if_neg c4] at h
          rw [if_neg c4']
          by_cases c5 : load8 packet.payload 9 ≠ 6
          · rw [if_pos c5] at h ⊢
            injection h with h
            exact ⟨h, rfl⟩
          · rw [if_neg c5] at h ⊢
            unfold parse_tcp_header at h
            cases hr : nl_read8 (packet.payload ++ packet.after) packet.payload.length
                (load8 packet.payload 0 % 16 * 4 + 12) with
            | error o2 =>
              rw [hr] at h
              cases h
            | ok b =>
              have hb : b = load8 (packet.payload ++ packet.after)
                  (load8 packet.payload 0 % 16 * 4 + 12) := by
                by_cases q : load8 packet.payload 0 % 16 * 4 + 12 < packet.payload.length
                · rw [nl_read8_ok _ _ _ q hn] at hr
                  injection hr with hr
                  exact hr.symm
                · unfold nl_read8 at hr
                  rw [if_neg q] at hr
                  cases hr
              subst hb
              rw [hr] at h
              simp only at h
              by_cases c6 : load8 (packet.payload ++ packet.after)
                    (load8 packet.payload 0 % 16 * 4 + 12) / 16 % 16 * 4 < 20
                  ∨ packet.payload.length < load8 packet.payload 0 % 16 * 4
                    + load8 (packet.payload ++ packet.after)
                      (load8 packet.payload 0 % 16 * 4 + 12) / 16 % 16 * 4
              · rw [if_pos c6] at h ⊢
                injection h with h
                exact ⟨h, rfl⟩
              · rw [if_neg c6] at h ⊢
                rw [nl_read8_ok _ _ _ (by omega) hn, nl_read32_ok _ _ _ (by omega) hn,
                  nl_read32_ok _ _ _ (by omega) hn] at h
                simp only at h
                split_ifs at h with c7
                · rw [if_pos c7]
                  injection h with h
                  exact ⟨h, rfl⟩

/-- C37, the read behind the frame: `tcp->doff` is read at `ihl * 4 + 12`
before the frame is compared with the end of the TCP header, and after it was
only compared with `ihl * 4`.  For the TCP frame of 40 bytes with `ihl` 8
the byte at offset 44 is read, for the frame of 60 bytes with `ihl` 15 the
byte at offset 72; both offsets are not below the frame length.  This is the
only such read: whenever the header parse reads at an offset `o` that is not
below the frame length, `o` is `ihl * 4 + 12` in a TCP frame of at least 40
bytes; and when the parse goes on to `should_bypass`, the two header reads
of `should_bypass` are inside the frame. -/
theorem C37_doff_read_behind_frame (g : GBypass) (packet : NfqueuePacket) (o a b : Nat) :
    sample_options_frame.length = 40
      ∧ parse_headers (sample_g 1 2 4 false) (sample_packet sample_options_frame) = .fault 44
      ∧ sample_options_frame60.length = 60
      ∧ parse_headers (sample_g 1 2 4 false) (sample_packet sample_options_frame60) = .fault 72
      ∧ (parse_headers g packet = .fault o →
          o = ip_hdr_len packet.payload + 12 ∧ packet.payload.length ≤ o
            ∧ 40 ≤ packet.payload.length ∧ ip_protocol packet.payload = 6)
      ∧ (parse_headers g packet = .tcp a b → should_bypass_headers packet = .ok (a, b)) := by
  refine ⟨by decide, by decide, by decide, by decide, parse_headers_fault g packet o, ?_⟩
  intro h
  have hn : packet.payload.length ≤ (packet.payload ++ packet.after).length := by
    rw [List.length_append]; omega
  unfold parse_headers at h
  simp only at h
  by_cases c1 : packet.payload.length < 40
  · rw [if_pos c1] at h; cases h
  · rw [if_neg c1] at h
    rw [nl_read8_ok _ _ 0 (by omega) hn, nl_read32_ok _ _ 12 (by omega) hn,
      nl_read32_ok _ _ 16 (by omega) hn, nl_read8_ok _ _ 9 (by omega) hn] at h
    simp only at h
    split_ifs at h with c2 c3 c4 c5
    unfold parse_tcp_header at h
    cases hr : nl_read8 (packet.payload ++ packet.after) packet.payload.length
        (load8 (packet.payload ++ packet.after) 0 % 16 * 4 + 12) with
    | error o2 =>
      rw [hr] at h
      cases h
    | ok v =>
      rw [hr] at h
      simp only at h
      split_ifs at h with c6 c7
      · rw [nl_read8_ok _ _ _ (by omega) hn, nl_read32_ok _ _ _ (by omega) hn,
          nl_read32_ok _ _ _ (by omega) hn] at h
        simp only at h
        cases h
      · rw [nl_read8_ok _ _ _ (by omega) hn, nl_read32_ok _ _ _ (by omega) hn,
          nl_read32_ok _ _ _ (by omega) hn] at h
        simp only [HeaderResult.tcp.injEq] at h
        unfold should_bypass_headers
        simp only
        rw [nl_read8_ok _ _ 0 (by omega) hn]
        obtain ⟨h1, h2⟩ := h
        subst h1 h2
        simp only [hr]


/-! ## The control plane (claims C33, C34, C35) -/

theorem system_spec (env : DaemonEnv) (cmd : DaemonOp) (d : Daemon) :
    (system env cmd d).2.ops = d.ops ++ [cmd]
      ∧ (system env cmd d).2.nfqueue_active = d.nfqueue_active :=
  ⟨rfl, rfl⟩

theorem clear_round_spec (env : DaemonEnv) (d : Daemon) :
    (clear_round env d).ops
        = d.ops ++ [.iptables_delete .mark_accept, .iptables_delete .nfqueue_443,
            .iptables_delete .nfqueue_443_bypass, .iptables_delete .nfqueue_80,
            .iptables_delete .nfqueue_80_bypass]
      ∧ (clear_round env d).nfqueue_active = d.nfqueue_active := by
  unfold clear_round
  simp only [system_spec, List.append_assoc, List.singleton_append, List.cons_append,
    List.nil_append, and_self]

theorem clear_iptables_spec (env : DaemonEnv) (d : Daemon) :
    (clear_iptables env d).1 = 0
      ∧ (clear_iptables env d).2.ops = d.ops ++ clear_ops
      ∧ (clear_iptables env d).2.nfqueue_active = d.nfqueue_active := by
  unfold clear_iptables
  refine ⟨rfl, ?_, ?_⟩
  · simp only [clear_round_spec, List.append_assoc]
    rfl
  · simp only [clear_round_spec]

theorem setup_iptables_spec (env : DaemonEnv) (d : Daemon) :
    ((setup_iptables env d).1 = 0 ∨ (setup_iptables env d).1 = -1)
      ∧ (setup_iptables env d).2.nfqueue_active = d.nfqueue_active := by
  unfold setup_iptables
  simp only
  split_ifs
  · exact ⟨Or.inr rfl, by simp only [system_spec, clear_iptables_spec]⟩
  · exact ⟨Or.inr rfl, by simp only [system_spec, clear_iptables_spec]⟩
  · exact ⟨Or.inl rfl, by simp only [system_spec, clear_iptables_spec]⟩
  · exact ⟨Or.inl rfl, by simp only [system_spec, clear_iptables_spec]⟩

/-- C33: the control plane as a machine over the flag `nfqueue_active`
(STOPPED is 0).  A start command in STOPPED ends with the flag 1, the response
`running_true` (status ok) and the value 0 when `setup_iptables` returns 0,
`nfqueue_init` does not return a negative value and `pthread_create` returns
0; when one of the three fails it ends with the flag 0, a response whose
status is error and the value -1.  A start command in RUNNING changes nothing,
makes no call and answers `already_running` (status ok).  A stop command in
RUNNING ends with the flag 0 and the response `running_false` (status ok)
after the calls `nfqueue_stop`, `pthread_join`, `nfqueue_cleanup` and the 25
deletions of `clear_iptables`. -/
theorem C33_control_plane (env : DaemonEnv) (d : Daemon) :
    (d.nfqueue_active = 0 →
        ((setup_iptables env d).1 = 0 ∧ 0 ≤ env.nfqueue_init_ret ∧ env.pthread_create_ret = 0 →
            (parse_and_execute_command env .start d).state.nfqueue_active = 1
              ∧ (parse_and_execute_command env .start d).response = .running_true
              ∧ (parse_and_execute_command env .start d).ret = 0)
          ∧ (¬ ((setup_iptables env d).1 = 0 ∧ 0 ≤ env.nfqueue_init_ret
                ∧ env.pthread_create_ret = 0) →
            (parse_and_execute_command env .start d).state.nfqueue_active = 0
              ∧ status_ok (parse_and_execute_command env .start d).response = false
              ∧ (parse_and_execute_command env .start d).ret = -1))
      ∧ (d.nfqueue_active ≠ 0 →
          parse_and_execute_command env .start d = ⟨0, .already_running, d⟩
            ∧ (parse_and_execute_command env .stop d).state.nfqueue_active = 0
            ∧ (parse_and_execute_command env .stop d).response = .running_false
            ∧ (parse_and_execute_command env .stop d).ret = 0
            ∧ (parse_and_execute_command env .stop d).state.ops
                = d.ops ++ [.nfqueue_stop, .pthread_join, .nfqueue_cleanup] ++ clear_ops) := by
  obtain ⟨hs, ha⟩ := setup_iptables_spec env d
  refine ⟨fun h0 => ⟨?_, ?_⟩, fun h1 => ⟨?_, ?_, ?_, ?_, ?_⟩⟩
  · rintro ⟨s1, s2, s3⟩
    have n0 : ¬ d.nfqueue_active ≠ 0 := fun c => c h0
    have n1 : ¬ (setup_iptables env d).1 < 0 := by omega
    have n2 : ¬ env.nfqueue_init_ret < 0 := by omega
    have n3 : ¬ env.pthread_create_ret ≠ 0 := fun c => c s3
    show (start_command env d).state.nfqueue_active = 1 ∧ (start_command env d).response = _
      ∧ (start_command env d).ret = 0
    unfold start_command
    simp only [if_neg n0, if_neg n1, if_neg n2, if_neg n3]
    refine ⟨?_, ?_, ?_⟩ <;> first | rfl | trivial
  · intro hf
    have n0 : ¬ d.nfqueue_active ≠ 0 := fun c => c h0
    show (start_command env d).state.nfqueue_active = 0
      ∧ status_ok (start_command env d).response = false ∧ (start_command env d).ret = -1
    unfold start_command
    simp only [if_neg n0]
    by_cases c1 : (setup_iptables env d).1 < 0
    · simp only [if_pos c1]
      refine ⟨by rw [ha, h0], ?_, ?_⟩ <;> first | rfl | trivial
    · by_cases c2 : env.nfqueue_init_ret < 0
      · simp only [if_neg c1, if_pos c2]
        refine ⟨?_, rfl, by first | rfl | trivial⟩
        rw [(clear_iptables_spec env _).2.2]
        show (setup_iptables env d).2.nfqueue_active = 0
        rw [ha, h0]
      · have c3 : env.pthread_create_ret ≠ 0 := by
          intro c
          apply hf
          refine ⟨?_, by omega, c⟩
          rcases hs with h | h
          · exact h
          · omega
        simp only [if_neg c1, if_neg c2, if_pos c3]
        refine ⟨?_, ?_, ?_⟩ <;> first | rfl | trivial
  · show start_command env d = _
    unfold start_command
    rw [if_pos h1]
  · show (stop_command env d).state.nfqueue_active = 0
    unfold stop_command
    rw [if_neg h1]
  · show (stop_command env d).response = _
    unfold stop_command
    rw [if_neg h1]
  · show (stop_command env d).ret = 0
    unfold stop_command
    rw [if_neg h1]
  · show (stop_command env d).state.ops = _
    unfold stop_command
    rw [if_neg h1]
    simp only
    rw [(clear_iptables_spec env _).2.1]
    simp only [call, List.append_assoc, List.singleton_append, List.cons_append, List.nil_append]

set_option maxRecDepth 100000 in
/-- C33 on a host where every call succeeds: start in STOPPED gives RUNNING
and `running_true`; start in RUNNING changes nothing; stop in RUNNING gives
STOPPED and `running_false`. -/
theorem C33_control_plane_witness :
    (parse_and_execute_command sample_host .start sample_daemon).state.nfqueue_active = 1
      ∧ (parse_and_execute_command sample_host .start sample_daemon).response = .running_true
      ∧ parse_and_execute_command sample_host .start ⟨1, [], []⟩ = ⟨0, .already_running, ⟨1, [], []⟩⟩
      ∧ (parse_and_execute_command sample_host .stop ⟨1, [], []⟩).state.nfqueue_active = 0
      ∧ (parse_and_execute_command sample_host .stop ⟨1, [], []⟩).response = .running_false :=
  have h := C33_control_plane sample_host sample_daemon
  have k := C33_control_plane sample_host ⟨1, [], []⟩
  ⟨((h.1 rfl).1 ⟨by decide, by decide, by decide⟩).1,
    ((h.1 rfl).1 ⟨by decide, by decide, by decide⟩).2.1,
    (k.2 (by decide)).1, (k.2 (by decide)).2.1, (k.2 (by decide)).2.2.1⟩

/-- C34: for every state of the control plane and whatever the host answers,
a stop command leaves the flag 0, and a second stop command right after it
leaves the whole state as it is (flag, rules, calls made: no call is added),
answers `not_running`, whose status is ok, and returns 0. -/
theorem C34_stop_idempotent (env env2 : DaemonEnv) (d : Daemon) :
    (parse_and_execute_command env .stop d).state.nfqueue_active = 0
      ∧ (parse_and_execute_command env2 .stop (parse_and_execute_command env .stop d).state).state
          = (parse_and_execute_command env .stop d).state
      ∧ (parse_and_execute_command env2 .stop
          (parse_and_execute_command env .stop d).state).response = .not_running
      ∧ status_ok (parse_and_execute_command env2 .stop
          (parse_and_execute_command env .stop d).state).response = true
      ∧ (parse_and_execute_command env2 .stop
          (parse_and_execute_command env .stop d).state).ret = 0 := by
  have h0 : (stop_command env d).state.nfqueue_active = 0 := by
    unfold stop_command
    by_cases c : d.nfqueue_active = 0
    · rw [if_pos c]; exact c
    · rw [if_neg c]
  have h1 : stop_command env2 (stop_command env d).state
      = ⟨0, .not_running, (stop_command env d).state⟩ := by
    generalize stop_command env d = r at h0
    unfold stop_command
    rw [if_pos h0]
  show (stop_command env d).state.nfqueue_active = 0
    ∧ (stop_command env2 (stop_command env d).state).state = (stop_command env d).state
    ∧ (stop_command env2 (stop_command env d).state).response = .not_running
    ∧ status_ok (stop_command env2 (stop_command env d).state).response = true
    ∧ (stop_command env2 (stop_command env d).state).ret = 0
  rw [h1]
  exact ⟨h0, rfl, rfl, rfl, rfl⟩

set_option maxRecDepth 100000 in
/-- C34, an instance: from RUNNING with the three rules installed, the first
stop makes 28 calls and the second none. -/
theorem C34_stop_idempotent_witness :
    (parse_and_execute_command sample_host .stop
        ⟨1, [.mark_accept, .nfqueue_443_bypass, .nfqueue_80_bypass], []⟩).state
        = ⟨0, [], [.nfqueue_stop, .pthread_join, .nfqueue_cleanup] ++ clear_ops⟩
      ∧ (parse_and_execute_command sample_host .stop
          (parse_and_execute_command sample_host .stop
            ⟨1, [.mark_accept, .nfqueue_443_bypass, .nfqueue_80_bypass], []⟩).state).state
        = ⟨0, [], [.nfqueue_stop, .pthread_join, .nfqueue_cleanup] ++ clear_ops⟩ :=
  have e : (parse_and_execute_command sample_host .stop
        ⟨1, [.mark_accept, .nfqueue_443_bypass, .nfqueue_80_bypass], []⟩).state
        = ⟨0, [], [.nfqueue_stop, .pthread_join, .nfqueue_cleanup] ++ clear_ops⟩ := by decide
  ⟨e, ((C34_stop_idempotent sample_host sample_host
    ⟨1, [.mark_accept, .nfqueue_443_bypass, .nfqueue_80_bypass], []⟩).2.1).trans e⟩

set_option maxRecDepth 100000 in
/-- C35, rules left behind: when `setup_iptables` fails, the start command
returns at once, without the call of `clear_iptables` that the two later
failure paths make.  On a host that refuses the NFQUEUE rule for port 80 with
and without `--queue-bypass`, a start command in STOPPED with none of the
rules installed answers `iptables_failed` and leaves the flag 0; the calls made are the
25 deletions at the start of `setup_iptables`, `which iptables`, the insertion
of the mark rule and the four attempts to append, no deletion after them; the
mark rule and both NFQUEUE rules for port 443 stay installed.  For every host
and state: after a failing `setup_iptables` the state is the one
`setup_iptables` left.  On a host where `nfqueue_init` fails instead, the
calls end with the 25 deletions and no rule stays. -/
theorem C35_rules_left_behind (env : DaemonEnv) (d : Daemon) :
    parse_and_execute_command sample_host_no80 .start sample_daemon
        = ⟨-1, .iptables_failed,
            ⟨0, [.mark_accept, .nfqueue_443_bypass, .nfqueue_443],
              clear_ops ++ [.which_iptables, .iptables_insert .mark_accept,
                .iptables_append .nfqueue_443_bypass, .iptables_append .nfqueue_80_bypass,
                .iptables_append .nfqueue_443, .iptables_append .nfqueue_80]⟩⟩
      ∧ (d.nfqueue_active = 0 → (setup_iptables env d).1 < 0 →
          (parse_and_execute_command env .start d).state = (setup_iptables env d).2
            ∧ (parse_and_execute_command env .start d).response = .iptables_failed)
      ∧ parse_and_execute_command { sample_host with nfqueue_init_ret := -1 } .start sample_daemon
        = ⟨-1, .init_failed,
            ⟨0, [], clear_ops ++ [.which_iptables, .iptables_insert .mark_accept,
                .iptables_append .nfqueue_443_bypass, .iptables_append .nfqueue_80_bypass,
                .iptables_list, .nfqueue_init] ++ clear_ops⟩⟩ := by
  refine ⟨by decide, ?_, by decide⟩
  intro h0 hf
  have n0 : ¬ d.nfqueue_active ≠ 0 := fun c => c h0
  show (start_command env d).state = _ ∧ (start_command env d).response = _
  unfold start_command
  simp only [if_neg n0, if_pos hf]
  exact ⟨trivial, trivial⟩


/-! ## The verdict message (claim C31) -/

theorem le16_htons (q : Nat) : le16 (htons q) = be16 q := by
  unfold le16 be16 htons
  have e1 : (q % 256 * 256 + q / 256 % 256) % 256 = q / 256 % 256 := by omega
  have e2 : (q % 256 * 256 + q / 256 % 256) / 256 % 256 = q % 256 := by omega
  rw [e1, e2]

theorem bytes_of_word (a b c d : Nat) (ha : a < 256) (hb : b < 256) (hc : c < 256)
    (hd : d < 256) :
    (16777216 * a + 65536 * b + 256 * c + d) % 256 = d
      ∧ (16777216 * a + 65536 * b + 256 * c + d) / 256 % 256 = c
      ∧ (16777216 * a + 65536 * b + 256 * c + d) / 65536 % 256 = b
      ∧ (16777216 * a + 65536 * b + 256 * c + d) / 16777216 % 256 = a := by
  have h1 : (16777216 * a + 65536 * b + 256 * c + d) / 256 = 65536 * a + 256 * b + c := by
    omega
  have h2 : (16777216 * a + 65536 * b + 256 * c + d) / 65536 = 256 * a + b := by omega
  have h3 : (16777216 * a + 65536 * b + 256 * c + d) / 16777216 = a := by omega
  rw [h1, h2, h3]
  refine ⟨by omega, by omega, by omega, by omega⟩

theorem le32_htonl (x : Nat) (h : x < 2 ^ 32) : le32 (htonl x) = be32 x := by
  obtain ⟨a, b, c, d, ha, hb, hc, hd, rfl⟩ : ∃ a b c d, a < 256 ∧ b < 256 ∧ c < 256 ∧ d < 256
      ∧ x = 16777216 * d + 65536 * c + 256 * b + a :=
    ⟨x % 256, x / 256 % 256, x / 65536 % 256, x / 16777216, by omega, by omega, by omega,
      by omega, by omega⟩
  rw [htonl_bytes a b c d ha hb hc hd]
  unfold le32 be32
  obtain ⟨e1, e2, e3, e4⟩ := bytes_of_word a b c d ha hb hc hd
  obtain ⟨f1, f2, f3, f4⟩ := bytes_of_word d c b a hd hc hb ha
  rw [e1, e2, e3, e4, f1, f2, f3, f4]

/-- The header stores on 32 zero bytes. -/
theorem verdict_headers_zero (Y : List Nat) (msg_len pid queue_num packet_id verdict : Nat) :
    verdict_headers (List.replicate 32 0 ++ Y) msg_len pid queue_num packet_id verdict
      = le32 msg_len ++ (le16 769 ++ (le16 1 ++ (le32 0 ++ (le32 pid ++ ([0, 0]
          ++ (le16 (htons queue_num) ++ (le16 12 ++ (le16 2 ++ (le32 (htonl verdict)
          ++ (le32 (htonl packet_id) ++ Y)))))))))) := by
  have z : List.replicate 32 0 = [0, 0, 0, 0, 0, 0, 0, 0, 0, 0, 0, 0, 0, 0, 0, 0, 0, 0, 0, 0,
      0, 0, 0, 0, 0, 0, 0, 0, 0, 0, 0, 0] := rfl
  have t : NFNL_SUBSYS_QUEUE <<< 8 ||| NFQNL_MSG_VERDICT = 769 := by decide
  have a4 : 16 + NLMSG_ALIGN 4 = 20 := by decide
  unfold verdict_headers
  simp only [z, t, a4, NLM_F_REQUEST, NFQA_VERDICT_HDR, store32, store16, le32, le16,
    List.cons_append, List.nil_append, List.set_cons_succ, List.set_cons_zero]


/-- The payload attribute written behind the headers, into four zero bytes
and what follows them. -/
theorem verdict_payload_zero (Z p : List Nat) (msg_len pid queue_num packet_id verdict L : Nat) :
    verdict_payload
        (verdict_headers (List.replicate 32 0 ++ (0 :: 0 :: 0 :: 0 :: Z)) msg_len pid queue_num
          packet_id verdict) (16 + NLMSG_ALIGN 4) p L
      = le32 msg_len ++ (le16 769 ++ (le16 1 ++ (le32 0 ++ (le32 pid ++ ([0, 0]
          ++ (le16 (htons queue_num) ++ (le16 12 ++ (le16 2 ++ (le32 (htonl verdict)
          ++ (le32 (htonl packet_id)
          ++ (le16 (4 + L) ++ (le16 10 ++ (p.take L ++ Z.drop L))))))))))))) := by
  have a4 : 16 + NLMSG_ALIGN 4 = 20 := by decide
  have al : NFA_ALIGN_SIZE 12 = 12 := by decide
  rw [verdict_headers_zero, a4]
  unfold verdict_payload memcpy
  have e : load16 (le32 msg_len ++ (le16 769 ++ (le16 1 ++ (le32 0 ++ (le32 pid ++ ([0, 0]
      ++ (le16 (htons queue_num) ++ (le16 12 ++ (le16 2 ++ (le32 (htonl verdict)
      ++ (le32 (htonl packet_id) ++ (0 :: 0 :: 0 :: 0 :: Z)))))))))))) 20 = 12 := by
    simp only [load16, le32, le16, List.cons_append, List.nil_append, List.getD_cons_succ,
      List.getD_cons_zero]
  simp only [e, al]
  have d36 : 20 + 12 + 4 + L = 36 + L := by omega
  rw [d36, ← List.drop_drop]
  simp only [NFQA_PAYLOAD, store16, le32, le16, List.cons_append, List.nil_append,
    List.set_cons_succ, List.set_cons_zero, List.take_succ_cons, List.take_zero,
    List.drop_succ_cons, List.drop_zero]


theorem verdict_msg_len_eq (payload : Option (List Nat)) (L : Nat) (hL : L < 2 ^ 32) :
    verdict_msg_len payload L
      = if payload = none ∨ L = 0 then 32 else 32 + NFA_ALIGN_SIZE (4 + L) := by
  have e : (NLMSG_ALIGN 16 + NLMSG_ALIGN 4 + NFA_ALIGN_SIZE (4 + 8)) % 2 ^ 64 = 32 := by decide
  have p64 : (2 : Nat) ^ 64 = 18446744073709551616 := by norm_num
  have hal := NFA_ALIGN_SIZE_ge (4 + L)
  unfold verdict_msg_len
  simp only [e]
  cases payload with
  | none => simp
  | some p =>
    by_cases h0 : L = 0
    · subst h0; simp
    · have hpos : L > 0 := by omega
      simp only [if_pos hpos, reduceCtorEq, false_or, if_neg h0]
      rw [p64]
      omega

/-- The verdict message without a payload attribute, as `send_verdict` leaves
it in the buffer. -/
theorem verdict_message_plain (pid queue_num packet_id verdict : Nat) (Y : List Nat)
    (hid : packet_id < 2 ^ 32) (hv : verdict < 2 ^ 32) :
    le32 32 ++ (le16 769 ++ (le16 1 ++ (le32 0 ++ (le32 pid ++ ([0, 0]
        ++ (le16 (htons queue_num) ++ (le16 12 ++ (le16 2 ++ (le32 (htonl verdict)
        ++ (le32 (htonl packet_id) ++ Y))))))))))
      = nl_message 32 (NFNL_SUBSYS_QUEUE * 256 + NFQNL_MSG_VERDICT)
          (le16 NLM_F_REQUEST ++ (le32 0 ++ le32 pid)) ([0, 0] ++ be16 queue_num)
          [⟨NFQA_VERDICT_HDR, be32 verdict ++ be32 packet_id, []⟩] ++ Y := by
  have t : NFNL_SUBSYS_QUEUE * 256 + NFQNL_MSG_VERDICT = 769 := by decide
  have l8 : (be32 verdict ++ be32 packet_id).length = 8 := rfl
  simp only [nl_message, encode_nlas, encode_nla, t, l8, NLM_F_REQUEST, NFQA_VERDICT_HDR,
    le16_htons, le32_htonl verdict hv,
    le32_htonl packet_id hid, List.append_assoc, List.append_nil]

/-- The verdict message with a payload attribute, as `send_verdict` leaves it
in the buffer. -/
theorem verdict_message_payload (pid queue_num packet_id verdict msg_len : Nat)
    (body pad Y : List Nat) (hid : packet_id < 2 ^ 32) (hv : verdict < 2 ^ 32) :
    le32 msg_len ++ (le16 769 ++ (le16 1 ++ (le32 0 ++ (le32 pid ++ ([0, 0]
        ++ (le16 (htons queue_num) ++ (le16 12 ++ (le16 2 ++ (le32 (htonl verdict)
        ++ (le32 (htonl packet_id)
        ++ (le16 (4 + body.length) ++ (le16 10 ++ (body ++ (pad ++ Y))))))))))))))
      = nl_message msg_len (NFNL_SUBSYS_QUEUE * 256 + NFQNL_MSG_VERDICT)
          (le16 NLM_F_REQUEST ++ (le32 0 ++ le32 pid)) ([0, 0] ++ be16 queue_num)
          [⟨NFQA_VERDICT_HDR, be32 verdict ++ be32 packet_id, []⟩, ⟨NFQA_PAYLOAD, body, pad⟩]
        ++ Y := by
  have t : NFNL_SUBSYS_QUEUE * 256 + NFQNL_MSG_VERDICT = 769 := by decide
  have l8 : (be32 verdict ++ be32 packet_id).length = 8 := rfl
  simp only [nl_message, encode_nlas, encode_nla, t, l8, NLM_F_REQUEST, NFQA_VERDICT_HDR,
    NFQA_PAYLOAD, le16_htons,
    le32_htonl verdict hv, le32_htonl packet_id hid, List.append_assoc, List.append_nil]


theorem verdict_message_length (msg_len t : Nat) (hdr_rest nfg body pad : List Nat)
    (a : NlAttr) (h1 : hdr_rest.length = 10) (h2 : nfg.length = 4) :
    (nl_message msg_len t hdr_rest nfg [a]).length = 24 + a.body.length + a.pad.length
      ∧ (nl_message msg_len t hdr_rest nfg [a, ⟨10, body, pad⟩]).length
          = 28 + a.body.length + a.pad.length + body.length + pad.length := by
  simp only [nl_message, encode_nlas, encode_nla, le32, le16, List.length_append,
    List.length_cons, List.length_nil, h1, h2]
  omega

/-- What `send_verdict` does without a payload attribute. -/
theorem send_verdict_plain (g : GNfq) (pid : Nat) (sendto_ret : Int)
    (packet_id verdict : Nat) (payload : Option (List Nat)) (L : Nat)
    (hp : payload = none ∨ L = 0) (hL : L < 2 ^ 32) (hid : packet_id < 2 ^ 32)
    (hv : verdict < 2 ^ 32) :
    send_verdict g pid sendto_ret packet_id verdict payload L
      = ⟨if sendto_ret < 0 then -1 else 0,
          nl_message 32 (NFNL_SUBSYS_QUEUE * 256 + NFQNL_MSG_VERDICT)
            (le16 NLM_F_REQUEST ++ (le32 0 ++ le32 pid)) ([0, 0] ++ be16 g.queue_num)
            [⟨NFQA_VERDICT_HDR, be32 verdict ++ be32 packet_id, []⟩]
            ++ g.send_buffer.drop 32,
          [nl_message 32 (NFNL_SUBSYS_QUEUE * 256 + NFQNL_MSG_VERDICT)
            (le16 NLM_F_REQUEST ++ (le32 0 ++ le32 pid)) ([0, 0] ++ be16 g.queue_num)
            [⟨NFQA_VERDICT_HDR, be32 verdict ++ be32 packet_id, []⟩]]⟩ := by
  have hlen2 : (nl_message 32 (NFNL_SUBSYS_QUEUE * 256 + NFQNL_MSG_VERDICT)
      (le16 NLM_F_REQUEST ++ (le32 0 ++ le32 pid)) ([0, 0] ++ be16 g.queue_num)
      [⟨NFQA_VERDICT_HDR, be32 verdict ++ be32 packet_id, []⟩]).length = 32 :=
    (verdict_message_length 32 (NFNL_SUBSYS_QUEUE * 256 + NFQNL_MSG_VERDICT)
      (le16 NLM_F_REQUEST ++ (le32 0 ++ le32 pid)) ([0, 0] ++ be16 g.queue_num) [] []
      ⟨NFQA_VERDICT_HDR, be32 verdict ++ be32 packet_id, []⟩ (by rfl) (by rfl)).1
  have hh : verdict_headers (memset g.send_buffer 0 32) 32 pid g.queue_num packet_id verdict
      = nl_message 32 (NFNL_SUBSYS_QUEUE * 256 + NFQNL_MSG_VERDICT)
        (le16 NLM_F_REQUEST ++ (le32 0 ++ le32 pid)) ([0, 0] ++ be16 g.queue_num)
        [⟨NFQA_VERDICT_HDR, be32 verdict ++ be32 packet_id, []⟩]
        ++ g.send_buffer.drop 32 := by
    unfold memset
    rw [verdict_headers_zero, verdict_message_plain pid g.queue_num packet_id verdict _ hid hv]
  unfold send_verdict
  simp only [verdict_msg_len_eq payload L hL, if_pos hp]
  rw [if_neg (by decide)]
  cases payload with
  | none =>
    simp only [hh]
    rw [List.take_left' hlen2]
    split_ifs <;> rfl
  | some p =>
    have h0 : ¬ L > 0 := by
      rcases hp with c | c
      · cases c
      · omega
    simp only [if_neg h0, hh]
    rw [List.take_left' hlen2]
    split_ifs <;> rfl


/-- What `send_verdict` does with a payload attribute that fits the buffer. -/
theorem send_verdict_payload (g : GNfq) (pid : Nat) (sendto_ret : Int)
    (packet_id verdict : Nat) (p : List Nat) (L : Nat) (hpos : 0 < L)
    (hfit : 32 + NFA_ALIGN_SIZE (4 + L) ≤ SEND_BUFFER_SIZE) (hmem : L ≤ p.length)
    (hid : packet_id < 2 ^ 32) (hv : verdict < 2 ^ 32) :
    send_verdict g pid sendto_ret packet_id verdict (some p) L
      = ⟨if sendto_ret < 0 then -1 else 0,
          nl_message (32 + NFA_ALIGN_SIZE (4 + L)) (NFNL_SUBSYS_QUEUE * 256 + NFQNL_MSG_VERDICT)
            (le16 NLM_F_REQUEST ++ (le32 0 ++ le32 pid)) ([0, 0] ++ be16 g.queue_num)
            [⟨NFQA_VERDICT_HDR, be32 verdict ++ be32 packet_id, []⟩,
              ⟨NFQA_PAYLOAD, p.take L, List.replicate (NFA_ALIGN_SIZE (4 + L) - (4 + L)) 0⟩]
            ++ g.send_buffer.drop (32 + NFA_ALIGN_SIZE (4 + L)),
          [nl_message (32 + NFA_ALIGN_SIZE (4 + L)) (NFNL_SUBSYS_QUEUE * 256 + NFQNL_MSG_VERDICT)
            (le16 NLM_F_REQUEST ++ (le32 0 ++ le32 pid)) ([0, 0] ++ be16 g.queue_num)
            [⟨NFQA_VERDICT_HDR, be32 verdict ++ be32 packet_id, []⟩,
              ⟨NFQA_PAYLOAD, p.take L, List.replicate (NFA_ALIGN_SIZE (4 + L) - (4 + L)) 0⟩]]⟩ := by
  have hal := NFA_ALIGN_SIZE_ge (4 + L)
  have hsz : SEND_BUFFER_SIZE = 4096 := rfl
  have hL : L < 2 ^ 32 := by
    have : (2 : Nat) ^ 32 = 4294967296 := by norm_num
    omega
  generalize hk : NFA_ALIGN_SIZE (4 + L) = k at hal hfit ⊢
  have hbody : (p.take L).length = L := by rw [List.length_take]; omega
  have hlen2 : (nl_message (32 + k) (NFNL_SUBSYS_QUEUE * 256 + NFQNL_MSG_VERDICT)
      (le16 NLM_F_REQUEST ++ (le32 0 ++ le32 pid)) ([0, 0] ++ be16 g.queue_num)
      [⟨NFQA_VERDICT_HDR, be32 verdict ++ be32 packet_id, []⟩,
        ⟨NFQA_PAYLOAD, p.take L, List.replicate (k - (4 + L)) 0⟩]).length = 32 + k := by
    have h := (verdict_message_length (32 + k) (NFNL_SUBSYS_QUEUE * 256 + NFQNL_MSG_VERDICT)
      (le16 NLM_F_REQUEST ++ (le32 0 ++ le32 pid)) ([0, 0] ++ be16 g.queue_num) (p.take L)
      (List.replicate (k - (4 + L)) 0)
      ⟨NFQA_VERDICT_HDR, be32 verdict ++ be32 packet_id, []⟩ (by rfl) (by rfl)).2
    have e10 : NFQA_PAYLOAD = 10 := rfl
    rw [e10, h, hbody, List.length_replicate]
    have l8 : (be32 verdict ++ be32 packet_id).length = 8 := rfl
    simp only [l8, List.length_nil]
    omega
  have hrep : List.replicate (32 + k) 0
      = List.replicate 32 0 ++ (0 :: 0 :: 0 :: 0 :: List.replicate (k - 4) 0) := by
    have e : 32 + k = 32 + (4 + (k - 4)) := by omega
    rw [e, List.replicate_add, List.replicate_add]
    rfl
  have hh : verdict_payload (verdict_headers (memset g.send_buffer 0 (32 + k)) (32 + k) pid
      g.queue_num packet_id verdict) (16 + NLMSG_ALIGN 4) p L
      = nl_message (32 + k) (NFNL_SUBSYS_QUEUE * 256 + NFQNL_MSG_VERDICT)
        (le16 NLM_F_REQUEST ++ (le32 0 ++ le32 pid)) ([0, 0] ++ be16 g.queue_num)
        [⟨NFQA_VERDICT_HDR, be32 verdict ++ be32 packet_id, []⟩,
          ⟨NFQA_PAYLOAD, p.take L, List.replicate (k - (4 + L)) 0⟩]
        ++ g.send_buffer.drop (32 + k) := by
    have hm : memset g.send_buffer 0 (32 + k)
        = List.replicate 32 0
          ++ (0 :: 0 :: 0 :: 0 :: (List.replicate (k - 4) 0 ++ g.send_buffer.drop (32 + k))) := by
      unfold memset
      rw [hrep]
      simp only [List.append_assoc, List.cons_append]
    have hd : (List.replicate (k - 4) 0 ++ g.send_buffer.drop (32 + k)).drop L
        = List.replicate (k - (4 + L)) 0 ++ g.send_buffer.drop (32 + k) := by
      rw [List.drop_append_of_le_length (by rw [List.length_replicate]; omega),
        List.drop_replicate]
      have e : k - 4 - L = k - (4 + L) := by omega
      rw [e]
    have hm2 := verdict_message_payload pid g.queue_num packet_id verdict (32 + k) (p.take L)
      (List.replicate (k - (4 + L)) 0) (g.send_buffer.drop (32 + k)) hid hv
    rw [hbody] at hm2
    rw [hm, verdict_payload_zero, hd, hm2]
  have hn : ¬ (some p = none ∨ L = 0) := by
    rintro (c | c)
    · cases c
    · omega
  unfold send_verdict
  simp only [verdict_msg_len_eq (some p) L hL, if_neg hn, hk, if_pos hpos]
  rw [if_neg (by omega)]
  simp only [hh]
  rw [List.take_left' hlen2]
  split_ifs <;> rfl

/-- C31: on a send buffer of 4096 bytes, for every packet id and verdict
value below 2^32 and every payload pointer with length `L` (the `L` bytes
being there).  Without a payload (`NULL`, or `L = 0`) the one buffer handed
to `sendto` is the message of 32 bytes `nlmsghdr || nfgenmsg || VERDICT_HDR
attribute`: `nlmsg_len` 32, `nlmsg_type (NFNL_SUBSYS_QUEUE << 8) |
NFQNL_MSG_VERDICT`, flags `NLM_F_REQUEST`, sequence number 0 and the process
id; family 0, version 0 and the queue number in network byte order; an
attribute of type `NFQA_VERDICT_HDR` whose 8 body bytes are the verdict and
the packet id as big-endian words.  With a payload of `L > 0` bytes whose
message fits, the message is longer by an attribute of type `NFQA_PAYLOAD`
with `nla_len = 4 + L`, the `L` payload bytes and zero bytes up to the next
multiple of 4, and `nlmsg_len` is the length of the message, a multiple of 4.
The return value is 0, or -1 when `sendto` returns a negative value, and the
buffer keeps its size.  When the message would be longer than 4096 bytes the
return value is -1, nothing is handed to `sendto` and the buffer is left as
it is.  The verdict values are DROP 0, ACCEPT 1, STOLEN 3, REPEAT 4. -/
theorem C31_verdict_message (g : GNfq) (pid : Nat) (sendto_ret : Int)
    (packet_id verdict : Nat) (payload : Option (List Nat)) (L : Nat)
    (hbuf : g.send_buffer.length = SEND_BUFFER_SIZE) (hid : packet_id < 2 ^ 32)
    (hv : verdict < 2 ^ 32) (hL : L < 2 ^ 32) (hmem : ∀ p, payload = some p → L ≤ p.length) :
    (verdict_code .NFQUEUE_DROP = 0 ∧ verdict_code .NFQUEUE_ACCEPT = 1
        ∧ verdict_code .NFQUEUE_STOLEN = 3 ∧ verdict_code .NFQUEUE_REPEAT = 4)
      ∧ (payload = none ∨ L = 0 →
          (send_verdict g pid sendto_ret packet_id verdict payload L).sent
              = [nl_message 32 (NFNL_SUBSYS_QUEUE * 256 + NFQNL_MSG_VERDICT)
                  (le16 NLM_F_REQUEST ++ (le32 0 ++ le32 pid)) ([0, 0] ++ be16 g.queue_num)
                  [⟨NFQA_VERDICT_HDR, be32 verdict ++ be32 packet_id, []⟩]]
            ∧ (nl_message 32 (NFNL_SUBSYS_QUEUE * 256 + NFQNL_MSG_VERDICT)
                  (le16 NLM_F_REQUEST ++ (le32 0 ++ le32 pid)) ([0, 0] ++ be16 g.queue_num)
                  [⟨NFQA_VERDICT_HDR, be32 verdict ++ be32 packet_id, []⟩]).length = 32
            ∧ (send_verdict g pid sendto_ret packet_id verdict payload L).ret
                = (if sendto_ret < 0 then -1 else 0)
            ∧ (send_verdict g pid sendto_ret packet_id verdict payload L).send_buffer.length
                = SEND_BUFFER_SIZE)
      ∧ (∀ p, payload = some p → 0 < L → 32 + NFA_ALIGN_SIZE (4 + L) ≤ SEND_BUFFER_SIZE →
          (send_verdict g pid sendto_ret packet_id verdict payload L).sent
              = [nl_message (32 + NFA_ALIGN_SIZE (4 + L))
                  (NFNL_SUBSYS_QUEUE * 256 + NFQNL_MSG_VERDICT)
                  (le16 NLM_F_REQUEST ++ (le32 0 ++ le32 pid)) ([0, 0] ++ be16 g.queue_num)
                  [⟨NFQA_VERDICT_HDR, be32 verdict ++ be32 packet_id, []⟩,
                    ⟨NFQA_PAYLOAD, p.take L,
                      List.replicate (NFA_ALIGN_SIZE (4 + L) - (4 + L)) 0⟩]]
            ∧ (nl_message (32 + NFA_ALIGN_SIZE (4 + L))
                  (NFNL_SUBSYS_QUEUE * 256 + NFQNL_MSG_VERDICT)
                  (le16 NLM_F_REQUEST ++ (le32 0 ++ le32 pid)) ([0, 0] ++ be16 g.queue_num)
                  [⟨NFQA_VERDICT_HDR, be32 verdict ++ be32 packet_id, []⟩,
                    ⟨NFQA_PAYLOAD, p.take L,
                      List.replicate (NFA_ALIGN_SIZE (4 + L) - (4 + L)) 0⟩]).length
                = 32 + NFA_ALIGN_SIZE (4 + L)
            ∧ (32 + NFA_ALIGN_SIZE (4 + L)) % 4 = 0 ∧ (p.take L).length = L
            ∧ (send_verdict g pid sendto_ret packet_id verdict payload L).ret
                = (if sendto_ret < 0 then -1 else 0)
            ∧ (send_verdict g pid sendto_ret packet_id verdict payload L).send_buffer.length
                = SEND_BUFFER_SIZE)
      ∧ (∀ p, payload = some p → 0 < L → SEND_BUFFER_SIZE < 32 + NFA_ALIGN_SIZE (4 + L) →
          send_verdict g pid sendto_ret packet_id verdict payload L = ⟨-1, g.send_buffer, []⟩) := by
  have hsz : SEND_BUFFER_SIZE = 4096 := rfl
  refine ⟨⟨rfl, rfl, rfl, rfl⟩, ?_, ?_, ?_⟩
  · intro hp
    have hlen := (verdict_message_length 32 (NFNL_SUBSYS_QUEUE * 256 + NFQNL_MSG_VERDICT)
      (le16 NLM_F_REQUEST ++ (le32 0 ++ le32 pid)) ([0, 0] ++ be16 g.queue_num) [] []
      ⟨NFQA_VERDICT_HDR, be32 verdict ++ be32 packet_id, []⟩ (by rfl) (by rfl)).1
    rw [send_verdict_plain g pid sendto_ret packet_id verdict payload L hp hL hid hv]
    refine ⟨rfl, hlen, rfl, ?_⟩
    show (_ ++ g.send_buffer.drop 32).length = SEND_BUFFER_SIZE
    rw [List.length_append, hlen, List.length_drop, hbuf, hsz]
    rfl
  · intro p hp hpos hfit
    subst hp
    have hm := hmem p rfl
    have hal := NFA_ALIGN_SIZE_ge (4 + L)
    have hbody : (p.take L).length = L := by rw [List.length_take]; omega
    have hlen : (nl_message (32 + NFA_ALIGN_SIZE (4 + L))
        (NFNL_SUBSYS_QUEUE * 256 + NFQNL_MSG_VERDICT)
        (le16 NLM_F_REQUEST ++ (le32 0 ++ le32 pid)) ([0, 0] ++ be16 g.queue_num)
        [⟨NFQA_VERDICT_HDR, be32 verdict ++ be32 packet_id, []⟩,
          ⟨NFQA_PAYLOAD, p.take L, List.replicate (NFA_ALIGN_SIZE (4 + L) - (4 + L)) 0⟩]).length
        = 32 + NFA_ALIGN_SIZE (4 + L) := by
      have h := (verdict_message_length (32 + NFA_ALIGN_SIZE (4 + L))
        (NFNL_SUBSYS_QUEUE * 256 + NFQNL_MSG_VERDICT)
        (le16 NLM_F_REQUEST ++ (le32 0 ++ le32 pid)) ([0, 0] ++ be16 g.queue_num) (p.take L)
        (List.replicate (NFA_ALIGN_SIZE (4 + L) - (4 + L)) 0)
        ⟨NFQA_VERDICT_HDR, be32 verdict ++ be32 packet_id, []⟩ (by rfl) (by rfl)).2
      have e10 : NFQA_PAYLOAD = 10 := rfl
      rw [e10, h, hbody, List.length_replicate]
      have l8 : (be32 verdict ++ be32 packet_id).length = 8 := rfl
      simp only [l8, List.length_nil]
      omega
    rw [send_verdict_payload g pid sendto_ret packet_id verdict p L hpos hfit hm hid hv]
    refine ⟨rfl, hlen, by omega, hbody, rfl, ?_⟩
    show (_ ++ g.send_buffer.drop (32 + NFA_ALIGN_SIZE (4 + L))).length = SEND_BUFFER_SIZE
    rw [List.length_append, hlen, List.length_drop, hbuf]
    omega
  · intro p hp hpos hbig
    subst hp
    have hn : ¬ (some p = none ∨ L = 0) := by
      rintro (c | c)
      · cases c
      · omega
    unfold send_verdict
    simp only [verdict_msg_len_eq (some p) L hL, if_neg hn]
    rw [if_pos hbig]

set_option maxRecDepth 100000 in
/-- C31 at packet id 7 with the verdict ACCEPT and no payload: the message of
32 bytes; and with the 24 bytes of `sample_ip24` as payload: the message of
60 bytes. -/
theorem C31_verdict_message_witness :
    (send_verdict sample_nfq 1000 32 7 (verdict_code .NFQUEUE_ACCEPT) none 0).sent
        = [[32, 0, 0, 0, 1, 3, 1, 0, 0, 0, 0, 0, 232, 3, 0, 0, 0, 0, 0, 0, 12, 0, 2, 0,
            0, 0, 0, 1, 0, 0, 0, 7]]
      ∧ (send_verdict sample_nfq 1000 60 7 (verdict_code .NFQUEUE_ACCEPT) (some sample_ip24)
          24).sent
        = [[60, 0, 0, 0, 1, 3, 1, 0, 0, 0, 0, 0, 232, 3, 0, 0, 0, 0, 0, 0, 12, 0, 2, 0,
            0, 0, 0, 1, 0, 0, 0, 7, 28, 0, 10, 0] ++ sample_ip24] :=
  ⟨((C31_verdict_message sample_nfq 1000 32 7 (verdict_code .NFQUEUE_ACCEPT) none 0
      (List.length_replicate 4096 255) (by decide) (by decide) (by decide)
      (fun p h => Option.noConfusion h)).2.1 (Or.inl rfl)).1.trans (by decide),
    ((C31_verdict_message sample_nfq 1000 60 7 (verdict_code .NFQUEUE_ACCEPT)
      (some sample_ip24) 24 (List.length_replicate 4096 255) (by decide) (by decide) (by decide)
      (fun p h => by cases h; decide)).2.2.1 sample_ip24 rfl (by decide)
      (by decide)).1.trans (by decide)⟩


/-! ## A second pass of `mix_hostname_case` (claim C38) -/

theorem list_ext_load8 (a b : List Nat) (hl : a.length = b.length)
    (h : ∀ p, load8 a p = load8 b p) : a = b := by
  apply List.ext_getElem hl
  intro i h1 h2
  have e := h i
  rw [load8_eq a i h1, load8_eq b i h2] at e
  exact e

theorem drop_five (d : List Nat) (i : Nat) (h : i + 5 ≤ d.length) :
    (d.drop i).take 5
      = [load8 d i, load8 d (i + 1), load8 d (i + 2), load8 d (i + 3), load8 d (i + 4)] := by
  rw [drop_two d i (by omega), drop_two d (i + 2) (by omega),
    List.drop_eq_getElem_cons (by omega : i + 2 + 2 < d.length),
    ← load8_eq d (i + 2 + 2) (by omega)]
  rfl

/-- An occurrence of a needle of 5 bytes that ends in a byte other than 0, read
byte by byte. -/
theorem occurs_at_five (d : List Nat) (a b c e f i : Nat) (hf : f ≠ 0) :
    occurs_at d [a, b, c, e, f] i
      ↔ load8 d i = a ∧ load8 d (i + 1) = b ∧ load8 d (i + 2) = c ∧ load8 d (i + 3) = e
          ∧ load8 d (i + 4) = f := by
  constructor
  · intro h
    have hb : i + 5 ≤ d.length := by
      rcases occurs_at_bound d _ i h with hb | hb
      · exact hb
      · cases hb
    unfold occurs_at at h
    rw [show [a, b, c, e, f].length = 5 from rfl, drop_five d i hb] at h
    injection h with h0 h
    injection h with h1 h
    injection h with h2 h
    injection h with h3 h
    injection h with h4 h
    exact ⟨h0, h1, h2, h3, h4⟩
  · rintro ⟨h0, h1, h2, h3, h4⟩
    have hb : i + 5 ≤ d.length := by
      by_contra hc
      have := load8_zero_of_ge d (i + 4) (by omega)
      omega
    unfold occurs_at
    rw [show [a, b, c, e, f].length = 5 from rfl, drop_five d i hb, h0, h1, h2, h3, h4]

theorem occurs_at_congr (d1 d2 : List Nat) (a b c e f i : Nat) (hf : f ≠ 0)
    (h : ∀ k, k < 5 → load8 d1 (i + k) = load8 d2 (i + k)) :
    occurs_at d1 [a, b, c, e, f] i ↔ occurs_at d2 [a, b, c, e, f] i := by
  rw [occurs_at_five d1 a b c e f i hf, occurs_at_five d2 a b c e f i hf]
  have h0 := h 0 (by omega)
  rw [Nat.add_zero] at h0
  rw [h0, h 1 (by omega), h 2 (by omega), h 3 (by omega), h 4 (by omega)]

theorem first_of_occurs (d needle : List Nat) (h : ∃ j, occurs_at d needle j) :
    ∃ k, first_at d needle k :=
  ⟨Nat.find h, Nat.find_spec h, fun _ hj => Nat.find_min h hj⟩

theorem alt_case_idem (k c : Nat) : alt_case k (alt_case k c) = alt_case k c := by
  unfold alt_case
  split_ifs <;> omega

/-- A byte that is not a letter comes only from itself; an upper-case letter
stands at an even place and a lower-case letter at an odd place. -/
theorem alt_case_value (k c v : Nat) (h : alt_case k c = v) :
    ((v < 65 ∨ (90 < v ∧ v < 97) ∨ 122 < v) → c = v)
      ∧ (65 ≤ v ∧ v ≤ 90 → k % 2 = 0) ∧ (97 ≤ v ∧ v ≤ 122 → k % 2 = 1) := by
  unfold alt_case at h
  split_ifs at h <;> refine ⟨fun _ => ?_, fun _ => ?_, fun _ => ?_⟩ <;> omega

theorem alt_case_other (k c : Nat) (h : c < 65 ∨ (90 < c ∧ c < 97) ∨ 122 < c) :
    alt_case k c = c := by
  unfold alt_case
  split_ifs <;> omega

theorem skip_spaces_congr (a b : List Nat) (h : ∀ p, load8 a p = 32 ↔ load8 b p = 32) :
    ∀ rem p, skip_spaces a rem p = skip_spaces b rem p := by
  intro rem
  induction rem with
  | zero => intro p; rfl
  | succ n ih =>
    intro p
    unfold skip_spaces
    by_cases c : load8 a p = 32
    · rw [if_pos c, if_pos ((h p).mp c), ih]
    · rw [if_neg c, if_neg (fun c2 => c ((h p).mpr c2))]


/-- The second pass on a buffer with a header: it finds the same header, the
same start of the value and the same end, and every byte it would write is
there already. -/
theorem mix_anchor_idem (d : List Nat) (h : Nat) (ha : host_anchor d h) :
    mix_hostname_case (mix_hostname_case d d.length) d.length = mix_hostname_case d d.length := by
  have hu5 : host_upper = [72, 111, 115, 116, 58] := rfl
  have hl5 : host_lower = [104, 111, 115, 116, 58] := rfl
  obtain ⟨hb, hmix⟩ := mix_hostname_case_anchor d h ha
  obtain ⟨s1, s2, s3, s4⟩ := skip_spaces_spec d (d.length - (h + 5)) (h + 5)
  obtain ⟨e, e1, e2, e3, e4, e5⟩ := mix_loop_spec (skip_spaces d (d.length - (h + 5)) (h + 5))
    (d.length - skip_spaces d (d.length - (h + 5)) (h + 5)) 0 d
  rw [← hmix] at e5
  have hlen : (mix_hostname_case d d.length).length = d.length := mix_hostname_case_length d _
  generalize hs : skip_spaces d (d.length - (h + 5)) (h + 5) = s at s1 s2 s3 s4 e1 e2 e3 e4 e5 hmix
  generalize hd2 : mix_hostname_case d d.length = d2 at e5 hlen hmix ⊢
  rw [Nat.add_zero] at e1 e2 e3 e4 e5
  have hsn : s ≤ d.length := by omega
  have hen : e ≤ d.length := by omega
  have hlt : ∀ p, p < s → load8 d2 p = load8 d p := by
    intro p hp
    rw [e5 p, if_neg (by omega)]
  have hge : ∀ p, e ≤ p → load8 d2 p = load8 d p := by
    intro p hp
    rw [e5 p, if_neg (by omega)]
  have hin : ∀ p, s ≤ p → p < e → load8 d2 p = alt_case (p - s) (load8 d p) := by
    intro p hp1 hp2
    rw [e5 p, if_pos ⟨hp1, hp2⟩]
  have hval : ∀ p v, (v < 65 ∨ (90 < v ∧ v < 97) ∨ 122 < v) →
      (load8 d2 p = v ↔ load8 d p = v) := by
    intro p v hv
    rw [e5 p]
    split_ifs with c
    · constructor
      · intro hc
        exact (alt_case_value _ _ _ hc).1 hv
      · intro hc
        rw [hc]
        exact alt_case_other _ _ hv
    · exact Iff.rfl
  -- the header is found at the same place
  have hfirst : ∀ a : Nat, first_at d [a, 111, 115, 116, 58] h →
      first_at d2 [a, 111, 115, 116, 58] h := by
    intro a hf
    refine ⟨?_, ?_⟩
    · exact (occurs_at_congr d2 d a 111 115 116 58 h (by decide)
        (fun k hk => hlt _ (by omega))).mpr hf.1
    · intro j hj hc
      exact hf.2 j hj ((occurs_at_congr d2 d a 111 115 116 58 j (by decide)
        (fun k hk => hlt _ (by omega))).mp hc)
  have hanchor : host_anchor d2 h := by
    rcases ha with hf | ⟨hno, hf⟩
    · exact Or.inl (hfirst 72 hf)
    · refine Or.inr ⟨?_, hfirst 104 hf⟩
      intro j _ hc
      have hc5 := (occurs_at_five d2 72 111 115 116 58 j (by decide)).mp hc
      have hf5 := (occurs_at_five d 104 111 115 116 58 h (by decide)).mp hf.1
      obtain ⟨c0, c1, c2, c3, c4⟩ := hc5
      obtain ⟨f0, f1, f2, f3, f4⟩ := hf5
      have hj5 : j + 5 ≤ d.length := by
        by_contra hcc
        have := load8_zero_of_ge d2 (j + 4) (by omega)
        omega
      by_cases q1 : j + 4 < s
      · exact hno j (by omega) ((occurs_at_congr d2 d 72 111 115 116 58 j (by decide)
          (fun k hk => hlt _ (by omega))).mp hc)
      · by_cases q2 : e ≤ j
        · exact hno j (by omega) ((occurs_at_congr d2 d 72 111 115 116 58 j (by decide)
            (fun k hk => hge _ (by omega))).mp hc)
        · by_cases q3 : j < s
          · have c0d : load8 d j = 72 := by rw [← hlt j q3]; exact c0
            by_cases q4 : j < h + 5
            · have hj : j = h + 1 ∨ j = h + 2 ∨ j = h + 3 ∨ j = h + 4 := by omega
              rcases hj with r | r | r | r <;> subst r <;> omega
            · have := s3 j (by omega) q3
              omega
          · have k0 := (alt_case_value _ _ _ ((hin j (by omega) (by omega)).symm.trans c0)).2.1
              (by omega)
            by_cases q5 : j + 2 < e
            · have k2 := (alt_case_value _ _ _
                ((hin (j + 2) (by omega) q5).symm.trans c2)).2.2 (by omega)
              omega
            · have he : e < d.length := by omega
              have hcr := e4 (by omega)
              have hee := hge e (Nat.le_refl e)
              have hj : e = j + 1 ∨ e = j + 2 := by omega
              rcases hj with r | r <;> rw [r] at hee hcr <;> omega
  -- the value starts at the same place
  have hskip : skip_spaces d2 (d.length - (h + 5)) (h + 5) = s := by
    rw [skip_spaces_congr d2 d (fun p => hval p 32 (by omega)), hs]
  obtain ⟨-, hmix2⟩ := mix_hostname_case_anchor d2 h hanchor
  rw [hlen, hskip] at hmix2
  rw [hmix2]
  -- the second loop writes what is there
  obtain ⟨e', g1, g2, g3, g4, g5⟩ := mix_loop_spec s (d.length - s) 0 d2
  rw [Nat.add_zero] at g1 g2 g3 g4 g5
  apply list_ext_load8
  · rw [mix_loop_length]
  · intro p
    rw [g5 p]
    split_ifs with c
    · have hpe : p < e := by
        by_contra hc
        have he : e < d.length := by omega
        have hcr := e4 (by omega)
        have hee := hge e (Nat.le_refl e)
        have hno := g3 e (by omega) (by omega)
        omega
      rw [hin p c.1 hpe, alt_case_idem]
    · rfl

/-- C38: for every byte string `d`, a second pass of `mix_hostname_case` over
the result of the first gives the result of the first. -/
theorem C38_mix_idempotent (d : List Nat) :
    mix_hostname_case (mix_hostname_case d d.length) d.length = mix_hostname_case d d.length
      ∧ mix_hostname_case (mix_hostname_case d d.length) (mix_hostname_case d d.length).length
          = mix_hostname_case d d.length := by
  have key : mix_hostname_case (mix_hostname_case d d.length) d.length
      = mix_hostname_case d d.length := by
    by_cases hU : ∃ j, occurs_at d host_upper j
    · obtain ⟨k, hk⟩ := first_of_occurs d host_upper hU
      exact mix_anchor_idem d k (Or.inl hk)
    · have hnoU : ∀ j, j < d.length → ¬ occurs_at d host_upper j := fun j _ hc => hU ⟨j, hc⟩
      by_cases hL : ∃ j, occurs_at d host_lower j
      · obtain ⟨k, hk⟩ := first_of_occurs d host_lower hL
        exact mix_anchor_idem d k (Or.inr ⟨hnoU, hk⟩)
      · have hnoL : ∀ j, j < d.length → ¬ occurs_at d host_lower j := fun j _ hc => hL ⟨j, hc⟩
        have e : mix_hostname_case d d.length = d := by
          unfold mix_hostname_case
          rw [List.take_length, memmem_none host_upper (by decide) d hnoU,
            memmem_none host_lower (by decide) d hnoL]
        rw [e, e]
  exact ⟨key, by rw [mix_hostname_case_length]; exact key⟩

/-- C38 at the request `GET /` CR LF `Host: abCD` CR LF: the first pass gives
`Host: AbCd`, and the second pass leaves that. -/
theorem C38_mix_idempotent_witness :
    mix_hostname_case [71, 69, 84, 32, 47, 13, 10, 72, 111, 115, 116, 58, 32, 97, 98, 67, 68,
        13, 10] 19
      = [71, 69, 84, 32, 47, 13, 10, 72, 111, 115, 116, 58, 32, 65, 98, 67, 100, 13, 10]
      ∧ mix_hostname_case (mix_hostname_case [71, 69, 84, 32, 47, 13, 10, 72, 111, 115, 116, 58,
          32, 97, 98, 67, 68, 13, 10] 19) 19
        = mix_hostname_case [71, 69, 84, 32, 47, 13, 10, 72, 111, 115, 116, 58, 32, 97, 98, 67,
          68, 13, 10] 19 :=
  ⟨by decide, (C38_mix_idempotent [71, 69, 84, 32, 47, 13, 10, 72, 111, 115, 116, 58, 32, 97,
    98, 67, 68, 13, 10]).1⟩

end Netrix
